import Mathlib

/-!
# a1fs: the driver (`a1fs.c`) and the formatter (`mkfs.c`) as Lean functions

The mapped image is split into its typed regions: the superblock, the inode
bitmap, the block bitmap, the inode table and the data region.  The first four
are records and arrays of records; the data region is kept as raw bytes,
because the driver views one and the same block as sixteen directory entries,
as five hundred extents, or as file contents.

Conventions of the embedding

* `unsigned int` and `uint64_t` fields are natural numbers; every C operation
  that can wrap is written with an explicit `% 2^32` or `% 2^64`
  (`u32`, `u64`), and a conversion to `int` is `i32`.
* multi-byte fields inside the data region are little endian.
* block numbers in extents are relative to the start of the data region, as in
  the driver (`fs->sb->block_table + start`); addresses into the data region
  are byte offsets from its first byte.
* `file->extent[12]`, which the driver reads and writes in its `i < 13` loops,
  is the storage that follows the twelve extents inside the inode record:
  `extent_count` (as `start`) and `indirect` (as `count`).
* an index into a bitmap outside `0 .. 4095` leaves the bitmap block; such an
  access is `Res.fault`.  The inode table and the data region are not bounded:
  the driver never compares an index with the image size.
* `clock_gettime` delivers `Env.now`; `errno` is `Env.errno`.
* loops that the C text bounds by a counter are structural recursions; the
  `while` loops that have no such bound take fuel and yield `Res.nofuel` when
  it runs out.
-/

namespace A1fs

/-! ## Constants -/

def A1FS_BLOCK_SIZE : Nat := 4096
def A1FS_NAME_MAX : Nat := 252
def A1FS_MAGIC : Nat := 0xC5C369A1C5C369A1
def ENOENT : Int := 2
def ENOSPC : Int := 28
def ENOSYS : Int := 38
def ENOTDIR : Int := 20
def ENAMETOOLONG : Int := 36
def ENOTEMPTY : Int := 39
def S_IFMT : Nat := 0o170000
def S_IFDIR : Nat := 0o040000
def S_IFREG : Nat := 0o100000
/-- Size of `a1fs_dentry` and of `a1fs_inode` in bytes. -/
def DENTRY_SIZE : Nat := 256

def S_ISREG (m : Nat) : Bool := m &&& S_IFMT == S_IFREG

/-! ## Machine integers -/

/-- Value of an `unsigned int` (32 bits) holding `x`. -/
def u32 (x : Int) : Nat := (x % 4294967296).toNat

/-- Value of a `uint64_t` holding `x`. -/
def u64 (x : Int) : Nat := (x % 18446744073709551616).toNat

/-- Value of an `int` (32 bits, two's complement) holding `x`. -/
def i32 (x : Int) : Int :=
  if (x % 4294967296).toNat < 2147483648 then x % 4294967296 else x % 4294967296 - 4294967296

/-! ## Outcomes and loops -/

/-- Outcome of a driver call. -/
inductive Res (α : Type) where
  | ok : α → Res α
  | fault : Res α
  | nofuel : Res α
  deriving DecidableEq

/-- What one pass through a loop body does: go on with the next iteration,
`break`, or `return` from the enclosing function. -/
inductive Step (σ ρ : Type) where
  | next : σ → Step σ ρ
  | brk : σ → Step σ ρ
  | ret : ρ → Step σ ρ

/-- The loop `for (i = lo; i < lo + n; i++) body`.  The answer is `next s` when
control reaches the statement after the loop, `ret r` when the body returned. -/
def forLoop {σ ρ : Type} (body : Nat → σ → Step σ ρ) : Nat → Nat → σ → Step σ ρ
  | 0, _, s => Step.next s
  | n + 1, i, s =>
    match body i s with
    | Step.next s1 => forLoop body n (i + 1) s1
    | Step.brk s1 => Step.next s1
    | Step.ret r => Step.ret r

/-- The loop `while (cond) body` with fuel; `tmo` is the answer when the fuel is
used up while the condition still holds. -/
def whileLoop {σ ρ : Type} (tmo : ρ) (cond : σ → Bool) (body : σ → Step σ ρ) :
    Nat → σ → Step σ ρ
  | 0, s => if cond s then Step.ret tmo else Step.next s
  | n + 1, s =>
    if cond s then
      match body s with
      | Step.next s1 => whileLoop tmo cond body n s1
      | Step.brk s1 => Step.next s1
      | Step.ret r => Step.ret r
    else Step.next s

/-! ## The image -/

structure timespec where
  tv_sec : Nat
  tv_nsec : Nat
  deriving DecidableEq

structure a1fs_superblock where
  magic : Nat
  size : Nat
  inode_count : Nat
  block_count : Nat
  used_block_count : Nat
  used_inode_count : Nat
  inode_bitmap : Nat
  block_bitmap : Nat
  inode_table : Nat
  block_table : Nat
  deriving DecidableEq

structure a1fs_extent where
  start : Nat
  count : Nat
  deriving DecidableEq

/-- The inode record.  `extent i` is meaningful for `i < 12`; `padding` stands
for the bytes after `empty` (zero when all of them are zero). -/
structure a1fs_inode where
  mode : Nat
  links : Nat
  size : Nat
  mtime : timespec
  extent : Nat → a1fs_extent
  extent_count : Nat
  indirect : Nat
  block_count : Nat
  num : Nat
  parent_num : Nat
  empty : Nat
  padding : Nat

/-- The record after `memset(inode, 0, sizeof(a1fs_inode))`. -/
def zero_inode : a1fs_inode :=
  { mode := 0, links := 0, size := 0, mtime := ⟨0, 0⟩, extent := fun _ => ⟨0, 0⟩,
    extent_count := 0, indirect := 0, block_count := 0, num := 0, parent_num := 0,
    empty := 0, padding := 0 }

/-- The mounted image (the pointers of `fs_ctx` resolved to their regions);
`btable` is the data region, one natural number below 256 per byte. -/
structure fs_ctx where
  sb : a1fs_superblock
  ibitmap : Nat → Nat
  bbitmap : Nat → Nat
  itable : Nat → a1fs_inode
  btable : Nat → Nat

/-- What a call takes from outside the image. -/
structure Env where
  now : timespec
  errno : Nat

/-- Array update. -/
def upd {α : Type} (f : Nat → α) (i : Nat) (v : α) : Nat → α :=
  fun j => if j = i then v else f j

/-- The value `file->extent[i]` for `i <= 12`: slot 12 is the pair of fields
that follows the array in the record. -/
def extent_at (ino : a1fs_inode) (i : Nat) : a1fs_extent :=
  if i = 12 then ⟨ino.extent_count, ino.indirect⟩ else ino.extent i

/-- The assignment `file->extent[i].start = v`. -/
def set_extent_start (ino : a1fs_inode) (i v : Nat) : a1fs_inode :=
  if i = 12 then { ino with extent_count := v }
  else { ino with extent := upd ino.extent i ⟨v, (ino.extent i).count⟩ }

/-- The assignment `file->extent[i].count = v`. -/
def set_extent_count (ino : a1fs_inode) (i v : Nat) : a1fs_inode :=
  if i = 12 then { ino with indirect := v }
  else { ino with extent := upd ino.extent i ⟨(ino.extent i).start, v⟩ }

/-! ## Bytes of the data region -/

/-- Read of a 32-bit field at byte address `a`. -/
def rd32 (m : Nat → Nat) (a : Nat) : Nat :=
  m a + 256 * m (a + 1) + 65536 * m (a + 2) + 16777216 * m (a + 3)

/-- Write of a 32-bit field at byte address `a`. -/
def wr32 (m : Nat → Nat) (a v : Nat) : Nat → Nat :=
  fun x =>
    if x = a then v % 256
    else if x = a + 1 then v / 256 % 256
    else if x = a + 2 then v / 65536 % 256
    else if x = a + 3 then v / 16777216 % 256
    else m x

/-- The call `memset(a, 0, len)`. -/
def memset0 (m : Nat → Nat) (a len : Nat) : Nat → Nat :=
  fun x => if a ≤ x ∧ x < a + len then 0 else m x

/-- The call `memcpy(dst, src, len)` with the source given as a function of the
offset. -/
def memcpy (m : Nat → Nat) (dst : Nat) (src : Nat → Nat) (len : Nat) : Nat → Nat :=
  fun x => if dst ≤ x ∧ x < dst + len then src (x - dst) else m x

/-- Writes the bytes of a list from address `a` on. -/
def write_bytes (m : Nat → Nat) (a : Nat) : List Nat → Nat → Nat
  | [] => m
  | c :: cs => write_bytes (upd m a c) (a + 1) cs

/-- The call `strcpy(a, s)`: the bytes of `s` and the terminator. -/
def strcpy (m : Nat → Nat) (a : Nat) (s : List Nat) : Nat → Nat :=
  write_bytes m a (s ++ [0])

/-- The test `strcmp(s, a) == 0` for a string `s` without a zero byte and the
string stored at address `a`. -/
def str_eq (m : Nat → Nat) (a : Nat) : List Nat → Bool
  | [] => m a == 0
  | c :: cs => m a == c && str_eq m (a + 1) cs

/-- Address of slot `i` of data block `blk`. -/
def dentry_addr (blk i : Nat) : Nat := A1FS_BLOCK_SIZE * blk + DENTRY_SIZE * i

/-- The field `entry->ino`. -/
def dentry_ino (m : Nat → Nat) (entry : Nat) : Nat := rd32 m entry

/-- The address of `entry->name`. -/
def dentry_name (entry : Nat) : Nat := entry + 4

/-- The value `indirect->extent[i]` for the indirect block `blk`. -/
def ind_extent (m : Nat → Nat) (blk i : Nat) : a1fs_extent :=
  ⟨rd32 m (A1FS_BLOCK_SIZE * blk + 8 * i), rd32 m (A1FS_BLOCK_SIZE * blk + 8 * i + 4)⟩

/-- The assignment `indirect->extent[i].start = v`. -/
def set_ind_start (m : Nat → Nat) (blk i v : Nat) : Nat → Nat :=
  wr32 m (A1FS_BLOCK_SIZE * blk + 8 * i) v

/-- The assignment `indirect->extent[i].count = v`. -/
def set_ind_count (m : Nat → Nat) (blk i v : Nat) : Nat → Nat :=
  wr32 m (A1FS_BLOCK_SIZE * blk + 8 * i + 4) v

/-! ## Allocation helpers -/

/-- The scan `for (i = lo; i < lo + n; i++) if (map[i] == 0) return i;`
followed by `return -1`. -/
def first_free (map : Nat → Nat) : Nat → Nat → Int
  | 0, _ => -1
  | n + 1, i => if map i = 0 then (i : Int) else first_free map n (i + 1)

def first_inode (ibitmap : Nat → Nat) : Int :=
  first_free ibitmap 4095 1

/-- The read `bitmap->map[i]`. -/
def map_get (map : Nat → Nat) (i : Int) : Res Nat :=
  if 0 ≤ i ∧ i.toNat < 4096 then Res.ok (map i.toNat) else Res.fault

/-- The assignment `bitmap->map[i] = v`. -/
def map_set (map : Nat → Nat) (i : Int) (v : Nat) : Res (Nat → Nat) :=
  if 0 ≤ i ∧ i.toNat < 4096 then Res.ok (upd map i.toNat v) else Res.fault

def first_block (bbitmap : Nat → Nat) (block_num : Int) : Res Int :=
  match map_get bbitmap (block_num + 1) with
  | Res.ok v => if v = 0 then Res.ok (block_num + 1) else Res.ok (first_free bbitmap 4095 1)
  | Res.fault => Res.fault
  | Res.nofuel => Res.nofuel

/-! ## Path resolution (`path_lookup` of `a1fs.c`) -/

/-- The pieces `strtok(path, "/")` delivers, in order; `cur` collects the piece
being read, last byte first. -/
def strtok_aux : List Nat → List Nat → List (List Nat)
  | [], cur => if cur = [] then [] else [cur.reverse]
  | c :: cs, cur =>
    if c = 47 then
      if cur = [] then strtok_aux cs [] else cur.reverse :: strtok_aux cs []
    else strtok_aux cs (c :: cur)

def strtok (path : List Nat) : List (List Nat) := strtok_aux path []

/-- The variables `block_inode` (as an index into the inode table) and `match`
of `path_lookup`. -/
structure lookup_state where
  block_inode : Nat
  mtch : Bool
  deriving DecidableEq

/-- The line `if (match == 1) break;` after an inner loop. -/
def break_if_match {ρ : Type} : Step lookup_state ρ → Step lookup_state ρ
  | Step.next s => if s.mtch then Step.brk s else Step.next s
  | Step.brk s => Step.brk s
  | Step.ret r => Step.ret r

/-- The loop over the 16 entries of data block `blk`. -/
def lookup_block (fs : fs_ctx) (p : List Nat) (blk : Nat) (s : lookup_state) :
    Step lookup_state Int :=
  forLoop (fun i s1 =>
    if str_eq fs.btable (dentry_name (dentry_addr blk i)) p then
      Step.brk ⟨dentry_ino fs.btable (dentry_addr blk i), true⟩
    else Step.next ⟨s1.block_inode, false⟩) 16 0 s

/-- One extent `(start, count)` inside the loop over extents: `continue` when
`count == 0`, else the loop over its blocks. -/
def lookup_extent (fs : fs_ctx) (p : List Nat) (ext : a1fs_extent) (s : lookup_state) :
    Step lookup_state Int :=
  if i32 ext.count = 0 then Step.next s
  else
    break_if_match
      (forLoop (fun f s1 => break_if_match (lookup_block fs p (ext.start + f) s1))
        (i32 ext.count).toNat 0 s)

/-- The loop over the 12 direct extents of `block_inode`. -/
def lookup_direct (fs : fs_ctx) (p : List Nat) (s : lookup_state) : Step lookup_state Int :=
  forLoop (fun e s1 => lookup_extent fs p ((fs.itable s1.block_inode).extent e) s1) 12 0 s

/-- The loop over the 500 extents of the indirect block `blk`. -/
def lookup_indirect (fs : fs_ctx) (p : List Nat) (blk : Nat) (s : lookup_state) :
    Step lookup_state Int :=
  forLoop (fun e s1 => lookup_extent fs p (ind_extent fs.btable blk e) s1) 500 0 s

/-- The value a finished loop leaves in the loop state. -/
def Step.state {σ ρ : Type} (d : σ) : Step σ ρ → σ
  | Step.next s => s
  | Step.brk s => s
  | Step.ret _ => d

/-- The loop `while (p != NULL)` over the pieces of the path and the final
`return`. -/
def lookup_walk (fs : fs_ctx) : List (List Nat) → lookup_state → Int
  | [], s => if s.mtch then i32 (fs.itable s.block_inode).num else -1
  | p :: ps, s =>
    let s1 := (lookup_direct fs p s).state s
    if s1.mtch then lookup_walk fs ps s1
    else if (fs.itable s1.block_inode).indirect ≠ 0 then
      lookup_walk fs ps
        ((lookup_indirect fs p (fs.itable s1.block_inode).indirect s1).state s1)
    else -1

def path_lookup (fs : fs_ctx) (path : List Nat) : Int :=
  if path.head? ≠ some 47 then -1
  else if path = [47] then 0
  else lookup_walk fs (strtok path) ⟨0, false⟩

/-! ## Path resolution (`path_lookup` of `helper.c`) -/

/-- The loop `while (p != NULL)` of the `path_lookup` of `helper.c`: the one of
`a1fs.c` with the two checks at the head of the loop body. -/
def lookup_walk_checked (fs : fs_ctx) : List (List Nat) → lookup_state → Int
  | [], s => if s.mtch then i32 (fs.itable s.block_inode).num else -1
  | p :: ps, s =>
    if p.length ≥ A1FS_NAME_MAX then -3
    else if S_ISREG (fs.itable s.block_inode).mode then -2
    else if ((lookup_direct fs p s).state s).mtch then
      lookup_walk_checked fs ps ((lookup_direct fs p s).state s)
    else if (fs.itable ((lookup_direct fs p s).state s).block_inode).indirect ≠ 0 then
      lookup_walk_checked fs ps
        ((lookup_indirect fs p
            (fs.itable ((lookup_direct fs p s).state s).block_inode).indirect
            ((lookup_direct fs p s).state s)).state ((lookup_direct fs p s).state s))
    else -1

/-- The function `path_lookup` of `helper.c`. -/
def helper_path_lookup (fs : fs_ctx) (path : List Nat) : Int :=
  if path.head? ≠ some 47 then -1
  else if path = [47] then 0
  else lookup_walk_checked fs (strtok path) ⟨0, false⟩

/-! ## Formatting (`mkfs.c`) -/

structure mkfs_opts where
  n_inodes : Nat
  help : Bool
  force : Bool
  zero : Bool

/-- The image after `memset(image, 0, size)`. -/
def zero_image : fs_ctx :=
  { sb := ⟨0, 0, 0, 0, 0, 0, 0, 0, 0, 0⟩, ibitmap := fun _ => 0, bbitmap := fun _ => 0,
    itable := fun _ => zero_inode, btable := fun _ => 0 }

def mkfs (now : timespec) (image : fs_ctx) (size : Nat) (opts : mkfs_opts) : Bool × fs_ctx :=
  let sb : a1fs_superblock :=
    { magic := A1FS_MAGIC, size := size, inode_count := u32 opts.n_inodes,
      block_count := u32 (u64 ((size / A1FS_BLOCK_SIZE : Nat) - ((3 + opts.n_inodes : Nat) : Int))),
      used_block_count := 1, used_inode_count := 1, inode_bitmap := 2, block_bitmap := 3,
      inode_table := 4,
      block_table := u32 (u64 (4 + (opts.n_inodes * 256 + A1FS_BLOCK_SIZE - 1) / A1FS_BLOCK_SIZE)) }
  let root := image.itable 0
  let inode : a1fs_inode :=
    { root with mode := S_IFDIR ||| 0o777, links := 2, size := 0, mtime := now,
                extent := upd root.extent 0 ⟨0, 1⟩, indirect := 0, block_count := 1,
                num := 0, parent_num := 0, extent_count := 1 }
  (true, { image with sb := sb, itable := upd image.itable 0 inode,
                      ibitmap := upd (fun _ => 0) 0 1, bbitmap := upd (fun _ => 0) 0 1 })

/-- The part of `main` of `mkfs.c` after the image is mapped and the overwrite
check has passed: the optional `memset` and the call of `mkfs`. -/
def mkfs_main (now : timespec) (image : fs_ctx) (size : Nat) (opts : mkfs_opts) :
    Bool × fs_ctx :=
  mkfs now (if opts.zero then zero_image else image) size opts

/-! ## `a1fs_getattr` -/

structure stat where
  st_mode : Nat
  st_nlink : Nat
  st_size : Nat
  st_blksize : Nat
  st_blocks : Nat
  st_mtim : timespec
  deriving DecidableEq

def zero_stat : stat := ⟨0, 0, 0, 0, 0, ⟨0, 0⟩⟩

/-- The inode the driver reaches with `fs->image + A1FS_BLOCK_SIZE*4 +
sizeof(a1fs_inode) * num`; a negative `num` points in front of the table. -/
def inode_at (fs : fs_ctx) (num : Int) : Res a1fs_inode :=
  if 0 ≤ num then Res.ok (fs.itable num.toNat) else Res.fault

def PATH_MAX : Nat := 4096

def a1fs_getattr (fs : fs_ctx) (path : List Nat) : Res (Int × stat) :=
  if path.length ≥ PATH_MAX then Res.ok (-ENAMETOOLONG, zero_stat)
  else
    let num := path_lookup fs path
    if num = -1 then Res.ok (-ENOENT, zero_stat)
    else if num = -2 then Res.ok (-ENOTDIR, zero_stat)
    else if num = -3 then Res.ok (ENAMETOOLONG, zero_stat)
    else
      match inode_at fs num with
      | Res.ok ino =>
        Res.ok (0,
          { st_mode := if S_ISREG ino.mode then S_IFREG ||| ino.mode else S_IFDIR ||| ino.mode,
            st_nlink := ino.links, st_size := ino.size, st_blksize := A1FS_BLOCK_SIZE,
            st_blocks := u32 (ino.block_count * 8), st_mtim := ino.mtime })
      | Res.fault => Res.fault
      | Res.nofuel => Res.nofuel

/-! ## `a1fs_statfs` -/

/-- The fields of `struct statvfs`. -/
structure statvfs where
  f_bsize : Nat
  f_frsize : Nat
  f_blocks : Nat
  f_bfree : Nat
  f_bavail : Nat
  f_files : Nat
  f_ffree : Nat
  f_favail : Nat
  f_fsid : Nat
  f_flag : Nat
  f_namemax : Nat

/-- The call `a1fs_statfs(path, st)`: the return value, the record `*st` and the
image, which the function only reads.  The two differences are taken in
`unsigned int`. -/
def a1fs_statfs (fs : fs_ctx) : Int × statvfs × fs_ctx :=
  (0,
   { f_bsize := A1FS_BLOCK_SIZE,
     f_frsize := A1FS_BLOCK_SIZE,
     f_blocks := fs.sb.block_count,
     f_bfree := u32 (fs.sb.block_count - fs.sb.used_block_count),
     f_bavail := u32 (fs.sb.block_count - fs.sb.used_block_count),
     f_files := fs.sb.inode_count,
     f_ffree := u32 (fs.sb.inode_count - fs.sb.used_inode_count),
     f_favail := u32 (fs.sb.inode_count - fs.sb.used_inode_count),
     f_fsid := 0,
     f_flag := 0,
     f_namemax := A1FS_NAME_MAX },
   fs)

/-! ## Inserting a directory entry (`a1fs_create`, `a1fs_mkdir`) -/

/-- The split both calls make of `path` at its last `/` (`strrchr`): the parent
path in front of it and the name behind it; `none` when there is no `/`. -/
def split_last : List Nat → Option (List Nat × List Nat)
  | [] => none
  | c :: cs =>
    match split_last cs with
    | some (pre, name) => some (c :: pre, name)
    | none => if c = 47 then some ([], cs) else none

/-- The variables `entry` (an address in the data region) and `match`, and the
image, while a free slot is looked for. -/
structure insert_state where
  fs : fs_ctx
  entry : Nat
  mtch : Bool

/-- The line `if (match == 1) break;` after an inner loop. -/
def break_if_found {ρ : Type} : Step insert_state ρ → Step insert_state ρ
  | Step.next s => if s.mtch then Step.brk s else Step.next s
  | Step.brk s => Step.brk s
  | Step.ret r => Step.ret r

/-- One pass of the loop over the 16 entries of block `blk` while a free entry
is looked for: `entry` is set to entry `i`, and `match` with a `break` if the
entry passes the test `free`. -/
def probe_entry {ρ : Type} (free : (Nat → Nat) → Nat → Bool) (blk i : Nat) (s : insert_state) :
    Step insert_state ρ :=
  if free s.fs.btable (dentry_addr blk i) then
    Step.brk { s with entry := dentry_addr blk i, mtch := true }
  else Step.next { s with entry := dentry_addr blk i }

/-- The loop over the 16 entries of block `blk` and the line
`if (match == 1) break;` behind it. -/
def probe_block {ρ : Type} (free : (Nat → Nat) → Nat → Bool) (start f : Nat) (s : insert_state) :
    Step insert_state ρ :=
  break_if_found (forLoop (probe_entry free (start + f)) 16 0 s)

/-- The two inner loops over the blocks of an extent and the 16 entries of a
block; `free` is the test a free entry has to pass. -/
def find_free_entry {ρ : Type} (free : (Nat → Nat) → Nat → Bool) (start : Nat) (count : Int)
    (s : insert_state) : Step insert_state ρ :=
  forLoop (probe_block free start) count.toNat 0 s

/-- The test `!strcmp("\0", entry->name)`. -/
def name_is_empty (m : Nat → Nat) (entry : Nat) : Bool := str_eq m (dentry_name entry) []

/-- The test `entry->ino == 0`. -/
def ino_is_zero (m : Nat → Nat) (entry : Nat) : Bool := dentry_ino m entry == 0

/-- Changes the inode record `num`. -/
def set_inode (fs : fs_ctx) (num : Nat) (ino : a1fs_inode) : fs_ctx :=
  { fs with itable := upd fs.itable num ino }

/-- The image with block `b` marked in the block bitmap and, when `wipe`, the
first entry of the block cleared (`memset(entry, 0, sizeof(a1fs_dentry))`). -/
def taken (fs : fs_ctx) (b : Nat) (wipe : Bool) : fs_ctx :=
  { fs with bbitmap := upd fs.bbitmap b 1,
            btable := if wipe then memset0 fs.btable (A1FS_BLOCK_SIZE * b) DENTRY_SIZE
                      else fs.btable }

/-- The block a new extent of the parent gets: `first_block`, the bitmap entry
set, and (when `wipe`) the first entry of the block cleared. -/
def take_block (fs : fs_ctx) (hint : Int) (wipe : Bool) : Res (Nat × fs_ctx) :=
  match first_block fs.bbitmap hint with
  | Res.ok b =>
    match map_set fs.bbitmap b 1 with
    | Res.ok _ => Res.ok (b.toNat, taken fs b.toNat wipe)
    | Res.fault => Res.fault
    | Res.nofuel => Res.nofuel
  | Res.fault => Res.fault
  | Res.nofuel => Res.nofuel

/-- The state after a new block `b` became the direct extent `e` of the parent
`num`; `fs1` is the image with the block taken.  `twice` tells whether
`extent_count` is incremented a second time, as `a1fs_mkdir` does. -/
def attach_direct (fs1 : fs_ctx) (num e b : Nat) (twice : Bool) : insert_state :=
  { fs :=
      { set_inode fs1 num
          { fs1.itable num with
            extent := upd (fs1.itable num).extent e ⟨b, 1⟩,
            block_count := u32 ((fs1.itable num).block_count + 1),
            extent_count :=
              if twice then u32 (u32 ((fs1.itable num).extent_count + 1) + 1)
              else u32 ((fs1.itable num).extent_count + 1) } with
        sb := { fs1.sb with used_block_count := u32 (fs1.sb.used_block_count + 1) } },
    entry := A1FS_BLOCK_SIZE * b, mtch := true }

/-- The state after the parent `num` got the new indirect block `b` with the
first extent `(c, 1)`; `fs2` is the image with both blocks taken, `wipe` tells
whether the indirect block is cleared first, as `a1fs_mkdir` does. -/
def attach_new_indirect (fs2 : fs_ctx) (num b c : Nat) (wipe : Bool) : insert_state :=
  { fs :=
      { set_inode fs2 num
          { fs2.itable num with
            indirect := b,
            block_count := u32 ((fs2.itable num).block_count + 2),
            extent_count := u32 ((fs2.itable num).extent_count + 1) } with
        btable :=
          memset0
            (set_ind_count
              (set_ind_start
                (if wipe then memset0 fs2.btable (A1FS_BLOCK_SIZE * b) A1FS_BLOCK_SIZE
                 else fs2.btable) b 0 c) b 0 1)
            (A1FS_BLOCK_SIZE * c) DENTRY_SIZE,
        sb := { fs2.sb with used_block_count := u32 (fs2.sb.used_block_count + 2) } },
    entry := A1FS_BLOCK_SIZE * c, mtch := true }

/-- The state after a new block `b` became the extent `e` of the indirect block
`ind` of the parent `num`; `fs1` is the image with the block taken. -/
def attach_ind_extent (fs1 : fs_ctx) (num ind e b : Nat) : insert_state :=
  { fs :=
      { set_inode fs1 num
          { fs1.itable num with
            block_count := u32 ((fs1.itable num).block_count + 1),
            extent_count := u32 ((fs1.itable num).extent_count + 1) } with
        btable := set_ind_count (set_ind_start fs1.btable ind e b) ind e 1,
        sb := { fs1.sb with used_block_count := u32 (fs1.sb.used_block_count + 1) } },
    entry := A1FS_BLOCK_SIZE * b, mtch := true }

/-- The places where the searches for a free entry of `a1fs_create` and
`a1fs_mkdir` differ: the capacity check in front of a new direct extent, whether
the first entry of a new direct block is cleared, whether `extent_count` is
incremented twice, the number of blocks in the capacity check in front of a new
indirect block, whether the new indirect block is cleared, and the capacity
check in front of a new extent of the indirect block. -/
structure insert_flavour where
  full_direct : a1fs_superblock → Bool
  wipe_direct : Bool
  twice : Bool
  need : Nat
  wipe_indirect : Bool
  full_indirect : a1fs_superblock → Bool

/-- The search of `a1fs_create`. -/
def create_flavour : insert_flavour :=
  { full_direct := fun sb => sb.block_count = sb.used_block_count,
    wipe_direct := true,
    twice := false,
    need := 2,
    wipe_indirect := false,
    full_indirect := fun sb => sb.block_count = sb.used_block_count }

/-- The search of `a1fs_mkdir`. -/
def mkdir_flavour : insert_flavour :=
  { full_direct := fun sb => sb.block_count ≤ u32 (sb.used_block_count + 1),
    wipe_direct := false,
    twice := true,
    need := 3,
    wipe_indirect := true,
    full_indirect := fun sb => sb.block_count ≤ u32 (sb.used_block_count + 2) }

/-- One pass of the loop over the 12 direct extents of the parent `num`: an
unused extent gets a new block, a used one is searched for an entry with an
empty name. -/
def direct_step (v : insert_flavour) (num e : Nat) (s1 : insert_state) :
    Step insert_state (Res (Int × fs_ctx)) :=
  if i32 ((s1.fs.itable num).extent e).count = 0 then
    if v.full_direct s1.fs.sb then Step.ret (Res.ok (-ENOSPC, s1.fs))
    else
      match take_block s1.fs (i32 ((s1.fs.itable num).extent e).start) v.wipe_direct with
      | Res.ok bf => Step.brk (attach_direct bf.2 num e bf.1 v.twice)
      | Res.fault => Step.ret Res.fault
      | Res.nofuel => Step.ret Res.nofuel
  else
    break_if_found
      (find_free_entry name_is_empty ((s1.fs.itable num).extent e).start
        (i32 ((s1.fs.itable num).extent e).count) s1)

/-- The branch that gives the parent its indirect block `b` with a first extent
`(c, 1)`. -/
def new_indirect (v : insert_flavour) (num : Nat) (s : insert_state) :
    Step insert_state (Res (Int × fs_ctx)) :=
  if s.fs.sb.block_count ≤ u32 (s.fs.sb.used_block_count + v.need) then
    Step.ret (Res.ok (-ENOSPC, s.fs))
  else
    match take_block s.fs 0 false with
    | Res.ok bf =>
      match take_block bf.2 bf.1 false with
      | Res.ok cf => Step.next (attach_new_indirect cf.2 num bf.1 cf.1 v.wipe_indirect)
      | Res.fault => Step.ret Res.fault
      | Res.nofuel => Step.ret Res.nofuel
    | Res.fault => Step.ret Res.fault
    | Res.nofuel => Step.ret Res.nofuel

/-- One pass of the loop over the 500 extents of the existing indirect block
`ind` of the parent: an unused extent gets a new block, a used one is searched
for an entry with inode number 0. -/
def old_indirect_step (v : insert_flavour) (num ind e : Nat) (s1 : insert_state) :
    Step insert_state (Res (Int × fs_ctx)) :=
  if i32 (ind_extent s1.fs.btable ind e).count = 0 then
    if v.full_indirect s1.fs.sb then Step.ret (Res.ok (-ENOSPC, s1.fs))
    else
      match take_block s1.fs (i32 (ind_extent s1.fs.btable ind e).start) true with
      | Res.ok bf => Step.brk (attach_ind_extent bf.2 num ind e bf.1)
      | Res.fault => Step.ret Res.fault
      | Res.nofuel => Step.ret Res.nofuel
  else
    break_if_found
      (find_free_entry ino_is_zero (ind_extent s1.fs.btable ind e).start
        (i32 (ind_extent s1.fs.btable ind e).count) s1)

/-- The line `if (match == 0) return -errno;` behind the search of the indirect
block. -/
def need_match (env : Env) :
    Step insert_state (Res (Int × fs_ctx)) → Step insert_state (Res (Int × fs_ctx))
  | Step.ret r => Step.ret r
  | Step.brk s2 => Step.next s2
  | Step.next s2 =>
    if s2.mtch then Step.next s2 else Step.ret (Res.ok (-(env.errno : Int), s2.fs))

/-- The part of the search that follows the direct extents when they gave no
entry: the indirect block is made, or its 500 extents are searched. -/
def insert_indirect (env : Env) (v : insert_flavour) (num : Nat) (s1 : insert_state) :
    Step insert_state (Res (Int × fs_ctx)) :=
  need_match env
    (if (s1.fs.itable num).indirect = 0 then new_indirect v num s1
     else forLoop (old_indirect_step v num (s1.fs.itable num).indirect) 500 0 s1)

/-- The line `if (match == 0)` behind the loop over the direct extents, with the
search of the indirect block in it. -/
def after_direct (env : Env) (v : insert_flavour) (num : Nat) :
    Step insert_state (Res (Int × fs_ctx)) → Step insert_state (Res (Int × fs_ctx))
  | Step.ret r => Step.ret r
  | Step.brk s1 => Step.next s1
  | Step.next s1 => if s1.mtch then Step.next s1 else insert_indirect env v num s1

/-- The search for the entry to use when the parent `num` is not empty. -/
def insert_search (env : Env) (v : insert_flavour) (num : Nat) (s : insert_state) :
    Step insert_state (Res (Int × fs_ctx)) :=
  after_direct env v num (forLoop (direct_step v num) 12 0 s)

/-- The lines `entry->ino = inode; strcpy(entry->name, entry_end);`. -/
def put_entry (m : Nat → Nat) (entry inode : Nat) (name : List Nat) : Nat → Nat :=
  strcpy (wr32 m entry inode) (dentry_name entry) name

/-- The image at the end of `a1fs_create`: the parent `num` has one entry more
and a new time, the inode `inode` is marked with the bitmap `im` and counted,
its record is cleared and filled in, and the entry is written. -/
def create_commit (env : Env) (num mode : Nat) (name : List Nat) (s : insert_state)
    (im : Nat → Nat) (inode : Nat) : fs_ctx :=
  { sb := { s.fs.sb with used_inode_count := u32 (s.fs.sb.used_inode_count + 1) },
    ibitmap := im,
    bbitmap := s.fs.bbitmap,
    itable :=
      upd (upd s.fs.itable num
            { s.fs.itable num with empty := u32 ((s.fs.itable num).empty + 1), mtime := env.now })
        inode
        { zero_inode with mode := mode, links := 1, size := 0, mtime := env.now,
                          block_count := 0, num := inode, parent_num := num },
    btable := put_entry s.fs.btable s.entry inode name }

/-- The end of `a1fs_create`, once `entry` points to the slot to use. -/
def create_finish (env : Env) (num : Nat) (mode : Nat) (name : List Nat) (s : insert_state) :
    Res (Int × fs_ctx) :=
  match map_set s.fs.ibitmap (first_inode s.fs.ibitmap) 1 with
  | Res.ok im =>
    Res.ok (0, create_commit env num mode name s im (first_inode s.fs.ibitmap).toNat)
  | Res.fault => Res.fault
  | Res.nofuel => Res.nofuel

/-- The variables `entry` and `match` in front of the search: `entry` points to
the first entry of the first block of the parent `num`. -/
def insert_start (fs : fs_ctx) (num : Nat) : insert_state :=
  { fs := fs, entry := A1FS_BLOCK_SIZE * ((fs.itable num).extent 0).start, mtch := false }

/-- The call `path_lookup` both `a1fs_create` and `a1fs_mkdir` make for the
parent: of `/` when the parent path is empty. -/
def parent_lookup (fs : fs_ctx) (parent_path : List Nat) : Int :=
  if parent_path = [] then path_lookup fs [47] else path_lookup fs parent_path

/-- The part of `a1fs_create` behind the lookup of the parent `num`. -/
def create_at (env : Env) (fs : fs_ctx) (num : Nat) (name : List Nat) (mode : Nat) :
    Res (Int × fs_ctx) :=
  if (fs.itable num).extent_count ≥ 512 then Res.ok (-ENOSPC, fs)
  else if (fs.itable num).empty = 0 then create_finish env num mode name (insert_start fs num)
  else
    match insert_search env create_flavour num (insert_start fs num) with
    | Step.ret r => r
    | Step.brk s1 => create_finish env num mode name s1
    | Step.next s1 => create_finish env num mode name s1

def a1fs_create (env : Env) (fs : fs_ctx) (path : List Nat) (mode : Nat) :
    Res (Int × fs_ctx) :=
  if !S_ISREG mode then Res.fault
  else if fs.sb.inode_count = fs.sb.used_inode_count then Res.ok (-ENOSPC, fs)
  else
    match split_last path with
    | none => Res.fault
    | some pn =>
      if parent_lookup fs pn.1 < 0 then Res.ok (-(env.errno : Int), fs)
      else create_at env fs (parent_lookup fs pn.1).toNat pn.2 mode

/-- The image at the end of `a1fs_mkdir`: `fs1` is the image with the inode and
the block of the new directory marked in the bitmaps. -/
def mkdir_commit (env : Env) (num mode : Nat) (name : List Nat) (entry : Nat) (fs1 : fs_ctx)
    (inode block : Nat) : fs_ctx :=
  { sb := { fs1.sb with used_inode_count := u32 (fs1.sb.used_inode_count + 1),
                        used_block_count := u32 (fs1.sb.used_block_count + 1) },
    ibitmap := fs1.ibitmap,
    bbitmap := fs1.bbitmap,
    itable :=
      upd (upd fs1.itable num
            { fs1.itable num with links := u32 ((fs1.itable num).links + 1),
                                  empty := u32 ((fs1.itable num).empty + 1),
                                  mtime := env.now })
        inode
        { zero_inode with mode := mode, links := 2, size := 0, mtime := env.now,
                          block_count := 1, num := inode, parent_num := num,
                          extent := upd zero_inode.extent 0 ⟨block, 1⟩, extent_count := 1 },
    btable := put_entry fs1.btable entry inode name }

/-- The end of `a1fs_mkdir`, once `entry` points to the slot to use. -/
def mkdir_finish (env : Env) (num : Nat) (mode : Nat) (name : List Nat) (s : insert_state) :
    Res (Int × fs_ctx) :=
  match map_set s.fs.ibitmap (first_inode s.fs.ibitmap) 1 with
  | Res.ok im =>
    match take_block { s.fs with ibitmap := im } (num : Int) false with
    | Res.ok bf =>
      Res.ok (0, mkdir_commit env num mode name s.entry bf.2
                  (first_inode s.fs.ibitmap).toNat bf.1)
    | Res.fault => Res.fault
    | Res.nofuel => Res.nofuel
  | Res.fault => Res.fault
  | Res.nofuel => Res.nofuel

/-- The part of `a1fs_mkdir` behind the lookup of the parent `num`. -/
def mkdir_at (env : Env) (fs : fs_ctx) (num : Nat) (name : List Nat) (mode : Nat) :
    Res (Int × fs_ctx) :=
  if (fs.itable num).extent_count ≥ 512 then Res.ok (-ENOSPC, fs)
  else if (fs.itable num).empty ≠ 0 then
    match insert_search env mkdir_flavour num (insert_start fs num) with
    | Step.ret r => r
    | Step.brk s1 => mkdir_finish env num (mode ||| S_IFDIR) name s1
    | Step.next s1 => mkdir_finish env num (mode ||| S_IFDIR) name s1
  else mkdir_finish env num (mode ||| S_IFDIR) name (insert_start fs num)

def a1fs_mkdir (env : Env) (fs : fs_ctx) (path : List Nat) (mode : Nat) :
    Res (Int × fs_ctx) :=
  if fs.sb.inode_count = fs.sb.used_inode_count ∨ fs.sb.block_count = fs.sb.used_block_count then
    Res.ok (-ENOSPC, fs)
  else
    match split_last path with
    | none => Res.fault
    | some pn =>
      if parent_lookup fs pn.1 < 0 then Res.ok (-(env.errno : Int), fs)
      else mkdir_at env fs (parent_lookup fs pn.1).toNat pn.2 mode

/-! ## Removing a file (`a1fs_unlink`) -/

/-- The loops over the blocks of one extent of the parent and the 16 entries of
a block that clear, in each block, the first entry whose `ino` is `ino`. -/
def wipe_extent (ino : Nat) (ext : a1fs_extent) (m : Nat → Nat) : Nat → Nat :=
  if i32 ext.count = 0 then m
  else
    (forLoop (ρ := Unit) (fun f m1 =>
      forLoop (fun i m2 =>
        if dentry_ino m2 (dentry_addr (ext.start + f) i) = ino then
          Step.brk (memset0 m2 (dentry_addr (ext.start + f) i) DENTRY_SIZE)
        else Step.next m2) 16 0 m1) (i32 ext.count).toNat 0 m).state m

/-- The two searches of `a1fs_unlink` and `a1fs_rmdir` through the entries of
the directory `parent`: its 12 direct extents, then the 500 extents of its
indirect block if it has one. -/
def wipe_entries (parent : a1fs_inode) (ino : Nat) (m : Nat → Nat) : Nat → Nat :=
  let m1 := (forLoop (ρ := Unit) (fun e m1 => Step.next (wipe_extent ino (parent.extent e) m1))
              12 0 m).state m
  if parent.indirect ≠ 0 then
    (forLoop (ρ := Unit) (fun e m2 =>
        Step.next (wipe_extent ino (ind_extent m2 parent.indirect e) m2)) 500 0 m1).state m1
  else m1

/-- The body `bbitmap->map[start + f] = 0; used_block_count -= 1;` of the loop
over the blocks of an extent of a removed inode. -/
def free_one (ext : a1fs_extent) (f : Nat) (fs1 : fs_ctx) : Step fs_ctx (Res (Int × fs_ctx)) :=
  match map_set fs1.bbitmap (i32 ext.start + f) 0 with
  | Res.ok bm =>
    Step.next { fs1 with bbitmap := bm,
                         sb := { fs1.sb with
                                 used_block_count := u32 (fs1.sb.used_block_count - 1) } }
  | Res.fault => Step.ret Res.fault
  | Res.nofuel => Step.ret Res.nofuel

/-- The loop `for (f = 0; f < count; f++)` over the blocks of one extent of a
removed inode (`continue` when `count == 0`). -/
def free_extent (ext : a1fs_extent) (fs : fs_ctx) : Step fs_ctx (Res (Int × fs_ctx)) :=
  if i32 ext.count = 0 then Step.next fs
  else forLoop (free_one ext) (i32 ext.count).toNat 0 fs

/-- The block of the indirect extent table itself:
`bbitmap->map[in->indirect] = 0; used_block_count -= 1;`. -/
def free_indirect_block (ino : a1fs_inode) (fs2 : fs_ctx) : Step fs_ctx (Res (Int × fs_ctx)) :=
  match map_set fs2.bbitmap (ino.indirect : Int) 0 with
  | Res.ok bm =>
    Step.next { fs2 with bbitmap := bm,
                         sb := { fs2.sb with
                                 used_block_count := u32 (fs2.sb.used_block_count - 1) } }
  | Res.fault => Step.ret Res.fault
  | Res.nofuel => Step.ret Res.nofuel

/-- The release of all blocks of the inode record `ino`: the direct extents,
and with an indirect block its 500 extents and the block itself. -/
def free_blocks (ino : a1fs_inode) (fs : fs_ctx) : Step fs_ctx (Res (Int × fs_ctx)) :=
  match forLoop (fun e fs1 => free_extent (ino.extent e) fs1) 12 0 fs with
  | Step.ret r => Step.ret r
  | Step.brk fs1 => Step.next fs1
  | Step.next fs1 =>
    if ino.indirect ≠ 0 then
      match forLoop (fun e fs2 => free_extent (ind_extent fs2.btable ino.indirect e) fs2)
              500 0 fs1 with
      | Step.ret r => Step.ret r
      | Step.brk fs2 => Step.next fs2
      | Step.next fs2 => free_indirect_block ino fs2
    else Step.next fs1

/-- The first part of `a1fs_unlink` for the file with inode `n`: its entries are
cleared in the parent `in->parent_num`, and the parent gets a new time, one
entry less and a size reduced by the size of the file. -/
def unlink_parent (env : Env) (fs : fs_ctx) (n : Nat) : fs_ctx :=
  set_inode
    { fs with btable :=
        wipe_entries (fs.itable (fs.itable n).parent_num) (fs.itable n).num fs.btable }
    (fs.itable n).parent_num
    { fs.itable (fs.itable n).parent_num with
      mtime := env.now,
      empty := u32 ((fs.itable (fs.itable n).parent_num).empty - 1),
      size := u64 ((fs.itable (fs.itable n).parent_num).size - (fs.itable n).size) }

/-- The lines `used_inode_count -= 1; ibitmap->map[in->num] = 0;`. -/
def unlink_inode (fs : fs_ctx) (n : Nat) : Res fs_ctx :=
  match map_set fs.ibitmap ((fs.itable n).num : Int) 0 with
  | Res.ok im =>
    Res.ok { fs with ibitmap := im,
                     sb := { fs.sb with used_inode_count := u32 (fs.sb.used_inode_count - 1) } }
  | Res.fault => Res.fault
  | Res.nofuel => Res.nofuel

/-- The block `if (in->size > 0 || in->block_count > 0) { ... }` that releases
the blocks of the file. -/
def unlink_blocks (fs : fs_ctx) (n : Nat) : Step fs_ctx (Res (Int × fs_ctx)) :=
  if (fs.itable n).size > 0 ∨ (fs.itable n).block_count > 0 then
    free_blocks (fs.itable n) fs
  else Step.next fs

/-- The end of `a1fs_unlink`: `memset(in, 0, sizeof(a1fs_inode)); return 0;`. -/
def unlink_finish (n : Nat) : Step fs_ctx (Res (Int × fs_ctx)) → Res (Int × fs_ctx)
  | Step.ret r => r
  | Step.brk fs => Res.ok (0, set_inode fs n zero_inode)
  | Step.next fs => Res.ok (0, set_inode fs n zero_inode)

def a1fs_unlink (env : Env) (fs : fs_ctx) (path : List Nat) : Res (Int × fs_ctx) :=
  if path_lookup fs path < 0 then Res.ok (-(env.errno : Int), fs)
  else
    match unlink_inode (unlink_parent env fs (path_lookup fs path).toNat)
            (path_lookup fs path).toNat with
    | Res.ok fs3 =>
      unlink_finish (path_lookup fs path).toNat (unlink_blocks fs3 (path_lookup fs path).toNat)
    | Res.fault => Res.fault
    | Res.nofuel => Res.nofuel

/-! ## Removing a directory (`a1fs_rmdir`) -/

/-- The first part of `a1fs_rmdir` for the directory with inode `n`: its entries
are cleared in the parent `in->parent_num` by the loops `a1fs_unlink` has too,
and the parent gets one entry less, one link less, a size reduced by the size of
the directory, and a new time. -/
def rmdir_parent (env : Env) (fs : fs_ctx) (n : Nat) : fs_ctx :=
  set_inode
    { fs with btable :=
        wipe_entries (fs.itable (fs.itable n).parent_num) (fs.itable n).num fs.btable }
    (fs.itable n).parent_num
    { fs.itable (fs.itable n).parent_num with
      empty := u32 ((fs.itable (fs.itable n).parent_num).empty - 1),
      links := u32 ((fs.itable (fs.itable n).parent_num).links - 1),
      size := u64 ((fs.itable (fs.itable n).parent_num).size - (fs.itable n).size),
      mtime := env.now }

def a1fs_rmdir (env : Env) (fs : fs_ctx) (path : List Nat) : Res (Int × fs_ctx) :=
  if path_lookup fs path < 0 then Res.ok (-(env.errno : Int), fs)
  else if (fs.itable (path_lookup fs path).toNat).empty > 0 then Res.ok (-ENOTEMPTY, fs)
  else
    match unlink_inode (rmdir_parent env fs (path_lookup fs path).toNat)
            (path_lookup fs path).toNat with
    | Res.ok fs3 =>
      unlink_finish (path_lookup fs path).toNat
        (free_blocks (fs3.itable (path_lookup fs path).toNat) fs3)
    | Res.fault => Res.fault
    | Res.nofuel => Res.nofuel

/-! ## Changing the size of a file (`a1fs_truncate`) -/

/-- The image and `bytes_to_add` while a file grows. -/
structure grow_state where
  fs : fs_ctx
  bytes_to_add : Int

/-- The loop `for (k = j+1; k < A1FS_BLOCK_SIZE && bytes_to_add > A1FS_BLOCK_SIZE *
extent_size; k++)` that marks further free entries; the state is the bitmap and
`extent_size`. -/
def grow_run (bytes_to_add : Int) (j : Nat) (bm : Nat → Nat) : (Nat → Nat) × Int :=
  (forLoop (ρ := Unit) (fun k (st : (Nat → Nat) × Int) =>
    if bytes_to_add > 4096 * st.2 then
      if st.1 k = 0 then Step.next (upd st.1 k 1, st.2 + 1) else Step.next st
    else Step.brk st) (4095 - j) (j + 1) (bm, 1)).state (bm, 1)

/-- The three-way `memset` of a new run at block `j` and the new value of
`bytes_to_add`. -/
def grow_fill (m : Nat → Nat) (j : Nat) (extent_size bytes_to_add : Int) : (Nat → Nat) × Int :=
  if bytes_to_add < 4096 then
    (memset0 m (A1FS_BLOCK_SIZE * j) bytes_to_add.toNat, 0)
  else if bytes_to_add < 4096 * extent_size then
    (memset0 m (A1FS_BLOCK_SIZE * j) (4096 * (extent_size - 1) + bytes_to_add).toNat,
     bytes_to_add - (4096 * (extent_size - 1) + bytes_to_add))
  else
    (memset0 m (A1FS_BLOCK_SIZE * j) (4096 * extent_size).toNat,
     bytes_to_add - 4096 * extent_size)

/-- The state after a run was allocated at the free block `j`: the run is marked
by `grow_run`, cleared by `grow_fill` and recorded with `put`. -/
def grow_found (put : fs_ctx → Nat → Int → fs_ctx) (s1 : grow_state) (j : Nat) : grow_state :=
  { fs :=
      put { s1.fs with
            bbitmap := (grow_run s1.bytes_to_add j (upd s1.fs.bbitmap j 1)).1,
            btable :=
              (grow_fill s1.fs.btable j (grow_run s1.bytes_to_add j (upd s1.fs.bbitmap j 1)).2
                s1.bytes_to_add).1 }
        j (grow_run s1.bytes_to_add j (upd s1.fs.bbitmap j 1)).2,
    bytes_to_add :=
      (grow_fill s1.fs.btable j (grow_run s1.bytes_to_add j (upd s1.fs.bbitmap j 1)).2
        s1.bytes_to_add).2 }

/-- One pass of the loop `for (j = 1; j < A1FS_BLOCK_SIZE; j++)`: `break` with
the run allocated at `j` if the block is free. -/
def grow_alloc_step (put : fs_ctx → Nat → Int → fs_ctx) (j : Nat) (s1 : grow_state) :
    Step grow_state Unit :=
  if s1.fs.bbitmap j = 0 then Step.brk (grow_found put s1 j) else Step.next s1

/-- The loop `for (j = 1; j < A1FS_BLOCK_SIZE; j++)` that looks for a free block
and, at the first one, allocates a run, clears it and records it with `put`. -/
def grow_alloc (put : fs_ctx → Nat → Int → fs_ctx) (s : grow_state) : grow_state :=
  (forLoop (grow_alloc_step put) 4095 1 s).state s

/-- The record of a new run in the direct extent `i` of the file `num`. -/
def put_direct (num i : Nat) (fs : fs_ctx) (j : Nat) (extent_size : Int) : fs_ctx :=
  let f1 := set_extent_count (set_extent_start (fs.itable num) i j) i (u32 extent_size)
  { set_inode fs num
      { f1 with extent_count := u32 (f1.extent_count + extent_size),
                block_count := u32 (f1.block_count + extent_size) } with
    sb := { fs.sb with used_block_count := u32 (fs.sb.used_block_count + extent_size) } }

/-- The record of a new run in the extent `i` of the indirect block `ind` of the
file `num`. -/
def put_indirect (num ind i : Nat) (fs : fs_ctx) (j : Nat) (extent_size : Int) : fs_ctx :=
  let f := fs.itable num
  { set_inode fs num
      { f with block_count := u32 (f.block_count + extent_size),
               extent_count := u32 (f.extent_count + extent_size) } with
    btable := set_ind_count (set_ind_start fs.btable ind i j) ind i (u32 extent_size),
    sb := { fs.sb with used_block_count := u32 (fs.sb.used_block_count + extent_size) } }

/-- One pass of the loop `for (i = 0; i < 13 && bytes_to_add > 0; i++)` over the
direct extents of the file `num`: an extent with `start == 0` gets a run. -/
def grow_direct_step (num i : Nat) (s1 : grow_state) : Step grow_state Unit :=
  if s1.bytes_to_add > 0 then
    if (extent_at (s1.fs.itable num) i).start = 0 then
      Step.next (grow_alloc (put_direct num i) s1)
    else Step.next s1
  else Step.brk s1

/-- The loop `for (i = 0; i < 13 && bytes_to_add > 0; i++)` over the direct
extents. -/
def grow_direct (num : Nat) (s : grow_state) : grow_state :=
  (forLoop (grow_direct_step num) 13 0 s).state s

/-- The part of the `while` body after the direct extents: the indirect block is
allocated if the file has none, then its 500 extents are gone through. -/
def grow_indirect (num : Nat) (s : grow_state) : Step grow_state (Res (Int × fs_ctx)) :=
  if s.bytes_to_add > 0 then
    let r : Res fs_ctx :=
      if (s.fs.itable num).indirect = 0 then
        match take_block s.fs 0 false with
        | Res.ok (b, fs1) =>
          Res.ok (set_inode fs1 num
            { fs1.itable num with indirect := b,
                                  block_count := u32 ((fs1.itable num).block_count + 1) })
        | Res.fault => Res.fault
        | Res.nofuel => Res.nofuel
      else Res.ok s.fs
    match r with
    | Res.ok fs1 =>
      let ind := (fs1.itable num).indirect
      Step.next
        ((forLoop (ρ := Unit) (fun i s1 =>
          if s1.bytes_to_add > 0 then
            if (ind_extent s1.fs.btable ind i).start = 0 then
              Step.next (grow_alloc (put_indirect num ind i) s1)
            else Step.next s1
          else Step.brk s1) 500 0 { s with fs := fs1 }).state { s with fs := fs1 })
    | Res.fault => Step.ret Res.fault
    | Res.nofuel => Step.ret Res.nofuel
  else Step.next s

/-- The image and `bytes_to_remove` while a file shrinks. -/
structure shrink_state where
  fs : fs_ctx
  bytes_to_remove : Int

/-- The index `last_extent`: the last `i < n` with `start i != 0`, or 0. -/
def last_extent (start : Nat → Nat) (n : Nat) : Nat :=
  (forLoop (ρ := Unit) (fun i le => if start i ≠ 0 then Step.next i else Step.next le) n 0 0).state 0

/-- Decrement of the used-block counter. -/
def dec_used (fs : fs_ctx) : fs_ctx :=
  { fs with sb := { fs.sb with used_block_count := u32 (fs.sb.used_block_count - 1) } }

/-- The loop `for (j = extent[last_extent].count; j >= 0 && bytes_to_remove >=
A1FS_BLOCK_SIZE; j--)` on a direct extent of the file `num`; pass `t` handles
`j = count - t`. -/
def shrink_direct (num le : Nat) (s : shrink_state) : Step shrink_state (Res (Int × fs_ctx)) :=
  let c := i32 (extent_at (s.fs.itable num) le).count
  forLoop (fun t s1 =>
    if s1.bytes_to_remove ≥ 4096 then
      let fs1 := dec_used s1.fs
      let f1 := { fs1.itable num with block_count := u32 ((fs1.itable num).block_count - 1) }
      match map_set fs1.bbitmap (u32 ((extent_at f1 le).start + (c - t))) 0 with
      | Res.ok bm =>
        let f2 := set_extent_count f1 le (u32 ((extent_at f1 le).count - 1))
        let f3 := if c - t = 0 then set_extent_start f2 le 0 else f2
        Step.next { fs := set_inode { fs1 with bbitmap := bm } num f3,
                    bytes_to_remove := s1.bytes_to_remove - 4096 }
      | Res.fault => Step.ret Res.fault
      | Res.nofuel => Step.ret Res.nofuel
    else Step.brk s1) (c + 1).toNat 0 s

/-- The same loop on the extent `le` of the indirect block `ind`. -/
def shrink_indirect (num ind le : Nat) (s : shrink_state) :
    Step shrink_state (Res (Int × fs_ctx)) :=
  let c := i32 (ind_extent s.fs.btable ind le).count
  forLoop (fun t s1 =>
    if s1.bytes_to_remove ≥ 4096 then
      let fs1 := dec_used s1.fs
      match map_set fs1.bbitmap (u32 ((ind_extent fs1.btable ind le).start + (c - t))) 0 with
      | Res.ok bm =>
        let m1 := set_ind_count fs1.btable ind le (u32 ((ind_extent fs1.btable ind le).count - 1))
        let f1 := { fs1.itable num with
                    extent_count := u32 ((fs1.itable num).extent_count - 1),
                    block_count := u32 ((fs1.itable num).block_count - 1) }
        let fs2 : fs_ctx := { set_inode fs1 num f1 with bbitmap := bm, btable := m1 }
        if c - t = 0 then
          let fs3 : fs_ctx := { fs2 with btable := set_ind_start fs2.btable ind le 0 }
          if le = 0 then
            match map_set fs3.bbitmap ((fs3.itable num).indirect : Int) 0 with
            | Res.ok bm1 =>
              Step.next
                { fs := set_inode { fs3 with bbitmap := bm1 } num
                          { fs3.itable num with
                            indirect := 0,
                            block_count := u32 ((fs3.itable num).block_count - 1) },
                  bytes_to_remove := s1.bytes_to_remove - 4096 }
            | Res.fault => Step.ret Res.fault
            | Res.nofuel => Step.ret Res.nofuel
          else Step.next { fs := fs3, bytes_to_remove := s1.bytes_to_remove - 4096 }
        else Step.next { fs := fs2, bytes_to_remove := s1.bytes_to_remove - 4096 }
      | Res.fault => Step.ret Res.fault
      | Res.nofuel => Step.ret Res.nofuel
    else Step.brk s1) (c + 1).toNat 0 s

/-- One pass of the loop `while (bytes_to_remove >= A1FS_BLOCK_SIZE)`. -/
def shrink_pass (num : Nat) (s : shrink_state) : Step shrink_state (Res (Int × fs_ctx)) :=
  let file := s.fs.itable num
  if file.indirect ≠ 0 then
    shrink_indirect num file.indirect
      (last_extent (fun i => (ind_extent s.fs.btable file.indirect i).start) 500) s
  else
    shrink_direct num (last_extent (fun i => (extent_at file i).start) 13) s

/-- The `memset` of the last `bytes_to_remove` bytes in front of the end of the
last extent `ext`; an address in front of the data region is a fault. -/
def shrink_tail (fs : fs_ctx) (ext : a1fs_extent) (bytes_to_remove : Int) : Res fs_ctx :=
  if (4096 * (ext.start + ext.count) : Int) - bytes_to_remove < 0 then Res.fault
  else
    Res.ok
      { fs with
        btable := memset0 fs.btable
          ((4096 * (ext.start + ext.count) : Int) - bytes_to_remove).toNat bytes_to_remove.toNat }

def a1fs_truncate (fuel : Nat) (env : Env) (fs : fs_ctx) (path : List Nat) (size : Nat) :
    Res (Int × fs_ctx) :=
  let num := path_lookup fs path
  if num < 0 then Res.ok (-(env.errno : Int), fs)
  else
    let n := num.toNat
    let file := fs.itable n
    if file.size = u64 size then Res.ok (0, fs)
    else if (size : Int) > u32 (u32 (fs.sb.block_count - fs.sb.used_block_count) * 4096) then
      Res.ok (-ENOSPC, fs)
    else if file.size < u64 size then
      match whileLoop Res.nofuel (fun (s : grow_state) => decide (s.bytes_to_add > 0))
              (fun s => grow_indirect n (grow_direct n s)) fuel
              { fs := fs, bytes_to_add := i32 ((size : Int) - file.size) } with
      | Step.ret r => r
      | Step.brk s => Res.ok (0, set_inode s.fs n { s.fs.itable n with mtime := env.now, size := u64 size })
      | Step.next s => Res.ok (0, set_inode s.fs n { s.fs.itable n with mtime := env.now, size := u64 size })
    else if file.size > u64 size then
      match whileLoop Res.nofuel (fun (s : shrink_state) => decide (s.bytes_to_remove ≥ 4096))
              (shrink_pass n) fuel
              { fs := fs, bytes_to_remove := i32 ((file.size : Int) - size) } with
      | Step.ret r => r
      | Step.brk s | Step.next s =>
        let r : Res fs_ctx :=
          if s.bytes_to_remove > 0 then
            let f := s.fs.itable n
            if f.indirect ≠ 0 then
              shrink_tail s.fs
                (ind_extent s.fs.btable f.indirect
                  (last_extent (fun i => (ind_extent s.fs.btable f.indirect i).start) 13))
                s.bytes_to_remove
            else
              shrink_tail s.fs (extent_at f (last_extent (fun i => (extent_at f i).start) 13))
                s.bytes_to_remove
          else Res.ok s.fs
        match r with
        | Res.ok fs1 =>
          Res.ok (0, set_inode fs1 n { fs1.itable n with mtime := env.now, size := u64 size })
        | Res.fault => Res.fault
        | Res.nofuel => Res.nofuel
    else Res.ok (-ENOSYS, fs)

/-! ## Reading and writing (`a1fs_read`, `a1fs_write`)

The two functions have the same text up to the direction of `memcpy`, one test
that only `a1fs_write` makes, and their last `return`; `wr` tells which of the
two is meant. -/

/-- The variables of `a1fs_read` / `a1fs_write`: the data region `mem`, the
caller's buffer `buf`, `bytes_left_to_read` / `bytes_left_to_write`,
`bytes_read_into_buf` / `bytes_written`, and the variables of the search for the
offset. -/
structure rw_state where
  mem : Nat → Nat
  buf : Nat → Nat
  bytes_left : Int
  bytes_done : Int
  bytes_read : Int
  offset_extent : Nat
  offset_extent_count : Int
  offset_extent_set : Bool
  in_indirect : Bool
  offset_found : Bool

/-- The call `memcpy` between the data region at `addr` and the buffer at
`bufoff`, `len` bytes; a negative length or buffer offset is a fault (`none`). -/
def transfer (wr : Bool) (s : rw_state) (addr : Nat) (bufoff len : Int) : Option rw_state :=
  if len < 0 ∨ bufoff < 0 then none
  else if wr then
    some { s with mem := memcpy s.mem addr (fun x => s.buf (bufoff.toNat + x)) len.toNat }
  else
    some { s with buf := memcpy s.buf bufoff.toNat (fun x => s.mem (addr + x)) len.toNat }

/-- The line `if (offset_found) break;`. -/
def break_if_offset_found {ρ : Type} : Step rw_state ρ → Step rw_state ρ
  | Step.next s => if s.offset_found then Step.brk s else Step.next s
  | Step.brk s => Step.brk s
  | Step.ret r => Step.ret r

/-- The loop `for (k = 0; k < A1FS_BLOCK_SIZE; k++)` that counts single bytes up
to the offset inside the extent `ext`. -/
def locate_byte (wr : Bool) (size offset : Nat) (ext : a1fs_extent) (s : rw_state) :
    Step rw_state (Res (Int × rw_state)) :=
  forLoop (fun k s1 =>
    let s2 := { s1 with bytes_read := s1.bytes_read + 1 }
    if s2.bytes_read = (offset : Int) then
      if s2.bytes_left < 4096 - (k : Int) then
        match transfer wr s2 (A1FS_BLOCK_SIZE * (ext.start + ext.count) + k) 0 s2.bytes_left with
        | some s3 => Step.ret (Res.ok (i32 size, s3))
        | none => Step.ret Res.fault
      else
        match transfer wr s2 (A1FS_BLOCK_SIZE * (ext.start + ext.count) + k) 0
                (4096 - s2.bytes_left) with
        | some s3 =>
          let left := s3.bytes_left - (4096 - s3.bytes_left)
          Step.brk { s3 with bytes_left := left, bytes_done := s3.bytes_done + (4096 - left),
                             offset_found := true }
        | none => Step.ret Res.fault
    else break_if_offset_found (Step.next s2)) 4096 0 s

/-- The loop `for (j = 0; j < (int) extent[i].count; j++)` of the search for the
offset, for the extent `ext` with index `i`. -/
def locate_extent (wr : Bool) (size offset i : Nat) (ext : a1fs_extent) (s : rw_state) :
    Step rw_state (Res (Int × rw_state)) :=
  forLoop (fun j s1 =>
    if s1.bytes_read / 4096 < (offset : Int) / 4096 then
      break_if_offset_found (Step.next { s1 with bytes_read := s1.bytes_read + 4096 })
    else if s1.bytes_read / 4096 ≠ (offset : Int) / 4096 then
      break_if_offset_found
        (locate_byte wr size offset ext
          { s1 with offset_extent := i, offset_extent_set := true, offset_extent_count := j })
    else break_if_offset_found (Step.next s1)) (i32 ext.count).toNat 0 s

/-- One pass of the loop `while (bytes_read < offset)`: the direct extents
`0 .. 12` of the file, then the 500 extents of the block `file->indirect`. -/
def locate_pass (wr : Bool) (size offset : Nat) (file : a1fs_inode) (s : rw_state) :
    Step rw_state (Res (Int × rw_state)) :=
  match
    forLoop (fun i s1 =>
      if s1.bytes_read < (offset : Int) then
        if (extent_at file i).start ≠ 0 then
          break_if_offset_found (locate_extent wr size offset i (extent_at file i) s1)
        else break_if_offset_found (Step.next s1)
      else Step.brk s1) 13 0 s with
  | Step.ret r => Step.ret r
  | Step.brk s1 | Step.next s1 =>
    forLoop (fun i s2 =>
      if s2.bytes_read < (offset : Int) then
        let s3 := { s2 with in_indirect := true }
        if (ind_extent s3.mem file.indirect i).start ≠ 0 then
          break_if_offset_found
            (locate_extent wr size offset i (ind_extent s3.mem file.indirect i) s3)
        else break_if_offset_found (Step.next s3)
      else Step.brk s2) 500 0 s1

/-- The value of `j` after the line `if (i == offset_extent && offset_extent_set)
j = offset_extent_count + 1;` inside the loop that moves the data; `jump` is
the test `i == offset_extent`. -/
def copy_index (jump : Bool) (js : Int × rw_state) : Int :=
  if jump ∧ js.2.offset_extent_set then js.2.offset_extent_count + 1 else js.1

/-- The address of block `j` of the extent inside the loop that moves the data. -/
def copy_addr (jump : Bool) (ext : rw_state → a1fs_extent) (js : Int × rw_state) : Nat :=
  A1FS_BLOCK_SIZE * ((ext js.2).start + (copy_index jump js).toNat)

/-- One pass of the loop that moves the data of one extent: the rest if it is
less than a block, with a `return`, else one block. -/
def copy_block (wr : Bool) (jump : Bool) (ext : rw_state → a1fs_extent) (js : Int × rw_state) :
    Step (Int × rw_state) (Res (Int × rw_state)) :=
  if js.2.bytes_left < 4096 then
    match transfer wr js.2 (copy_addr jump ext js) js.2.bytes_done js.2.bytes_left with
    | some s1 =>
      Step.ret (Res.ok (s1.bytes_done + s1.bytes_left,
                        { s1 with bytes_done := s1.bytes_done + s1.bytes_left }))
    | none => Step.ret Res.fault
  else
    match transfer wr js.2 (copy_addr jump ext js) js.2.bytes_done 4096 with
    | some s1 =>
      if s1.bytes_left - 4096 = 0 then
        Step.ret (Res.ok (s1.bytes_done + 4096,
                          { s1 with bytes_done := s1.bytes_done + 4096,
                                    bytes_left := s1.bytes_left - 4096 }))
      else
        Step.next (copy_index jump js + 1,
                   { s1 with bytes_done := s1.bytes_done + 4096,
                             bytes_left := s1.bytes_left - 4096 })
    | none => Step.ret Res.fault

/-- The end of the loop that moves the data of one extent: control goes on
behind it unless the loop returned. -/
def copy_done : Step (Int × rw_state) (Res (Int × rw_state)) →
    Step rw_state (Res (Int × rw_state))
  | Step.ret r => Step.ret r
  | Step.brk js => Step.next js.2
  | Step.next js => Step.next js.2

/-- The loop `for (j = 0; j < (int) extent[i].count; j++)` that moves the data of
one extent; `ext` reads the extent from the current state, `jump` is the test
`i == offset_extent`.  The loop variable is part of the state because the body
assigns to it. -/
def copy_extent (wr : Bool) (fuel : Nat) (jump : Bool) (ext : rw_state → a1fs_extent)
    (s : rw_state) : Step rw_state (Res (Int × rw_state)) :=
  copy_done
    (whileLoop Res.nofuel (fun (js : Int × rw_state) => decide (js.1 < i32 (ext js.2).count))
      (copy_block wr jump ext) fuel (0, s))

/-- One pass of the loop over the direct extents that moves the data. -/
def copy_direct_step (wr : Bool) (fuel : Nat) (file : a1fs_inode) (i : Nat) (s1 : rw_state) :
    Step rw_state (Res (Int × rw_state)) :=
  if (extent_at file i).start ≠ 0 then
    copy_extent wr fuel (i = s1.offset_extent) (fun _ => extent_at file i) s1
  else Step.next s1

/-- One pass of the loop over the extents of the indirect block that follows the
loop over the direct extents. -/
def copy_indirect_step (wr : Bool) (fuel : Nat) (file : a1fs_inode) (i : Nat) (s2 : rw_state) :
    Step rw_state (Res (Int × rw_state)) :=
  if wr ∧ (ind_extent s2.mem file.indirect i).start = 0 then Step.next s2
  else copy_extent wr fuel false (fun st => ind_extent st.mem file.indirect i) s2

/-- The loop over the extents of the indirect block behind the loop over the
direct extents, unless that one returned. -/
def copy_rest (wr : Bool) (fuel : Nat) (file : a1fs_inode) :
    Step rw_state (Res (Int × rw_state)) → Step rw_state (Res (Int × rw_state))
  | Step.ret r => Step.ret r
  | Step.brk s1 => forLoop (copy_indirect_step wr fuel file) 500 0 s1
  | Step.next s1 => forLoop (copy_indirect_step wr fuel file) 500 0 s1

/-- The part after the search: the data is moved extent by extent, starting at
`offset_extent`; control falls out at the end when the extents run out. -/
def copy_all (wr : Bool) (fuel : Nat) (file : a1fs_inode) (s : rw_state) :
    Step rw_state (Res (Int × rw_state)) :=
  if !s.in_indirect then
    copy_rest wr fuel file
      (forLoop (copy_direct_step wr fuel file) (13 - s.offset_extent) s.offset_extent s)
  else
    forLoop (fun i s1 =>
      if (ind_extent s1.mem file.indirect i).start ≠ 0 then
        copy_extent wr fuel (i = s1.offset_extent)
          (fun st => ind_extent st.mem file.indirect i) s1
      else Step.next s1) (500 - s.offset_extent) s.offset_extent s

/-- The start of the search for the offset. -/
def rw_start (mem buf : Nat → Nat) (size : Nat) : rw_state :=
  { mem := mem, buf := buf, bytes_left := i32 size, bytes_done := 0, bytes_read := 0,
    offset_extent := 0, offset_extent_count := 0, offset_extent_set := false,
    in_indirect := false, offset_found := false }

/-- The part after the search, unless the search returned. -/
def after_locate (wr : Bool) (fuel : Nat) (file : a1fs_inode) :
    Step rw_state (Res (Int × rw_state)) → Step rw_state (Res (Int × rw_state))
  | Step.ret r => Step.ret r
  | Step.brk s => copy_all wr fuel file s
  | Step.next s => copy_all wr fuel file s

/-- The body both functions share, from the declaration of `bytes_left_to_…`
to the last loop: `ret r` when one of the `return` statements inside the loops
was reached, `next` when control arrives at the final `return`. -/
def rw_walk (wr : Bool) (fuel : Nat) (file : a1fs_inode) (mem buf : Nat → Nat)
    (size offset : Nat) : Step rw_state (Res (Int × rw_state)) :=
  after_locate wr fuel file
    (whileLoop Res.nofuel (fun (s : rw_state) => decide (s.bytes_read < (offset : Int)))
      (locate_pass wr size offset file) fuel (rw_start mem buf size))

/-- The result is the return value and the caller's buffer after the call. -/
def a1fs_read (fuel : Nat) (env : Env) (fs : fs_ctx) (path : List Nat) (buf : Nat → Nat)
    (size offset : Nat) : Res (Int × (Nat → Nat)) :=
  let num := path_lookup fs path
  if num < 0 then Res.ok (-(env.errno : Int), buf)
  else
    let file := fs.itable num.toNat
    if u32 ((file.size : Int) - offset) = 0 then Res.ok (0, buf)
    else
      match rw_walk false fuel file fs.btable buf size offset with
      | Step.ret (Res.ok (r, s)) => Res.ok (r, s.buf)
      | Step.ret Res.fault => Res.fault
      | Step.ret Res.nofuel => Res.nofuel
      | Step.brk s | Step.next s => Res.ok (0, s.buf)

def a1fs_write (fuel : Nat) (env : Env) (fs : fs_ctx) (path : List Nat) (buf : Nat → Nat)
    (size offset : Nat) : Res (Int × fs_ctx) :=
  let num := path_lookup fs path
  if num = -1 then Res.ok (-(env.errno : Int), fs)
  else if num < 0 then Res.fault
  else
    let n := num.toNat
    let grown : Res fs_ctx :=
      if (fs.itable n).size < u64 (offset + size) then
        match a1fs_truncate fuel env fs path (offset + size) with
        | Res.ok (_, fs1) => Res.ok fs1
        | Res.fault => Res.fault
        | Res.nofuel => Res.nofuel
      else Res.ok fs
    match grown with
    | Res.ok fs1 =>
      match rw_walk true fuel (fs1.itable n) fs1.btable buf size offset with
      | Step.ret (Res.ok (r, s)) =>
        Res.ok (r, set_inode { fs1 with btable := s.mem } n { fs1.itable n with mtime := env.now })
      | Step.ret Res.fault => Res.fault
      | Step.ret Res.nofuel => Res.nofuel
      | Step.brk s | Step.next s => Res.ok (-ENOSYS, { fs1 with btable := s.mem })
    | Res.fault => Res.fault
    | Res.nofuel => Res.nofuel

/-! ## Directory entries as a list

The order in which the driver visits the entries of a directory, written as a
list of addresses; the theorems relate the loops of the driver to searches in
this list. -/

/-- The addresses of the 16 entries of data block `blk`. -/
def block_slots (blk : Nat) : List Nat := (List.range 16).map (dentry_addr blk)

/-- The addresses of the entries of the extent `ext`, block after block. -/
def extent_slots (ext : a1fs_extent) : List Nat :=
  (List.range (i32 ext.count).toNat).flatMap (fun f => block_slots (ext.start + f))

/-- The entries reached through the 12 direct extents of an inode record. -/
def direct_slots (ino : a1fs_inode) : List Nat :=
  (List.range 12).flatMap (fun e => extent_slots (ino.extent e))

/-- The entries reached through the 500 extents of the indirect block `blk`. -/
def indirect_slots (m : Nat → Nat) (blk : Nat) : List Nat :=
  (List.range 500).flatMap (fun e => extent_slots (ind_extent m blk e))

/-- All entries of the directory with inode record `ino` when the data region is
`m`: the direct ones, then those of the indirect block if there is one. -/
def slots_of (ino : a1fs_inode) (m : Nat → Nat) : List Nat :=
  direct_slots ino ++ (if ino.indirect ≠ 0 then indirect_slots m ino.indirect else [])

/-- All entries of directory `d` in the image `fs`. -/
def dir_slots (fs : fs_ctx) (d : Nat) : List Nat := slots_of (fs.itable d) fs.btable

/-- The entry at address `a` carries the name `name`. -/
def name_at (m : Nat → Nat) (a : Nat) (name : List Nat) : Bool :=
  str_eq m (dentry_name a) name

/-- The first entry of directory `d` that carries the name `name`. -/
def first_slot (fs : fs_ctx) (d : Nat) (name : List Nat) : Option Nat :=
  (dir_slots fs d).find? (fun a => name_at fs.btable a name)

/-- A path component: not empty, shorter than `A1FS_NAME_MAX`, without a zero
byte and without `/`. -/
def is_component (name : List Nat) : Prop :=
  name ≠ [] ∧ name.length < A1FS_NAME_MAX ∧ ∀ c ∈ name, c ≠ 0 ∧ c ≠ 47

/-- What `path_lookup` makes of the entry at `a` when it looks for `p`: on a
match it goes to the inode of the entry and sets `match`. -/
def slot_hit (fs : fs_ctx) (p : List Nat) (a : Nat) : Option lookup_state :=
  if name_at fs.btable a p then some ⟨dentry_ino fs.btable a, true⟩ else none

/-- The step of a search loop: `break` with what was found, or go on with the
state `s0`. -/
def search_step {σ ρ : Type} (s0 : σ) : Option σ → Step σ ρ
  | some t => Step.brk t
  | none => Step.next s0

/-- The loop of `wipe_extent` over the 16 entries of one block: the first entry
with the inode number `ino` is cleared. -/
def wipe_block (ino blk : Nat) (m : Nat → Nat) : Nat → Nat :=
  (forLoop (ρ := Unit) (fun i m2 =>
    if dentry_ino m2 (dentry_addr blk i) = ino then
      Step.brk (memset0 m2 (dentry_addr blk i) DENTRY_SIZE)
    else Step.next m2) 16 0 m).state m

/-- The image `fs1` has the inode table, the data region and the inode bitmap of
`fs`. -/
def same_dirs (fs fs1 : fs_ctx) : Prop :=
  fs1.itable = fs.itable ∧ fs1.btable = fs.btable ∧ fs1.ibitmap = fs.ibitmap

/-! ## Outcomes of the search for a free entry -/

/-- The search goes on in the image `fs`: nothing was changed and nothing was
found so far. -/
def searching (fs : fs_ctx) (s : insert_state) : Prop := s.fs = fs ∧ s.mtch = false

/-- The search stopped in the unchanged image `fs` at an entry of the list `l`
that passes the test `free`. -/
def found_in (fs : fs_ctx) (free : (Nat → Nat) → Nat → Bool) (l : List Nat)
    (s : insert_state) : Prop :=
  s.fs = fs ∧ s.mtch = true ∧ s.entry ∈ l ∧ free fs.btable s.entry = true

/-- The search ended at a direct extent `e` of the parent `num`: at an entry
with an empty name, or with a new block `b` for the extent, which was unused. -/
def direct_outcome (fs : fs_ctx) (v : insert_flavour) (num : Nat) (s : insert_state) : Prop :=
  ∃ e, e < 12 ∧
    (found_in fs name_is_empty (extent_slots ((fs.itable num).extent e)) s ∨
     (i32 ((fs.itable num).extent e).count = 0 ∧
      ∃ b, b < 4096 ∧ fs.bbitmap b = 0 ∧
        s = attach_direct (taken fs b v.wipe_direct) num e b v.twice))

/-- The search ended behind the direct extents of the parent `num`: with a new
indirect block `b` and a new block `c`, or at an extent `e` of the indirect
block, there at an entry with inode number 0 or with a new block `b` for the
extent, which was unused. -/
def indirect_outcome (fs : fs_ctx) (v : insert_flavour) (num : Nat) (s : insert_state) : Prop :=
  ((fs.itable num).indirect = 0 ∧
    ∃ b c, b ≠ 0 ∧ b < 4096 ∧ fs.bbitmap b = 0 ∧ c < 4096 ∧ c ≠ b ∧ fs.bbitmap c = 0 ∧
      s = attach_new_indirect (taken (taken fs b false) c false) num b c v.wipe_indirect) ∨
  ((fs.itable num).indirect ≠ 0 ∧
    ∃ e, e < 500 ∧
      (found_in fs ino_is_zero
          (extent_slots (ind_extent fs.btable (fs.itable num).indirect e)) s ∨
       (i32 (ind_extent fs.btable (fs.itable num).indirect e).count = 0 ∧
        ∃ b, b < 4096 ∧ fs.bbitmap b = 0 ∧
          s = attach_ind_extent (taken fs b true) num (fs.itable num).indirect e b)))

/-- The directory `d` is well formed in the image `fs`: the blocks of its
entries are marked in the block bitmap, and its indirect block, if it has one,
is marked and holds none of its entries. -/
def dir_ok (fs : fs_ctx) (d : Nat) : Prop :=
  (∀ a ∈ dir_slots fs d, fs.bbitmap (a / 4096) ≠ 0) ∧
  ((fs.itable d).indirect ≠ 0 →
    fs.bbitmap (fs.itable d).indirect ≠ 0 ∧
    ∀ a ∈ dir_slots fs d, a / 4096 ≠ (fs.itable d).indirect)

/-- The image `a1fs_truncate` leaves when the file `k` without a first extent
grows from size 0 to `n` bytes, less than a block, into the free block `j`. -/
def grown_into (env : Env) (fs : fs_ctx) (k j n : Nat) : fs_ctx :=
  set_inode
    (put_direct k 0
      { fs with bbitmap := upd fs.bbitmap j 1,
                btable := memset0 fs.btable (4096 * j) n } j 1)
    k
    { (put_direct k 0
        { fs with bbitmap := upd fs.bbitmap j 1,
                  btable := memset0 fs.btable (4096 * j) n } j 1).itable k with
      mtime := env.now, size := u64 n }

/-! ## Space accounting and occupancy -/

/-- The number of entries of a bitmap block that are not 0. -/
def count_set (map : Nat → Nat) : Nat :=
  ((List.range 4096).filter (fun i => map i != 0)).length

/-- The number of entries of directory `d` whose name is not empty. -/
def occupied (fs : fs_ctx) (d : Nat) : Nat :=
  ((dir_slots fs d).filter (fun a => !name_is_empty fs.btable a)).length

/-- The bitmap `bm1` is the bitmap `bm` with some free entries taken: every
entry that differs was 0 and is 1. -/
def only_taken (bm bm1 : Nat → Nat) : Prop :=
  ∀ i, bm1 i = bm i ∨ (bm i = 0 ∧ bm1 i = 1 ∧ i < 4096)

/-- Space accounting: the counters of the superblock are the numbers of set
entries of the two bitmaps. -/
def accounted (fs : fs_ctx) : Prop :=
  fs.sb.used_block_count = count_set fs.bbitmap ∧ fs.sb.used_inode_count = count_set fs.ibitmap

/-- The search for a free entry in the image `fs` ended with a `return` from
inside: with `-ENOSPC` or `-errno` and the image as it was, or in a fault. -/
def search_failed (env : Env) (fs : fs_ctx) (r : Res (Int × fs_ctx)) : Prop :=
  r = Res.ok (-ENOSPC, fs) ∨ r = Res.ok (-(env.errno : Int), fs) ∨ r = Res.fault ∨
    r = Res.nofuel

/-- The blocks of the extent `ext`, as the loops that release them index the
block bitmap: `start + f` for `f < count`. -/
def run_blocks (ext : a1fs_extent) : List Nat :=
  (List.range (i32 ext.count).toNat).map (fun f : Nat => (i32 ext.start + (f : Int)).toNat)

/-- The blocks of the inode record `ino` when the data region is `m`: those of
its 12 direct extents, and with an indirect block those of its 500 extents and
the block itself. -/
def inode_blocks (ino : a1fs_inode) (m : Nat → Nat) : List Nat :=
  (List.range 12).flatMap (fun e => run_blocks (ino.extent e)) ++
    (if ino.indirect ≠ 0 then
      (List.range 500).flatMap (fun e => run_blocks (ind_extent m ino.indirect e)) ++
        [ino.indirect]
     else [])

/-- The blocks of the inode `n` are pairwise different and marked in the block
bitmap, and the inode is marked in the inode bitmap. -/
def inode_live (fs : fs_ctx) (n : Nat) : Prop :=
  (inode_blocks (fs.itable n) fs.btable).Nodup ∧
  (∀ b ∈ inode_blocks (fs.itable n) fs.btable, fs.bbitmap b ≠ 0) ∧
  fs.ibitmap (fs.itable n).num ≠ 0

/-- The data region `m1` is `m` with some entries of 256 bytes cleared. -/
def cleared (m m1 : Nat → Nat) : Prop :=
  ∀ c, (∀ i, i < 256 → m1 (256 * c + i) = m (256 * c + i)) ∨
    (∀ i, i < 256 → m1 (256 * c + i) = 0)

/-- The counter `used_block_count` is the number of set entries of the block
bitmap, and the blocks of the list `l` are marked. -/
def blocks_counted (fs : fs_ctx) (l : List Nat) : Prop :=
  fs.sb.used_block_count = count_set fs.bbitmap ∧ ∀ b ∈ l, fs.bbitmap b ≠ 0

/-- The image `fs1` differs from `fs` in the block bitmap and the counter
`used_block_count` only. -/
def same_but_blocks (fs fs1 : fs_ctx) : Prop :=
  fs1.btable = fs.btable ∧ fs1.itable = fs.itable ∧ fs1.ibitmap = fs.ibitmap ∧
    fs1.sb.used_inode_count = fs.sb.used_inode_count

/-- The image after the parent of the removed inode `n` was updated: the data
region has entries cleared, the record `n` keeps its extents and its number, and
the bitmaps and the superblock are as before. -/
def parent_done (fs fsp : fs_ctx) (n : Nat) : Prop :=
  fsp.sb = fs.sb ∧ fsp.bbitmap = fs.bbitmap ∧ fsp.ibitmap = fs.ibitmap ∧
  cleared fs.btable fsp.btable ∧ (fsp.itable n).extent = (fs.itable n).extent ∧
  (fsp.itable n).indirect = (fs.itable n).indirect ∧ (fsp.itable n).num = (fs.itable n).num

/-- The number of blocks the extents of the inode record `ino` account for when
the data region is `m`: the sum of the `count` fields of its 12 direct extents
and, with an indirect block, of its 500 extents, plus 1 for the indirect block
itself. -/
def blocks_owned (ino : a1fs_inode) (m : Nat → Nat) : Nat :=
  ((List.range 12).map (fun e => (ino.extent e).count)).sum +
    (if ino.indirect ≠ 0 then
      ((List.range 500).map (fun e => (ind_extent m ino.indirect e).count)).sum + 1
     else 0)

/-- The record `r` is the record of a new, empty directory with the inode index
`k`, the block `b` and the parent `pnum`, made with the mode bits `mode`: a mode
with `S_IFDIR` that is not the mode of a regular file, two links, size 0, no
entries, one block in one extent, which is the first one, and no indirect
block. -/
def is_new_directory (r : a1fs_inode) (k b pnum mode : Nat) : Prop :=
  r.mode = mode ||| S_IFDIR ∧ S_ISREG r.mode = false ∧ r.links = 2 ∧ r.size = 0 ∧
  r.empty = 0 ∧ r.block_count = 1 ∧ r.extent_count = 1 ∧ r.indirect = 0 ∧
  r.extent 0 = ⟨b, 1⟩ ∧ (∀ e, 1 ≤ e → e < 12 → r.extent e = ⟨0, 0⟩) ∧
  r.num = k ∧ r.parent_num = pnum

/-- The number of extent slots of the inode record `ino` whose `count` is not 0
when the data region is `m`: among its 12 direct extents and, with an indirect
block, among the 500 extents of that block. -/
def extents_used (ino : a1fs_inode) (m : Nat → Nat) : Nat :=
  ((List.range 12).filter (fun e => (ino.extent e).count != 0)).length +
    (if ino.indirect ≠ 0 then
      ((List.range 500).filter (fun e => (ind_extent m ino.indirect e).count != 0)).length
     else 0)

/-- The state of the search for the offset in which nothing moves: `bytes_read`
is below the offset and in the same block, and the offset is not found. -/
def search_stuck (offset : Nat) (s : rw_state) : Prop :=
  s.bytes_read / 4096 = (offset : Int) / 4096 ∧ s.bytes_read < (offset : Int) ∧
    s.offset_found = false

/-! ## Scenarios

Images reached from a formatted image by calls of the driver; they serve as
concrete inputs below. -/

/-- The image of a call that returned, or the zeroed image if it did not. -/
def state_of : Res (Int × fs_ctx) → fs_ctx
  | Res.ok (_, fs) => fs
  | Res.fault => zero_image
  | Res.nofuel => zero_image

/-- The return value of a call, if it returned. -/
def ret_of {α : Type} : Res (Int × α) → Option Int
  | Res.ok (r, _) => some r
  | Res.fault => none
  | Res.nofuel => none

/-- The return value of a read and the first `n` bytes of the caller's buffer
after it. -/
def delivered (n : Nat) : Res (Int × (Nat → Nat)) → Res (Int × List Nat)
  | Res.ok (r, b) => Res.ok (r, (List.range n).map b)
  | Res.fault => Res.fault
  | Res.nofuel => Res.nofuel

/-- A buffer holding the bytes of a list (and zero behind them). -/
def buffer_of (l : List Nat) : Nat → Nat := fun i => l.getD i 0

/-- A caller's buffer before a read: every byte is 255. -/
def blank_buffer : Nat → Nat := fun _ => 255

def env0 : Env := ⟨⟨100, 0⟩, 5⟩

/-- The path `/a`. -/
def path_a : List Nat := [47, 97]
/-- The path `/x`. -/
def path_x : List Nat := [47, 120]
/-- The path `/d`. -/
def path_d : List Nat := [47, 100]
/-- The path `/d/f`. -/
def path_d_f : List Nat := [47, 100, 47, 102]
/-- The bytes of `hello`. -/
def hello : List Nat := [104, 101, 108, 108, 111]
/-- A regular file mode, `S_IFREG | 0644`. -/
def mode_file : Nat := 0o100644

/-- The zeroed image of 64 blocks formatted with 4 inodes. -/
def img64 : fs_ctx := (mkfs_main ⟨1, 0⟩ zero_image (64 * 4096) ⟨4, false, false, true⟩).2

/-- `img64` after `create("/a")`. -/
def img64_a : fs_ctx := state_of (a1fs_create env0 img64 path_a mode_file)

/-- `img64_a` after `write("/a", "hello", 5, 0)`. -/
def img64_hello : fs_ctx := state_of (a1fs_write 8 env0 img64_a path_a (buffer_of hello) 5 0)

/-- `img64_hello` after `truncate("/a", 2)`. -/
def img64_he : fs_ctx := state_of (a1fs_truncate 8 env0 img64_hello path_a 2)

/-- `img64_he` after `truncate("/a", 5)`. -/
def img64_he5 : fs_ctx := state_of (a1fs_truncate 8 env0 img64_he path_a 5)

/-- The zeroed image of 9 blocks formatted with 4 inodes: two data blocks are
counted, one of them is the root directory's. -/
def img9 : fs_ctx := (mkfs_main ⟨1, 0⟩ zero_image (9 * 4096) ⟨4, false, false, true⟩).2

/-- `img9` after `create("/a")` and a write of one block of the byte 120 at
offset 0: no data block is free any more. -/
def img9_full : fs_ctx :=
  state_of (a1fs_write 8 env0 (state_of (a1fs_create env0 img9 path_a mode_file)) path_a
    (fun _ => 120) 4096 0)

/-- `img9_full` after `write("/a", "hello", 5, 4096)`. -/
def img9_after : fs_ctx := state_of (a1fs_write 8 env0 img9_full path_a (buffer_of hello) 5 4096)

/-- `img64` after `create("/x")`, `truncate("/x", 8192)`, `mkdir("/d")`,
`create("/d/f")` and `unlink("/x")`: the blocks 1 and 2 are free again, block 3
holds the entries of `/d`. -/
def img64_d : fs_ctx :=
  state_of (a1fs_unlink env0
    (state_of (a1fs_create env0
      (state_of (a1fs_mkdir env0
        (state_of (a1fs_truncate 8 env0
          (state_of (a1fs_create env0 img64 path_x mode_file)) path_x 8192))
        path_d 0o755))
      path_d_f mode_file))
    path_x)

/-- The entries of directory `d` that carry the name `name`. -/
def slots_named (fs : fs_ctx) (d : Nat) (name : List Nat) : List Nat :=
  (dir_slots fs d).filter (fun a => name_at fs.btable a name)

/-- `img64` after `mkdir("/d")`. -/
def img64_dir : fs_ctx := state_of (a1fs_mkdir env0 img64 path_d 0o755)

/-- `img64_dir` after a second `mkdir("/d")`. -/
def img64_dir2 : fs_ctx := state_of (a1fs_mkdir env0 img64_dir path_d 0o755)

/-- `fs` after `truncate("/a", 1)`, ..., `truncate("/a", n)`. -/
def grow_stepwise (fs : fs_ctx) (n : Nat) : fs_ctx :=
  (List.range n).foldl (fun fs1 i => state_of (a1fs_truncate 8 env0 fs1 path_a (i + 1))) fs

/-- `img64_a` after the twelve calls `truncate("/a", 1)`, ..., `truncate("/a", 12)`:
every direct extent of `/a` holds one block. -/
def img64_a12 : fs_ctx := grow_stepwise img64_a 12

/-- `fs` after `create` of the `n` files `/a`, `/b`, ... in this order. -/
def create_files (fs : fs_ctx) (n : Nat) : fs_ctx :=
  (List.range n).foldl (fun fs1 i => state_of (a1fs_create env0 fs1 [47, 97 + i] mode_file)) fs

/-- The zeroed image of 64 blocks formatted with 32 inodes. -/
def img64_32 : fs_ctx := (mkfs_main ⟨1, 0⟩ zero_image (64 * 4096) ⟨32, false, false, true⟩).2

/-- `img64_32` after `create("/x")`, a write of one block of the byte 120 to
`/x`, and `unlink("/x")`: block 1 is free again and still holds the bytes. -/
def img64_stale : fs_ctx :=
  state_of (a1fs_unlink env0
    (state_of (a1fs_write 8 env0 (state_of (a1fs_create env0 img64_32 path_x mode_file)) path_x
      (fun _ => 120) 4096 0))
    path_x)

/-- `img64_stale` after `create` of the 16 files `/a`, ..., `/p`: the block of
the root directory is full. -/
def img64_full_dir : fs_ctx := create_files img64_stale 16

/-- The path `/q`. -/
def path_q : List Nat := [47, 113]

/-- The path `/a/x`. -/
def path_a_x : List Nat := [47, 97, 47, 120]

/-- The path `/zz/a`. -/
def path_zz_a : List Nat := [47, 122, 122, 47, 97]

/-- The path `/` followed by 252 times the letter `a`. -/
def path_long : List Nat := 47 :: List.replicate 252 97

/-- `img64_a` with an indirect block for the root directory: block 2 holds the
extent table, whose first extent is the block 3 without entries; both blocks
are marked and counted. -/
def img64_ind : fs_ctx :=
  { img64_a with
    sb := { img64_a.sb with used_block_count := 3 },
    bbitmap := upd (upd img64_a.bbitmap 2 1) 3 1,
    itable := upd img64_a.itable 0
      { img64_a.itable 0 with indirect := 2, block_count := 3, extent_count := 2 },
    btable := set_ind_count (set_ind_start img64_a.btable 2 0 3) 2 0 1 }

/-- `img64_ind` with a second entry named `a` in the block of the indirect
extent, for inode 2. -/
def img64_both : fs_ctx :=
  { img64_ind with btable := put_entry img64_ind.btable (dentry_addr 3 0) 2 [97] }

/-- The path `/`. -/
def path_root : List Nat := [47]

/-- The freshly formatted image after `rmdir("/")`: the call returns 0, the
record of the root directory is cleared and its inode and block are released. -/
def img64_gone : fs_ctx := state_of (a1fs_rmdir env0 img64 path_root)

/-- The freshly formatted image after `create("/x")` and `create("/a")`: the
files have the inodes 1 and 2. -/
def img64_xa : fs_ctx :=
  state_of (a1fs_create env0 (state_of (a1fs_create env0 img64 path_x mode_file)) path_a mode_file)

/-- `img64_xa` after `truncate("/x", 1)` and `truncate("/a", 4096)`: `/x` holds
block 1 and `/a` holds block 2. -/
def img64_a_block2 : fs_ctx :=
  state_of (a1fs_truncate 8 env0 (state_of (a1fs_truncate 8 env0 img64_xa path_x 1)) path_a 4096)

/-- `img64_a_block2` after `truncate("/a", 0)`. -/
def img64_a_cut : fs_ctx := state_of (a1fs_truncate 8 env0 img64_a_block2 path_a 0)

/-- `img64_xa` after twelve calls `truncate("/a", 1)`, ..., `truncate("/a", 12)`
(the blocks 1 to 12), a write of eight bytes 120 to `/x` (block 13) and
`unlink("/x")`: block 13 is free again and starts with the eight bytes. -/
def img64_stale13 : fs_ctx :=
  state_of (a1fs_unlink env0
    (state_of (a1fs_write 8 env0 (grow_stepwise img64_xa 12) path_x
      (buffer_of (List.replicate 8 120)) 8 0))
    path_x)

/-- The freshly formatted image with the counter `empty` of the root directory
at its largest value. -/
def img64_max : fs_ctx :=
  { img64 with itable := upd img64.itable 0 { img64.itable 0 with empty := 4294967295 } }

/-- The image with the directory `/d` (inode 1) where the entry of inode 1 in
the inode bitmap is 0 and not counted. -/
def img64_unmarked : fs_ctx :=
  { img64_dir with ibitmap := upd img64_dir.ibitmap 1 0,
                   sb := { img64_dir.sb with used_inode_count := 1 } }

/-- The path `/d/x`. -/
def path_d_x : List Nat := [47, 100, 47, 120]

/-- The image with the file `/a` formatted again with the option `-f` and
without the option `-z`. -/
def img64_a_again : fs_ctx :=
  (mkfs_main ⟨2, 0⟩ img64_a (64 * 4096) ⟨4, false, true, false⟩).2

/-- The path `/y`. -/
def path_y : List Nat := [47, 121]

/-- The freshly formatted image after `create("/x")`, `create("/y")`,
`truncate("/x", 1)` (block 1), `truncate("/y", 1)` (block 2), `unlink("/x")` and
`create("/a")`: block 1 is free, block 2 belongs to `/y`, block 3 is free. -/
def img64_gap : fs_ctx :=
  state_of (a1fs_create env0
    (state_of (a1fs_unlink env0
      (state_of (a1fs_truncate 8 env0
        (state_of (a1fs_truncate 8 env0
          (state_of (a1fs_create env0 (state_of (a1fs_create env0 img64 path_x mode_file))
            path_y mode_file))
          path_x 1))
        path_y 1))
      path_x))
    path_a mode_file)

/-- `img64_a` after a write of one block of the byte 120 at offset 0. -/
def img64_block_x : fs_ctx := state_of (a1fs_write 8 env0 img64_a path_a (fun _ => 120) 4096 0)

/-- `img64_block_x` after a write of one block of the byte 121 at offset 4096. -/
def img64_block_xy : fs_ctx :=
  state_of (a1fs_write 8 env0 img64_block_x path_a (fun _ => 121) 4096 4096)

/-- Five bytes that read as a directory entry: the inode number 1 and the name
`n`. -/
def fake_entry : List Nat := [1, 0, 0, 0, 110]

/-- The path `/d/n`. -/
def path_d_n : List Nat := [47, 100, 47, 110]

/-- The freshly formatted image after `create("/x")`, a write of the five bytes
`fake_entry` to `/x` (block 1) and `unlink("/x")`: block 1 is free again and
still holds the bytes. -/
def img64_fake : fs_ctx :=
  state_of (a1fs_unlink env0
    (state_of (a1fs_write 8 env0 (state_of (a1fs_create env0 img64 path_x mode_file)) path_x
      (buffer_of fake_entry) 5 0))
    path_x)

/-- `img64_fake` after `mkdir("/d")`. -/
def img64_fake_d : fs_ctx := state_of (a1fs_mkdir env0 img64_fake path_d 0o755)

/-- The image with 32 inodes after `create` of the 16 files `/a`, ..., `/p`: the
block of the root directory is full. -/
def img64_16 : fs_ctx := create_files img64_32 16

/-! ## Theorems -/

/-! ### Loops -/

theorem forLoop_succ {σ ρ : Type} (body : Nat → σ → Step σ ρ) (n i : Nat) (s : σ) :
    forLoop body (n + 1) i s =
      match body i s with
      | Step.next s1 => forLoop body n (i + 1) s1
      | Step.brk s1 => Step.next s1
      | Step.ret r => Step.ret r := rfl

/-- A loop whose body either leaves the state `s0` as it is or breaks with a
state that depends on the index only is a search for the first index that
breaks. -/
theorem forLoop_search {σ ρ : Type} (body : Nat → σ → Step σ ρ) (s0 : σ) (hit : Nat → Option σ)
    (hbody : ∀ i, body i s0 = search_step s0 (hit i)) :
    ∀ n i, forLoop body n i s0 = Step.next (((List.range' i n).findSome? hit).getD s0) := by
  intro n
  induction n with
  | zero => intro i; simp [forLoop]
  | succ n ih =>
    intro i
    rw [forLoop_succ, hbody i, List.range'_succ, List.findSome?_cons]
    cases h : hit i with
    | some t => simp [search_step]
    | none => simp [search_step, ih]

theorem forLoop_search_zero {σ ρ : Type} (body : Nat → σ → Step σ ρ) (s0 : σ)
    (hit : Nat → Option σ) (hbody : ∀ i, body i s0 = search_step s0 (hit i)) (n : Nat) :
    forLoop body n 0 s0 = Step.next (((List.range n).findSome? hit).getD s0) := by
  rw [forLoop_search body s0 hit hbody n 0, List.range_eq_range']

/-- A loop whose body never breaks nor returns is a fold. -/
theorem forLoop_fold {σ ρ : Type} (body : Nat → σ → Step σ ρ) (g : Nat → σ → σ)
    (hbody : ∀ i s, body i s = Step.next (g i s)) :
    ∀ n i s, forLoop body n i s = Step.next ((List.range' i n).foldl (fun s i => g i s) s) := by
  intro n
  induction n with
  | zero => intro i s; simp [forLoop]
  | succ n ih =>
    intro i s
    rw [forLoop_succ, hbody i s, List.range'_succ, List.foldl_cons]
    exact ih (i + 1) (g i s)

theorem forLoop_fold_zero {σ ρ : Type} (body : Nat → σ → Step σ ρ) (g : Nat → σ → σ)
    (hbody : ∀ i s, body i s = Step.next (g i s)) (n : Nat) (s : σ) :
    forLoop body n 0 s = Step.next ((List.range n).foldl (fun s i => g i s) s) := by
  rw [forLoop_fold body g hbody n 0 s, List.range_eq_range']

/-- A finished loop never hands a `break` on. -/
theorem forLoop_ne_brk {σ ρ : Type} (body : Nat → σ → Step σ ρ) :
    ∀ n i s s1, forLoop body n i s ≠ Step.brk s1 := by
  intro n
  induction n with
  | zero => intro i s s1 h; cases h
  | succ n ih =>
    intro i s s1
    rw [forLoop_succ]
    cases hb : body i s with
    | next s2 => exact ih (i + 1) s2 s1
    | brk s2 => intro h; cases h
    | ret r => intro h; cases h

/-- Invariant rule for a loop: `I` holds in front of every pass, `Q` after a
`break`, `R` for a value returned from inside the loop. -/
theorem forLoop_inv {σ ρ : Type} (body : Nat → σ → Step σ ρ) (I : Nat → σ → Prop)
    (Q : σ → Prop) (R : ρ → Prop)
    (hnext : ∀ i s s1, I i s → body i s = Step.next s1 → I (i + 1) s1)
    (hbrk : ∀ i s s1, I i s → body i s = Step.brk s1 → Q s1)
    (hret : ∀ i s r, I i s → body i s = Step.ret r → R r) :
    ∀ n i s, I i s →
      (∀ s1, forLoop body n i s = Step.next s1 → I (i + n) s1 ∨ Q s1) ∧
      (∀ r, forLoop body n i s = Step.ret r → R r) := by
  intro n
  induction n with
  | zero =>
    intro i s h
    refine ⟨?_, ?_⟩
    · intro s1 h1
      cases h1
      exact Or.inl h
    · intro r h1
      cases h1
  | succ n ih =>
    intro i s h
    rw [forLoop_succ]
    cases hb : body i s with
    | next s2 =>
      have := ih (i + 1) s2 (hnext i s s2 h hb)
      rw [show i + (n + 1) = i + 1 + n by omega]
      exact this
    | brk s2 =>
      refine ⟨?_, ?_⟩
      · intro s1 h1
        cases h1
        exact Or.inr (hbrk i s s2 h hb)
      · intro r h1
        cases h1
    | ret r =>
      refine ⟨?_, ?_⟩
      · intro s1 h1
        cases h1
      · intro r1 h1
        cases h1
        exact hret i s r h hb

/-! ### Lists -/

theorem findSome?_flatMap_eq {α β γ : Type} (l : List α) (g : α → List β) (f : β → Option γ) :
    (l.flatMap g).findSome? f = l.findSome? (fun x => (g x).findSome? f) := by
  induction l with
  | nil => rfl
  | cons x xs ih =>
    rw [List.flatMap_cons, List.findSome?_append, List.findSome?_cons, ih]
    cases (g x).findSome? f <;> rfl

theorem findSome?_ite_eq_find? {α β : Type} (l : List α) (p : α → Bool) (F : α → β) :
    l.findSome? (fun a => if p a then some (F a) else none) = (l.find? p).map F := by
  induction l with
  | nil => rfl
  | cons x xs ih =>
    rw [List.findSome?_cons, List.find?_cons]
    cases h : p x <;> simp [ih]

/-- The first element with `p` in `pre ++ a :: post` is `a` when `a` has `p` and
every element of `pre` with `p` equals `a`. -/
theorem find?_first {α : Type} (p : α → Bool) (a : α) (pre post : List α) (ha : p a = true)
    (hpre : ∀ b ∈ pre, p b = true → b = a) : (pre ++ a :: post).find? p = some a := by
  induction pre with
  | nil => simp [ha]
  | cons x xs ih =>
    rw [List.cons_append, List.find?_cons]
    cases hx : p x with
    | true =>
      have := hpre x (List.mem_cons_self _ _) hx
      simp [this]
    | false => exact ih (fun b hb => hpre b (List.mem_cons_of_mem _ hb))

theorem find?_unique {α : Type} (p : α → Bool) (a : α) (l : List α) (hmem : a ∈ l)
    (ha : p a = true) (huniq : ∀ b ∈ l, p b = true → b = a) : l.find? p = some a := by
  obtain ⟨pre, post, rfl⟩ := List.append_of_mem hmem
  exact find?_first p a pre post ha
    (fun b hb => huniq b (List.mem_append_left _ hb))

theorem find?_none_of_forall {α : Type} (p : α → Bool) (l : List α)
    (h : ∀ b ∈ l, p b = false) : l.find? p = none := by
  rw [List.find?_eq_none]
  intro b hb
  simp [h b hb]

/-! ### Bytes -/

theorem upd_same {α : Type} (f : Nat → α) (i : Nat) (v : α) : upd f i v i = v := by
  simp [upd]

theorem upd_other {α : Type} (f : Nat → α) (i j : Nat) (v : α) (h : j ≠ i) :
    upd f i v j = f j := by
  simp [upd, h]

theorem str_eq_congr (m m1 : Nat → Nat) (s : List Nat) :
    ∀ a, (∀ x, a ≤ x → x ≤ a + s.length → m1 x = m x) → str_eq m1 a s = str_eq m a s := by
  induction s with
  | nil => intro a h; simp [str_eq, h a (Nat.le_refl _) (by simp)]
  | cons c cs ih =>
    intro a h
    simp only [str_eq]
    rw [h a (Nat.le_refl _) (by simp), ih (a + 1)]
    intro x h1 h2
    exact h x (by omega) (by simp only [List.length_cons]; omega)

theorem write_bytes_outside (l : List Nat) :
    ∀ (m : Nat → Nat) (a x : Nat), x < a ∨ a + l.length ≤ x → write_bytes m a l x = m x := by
  induction l with
  | nil => intro m a x _; rfl
  | cons c cs ih =>
    intro m a x h
    simp only [write_bytes]
    rw [ih (upd m a c) (a + 1) x (by simp only [List.length_cons] at h; omega)]
    exact upd_other m a x c (by simp only [List.length_cons] at h; omega)

theorem strcpy_outside (m : Nat → Nat) (a : Nat) (s : List Nat) (x : Nat)
    (h : x < a ∨ a + s.length + 1 ≤ x) : strcpy m a s x = m x := by
  unfold strcpy
  exact write_bytes_outside _ m a x (by simp only [List.length_append, List.length_singleton]; omega)

theorem str_eq_strcpy (s : List Nat) : ∀ (m : Nat → Nat) (a : Nat), str_eq (strcpy m a s) a s = true := by
  induction s with
  | nil =>
    intro m a
    simp [str_eq, strcpy, write_bytes, upd]
  | cons c cs ih =>
    intro m a
    have h1 : strcpy m a (c :: cs) = strcpy (upd m a c) (a + 1) cs := rfl
    simp only [str_eq]
    rw [h1, ih, strcpy_outside _ _ _ _ (Or.inl (Nat.lt_succ_self a)), upd_same]
    simp

theorem rd32_congr (m m1 : Nat → Nat) (a : Nat) (h : ∀ x, a ≤ x → x < a + 4 → m1 x = m x) :
    rd32 m1 a = rd32 m a := by
  unfold rd32
  rw [h a (by omega) (by omega), h (a + 1) (by omega) (by omega),
    h (a + 2) (by omega) (by omega), h (a + 3) (by omega) (by omega)]

theorem wr32_outside (m : Nat → Nat) (a v x : Nat) (h : x < a ∨ a + 4 ≤ x) :
    wr32 m a v x = m x := by
  unfold wr32
  rw [if_neg (by omega), if_neg (by omega), if_neg (by omega), if_neg (by omega)]

theorem rd32_wr32 (m : Nat → Nat) (a v : Nat) (hv : v < 4294967296) : rd32 (wr32 m a v) a = v := by
  unfold rd32 wr32
  have h1 : ¬ a + 1 = a := by omega
  have h2 : ¬ a + 2 = a := by omega
  have h3 : ¬ a + 2 = a + 1 := by omega
  have h4 : ¬ a + 3 = a := by omega
  have h5 : ¬ a + 3 = a + 1 := by omega
  have h6 : ¬ a + 3 = a + 2 := by omega
  simp only [if_true, if_false, h1, h2, h3, h4, h5, h6]
  omega

theorem memset0_outside (m : Nat → Nat) (a len x : Nat) (h : x < a ∨ a + len ≤ x) :
    memset0 m a len x = m x := by
  unfold memset0
  rw [if_neg (by omega)]

theorem memset0_inside (m : Nat → Nat) (a len x : Nat) (h1 : a ≤ x) (h2 : x < a + len) :
    memset0 m a len x = 0 := by
  unfold memset0
  rw [if_pos ⟨h1, h2⟩]

theorem put_entry_outside (m : Nat → Nat) (entry inode : Nat) (name : List Nat) (x : Nat)
    (h : x < entry ∨ entry + 5 + name.length ≤ x) : put_entry m entry inode name x = m x := by
  unfold put_entry dentry_name
  rw [strcpy_outside _ _ _ _ (by omega), wr32_outside _ _ _ _ (by omega)]

theorem dentry_ino_put_entry (m : Nat → Nat) (entry inode : Nat) (name : List Nat)
    (h : inode < 4294967296) : dentry_ino (put_entry m entry inode name) entry = inode := by
  unfold dentry_ino put_entry dentry_name
  rw [rd32_congr (wr32 m entry inode) _ entry
        (fun x _ h2 => strcpy_outside _ _ _ _ (Or.inl (by omega)))]
  exact rd32_wr32 m entry inode h

theorem name_at_put_entry (m : Nat → Nat) (entry inode : Nat) (name : List Nat) :
    name_at (put_entry m entry inode name) entry name = true := by
  unfold name_at put_entry
  exact str_eq_strcpy name _ _

/-- The name test at `a` reads the bytes `a + 4 .. a + 4 + length` only. -/
theorem name_at_congr (m m1 : Nat → Nat) (a : Nat) (name : List Nat)
    (h : ∀ x, a + 4 ≤ x → x ≤ a + 4 + name.length → m1 x = m x) :
    name_at m1 a name = name_at m a name := by
  unfold name_at dentry_name
  exact str_eq_congr m m1 name (a + 4) h

/-- An entry whose first name byte is zero carries no component. -/
theorem name_at_of_zero (m : Nat → Nat) (a : Nat) (name : List Nat) (hname : is_component name)
    (h : m (a + 4) = 0) : name_at m a name = false := by
  obtain ⟨hne, _, hc⟩ := hname
  cases name with
  | nil => exact absurd rfl hne
  | cons c cs =>
    have := (hc c (List.mem_cons_self _ _)).1
    simp only [name_at, dentry_name, str_eq, h]
    simp
    intro h0
    exact absurd h0.symm this

/-! ### Addresses of entries -/

theorem mem_block_slots (blk a : Nat) :
    a ∈ block_slots blk ↔ ∃ i, i < 16 ∧ a = 4096 * blk + 256 * i := by
  unfold block_slots dentry_addr A1FS_BLOCK_SIZE DENTRY_SIZE
  simp only [List.mem_map, List.mem_range]
  constructor
  · rintro ⟨i, hi, rfl⟩; exact ⟨i, hi, rfl⟩
  · rintro ⟨i, hi, rfl⟩; exact ⟨i, hi, rfl⟩

theorem mem_extent_slots (ext : a1fs_extent) (a : Nat) :
    a ∈ extent_slots ext ↔
      ∃ f i : Nat, (f : Int) < i32 ext.count ∧ i < 16 ∧ a = 4096 * (ext.start + f) + 256 * i := by
  unfold extent_slots
  simp only [List.mem_flatMap, List.mem_range, mem_block_slots]
  constructor
  · rintro ⟨f, hf, i, hi, rfl⟩
    exact ⟨f, i, by omega, hi, rfl⟩
  · rintro ⟨f, i, hf, hi, rfl⟩
    exact ⟨f, by omega, i, hi, rfl⟩

theorem mem_direct_slots (ino : a1fs_inode) (a : Nat) :
    a ∈ direct_slots ino ↔ ∃ e, e < 12 ∧ a ∈ extent_slots (ino.extent e) := by
  unfold direct_slots
  simp only [List.mem_flatMap, List.mem_range]

theorem mem_indirect_slots (m : Nat → Nat) (blk a : Nat) :
    a ∈ indirect_slots m blk ↔ ∃ e, e < 500 ∧ a ∈ extent_slots (ind_extent m blk e) := by
  unfold indirect_slots
  simp only [List.mem_flatMap, List.mem_range]

/-- Every entry address is a multiple of the entry size. -/
theorem extent_slots_aligned (ext : a1fs_extent) (a : Nat) (h : a ∈ extent_slots ext) :
    a % 256 = 0 := by
  obtain ⟨f, i, _, _, rfl⟩ := (mem_extent_slots ext a).1 h
  omega

theorem slots_of_aligned (ino : a1fs_inode) (m : Nat → Nat) (a : Nat) (h : a ∈ slots_of ino m) :
    a % 256 = 0 := by
  unfold slots_of at h
  rcases List.mem_append.1 h with h | h
  · obtain ⟨e, _, he⟩ := (mem_direct_slots ino a).1 h
    exact extent_slots_aligned _ a he
  · split at h
    · obtain ⟨e, _, he⟩ := (mem_indirect_slots m _ a).1 h
      exact extent_slots_aligned _ a he
    · simp at h

/-! ### `path_lookup` as a search in the list of entries -/

theorem slot_hit_mtch (fs : fs_ctx) (p : List Nat) (l : List Nat) (t : lookup_state)
    (h : l.findSome? (slot_hit fs p) = some t) : t.mtch = true := by
  obtain ⟨a, _, ha⟩ := List.exists_of_findSome?_eq_some h
  unfold slot_hit at ha
  split at ha
  · cases ha; rfl
  · cases ha

theorem break_if_match_found {ρ : Type} (c : Nat) (o : Option lookup_state)
    (ho : ∀ t, o = some t → t.mtch = true) :
    break_if_match (ρ := ρ) (Step.next (o.getD ⟨c, false⟩)) = search_step ⟨c, false⟩ o := by
  cases o with
  | none => rfl
  | some t =>
    have := ho t rfl
    simp only [Option.getD_some, break_if_match, this, if_true, search_step]

theorem lookup_block_eq (fs : fs_ctx) (p : List Nat) (blk c : Nat) :
    lookup_block fs p blk ⟨c, false⟩ =
      Step.next (((block_slots blk).findSome? (slot_hit fs p)).getD ⟨c, false⟩) := by
  unfold lookup_block
  rw [forLoop_search_zero _ ⟨c, false⟩ (fun i => slot_hit fs p (dentry_addr blk i))]
  · rw [block_slots, List.findSome?_map]
    rfl
  · intro i
    unfold slot_hit name_at search_step
    split <;> rfl

theorem lookup_extent_eq (fs : fs_ctx) (p : List Nat) (ext : a1fs_extent) (c : Nat) :
    lookup_extent fs p ext ⟨c, false⟩ =
      search_step ⟨c, false⟩ ((extent_slots ext).findSome? (slot_hit fs p)) := by
  unfold lookup_extent
  by_cases h0 : i32 ext.count = 0
  · rw [if_pos h0]
    have : extent_slots ext = [] := by
      unfold extent_slots
      rw [h0]
      rfl
    rw [this]
    rfl
  · rw [if_neg h0]
    rw [forLoop_search_zero _ ⟨c, false⟩
        (fun f => (block_slots (ext.start + f)).findSome? (slot_hit fs p))]
    · rw [extent_slots, findSome?_flatMap_eq]
      apply break_if_match_found
      intro t ht
      obtain ⟨f, _, hf⟩ := List.exists_of_findSome?_eq_some ht
      exact slot_hit_mtch fs p _ t hf
    · intro f
      rw [lookup_block_eq]
      exact break_if_match_found c _ (fun t ht => slot_hit_mtch fs p _ t ht)

theorem lookup_direct_eq (fs : fs_ctx) (p : List Nat) (c : Nat) :
    lookup_direct fs p ⟨c, false⟩ =
      Step.next (((direct_slots (fs.itable c)).findSome? (slot_hit fs p)).getD ⟨c, false⟩) := by
  unfold lookup_direct
  rw [forLoop_search_zero _ ⟨c, false⟩
    (fun e => (extent_slots ((fs.itable c).extent e)).findSome? (slot_hit fs p))]
  · rw [direct_slots, findSome?_flatMap_eq]
  · intro e
    exact lookup_extent_eq fs p _ c

theorem lookup_indirect_eq (fs : fs_ctx) (p : List Nat) (blk c : Nat) :
    lookup_indirect fs p blk ⟨c, false⟩ =
      Step.next (((indirect_slots fs.btable blk).findSome? (slot_hit fs p)).getD ⟨c, false⟩) := by
  unfold lookup_indirect
  rw [forLoop_search_zero _ ⟨c, false⟩
    (fun e => (extent_slots (ind_extent fs.btable blk e)).findSome? (slot_hit fs p))]
  · rw [indirect_slots, findSome?_flatMap_eq]
  · intro e
    exact lookup_extent_eq fs p _ c

theorem strtok_aux_component (name : List Nat) (h : ∀ c ∈ name, c ≠ 47) :
    ∀ cur, strtok_aux name cur =
      if cur.reverse ++ name = [] then [] else [cur.reverse ++ name] := by
  induction name with
  | nil => intro cur; simp [strtok_aux]
  | cons c cs ih =>
    intro cur
    have hc : c ≠ 47 := h c (List.mem_cons_self _ _)
    simp only [strtok_aux, if_neg hc]
    rw [ih (fun d hd => h d (List.mem_cons_of_mem _ hd))]
    simp

theorem strtok_single (name : List Nat) (hne : name ≠ []) (h : ∀ c ∈ name, c ≠ 47) :
    strtok (47 :: name) = [name] := by
  unfold strtok
  simp only [strtok_aux, if_true]
  rw [strtok_aux_component name h]
  simp [hne]

theorem lookup_walk_nil (fs : fs_ctx) (s : lookup_state) :
    lookup_walk fs [] s = if s.mtch then i32 (fs.itable s.block_inode).num else -1 := rfl

theorem lookup_walk_cons (fs : fs_ctx) (p : List Nat) (ps : List (List Nat)) (s : lookup_state) :
    lookup_walk fs (p :: ps) s =
      if ((lookup_direct fs p s).state s).mtch then
        lookup_walk fs ps ((lookup_direct fs p s).state s)
      else if (fs.itable ((lookup_direct fs p s).state s).block_inode).indirect ≠ 0 then
        lookup_walk fs ps
          ((lookup_indirect fs p
              (fs.itable ((lookup_direct fs p s).state s).block_inode).indirect
              ((lookup_direct fs p s).state s)).state ((lookup_direct fs p s).state s))
      else -1 := rfl

theorem slot_hit_find (fs : fs_ctx) (name : List Nat) (l : List Nat) :
    l.findSome? (slot_hit fs name) =
      (l.find? (fun a => name_at fs.btable a name)).map
        (fun a => (⟨dentry_ino fs.btable a, true⟩ : lookup_state)) :=
  findSome?_ite_eq_find? l _ _

theorem state_next {σ ρ : Type} (d s : σ) : Step.state (ρ := ρ) d (Step.next s) = s := rfl

/-- Resolution of a path with one component: the first entry of the root that
carries the name decides. -/
theorem path_lookup_single (fs : fs_ctx) (name : List Nat) (hname : is_component name) :
    path_lookup fs (47 :: name) =
      ((first_slot fs 0 name).map
        (fun a => i32 (fs.itable (dentry_ino fs.btable a)).num)).getD (-1) := by
  obtain ⟨hne, _, hc⟩ := hname
  unfold path_lookup
  rw [if_neg (by simp), if_neg (by simpa using hne),
    strtok_single name hne (fun c h => (hc c h).2), lookup_walk_cons, lookup_direct_eq,
    slot_hit_find, state_next]
  unfold first_slot dir_slots slots_of
  rw [List.find?_append]
  cases h1 : (direct_slots (fs.itable 0)).find? (fun a => name_at fs.btable a name) with
  | some a =>
    rw [Option.map_some', Option.getD_some, if_pos rfl, lookup_walk_nil, if_pos rfl,
      Option.or_some, Option.map_some', Option.getD_some]
  | none =>
    rw [Option.map_none', Option.getD_none, if_neg (by simp), Option.none_or]
    by_cases hind : (fs.itable 0).indirect ≠ 0
    · rw [if_pos hind, if_pos hind, lookup_indirect_eq, slot_hit_find, state_next,
        lookup_walk_nil]
      cases h2 : (indirect_slots fs.btable (fs.itable 0).indirect).find?
          (fun a => name_at fs.btable a name) with
      | some a =>
        rw [Option.map_some', Option.getD_some, if_pos rfl, Option.map_some', Option.getD_some]
      | none =>
        rw [Option.map_none', Option.getD_none, if_neg (by simp), Option.map_none',
          Option.getD_none]
    · rw [if_neg hind, if_neg hind, List.find?_nil, Option.map_none', Option.getD_none]

/-! ### Clearing the entries of an inode number (`a1fs_unlink`) -/

theorem flatMap_congr_mem {α β : Type} (l : List α) (f g : α → List β)
    (h : ∀ a ∈ l, f a = g a) : l.flatMap f = l.flatMap g := by
  induction l with
  | nil => rfl
  | cons x xs ih =>
    rw [List.flatMap_cons, List.flatMap_cons, h x (List.mem_cons_self _ _),
      ih (fun a ha => h a (List.mem_cons_of_mem _ ha))]

theorem ind_extent_congr (m m1 : Nat → Nat) (blk e : Nat)
    (h : ∀ x, 4096 * blk + 8 * e ≤ x → x < 4096 * blk + 8 * e + 8 → m1 x = m x) :
    ind_extent m1 blk e = ind_extent m blk e := by
  unfold ind_extent A1FS_BLOCK_SIZE
  rw [rd32_congr m m1 _ (fun x h1 h2 => h x (by omega) (by omega)),
    rd32_congr m m1 _ (fun x h1 h2 => h x (by omega) (by omega))]

/-- The entries of a directory depend on the data region through its indirect
block only. -/
theorem indirect_slots_congr (m m1 : Nat → Nat) (blk : Nat)
    (h : ∀ x, 4096 * blk ≤ x → x < 4096 * blk + 4096 → m1 x = m x) :
    indirect_slots m1 blk = indirect_slots m blk := by
  unfold indirect_slots
  apply flatMap_congr_mem
  intro e he
  have he1 := List.mem_range.1 he
  rw [ind_extent_congr m m1 _ e (fun x h1 h2 => h x (by omega) (by omega))]

theorem slots_of_congr (ino : a1fs_inode) (m m1 : Nat → Nat)
    (h : ino.indirect ≠ 0 →
      ∀ x, 4096 * ino.indirect ≤ x → x < 4096 * ino.indirect + 4096 → m1 x = m x) :
    slots_of ino m1 = slots_of ino m := by
  unfold slots_of
  by_cases hind : ino.indirect ≠ 0
  · rw [if_pos hind, if_pos hind, indirect_slots_congr m m1 _ (h hind)]
  · rw [if_neg hind, if_neg hind]

theorem memset0_idem (m : Nat → Nat) (a len : Nat) :
    memset0 (memset0 m a len) a len = memset0 m a len := by
  funext x
  unfold memset0
  split <;> rfl

theorem dentry_ino_memset0_other (m : Nat → Nat) (A a : Nat) (hA : A % 256 = 0)
    (ha : a % 256 = 0) (hne : a ≠ A) :
    dentry_ino (memset0 m A 256) a = dentry_ino m a := by
  unfold dentry_ino
  exact rd32_congr m _ a (fun x h1 h2 => memset0_outside m A 256 x (by omega))

theorem name_at_memset0_other (m : Nat → Nat) (A a : Nat) (name : List Nat)
    (hlen : name.length < 252) (hA : A % 256 = 0) (ha : a % 256 = 0) (hne : a ≠ A) :
    name_at (memset0 m A 256) a name = name_at m a name :=
  name_at_congr m _ a name (fun x h1 h2 => memset0_outside m A 256 x (by omega))

theorem block_slots_aligned (blk a : Nat) (h : a ∈ block_slots blk) : a % 256 = 0 := by
  obtain ⟨i, _, rfl⟩ := (mem_block_slots blk a).1 h
  omega

theorem wipe_block_eq (ino blk : Nat) (m : Nat → Nat) :
    forLoop (ρ := Unit) (fun i m2 =>
      if dentry_ino m2 (dentry_addr blk i) = ino then
        Step.brk (memset0 m2 (dentry_addr blk i) DENTRY_SIZE)
      else Step.next m2) 16 0 m = Step.next (wipe_block ino blk m) := by
  unfold wipe_block
  rw [forLoop_search_zero _ m
    (fun i => if dentry_ino m (dentry_addr blk i) = ino then
                some (memset0 m (dentry_addr blk i) DENTRY_SIZE) else none)
    (by
      intro i
      show _ = search_step m (if dentry_ino m (dentry_addr blk i) = ino then
                some (memset0 m (dentry_addr blk i) DENTRY_SIZE) else none)
      split <;> rfl), state_next]

theorem wipe_block_find (ino blk : Nat) (m : Nat → Nat) :
    wipe_block ino blk m =
      (((block_slots blk).find? (fun a => decide (dentry_ino m a = ino))).map
        (fun a => memset0 m a 256)).getD m := by
  unfold wipe_block
  rw [forLoop_search_zero _ m
    (fun i => if decide (dentry_ino m (dentry_addr blk i) = ino) = true then
                some (memset0 m (dentry_addr blk i) 256) else none)
    (by
      intro i
      show _ = search_step m (if decide (dentry_ino m (dentry_addr blk i) = ino) = true then
                some (memset0 m (dentry_addr blk i) 256) else none)
      by_cases h : dentry_ino m (dentry_addr blk i) = ino
      · rw [if_pos h, if_pos (decide_eq_true h)]; rfl
      · rw [if_neg h, if_neg (by simpa using h)]; rfl), state_next,
    findSome?_ite_eq_find? (List.range 16)
      (fun i => decide (dentry_ino m (dentry_addr blk i) = ino))
      (fun i => memset0 m (dentry_addr blk i) 256)]
  unfold block_slots
  rw [List.find?_map, Option.map_map]
  rfl

theorem wipe_extent_eq (ino : Nat) (ext : a1fs_extent) (m : Nat → Nat) :
    wipe_extent ino ext m =
      (List.range (i32 ext.count).toNat).foldl (fun mc f => wipe_block ino (ext.start + f) mc) m := by
  unfold wipe_extent
  by_cases h0 : i32 ext.count = 0
  · rw [if_pos h0, h0]
    rfl
  · rw [if_neg h0, forLoop_fold_zero _ (fun f mc => wipe_block ino (ext.start + f) mc)
      (fun f mc => wipe_block_eq ino (ext.start + f) mc), state_next]

/-- A fold whose steps keep the state among `m` and `m1`, keep `m1`, and reach
`m1` at the elements with `hit`. -/
theorem foldl_track {α β : Type} (m m1 : α) (w : α → β → α) (hit : β → Prop) (l : List β)
    (hw : ∀ b ∈ l, ∀ x, (x = m ∨ x = m1) →
      (w x b = m ∨ w x b = m1) ∧ (x = m1 ∨ hit b → w x b = m1)) :
    ∀ x, (x = m ∨ x = m1) →
      (l.foldl w x = m ∨ l.foldl w x = m1) ∧ (x = m1 ∨ (∃ b ∈ l, hit b) → l.foldl w x = m1) := by
  induction l with
  | nil =>
    intro x hx
    refine ⟨hx, ?_⟩
    rintro (h | ⟨b, hb, _⟩)
    · exact h
    · cases hb
  | cons b bs ih =>
    intro x hx
    rw [List.foldl_cons]
    have hb := hw b (List.mem_cons_self _ _) x hx
    have := ih (fun c hc => hw c (List.mem_cons_of_mem _ hc)) (w x b) hb.1
    refine ⟨this.1, ?_⟩
    rintro (h | ⟨c, hc, hhit⟩)
    · exact this.2 (Or.inl (hb.2 (Or.inl h)))
    · rcases List.mem_cons.1 hc with rfl | hc
      · exact this.2 (Or.inl (hb.2 (Or.inr hhit)))
      · exact this.2 (Or.inr ⟨c, hc, hhit⟩)

/-- One block of `wipe_extent`, started in the data region `m` or in `m` with
the entry `A` cleared, when `A` is the only entry of the list `L` with the
inode number `e` and the entries of the block belong to `L`. -/
theorem wipe_block_track (m : Nat → Nat) (A e blk : Nat) (L : List Nat) (hAal : A % 256 = 0)
    (hA : dentry_ino m A = e) (huniq : ∀ a ∈ L, dentry_ino m a = e → a = A)
    (hsub : ∀ a ∈ block_slots blk, a ∈ L) (mc : Nat → Nat)
    (hJ : mc = m ∨ mc = memset0 m A 256) :
    (wipe_block e blk mc = m ∨ wipe_block e blk mc = memset0 m A 256) ∧
    (mc = memset0 m A 256 ∨ A ∈ block_slots blk → wipe_block e blk mc = memset0 m A 256) := by
  rw [wipe_block_find]
  cases hf : (block_slots blk).find? (fun a => decide (dentry_ino mc a = e)) with
  | some a =>
    rw [Option.map_some', Option.getD_some]
    have hmem : a ∈ block_slots blk := List.mem_of_find?_eq_some hf
    have hino : dentry_ino mc a = e := by simpa using List.find?_some hf
    have haA : a = A := by
      rcases hJ with rfl | rfl
      · exact huniq _ (hsub _ hmem) hino
      · by_cases hne : a = A
        · exact hne
        · rw [dentry_ino_memset0_other m A _ hAal (block_slots_aligned blk _ hmem) hne] at hino
          exact huniq _ (hsub _ hmem) hino
    rw [haA]
    have : memset0 mc A 256 = memset0 m A 256 := by
      rcases hJ with rfl | rfl
      · rfl
      · exact memset0_idem m A 256
    rw [this]
    exact ⟨Or.inr rfl, fun _ => rfl⟩
  | none =>
    rw [Option.map_none', Option.getD_none]
    refine ⟨hJ, ?_⟩
    rintro (h | h)
    · exact h
    · rcases hJ with rfl | rfl
      · exfalso
        have := List.find?_eq_none.1 hf A h
        simp [hA] at this
      · rfl

theorem wipe_extent_track (m : Nat → Nat) (A e : Nat) (L : List Nat) (hAal : A % 256 = 0)
    (hA : dentry_ino m A = e) (huniq : ∀ a ∈ L, dentry_ino m a = e → a = A)
    (ext : a1fs_extent) (hsub : ∀ a ∈ extent_slots ext, a ∈ L) (mc : Nat → Nat)
    (hJ : mc = m ∨ mc = memset0 m A 256) :
    (wipe_extent e ext mc = m ∨ wipe_extent e ext mc = memset0 m A 256) ∧
    (mc = memset0 m A 256 ∨ A ∈ extent_slots ext → wipe_extent e ext mc = memset0 m A 256) := by
  rw [wipe_extent_eq]
  have key := foldl_track m (memset0 m A 256) (fun mc f => wipe_block e (ext.start + f) mc)
    (fun f => A ∈ block_slots (ext.start + f)) (List.range (i32 ext.count).toNat)
    (fun f hf x hx => wipe_block_track m A e (ext.start + f) L hAal hA huniq
      (fun a ha => hsub a (List.mem_flatMap.2 ⟨f, hf, ha⟩)) x hx) mc hJ
  refine ⟨key.1, ?_⟩
  rintro (h | h)
  · exact key.2 (Or.inl h)
  · exact key.2 (Or.inr (List.mem_flatMap.1 h))

/-- The two searches of `a1fs_unlink` through the entries of a directory clear
exactly the entry `A`, when `A` is the only entry of the directory with the
inode number `e` and no entry lies in the indirect block of the directory. -/
theorem wipe_entries_unique (d : a1fs_inode) (m : Nat → Nat) (A e : Nat)
    (hmem : A ∈ slots_of d m) (hA : dentry_ino m A = e)
    (huniq : ∀ a ∈ slots_of d m, dentry_ino m a = e → a = A)
    (hind : d.indirect ≠ 0 → ∀ a ∈ slots_of d m, a / 4096 ≠ d.indirect) :
    wipe_entries d e m = memset0 m A 256 := by
  have hAal : A % 256 = 0 := slots_of_aligned d m A hmem
  have hdir : ∀ a ∈ direct_slots d, a ∈ slots_of d m :=
    fun a ha => List.mem_append_left _ ha
  unfold wipe_entries
  rw [forLoop_fold_zero _ (fun e1 mc => wipe_extent e (d.extent e1) mc) (fun _ _ => rfl),
    state_next]
  have k1 := foldl_track m (memset0 m A 256) (fun mc e1 => wipe_extent e (d.extent e1) mc)
    (fun e1 => A ∈ extent_slots (d.extent e1)) (List.range 12)
    (fun e1 he1 x hx => wipe_extent_track m A e (slots_of d m) hAal hA huniq (d.extent e1)
      (fun a ha => hdir a ((mem_direct_slots d a).2 ⟨e1, List.mem_range.1 he1, ha⟩)) x hx)
    m (Or.inl rfl)
  by_cases hi : d.indirect ≠ 0
  · rw [if_pos hi]
    have hblock : ∀ x, 4096 * d.indirect ≤ x → x < 4096 * d.indirect + 4096 →
        memset0 m A 256 x = m x := by
      intro x h1 h2
      have := hind hi A hmem
      exact memset0_outside m A 256 x (by omega)
    have hext : ∀ mc, (mc = m ∨ mc = memset0 m A 256) → ∀ e1, e1 < 500 →
        ind_extent mc d.indirect e1 = ind_extent m d.indirect e1 := by
      intro mc hmc e1 he1
      rcases hmc with rfl | rfl
      · rfl
      · exact ind_extent_congr m _ _ e1 (fun x h1 h2 => hblock x (by omega) (by omega))
    have hsl : ∀ a ∈ indirect_slots m d.indirect, a ∈ slots_of d m := by
      intro a ha
      unfold slots_of
      rw [if_pos hi]
      exact List.mem_append_right _ ha
    rw [forLoop_fold_zero _ (fun e1 mc => wipe_extent e (ind_extent mc d.indirect e1) mc)
      (fun _ _ => rfl), state_next]
    have hw : ∀ e1 ∈ List.range 500, ∀ x, (x = m ∨ x = memset0 m A 256) →
        (wipe_extent e (ind_extent x d.indirect e1) x = m ∨
          wipe_extent e (ind_extent x d.indirect e1) x = memset0 m A 256) ∧
        (x = memset0 m A 256 ∨ A ∈ extent_slots (ind_extent m d.indirect e1) →
          wipe_extent e (ind_extent x d.indirect e1) x = memset0 m A 256) := by
      intro e1 he1 x hx
      have he2 : e1 < 500 := List.mem_range.1 he1
      rw [hext x hx e1 he2]
      exact wipe_extent_track m A e (slots_of d m) hAal hA huniq _
        (fun a ha => hsl a ((mem_indirect_slots m _ a).2 ⟨e1, he2, ha⟩)) x hx
    have k2 := foldl_track m (memset0 m A 256)
      (fun mc e1 => wipe_extent e (ind_extent mc d.indirect e1) mc)
      (fun e1 => A ∈ extent_slots (ind_extent m d.indirect e1)) (List.range 500) hw _ k1.1
    unfold slots_of at hmem
    rw [if_pos hi] at hmem
    rcases List.mem_append.1 hmem with h | h
    · obtain ⟨e1, he1, h1⟩ := (mem_direct_slots d A).1 h
      exact k2.2 (Or.inl (k1.2 (Or.inr ⟨e1, List.mem_range.2 he1, h1⟩)))
    · obtain ⟨e1, he1, h1⟩ := (mem_indirect_slots m _ A).1 h
      exact k2.2 (Or.inr ⟨e1, List.mem_range.2 he1, h1⟩)
  · rw [if_neg hi]
    unfold slots_of at hmem
    rw [if_neg hi, List.append_nil] at hmem
    obtain ⟨e1, he1, h1⟩ := (mem_direct_slots d A).1 hmem
    exact k1.2 (Or.inr ⟨e1, List.mem_range.2 he1, h1⟩)

/-! ### What `a1fs_unlink` leaves behind -/

theorem i32_small (x : Nat) (h : x < 2147483648) : i32 (x : Int) = x := by
  unfold i32
  rw [Int.emod_eq_of_lt (by omega) (by omega), if_pos (by simpa using h)]

theorem free_one_frame (ext : a1fs_extent) (fs0 : fs_ctx) (f : Nat) (s s1 : fs_ctx)
    (hs : same_dirs fs0 s) (h : free_one ext f s = Step.next s1) : same_dirs fs0 s1 := by
  unfold free_one at h
  cases hm : map_set s.bbitmap (i32 ext.start + f) 0 with
  | ok bm => rw [hm] at h; cases h; exact hs
  | fault => rw [hm] at h; cases h
  | nofuel => rw [hm] at h; cases h

theorem free_one_ne_brk (ext : a1fs_extent) (f : Nat) (s s1 : fs_ctx) :
    free_one ext f s ≠ Step.brk s1 := by
  unfold free_one
  cases map_set s.bbitmap (i32 ext.start + f) 0 <;> intro h <;> cases h

theorem free_extent_frame (ext : a1fs_extent) (fs0 s s1 : fs_ctx) (hs : same_dirs fs0 s)
    (h : free_extent ext s = Step.next s1) : same_dirs fs0 s1 := by
  unfold free_extent at h
  by_cases h0 : i32 ext.count = 0
  · rw [if_pos h0] at h; cases h; exact hs
  · rw [if_neg h0] at h
    have := (forLoop_inv (free_one ext) (fun _ s => same_dirs fs0 s) (fun _ => False)
      (fun _ => True) (fun i s s1 hI hb => free_one_frame ext fs0 i s s1 hI hb)
      (fun i s s1 _ hb => free_one_ne_brk ext i s s1 hb) (fun _ _ _ _ _ => trivial)
      (i32 ext.count).toNat 0 s hs).1 s1 h
    rcases this with h1 | h1
    · exact h1
    · exact h1.elim

theorem free_extent_ne_brk (ext : a1fs_extent) (s s1 : fs_ctx) :
    free_extent ext s ≠ Step.brk s1 := by
  unfold free_extent
  by_cases h0 : i32 ext.count = 0
  · rw [if_pos h0]; intro h; cases h
  · rw [if_neg h0]; exact forLoop_ne_brk _ _ _ _ _

/-- The release of the blocks of an inode changes neither the inode table nor
the data region nor the inode bitmap. -/
theorem free_blocks_frame (ino : a1fs_inode) (fs fs1 : fs_ctx)
    (h : free_blocks ino fs = Step.next fs1) : same_dirs fs fs1 := by
  have hrefl : same_dirs fs fs := ⟨rfl, rfl, rfl⟩
  unfold free_blocks at h
  have h1 := forLoop_inv (fun e fs1 => free_extent (ino.extent e) fs1)
    (fun _ s => same_dirs fs s) (fun _ => False) (fun _ => True)
    (fun i s s1 hI hb => free_extent_frame _ fs s s1 hI hb)
    (fun i s s1 _ hb => free_extent_ne_brk _ s s1 hb) (fun _ _ _ _ _ => trivial) 12 0 fs hrefl
  generalize hr1 : forLoop (fun e fs1 => free_extent (ino.extent e) fs1) 12 0 fs = r1 at h h1
  cases r1 with
  | ret r => cases h
  | brk s => exact absurd hr1 (forLoop_ne_brk _ _ _ _ s)
  | next s =>
    have hs : same_dirs fs s := (h1.1 s rfl).elim id False.elim
    simp only [] at h
    by_cases hi : ino.indirect ≠ 0
    · rw [if_pos hi] at h
      have h2 := forLoop_inv (fun e fs2 => free_extent (ind_extent fs2.btable ino.indirect e) fs2)
        (fun _ s => same_dirs fs s) (fun _ => False) (fun _ => True)
        (fun i s s1 hI hb => free_extent_frame _ fs s s1 hI hb)
        (fun i s s1 _ hb => free_extent_ne_brk _ s s1 hb) (fun _ _ _ _ _ => trivial) 500 0 s hs
      generalize hr2 : forLoop
        (fun e fs2 => free_extent (ind_extent fs2.btable ino.indirect e) fs2) 500 0 s = r2 at h h2
      cases r2 with
      | ret r => cases h
      | brk s2 => exact absurd hr2 (forLoop_ne_brk _ _ _ _ s2)
      | next s2 =>
        have hs2 : same_dirs fs s2 := (h2.1 s2 rfl).elim id False.elim
        simp only [] at h
        unfold free_indirect_block at h
        cases hm : map_set s2.bbitmap (ino.indirect : Int) 0 with
        | ok bm => rw [hm] at h; cases h; exact hs2
        | fault => rw [hm] at h; cases h
        | nofuel => rw [hm] at h; cases h
    · rw [if_neg hi] at h
      cases h
      exact hs

theorem free_one_ret (ext : a1fs_extent) (f : Nat) (s : fs_ctx) (r : Res (Int × fs_ctx))
    (h : free_one ext f s = Step.ret r) : ∀ x, r ≠ Res.ok x := by
  unfold free_one at h
  generalize map_set s.bbitmap (i32 ext.start + f) 0 = rm at h
  cases rm with
  | ok bm => cases h
  | fault => cases h; intro x hx; cases hx
  | nofuel => cases h; intro x hx; cases hx

theorem free_extent_ret (ext : a1fs_extent) (s : fs_ctx) (r : Res (Int × fs_ctx))
    (h : free_extent ext s = Step.ret r) : ∀ x, r ≠ Res.ok x := by
  unfold free_extent at h
  by_cases h0 : i32 ext.count = 0
  · rw [if_pos h0] at h; cases h
  · rw [if_neg h0] at h
    exact (forLoop_inv (free_one ext) (fun _ _ => True) (fun _ => True)
      (fun r => ∀ x, r ≠ Res.ok x) (fun _ _ _ _ _ => trivial) (fun _ _ _ _ _ => trivial)
      (fun i s r _ hb => free_one_ret ext i s r hb) (i32 ext.count).toNat 0 s trivial).2 r h

/-- The release of the blocks of an inode returns from inside its loops only
with a fault. -/
theorem free_blocks_ret (ino : a1fs_inode) (fs : fs_ctx) (r : Res (Int × fs_ctx))
    (h : free_blocks ino fs = Step.ret r) : ∀ x, r ≠ Res.ok x := by
  unfold free_blocks at h
  have h1 := (forLoop_inv (fun e fs1 => free_extent (ino.extent e) fs1)
    (fun _ _ => True) (fun _ => True) (fun r => ∀ x, r ≠ Res.ok x)
    (fun _ _ _ _ _ => trivial) (fun _ _ _ _ _ => trivial)
    (fun i s r _ hb => free_extent_ret _ s r hb) 12 0 fs trivial).2
  generalize forLoop (fun e fs1 => free_extent (ino.extent e) fs1) 12 0 fs = r1 at h h1
  cases r1 with
  | ret r0 => cases h; exact h1 r rfl
  | brk s => cases h
  | next s =>
    simp only [] at h
    by_cases hi : ino.indirect ≠ 0
    · rw [if_pos hi] at h
      have h2 := (forLoop_inv
        (fun e fs2 => free_extent (ind_extent fs2.btable ino.indirect e) fs2)
        (fun _ _ => True) (fun _ => True) (fun r => ∀ x, r ≠ Res.ok x)
        (fun _ _ _ _ _ => trivial) (fun _ _ _ _ _ => trivial)
        (fun i s r _ hb => free_extent_ret _ s r hb) 500 0 s trivial).2
      generalize forLoop (fun e fs2 => free_extent (ind_extent fs2.btable ino.indirect e) fs2)
        500 0 s = r2 at h h2
      cases r2 with
      | ret r0 => cases h; exact h2 r rfl
      | brk s2 => cases h
      | next s2 =>
        simp only [] at h
        unfold free_indirect_block at h
        generalize map_set s2.bbitmap (ino.indirect : Int) 0 = rm at h
        cases rm with
        | ok bm => cases h
        | fault => cases h; intro x hx; cases hx
        | nofuel => cases h; intro x hx; cases hx
    · rw [if_neg hi] at h
      cases h

theorem free_blocks_ne_brk (ino : a1fs_inode) (fs fs1 : fs_ctx) :
    free_blocks ino fs ≠ Step.brk fs1 := by
  intro h
  unfold free_blocks at h
  generalize forLoop (fun e fs1 => free_extent (ino.extent e) fs1) 12 0 fs = r1 at h
  cases r1 with
  | ret r0 => cases h
  | brk s => cases h
  | next s =>
    simp only [] at h
    by_cases hi : ino.indirect ≠ 0
    · rw [if_pos hi] at h
      generalize forLoop (fun e fs2 => free_extent (ind_extent fs2.btable ino.indirect e) fs2)
        500 0 s = r2 at h
      cases r2 with
      | ret r0 => cases h
      | brk s2 => cases h
      | next s2 =>
        simp only [] at h
        unfold free_indirect_block at h
        generalize map_set s2.bbitmap (ino.indirect : Int) 0 = rm at h
        cases rm <;> cases h
    · rw [if_neg hi] at h
      cases h

/-- The inode table and the data region after an `a1fs_unlink` that returned:
the entries of the file are cleared in its parent, the parent record has a new
time, one entry less and a smaller size, and the record of the file is zero. -/
theorem unlink_result (env : Env) (fs fs1 : fs_ctx) (path : List Nat) (r : Int)
    (hnum : 0 ≤ path_lookup fs path) (h : a1fs_unlink env fs path = Res.ok (r, fs1)) :
    r = 0 ∧
    fs1.btable = (unlink_parent env fs (path_lookup fs path).toNat).btable ∧
    fs1.itable =
      upd (unlink_parent env fs (path_lookup fs path).toNat).itable
        (path_lookup fs path).toNat zero_inode := by
  unfold a1fs_unlink at h
  rw [if_neg (by omega)] at h
  generalize hp : unlink_parent env fs (path_lookup fs path).toNat = fsp at h ⊢
  generalize (path_lookup fs path).toNat = n at h ⊢
  cases hi : unlink_inode fsp n with
  | fault => rw [hi] at h; cases h
  | nofuel => rw [hi] at h; cases h
  | ok fs3 =>
    rw [hi] at h
    simp only [] at h
    have h3 : same_dirs fsp fs3 ∨ (fs3.itable = fsp.itable ∧ fs3.btable = fsp.btable) := by
      right
      unfold unlink_inode at hi
      generalize map_set fsp.ibitmap ((fsp.itable n).num : Int) 0 = rm at hi
      cases rm with
      | ok im => cases hi; exact ⟨rfl, rfl⟩
      | fault => cases hi
      | nofuel => cases hi
    have h3' : fs3.itable = fsp.itable ∧ fs3.btable = fsp.btable := by
      rcases h3 with h3 | h3
      · exact ⟨h3.1, h3.2.1⟩
      · exact h3
    have h4 : ∀ fs4, unlink_blocks fs3 n = Step.next fs4 →
        fs4.itable = fsp.itable ∧ fs4.btable = fsp.btable := by
      intro fs4 hb
      unfold unlink_blocks at hb
      by_cases hc : (fs3.itable n).size > 0 ∨ (fs3.itable n).block_count > 0
      · rw [if_pos hc] at hb
        have := free_blocks_frame _ _ _ hb
        exact ⟨this.1.trans h3'.1, this.2.1.trans h3'.2⟩
      · rw [if_neg hc] at hb
        cases hb
        exact h3'
    have h5 : ∀ fs4, unlink_blocks fs3 n ≠ Step.brk fs4 := by
      intro fs4 hb
      unfold unlink_blocks at hb
      by_cases hc : (fs3.itable n).size > 0 ∨ (fs3.itable n).block_count > 0
      · rw [if_pos hc] at hb
        exact free_blocks_ne_brk _ _ _ hb
      · rw [if_neg hc] at hb
        cases hb
    have h6 : ∀ r1, unlink_blocks fs3 n = Step.ret r1 → ∀ x, r1 ≠ Res.ok x := by
      intro r1 hb
      unfold unlink_blocks at hb
      by_cases hc : (fs3.itable n).size > 0 ∨ (fs3.itable n).block_count > 0
      · rw [if_pos hc] at hb
        exact free_blocks_ret _ _ _ hb
      · rw [if_neg hc] at hb
        cases hb
    generalize hb : unlink_blocks fs3 n = rb at h h4 h5 h6
    cases rb with
    | ret r1 =>
      unfold unlink_finish at h
      exact absurd h (h6 r1 rfl _)
    | brk fs4 => exact absurd rfl (h5 fs4)
    | next fs4 =>
      unfold unlink_finish at h
      cases h
      obtain ⟨h6, h7⟩ := h4 fs4 rfl
      refine ⟨rfl, h7, ?_⟩
      unfold set_inode
      simp only [h6]

theorem slots_of_fields (d d1 : a1fs_inode) (m : Nat → Nat) (he : d1.extent = d.extent)
    (hi : d1.indirect = d.indirect) : slots_of d1 m = slots_of d m := by
  unfold slots_of direct_slots
  rw [he, hi]

/-! ### Allocation -/

theorem first_free_spec (map : Nat → Nat) :
    ∀ n i, first_free map n i = -1 ∨
      ∃ j : Nat, first_free map n i = (j : Int) ∧ i ≤ j ∧ j < i + n ∧ map j = 0 := by
  intro n
  induction n with
  | zero => intro i; exact Or.inl rfl
  | succ n ih =>
    intro i
    unfold first_free
    by_cases h : map i = 0
    · rw [if_pos h]
      exact Or.inr ⟨i, rfl, Nat.le_refl i, by omega, h⟩
    · rw [if_neg h]
      cases ih (i + 1) with
      | inl h1 => exact Or.inl h1
      | inr h1 =>
        obtain ⟨j, hj, h2, h3, h4⟩ := h1
        exact Or.inr ⟨j, hj, by omega, by omega, h4⟩

theorem map_set_ok (map map1 : Nat → Nat) (i : Int) (v : Nat)
    (h : map_set map i v = Res.ok map1) : 0 ≤ i ∧ i.toNat < 4096 ∧ map1 = upd map i.toNat v := by
  unfold map_set at h
  by_cases hc : 0 ≤ i ∧ i.toNat < 4096
  · rw [if_pos hc] at h
    cases h
    exact ⟨hc.1, hc.2, rfl⟩
  · rw [if_neg hc] at h
    cases h

/-- A successful `first_inode` followed by the bitmap assignment gives an index
between 1 and 4095 that was free. -/
theorem first_inode_ok (map map1 : Nat → Nat)
    (h : map_set map (first_inode map) 1 = Res.ok map1) :
    ∃ k : Nat, first_inode map = (k : Int) ∧ 1 ≤ k ∧ k < 4096 ∧ map k = 0 := by
  obtain ⟨h0, _, _⟩ := map_set_ok _ _ _ _ h
  unfold first_inode at h0 ⊢
  cases first_free_spec map 4095 1 with
  | inl h1 => rw [h1] at h0; exact absurd h0 (by decide)
  | inr h1 =>
    obtain ⟨j, hj, h2, h3, h4⟩ := h1
    exact ⟨j, hj, h2, by omega, h4⟩

/-- A successful `take_block` marks a block below 4096 that was free. -/
theorem take_block_ok (fs fs1 : fs_ctx) (hint : Int) (wipe : Bool) (b : Nat)
    (h : take_block fs hint wipe = Res.ok (b, fs1)) :
    b < 4096 ∧ fs.bbitmap b = 0 ∧ fs1 = taken fs b wipe ∧ (0 ≤ hint → 1 ≤ b) := by
  unfold take_block at h
  cases hfb : first_block fs.bbitmap hint with
  | fault => rw [hfb] at h; cases h
  | nofuel => rw [hfb] at h; cases h
  | ok c =>
    rw [hfb] at h
    dsimp only at h
    cases hms : map_set fs.bbitmap c 1 with
    | fault => rw [hms] at h; cases h
    | nofuel => rw [hms] at h; cases h
    | ok bm =>
      rw [hms] at h
      obtain ⟨h0, h1, _⟩ := map_set_ok _ _ _ _ hms
      have hb : b = c.toNat := by cases h; rfl
      have hfs : fs1 = taken fs c.toNat wipe := by cases h; rfl
      have hfree : fs.bbitmap c.toNat = 0 ∧ (0 ≤ hint → 1 ≤ c.toNat) := by
        unfold first_block at hfb
        cases hmg : map_get fs.bbitmap (hint + 1) with
        | fault => rw [hmg] at hfb; cases hfb
        | nofuel => rw [hmg] at hfb; cases hfb
        | ok v =>
          rw [hmg] at hfb
          dsimp only at hfb
          unfold map_get at hmg
          by_cases hc : 0 ≤ hint + 1 ∧ (hint + 1).toNat < 4096
          · rw [if_pos hc] at hmg
            by_cases hv : v = 0
            · rw [if_pos hv] at hfb
              cases hfb
              cases hmg
              exact ⟨hv, fun h => by omega⟩
            · rw [if_neg hv] at hfb
              cases hfb
              cases first_free_spec fs.bbitmap 4095 1 with
              | inl h2 => rw [h2] at h0; exact absurd h0 (by decide)
              | inr h2 =>
                obtain ⟨j, hj, h3, _, h4⟩ := h2
                rw [hj]
                exact ⟨h4, fun _ => h3⟩
          · rw [if_neg hc] at hmg
            cases hmg
      rw [hb]
      exact ⟨h1, hfree.1, hfs, hfree.2⟩

/-! ### The search for a free entry -/

/-- Invariant rule for a loop with a bound on its index: `I` holds in front of
every pass, `Q` after a `break`, `R` for a value returned from inside. -/
theorem forLoop_inv_bd {σ ρ : Type} (body : Nat → σ → Step σ ρ) (hi : Nat) (I Q : σ → Prop)
    (R : ρ → Prop)
    (hnext : ∀ i s s1, i < hi → I s → body i s = Step.next s1 → I s1)
    (hbrk : ∀ i s s1, i < hi → I s → body i s = Step.brk s1 → Q s1)
    (hret : ∀ i s r, i < hi → I s → body i s = Step.ret r → R r) :
    ∀ n i s, i + n ≤ hi → I s →
      (∀ s1, forLoop body n i s = Step.next s1 → I s1 ∨ Q s1) ∧
      (∀ r, forLoop body n i s = Step.ret r → R r) := by
  intro n
  induction n with
  | zero =>
    intro i s _ h
    refine ⟨?_, ?_⟩
    · intro s1 h1
      cases h1
      exact Or.inl h
    · intro r h1
      cases h1
  | succ n ih =>
    intro i s hb h
    rw [forLoop_succ]
    cases hbd : body i s with
    | next s2 => exact ih (i + 1) s2 (by omega) (hnext i s s2 (by omega) h hbd)
    | brk s2 =>
      refine ⟨?_, ?_⟩
      · intro s1 h1
        cases h1
        exact Or.inr (hbrk i s s2 (by omega) h hbd)
      · intro r h1
        cases h1
    | ret r =>
      refine ⟨?_, ?_⟩
      · intro s1 h1
        cases h1
      · intro r1 h1
        cases h1
        exact hret i s r (by omega) h hbd

theorem break_if_found_next {ρ : Type} (x : Step insert_state ρ) (s1 : insert_state)
    (h : break_if_found x = Step.next s1) : x = Step.next s1 ∧ s1.mtch = false := by
  cases x with
  | next s =>
    unfold break_if_found at h
    dsimp only at h
    by_cases hm : s.mtch = true
    · rw [if_pos hm] at h; cases h
    · rw [if_neg hm] at h
      cases h
      exact ⟨rfl, by simpa using hm⟩
  | brk s => cases h
  | ret r => cases h

theorem break_if_found_brk {ρ : Type} (x : Step insert_state ρ) (s1 : insert_state)
    (h : break_if_found x = Step.brk s1) :
    x = Step.brk s1 ∨ (x = Step.next s1 ∧ s1.mtch = true) := by
  cases x with
  | next s =>
    unfold break_if_found at h
    dsimp only at h
    by_cases hm : s.mtch = true
    · rw [if_pos hm] at h
      cases h
      exact Or.inr ⟨rfl, hm⟩
    · rw [if_neg hm] at h; cases h
  | brk s => cases h; exact Or.inl rfl
  | ret r => cases h

theorem break_if_found_ret {ρ : Type} (x : Step insert_state ρ) (r : ρ)
    (h : break_if_found x = Step.ret r) : x = Step.ret r := by
  cases x with
  | next s =>
    unfold break_if_found at h
    dsimp only at h
    by_cases hm : s.mtch = true
    · rw [if_pos hm] at h; cases h
    · rw [if_neg hm] at h; cases h
  | brk s => cases h
  | ret r1 => cases h; rfl

/-- The loop over the 16 entries of a block either goes on or stops at an entry
of the block that passes the test. -/
theorem probe_entries_spec {ρ : Type} (free : (Nat → Nat) → Nat → Bool) (fs : fs_ctx)
    (blk : Nat) (s : insert_state) (hs : searching fs s) :
    (∀ s1, forLoop (ρ := ρ) (probe_entry free blk) 16 0 s = Step.next s1 →
      searching fs s1 ∨ found_in fs free (block_slots blk) s1) ∧
    (∀ r, forLoop (ρ := ρ) (probe_entry free blk) 16 0 s ≠ Step.ret r) := by
  have key := forLoop_inv_bd (ρ := ρ) (probe_entry free blk) 16 (searching fs)
    (found_in fs free (block_slots blk)) (fun _ => False)
    (by
      intro i t t1 _ ht h
      unfold probe_entry at h
      by_cases hf : free t.fs.btable (dentry_addr blk i) = true
      · rw [if_pos hf] at h; cases h
      · rw [if_neg hf] at h
        cases h
        exact ⟨ht.1, ht.2⟩)
    (by
      intro i t t1 hi ht h
      unfold probe_entry at h
      by_cases hf : free t.fs.btable (dentry_addr blk i) = true
      · rw [if_pos hf] at h
        cases h
        refine ⟨ht.1, rfl, ?_, ?_⟩
        · exact (mem_block_slots blk _).2 ⟨i, hi, rfl⟩
        · rw [← ht.1]; exact hf
      · rw [if_neg hf] at h; cases h)
    (by
      intro i t r _ _ h
      unfold probe_entry at h
      by_cases hf : free t.fs.btable (dentry_addr blk i) = true
      · rw [if_pos hf] at h; cases h
      · rw [if_neg hf] at h; cases h)
    16 0 s (by omega) hs
  exact ⟨key.1, fun r h => key.2 r h⟩

theorem found_in_mono (fs : fs_ctx) (free : (Nat → Nat) → Nat → Bool) (l l1 : List Nat)
    (s : insert_state) (hl : ∀ a ∈ l, a ∈ l1) (h : found_in fs free l s) :
    found_in fs free l1 s :=
  ⟨h.1, h.2.1, hl _ h.2.2.1, h.2.2.2⟩

theorem found_in_mtch (fs : fs_ctx) (free : (Nat → Nat) → Nat → Bool) (l : List Nat)
    (s : insert_state) (h : found_in fs free l s) : s.mtch = true := h.2.1

theorem probe_block_spec {ρ : Type} (free : (Nat → Nat) → Nat → Bool) (fs : fs_ctx)
    (start f : Nat) (s : insert_state) (hs : searching fs s) :
    (∀ s1, probe_block (ρ := ρ) free start f s = Step.next s1 → searching fs s1) ∧
    (∀ s1, probe_block (ρ := ρ) free start f s = Step.brk s1 →
      found_in fs free (block_slots (start + f)) s1) ∧
    (∀ r, probe_block (ρ := ρ) free start f s ≠ Step.ret r) := by
  have key := probe_entries_spec (ρ := ρ) free fs (start + f) s hs
  unfold probe_block
  refine ⟨?_, ?_, ?_⟩
  · intro s1 h
    obtain ⟨h1, h2⟩ := break_if_found_next _ _ h
    cases key.1 s1 h1 with
    | inl h3 => exact h3
    | inr h3 => rw [h3.2.1] at h2; cases h2
  · intro s1 h
    cases break_if_found_brk _ _ h with
    | inl h1 => exact absurd h1 (forLoop_ne_brk _ _ _ _ _)
    | inr h1 =>
      cases key.1 s1 h1.1 with
      | inl h3 => rw [h3.2] at h1; cases h1.2
      | inr h3 => exact h3
  · intro r h
    exact key.2 r (break_if_found_ret _ _ h)

/-- The two inner loops either go on or stop at an entry of the extent that
passes the test. -/
theorem find_free_entry_spec {ρ : Type} (free : (Nat → Nat) → Nat → Bool) (fs : fs_ctx)
    (ext : a1fs_extent) (s : insert_state) (hs : searching fs s) :
    (∀ s1, find_free_entry (ρ := ρ) free ext.start (i32 ext.count) s = Step.next s1 →
      searching fs s1 ∨ found_in fs free (extent_slots ext) s1) ∧
    (∀ r, find_free_entry (ρ := ρ) free ext.start (i32 ext.count) s ≠ Step.ret r) := by
  have key := forLoop_inv_bd (ρ := ρ) (probe_block free ext.start) (i32 ext.count).toNat
    (searching fs) (found_in fs free (extent_slots ext)) (fun _ => False)
    (fun f t t1 _ ht h => (probe_block_spec free fs ext.start f t ht).1 t1 h)
    (by
      intro f t t1 hf ht h
      refine found_in_mono fs free _ _ t1 ?_ ((probe_block_spec free fs ext.start f t ht).2.1 t1 h)
      intro a ha
      obtain ⟨i, hi, rfl⟩ := (mem_block_slots _ a).1 ha
      exact (mem_extent_slots ext _).2 ⟨f, i, by omega, hi, rfl⟩)
    (fun f t r _ ht h => (probe_block_spec free fs ext.start f t ht).2.2 r h)
    (i32 ext.count).toNat 0 s (by omega) hs
  unfold find_free_entry
  exact ⟨key.1, fun r h => key.2 r h⟩

/-- One pass over a direct extent, started while the search goes on. -/
theorem direct_step_spec (v : insert_flavour) (fs : fs_ctx) (num e : Nat) (he : e < 12)
    (s : insert_state) (hs : searching fs s) :
    (∀ s1, direct_step v num e s = Step.next s1 → searching fs s1) ∧
    (∀ s1, direct_step v num e s = Step.brk s1 → direct_outcome fs v num s1) ∧
    (∀ r, direct_step v num e s = Step.ret r → ∀ x, r ≠ Res.ok (0, x)) := by
  obtain ⟨hfs, hm⟩ := hs
  have key := find_free_entry_spec (ρ := Res (Int × fs_ctx)) name_is_empty fs
    ((fs.itable num).extent e) s ⟨hfs, hm⟩
  unfold direct_step
  rw [hfs]
  by_cases hc : i32 ((fs.itable num).extent e).count = 0
  · rw [if_pos hc]
    by_cases hfull : v.full_direct fs.sb = true
    · rw [if_pos hfull]
      refine ⟨fun s1 h => (by cases h), fun s1 h => (by cases h), ?_⟩
      intro r h x hx
      cases h
      cases hx
    · rw [if_neg hfull]
      cases htb : take_block fs (i32 ((fs.itable num).extent e).start) v.wipe_direct with
      | ok bf =>
        obtain ⟨b, fs1⟩ := bf
        obtain ⟨hb, hfree, hfs1, hb1⟩ := take_block_ok _ _ _ _ _ htb
        refine ⟨fun s1 h => (by cases h), ?_, fun r h => (by cases h)⟩
        intro s1 h
        cases h
        exact ⟨e, he, Or.inr ⟨hc, b, hb, hfree, by rw [hfs1]⟩⟩
      | fault =>
        refine ⟨fun s1 h => (by cases h), fun s1 h => (by cases h), ?_⟩
        intro r h x hx
        cases h
        cases hx
      | nofuel =>
        refine ⟨fun s1 h => (by cases h), fun s1 h => (by cases h), ?_⟩
        intro r h x hx
        cases h
        cases hx
  · rw [if_neg hc]
    refine ⟨?_, ?_, ?_⟩
    · intro s1 h
      obtain ⟨h1, h2⟩ := break_if_found_next _ _ h
      cases key.1 s1 h1 with
      | inl h3 => exact h3
      | inr h3 => rw [h3.2.1] at h2; cases h2
    · intro s1 h
      cases break_if_found_brk _ _ h with
      | inl h1 => exact absurd h1 (forLoop_ne_brk _ _ _ _ _)
      | inr h1 =>
        cases key.1 s1 h1.1 with
        | inl h3 => rw [h3.2] at h1; cases h1.2
        | inr h3 => exact ⟨e, he, Or.inl h3⟩
    · intro r h
      exact absurd (break_if_found_ret _ _ h) (key.2 r)

/-- The loop over the 12 direct extents, started while the search goes on. -/
theorem direct_loop_spec (v : insert_flavour) (fs : fs_ctx) (num : Nat) (s : insert_state)
    (hs : searching fs s) :
    (∀ s1, forLoop (direct_step v num) 12 0 s = Step.next s1 →
      searching fs s1 ∨ direct_outcome fs v num s1) ∧
    (∀ r, forLoop (direct_step v num) 12 0 s = Step.ret r → ∀ x, r ≠ Res.ok (0, x)) :=
  forLoop_inv_bd (direct_step v num) 12 (searching fs) (direct_outcome fs v num)
    (fun r => ∀ x, r ≠ Res.ok (0, x))
    (fun e t t1 he ht h => (direct_step_spec v fs num e he t ht).1 t1 h)
    (fun e t t1 he ht h => (direct_step_spec v fs num e he t ht).2.1 t1 h)
    (fun e t r he ht h => (direct_step_spec v fs num e he t ht).2.2 r h)
    12 0 s (by omega) hs

/-- One pass over an extent of the indirect block, started while the search goes
on. -/
theorem old_indirect_step_spec (v : insert_flavour) (fs : fs_ctx) (num e : Nat) (he : e < 500)
    (hind : (fs.itable num).indirect ≠ 0) (s : insert_state) (hs : searching fs s) :
    (∀ s1, old_indirect_step v num (fs.itable num).indirect e s = Step.next s1 →
      searching fs s1) ∧
    (∀ s1, old_indirect_step v num (fs.itable num).indirect e s = Step.brk s1 →
      indirect_outcome fs v num s1) ∧
    (∀ r, old_indirect_step v num (fs.itable num).indirect e s = Step.ret r →
      ∀ x, r ≠ Res.ok (0, x)) := by
  obtain ⟨hfs, hm⟩ := hs
  have key := find_free_entry_spec (ρ := Res (Int × fs_ctx)) ino_is_zero fs
    (ind_extent fs.btable (fs.itable num).indirect e) s ⟨hfs, hm⟩
  unfold old_indirect_step
  rw [hfs]
  by_cases hc : i32 (ind_extent fs.btable (fs.itable num).indirect e).count = 0
  · rw [if_pos hc]
    by_cases hfull : v.full_indirect fs.sb = true
    · rw [if_pos hfull]
      refine ⟨fun s1 h => (by cases h), fun s1 h => (by cases h), ?_⟩
      intro r h x hx
      cases h
      cases hx
    · rw [if_neg hfull]
      cases htb : take_block fs
          (i32 (ind_extent fs.btable (fs.itable num).indirect e).start) true with
      | ok bf =>
        obtain ⟨b, fs1⟩ := bf
        obtain ⟨hb, hfree, hfs1, hb1⟩ := take_block_ok _ _ _ _ _ htb
        refine ⟨fun s1 h => (by cases h), ?_, fun r h => (by cases h)⟩
        intro s1 h
        cases h
        exact Or.inr ⟨hind, e, he, Or.inr ⟨hc, b, hb, hfree, by rw [hfs1]⟩⟩
      | fault =>
        refine ⟨fun s1 h => (by cases h), fun s1 h => (by cases h), ?_⟩
        intro r h x hx
        cases h
        cases hx
      | nofuel =>
        refine ⟨fun s1 h => (by cases h), fun s1 h => (by cases h), ?_⟩
        intro r h x hx
        cases h
        cases hx
  · rw [if_neg hc]
    refine ⟨?_, ?_, ?_⟩
    · intro s1 h
      obtain ⟨h1, h2⟩ := break_if_found_next _ _ h
      cases key.1 s1 h1 with
      | inl h3 => exact h3
      | inr h3 => rw [h3.2.1] at h2; cases h2
    · intro s1 h
      cases break_if_found_brk _ _ h with
      | inl h1 => exact absurd h1 (forLoop_ne_brk _ _ _ _ _)
      | inr h1 =>
        cases key.1 s1 h1.1 with
        | inl h3 => rw [h3.2] at h1; cases h1.2
        | inr h3 => exact Or.inr ⟨hind, e, he, Or.inl h3⟩
    · intro r h
      exact absurd (break_if_found_ret _ _ h) (key.2 r)

theorem old_indirect_loop_spec (v : insert_flavour) (fs : fs_ctx) (num : Nat)
    (hind : (fs.itable num).indirect ≠ 0) (s : insert_state) (hs : searching fs s) :
    (∀ s1, forLoop (old_indirect_step v num (fs.itable num).indirect) 500 0 s = Step.next s1 →
      searching fs s1 ∨ indirect_outcome fs v num s1) ∧
    (∀ r, forLoop (old_indirect_step v num (fs.itable num).indirect) 500 0 s = Step.ret r →
      ∀ x, r ≠ Res.ok (0, x)) :=
  forLoop_inv_bd (old_indirect_step v num (fs.itable num).indirect) 500 (searching fs)
    (indirect_outcome fs v num) (fun r => ∀ x, r ≠ Res.ok (0, x))
    (fun e t t1 he ht h => (old_indirect_step_spec v fs num e he hind t ht).1 t1 h)
    (fun e t t1 he ht h => (old_indirect_step_spec v fs num e he hind t ht).2.1 t1 h)
    (fun e t r he ht h => (old_indirect_step_spec v fs num e he hind t ht).2.2 r h)
    500 0 s (by omega) hs

/-- The branch that makes the indirect block. -/
theorem new_indirect_spec (v : insert_flavour) (fs : fs_ctx) (num : Nat)
    (hind : (fs.itable num).indirect = 0) (s : insert_state) (hs : searching fs s) :
    (∀ s1, new_indirect v num s = Step.next s1 → indirect_outcome fs v num s1) ∧
    (∀ s1, new_indirect v num s ≠ Step.brk s1) ∧
    (∀ r, new_indirect v num s = Step.ret r → ∀ x, r ≠ Res.ok (0, x)) := by
  obtain ⟨hfs, hm⟩ := hs
  unfold new_indirect
  rw [hfs]
  by_cases hfull : fs.sb.block_count ≤ u32 (fs.sb.used_block_count + v.need)
  · rw [if_pos hfull]
    refine ⟨fun s1 h => (by cases h), fun s1 h => (by cases h), ?_⟩
    intro r h x hx
    cases h
    cases hx
  · rw [if_neg hfull]
    cases htb : take_block fs 0 false with
    | ok bf =>
      obtain ⟨b, fs1⟩ := bf
      obtain ⟨hb, hfree, hfs1, hb1⟩ := take_block_ok _ _ _ _ _ htb
      dsimp only
      cases htc : take_block fs1 b false with
      | ok cf =>
        obtain ⟨c, fs2⟩ := cf
        obtain ⟨hcb, hcfree, hfs2, _⟩ := take_block_ok _ _ _ _ _ htc
        refine ⟨?_, fun s1 h => (by cases h), fun r h => (by cases h)⟩
        intro s1 h
        cases h
        have hne : c ≠ b := by
          intro hcb1
          rw [hfs1, hcb1] at hcfree
          unfold taken upd at hcfree
          simp at hcfree
        have hcf : fs.bbitmap c = 0 := by
          rw [hfs1] at hcfree
          unfold taken upd at hcfree
          simpa [hne] using hcfree
        exact Or.inl ⟨hind, b, c, by have := hb1 (Int.le_refl 0); omega, hb, hfree, hcb, hne, hcf,
          by rw [hfs2, hfs1]⟩
      | fault =>
        refine ⟨fun s1 h => (by cases h), fun s1 h => (by cases h), ?_⟩
        intro r h x hx
        cases h
        cases hx
      | nofuel =>
        refine ⟨fun s1 h => (by cases h), fun s1 h => (by cases h), ?_⟩
        intro r h x hx
        cases h
        cases hx
    | fault =>
      refine ⟨fun s1 h => (by cases h), fun s1 h => (by cases h), ?_⟩
      intro r h x hx
      cases h
      cases hx
    | nofuel =>
      refine ⟨fun s1 h => (by cases h), fun s1 h => (by cases h), ?_⟩
      intro r h x hx
      cases h
      cases hx

theorem direct_outcome_mtch (fs : fs_ctx) (v : insert_flavour) (num : Nat) (s : insert_state)
    (h : direct_outcome fs v num s) : s.mtch = true := by
  obtain ⟨e, _, h1⟩ := h
  cases h1 with
  | inl h2 => exact h2.2.1
  | inr h2 =>
    obtain ⟨_, b, _, _, h3⟩ := h2
    rw [h3]
    rfl

theorem indirect_outcome_mtch (fs : fs_ctx) (v : insert_flavour) (num : Nat) (s : insert_state)
    (h : indirect_outcome fs v num s) : s.mtch = true := by
  cases h with
  | inl h1 =>
    obtain ⟨_, b, c, _, _, _, _, _, _, h2⟩ := h1
    rw [h2]
    rfl
  | inr h1 =>
    obtain ⟨_, e, _, h2⟩ := h1
    cases h2 with
    | inl h3 => exact h3.2.1
    | inr h3 =>
      obtain ⟨_, b, _, _, h4⟩ := h3
      rw [h4]
      rfl

theorem need_match_spec (env : Env) (herr : env.errno ≠ 0)
    (x : Step insert_state (Res (Int × fs_ctx))) (P : insert_state → Prop)
    (hnext : ∀ s1, x = Step.next s1 → s1.mtch = true → P s1)
    (hbrk : ∀ s1, x ≠ Step.brk s1)
    (hret : ∀ r, x = Step.ret r → ∀ y, r ≠ Res.ok (0, y)) :
    (∀ s1, need_match env x = Step.next s1 → P s1) ∧
    (∀ s1, need_match env x ≠ Step.brk s1) ∧
    (∀ r, need_match env x = Step.ret r → ∀ y, r ≠ Res.ok (0, y)) := by
  cases x with
  | ret r =>
    refine ⟨fun s1 h => (by cases h), fun s1 h => (by cases h), ?_⟩
    intro r1 h
    cases h
    exact hret r rfl
  | brk s2 => exact absurd rfl (hbrk s2)
  | next s2 =>
    unfold need_match
    dsimp only
    by_cases hm : s2.mtch = true
    · rw [if_pos hm]
      refine ⟨?_, fun s1 h => (by cases h), fun r h => (by cases h)⟩
      intro s1 h
      cases h
      exact hnext s2 rfl hm
    · rw [if_neg hm]
      refine ⟨fun s1 h => (by cases h), fun s1 h => (by cases h), ?_⟩
      intro r h y hy
      cases h
      have h0 : -(env.errno : Int) = 0 := congrArg Prod.fst (Res.ok.inj hy)
      omega

/-- The search behind the direct extents, started while the search goes on. -/
theorem insert_indirect_spec (env : Env) (herr : env.errno ≠ 0) (v : insert_flavour)
    (fs : fs_ctx) (num : Nat) (s : insert_state) (hs : searching fs s) :
    (∀ s1, insert_indirect env v num s = Step.next s1 → indirect_outcome fs v num s1) ∧
    (∀ s1, insert_indirect env v num s ≠ Step.brk s1) ∧
    (∀ r, insert_indirect env v num s = Step.ret r → ∀ y, r ≠ Res.ok (0, y)) := by
  unfold insert_indirect
  rw [hs.1]
  by_cases hind : (fs.itable num).indirect = 0
  · rw [if_pos hind]
    have key := new_indirect_spec v fs num hind s hs
    exact need_match_spec env herr _ _ (fun s1 h _ => key.1 s1 h) key.2.1 key.2.2
  · rw [if_neg hind]
    have key := old_indirect_loop_spec v fs num hind s hs
    refine need_match_spec env herr _ _ ?_ (forLoop_ne_brk _ _ _ _) key.2
    intro s1 h hm
    cases key.1 s1 h with
    | inl h1 => rw [h1.2] at hm; cases hm
    | inr h1 => exact h1

/-- The search for the entry to use either fails with a value other than 0 or
ends in one of the outcomes. -/
theorem insert_search_spec (env : Env) (herr : env.errno ≠ 0) (v : insert_flavour)
    (fs : fs_ctx) (num : Nat) (s : insert_state) (hs : searching fs s) :
    (∀ s1, insert_search env v num s = Step.next s1 →
      direct_outcome fs v num s1 ∨ indirect_outcome fs v num s1) ∧
    (∀ s1, insert_search env v num s ≠ Step.brk s1) ∧
    (∀ r, insert_search env v num s = Step.ret r → ∀ y, r ≠ Res.ok (0, y)) := by
  have key := direct_loop_spec v fs num s hs
  unfold insert_search
  generalize hx : forLoop (direct_step v num) 12 0 s = x at key
  cases x with
  | ret r =>
    refine ⟨fun s1 h => (by cases h), fun s1 h => (by cases h), ?_⟩
    intro r1 h
    cases h
    exact key.2 r rfl
  | brk s2 => exact absurd hx (forLoop_ne_brk _ _ _ _ _)
  | next s2 =>
    unfold after_direct
    dsimp only
    by_cases hm : s2.mtch = true
    · rw [if_pos hm]
      refine ⟨?_, fun s1 h => (by cases h), fun r h => (by cases h)⟩
      intro s1 h
      cases h
      cases key.1 s2 rfl with
      | inl h1 => rw [h1.2] at hm; cases hm
      | inr h1 => exact Or.inl h1
    · rw [if_neg hm]
      cases key.1 s2 rfl with
      | inl h1 =>
        have k2 := insert_indirect_spec env herr v fs num s2 h1
        exact ⟨fun s1 h => Or.inr (k2.1 s1 h), k2.2.1, k2.2.2⟩
      | inr h1 => exact absurd (direct_outcome_mtch fs v num s2 h1) hm

/-! ### Where the new entry is found -/

/-- The first element with `p` in `l1 ++ l2` is `a` when it is the first one in
`l2` and every element of `l1` with `p` equals `a`. -/
theorem find?_append_first {α : Type} (p : α → Bool) (a : α) (l1 l2 : List α)
    (h1 : ∀ b ∈ l1, p b = true → b = a) (h2 : l2.find? p = some a) :
    (l1 ++ l2).find? p = some a := by
  induction l1 with
  | nil => exact h2
  | cons x xs ih =>
    rw [List.cons_append, List.find?_cons]
    cases hx : p x with
    | true =>
      have := h1 x (List.mem_cons_self _ _) hx
      simp [this]
    | false => exact ih (fun b hb => h1 b (List.mem_cons_of_mem _ hb))

theorem find?_append_left {α : Type} (p : α → Bool) (a : α) (l1 l2 : List α)
    (h1 : l1.find? p = some a) : (l1 ++ l2).find? p = some a := by
  rw [List.find?_append, h1]
  rfl

/-- The first element with `p` in the lists `g 0, g 1, ...` is `a` when it is
the first one in `g e` and every element of an earlier list with `p` equals
`a`. -/
theorem find?_flatMap_range {α : Type} (g : Nat → List α) (p : α → Bool) (a : α) (e : Nat)
    (hg : (g e).find? p = some a) (hold : ∀ i, i < e → ∀ b ∈ g i, p b = true → b = a) :
    ∀ n, e < n → ((List.range n).flatMap g).find? p = some a := by
  intro n
  induction n with
  | zero => intro h; omega
  | succ n ih =>
    intro h
    rw [List.range_succ, List.flatMap_append]
    by_cases hlt : e < n
    · exact find?_append_left p a _ _ (ih hlt)
    · have hen : e = n := by omega
      refine find?_append_first p a _ _ ?_ ?_
      · intro b hb hp
        obtain ⟨i, hi, hbi⟩ := List.mem_flatMap.1 hb
        exact hold i (by have := List.mem_range.1 hi; omega) b hbi hp
      · rw [List.flatMap_cons, List.flatMap_nil, List.append_nil, ← hen]
        exact hg

/-- A write inside the entry `A` leaves the names of the other entries alone. -/
theorem name_at_frame (m m1 : Nat → Nat) (A a : Nat) (name : List Nat)
    (hlen : name.length < 252) (hA : A % 256 = 0) (ha : a % 256 = 0) (hne : a ≠ A)
    (h : ∀ x, x < A ∨ A + 256 ≤ x → m1 x = m x) : name_at m1 a name = name_at m a name :=
  name_at_congr m m1 a name (fun x h1 h2 => h x (by omega))

theorem ind_extent_set (m : Nat → Nat) (blk e b c : Nat) (hb : b < 4294967296)
    (hc : c < 4294967296) :
    ind_extent (set_ind_count (set_ind_start m blk e b) blk e c) blk e = ⟨b, c⟩ := by
  unfold ind_extent set_ind_count set_ind_start
  rw [rd32_wr32 _ _ c hc]
  rw [rd32_congr (wr32 m (A1FS_BLOCK_SIZE * blk + 8 * e) b) _ (A1FS_BLOCK_SIZE * blk + 8 * e)
        (fun x h1 h2 => wr32_outside _ _ _ _ (Or.inl (by omega)))]
  rw [rd32_wr32 _ _ b hb]

theorem set_ind_outside (m : Nat → Nat) (blk e b c x : Nat)
    (h : x < 4096 * blk + 8 * e ∨ 4096 * blk + 8 * e + 8 ≤ x) :
    set_ind_count (set_ind_start m blk e b) blk e c x = m x := by
  unfold set_ind_count set_ind_start A1FS_BLOCK_SIZE
  rw [wr32_outside _ _ _ _ (by omega), wr32_outside _ _ _ _ (by omega)]

theorem extent_slots_one (b : Nat) : extent_slots ⟨b, 1⟩ = block_slots b := by
  unfold extent_slots
  have h1 : (i32 ((1 : Nat) : Int)).toNat = 1 := by decide
  dsimp only
  rw [h1, show List.range 1 = [0] from rfl, List.flatMap_cons, List.flatMap_nil,
    List.append_nil, Nat.add_zero]

theorem block_slots_find (b : Nat) (p : Nat → Bool) (h : p (4096 * b) = true) :
    (block_slots b).find? p = some (4096 * b) := by
  unfold block_slots
  rw [show List.range 16 = 0 :: (List.range' 1 15) from by decide, List.map_cons,
    List.find?_cons]
  have : dentry_addr b 0 = 4096 * b := by unfold dentry_addr A1FS_BLOCK_SIZE DENTRY_SIZE; omega
  rw [this, h]

theorem extent_slots_empty (ext : a1fs_extent) (h : i32 ext.count = 0) : extent_slots ext = [] := by
  unfold extent_slots
  rw [h]
  rfl

theorem put_entry_frame (m : Nat → Nat) (A k : Nat) (name : List Nat) (x : Nat)
    (hlen : name.length < 252) (h : x < A ∨ A + 256 ≤ x) : put_entry m A k name x = m x :=
  put_entry_outside m A k name x (by omega)

theorem mem_dir_slots_direct (fs : fs_ctx) (d a : Nat) (h : a ∈ direct_slots (fs.itable d)) :
    a ∈ dir_slots fs d := by
  unfold dir_slots slots_of
  exact List.mem_append_left _ h

theorem mem_dir_slots_indirect (fs : fs_ctx) (d a : Nat) (hind : (fs.itable d).indirect ≠ 0)
    (h : a ∈ indirect_slots fs.btable (fs.itable d).indirect) : a ∈ dir_slots fs d := by
  unfold dir_slots slots_of
  rw [if_pos hind]
  exact List.mem_append_right _ h

/-- An entry of the directory that gets a new name becomes the first entry with
that name when no entry had it. -/
theorem placed_found (fs : fs_ctx) (num k A : Nat) (name : List Nat) (hlen : name.length < 252)
    (hnone : ∀ a ∈ dir_slots fs num, name_at fs.btable a name = false) (hok : dir_ok fs num)
    (hA : A ∈ dir_slots fs num) :
    (slots_of (fs.itable num) (put_entry fs.btable A k name)).find?
        (fun a => name_at (put_entry fs.btable A k name) a name) = some A := by
  have hAal : A % 256 = 0 := slots_of_aligned _ _ A hA
  have hsl : slots_of (fs.itable num) (put_entry fs.btable A k name) = dir_slots fs num := by
    unfold dir_slots
    refine slots_of_congr _ _ _ ?_
    intro hind x h1 h2
    have := (hok.2 hind).2 A hA
    exact put_entry_frame _ _ _ _ _ hlen (by omega)
  rw [hsl]
  refine find?_unique _ A _ hA (name_at_put_entry _ _ _ _) ?_
  intro b hb hp
  by_contra hne
  have hbal : b % 256 = 0 := slots_of_aligned _ _ b hb
  have := name_at_frame fs.btable (put_entry fs.btable A k name) A b name hlen hAal hbal hne
    (fun x hx => put_entry_frame _ _ _ _ _ hlen hx)
  rw [this, hnone b hb] at hp
  cases hp

theorem attach_direct_extent (fs1 : fs_ctx) (num e b : Nat) (tw : Bool) :
    ((attach_direct fs1 num e b tw).fs.itable num).extent =
      upd (fs1.itable num).extent e ⟨b, 1⟩ := by
  unfold attach_direct set_inode
  dsimp only
  rw [upd_same]

theorem attach_direct_indirect (fs1 : fs_ctx) (num e b : Nat) (tw : Bool) :
    ((attach_direct fs1 num e b tw).fs.itable num).indirect = (fs1.itable num).indirect := by
  unfold attach_direct set_inode
  dsimp only
  rw [upd_same]

/-- The first entry of a new block of a direct extent becomes the first entry
with the new name when no entry had it. -/
theorem placed_direct (fs : fs_ctx) (num k e b : Nat) (w tw : Bool) (name : List Nat)
    (hlen : name.length < 252)
    (hnone : ∀ a ∈ dir_slots fs num, name_at fs.btable a name = false) (he : e < 12) :
    (slots_of ((attach_direct (taken fs b w) num e b tw).fs.itable num)
        (put_entry (taken fs b w).btable (4096 * b) k name)).find?
        (fun a => name_at (put_entry (taken fs b w).btable (4096 * b) k name) a name) =
      some (4096 * b) := by
  have hframe : ∀ x, x < 4096 * b ∨ 4096 * b + 256 ≤ x →
      put_entry (taken fs b w).btable (4096 * b) k name x = fs.btable x := by
    intro x hx
    rw [put_entry_frame _ _ _ _ _ hlen hx]
    cases w with
    | false => rfl
    | true => exact memset0_outside _ _ _ _ hx
  unfold slots_of direct_slots
  rw [attach_direct_extent, attach_direct_indirect]
  refine find?_append_left _ _ _ _ ?_
  refine find?_flatMap_range _ _ _ e ?_ ?_ 12 he
  · rw [upd_same, extent_slots_one]
    exact block_slots_find b _ (name_at_put_entry _ _ _ _)
  · intro i hi a ha hp
    rw [upd_other _ _ _ _ (by omega)] at ha
    have hmem : a ∈ dir_slots fs num :=
      mem_dir_slots_direct fs num a ((mem_direct_slots _ a).2 ⟨i, by omega, ha⟩)
    by_contra hne
    have := name_at_frame fs.btable _ (4096 * b) a name hlen (by omega)
      (slots_of_aligned _ _ a hmem) hne hframe
    rw [this, hnone a hmem] at hp
    cases hp

theorem attach_ind_extent_extent (fs1 : fs_ctx) (num ind e b : Nat) :
    ((attach_ind_extent fs1 num ind e b).fs.itable num).extent = (fs1.itable num).extent := by
  unfold attach_ind_extent set_inode
  dsimp only
  rw [upd_same]

theorem attach_ind_extent_indirect (fs1 : fs_ctx) (num ind e b : Nat) :
    ((attach_ind_extent fs1 num ind e b).fs.itable num).indirect =
      (fs1.itable num).indirect := by
  unfold attach_ind_extent set_inode
  dsimp only
  rw [upd_same]

theorem direct_slots_congr (d d1 : a1fs_inode) (he : d1.extent = d.extent) :
    direct_slots d1 = direct_slots d := by
  unfold direct_slots
  rw [he]

/-- The first entry of a new block of an extent of the indirect block becomes
the first entry with the new name when no entry had it. -/
theorem placed_ind_extent (fs : fs_ctx) (num k e b : Nat) (name : List Nat)
    (hlen : name.length < 252)
    (hnone : ∀ a ∈ dir_slots fs num, name_at fs.btable a name = false) (hok : dir_ok fs num)
    (hind : (fs.itable num).indirect ≠ 0) (he : e < 500) (hb : b < 4096)
    (hfree : fs.bbitmap b = 0) :
    (slots_of ((attach_ind_extent (taken fs b true) num (fs.itable num).indirect e b).fs.itable
          num)
        (put_entry (attach_ind_extent (taken fs b true) num (fs.itable num).indirect e b).fs.btable
          (4096 * b) k name)).find?
        (fun a => name_at
          (put_entry
            (attach_ind_extent (taken fs b true) num (fs.itable num).indirect e b).fs.btable
            (4096 * b) k name) a name) =
      some (4096 * b) := by
  have hbi : b ≠ (fs.itable num).indirect := by
    intro h
    rw [h] at hfree
    exact (hok.2 hind).1 hfree
  have hbt : (attach_ind_extent (taken fs b true) num (fs.itable num).indirect e b).fs.btable =
      set_ind_count (set_ind_start (memset0 fs.btable (4096 * b) 256)
        (fs.itable num).indirect e b) (fs.itable num).indirect e 1 := rfl
  rw [hbt]
  generalize hI : (fs.itable num).indirect = ind at *
  have heq : ∀ x, x < 4096 * b ∨ 4096 * b + 256 ≤ x →
      x < 4096 * ind + 8 * e ∨ 4096 * ind + 8 * e + 8 ≤ x →
      put_entry (set_ind_count (set_ind_start (memset0 fs.btable (4096 * b) 256) ind e b) ind e 1)
        (4096 * b) k name x = fs.btable x := by
    intro x h1 h2
    rw [put_entry_frame _ _ _ _ _ hlen h1, set_ind_outside _ _ _ _ _ _ h2,
      memset0_outside _ _ _ _ h1]
  have hold : ∀ a ∈ dir_slots fs num,
      name_at (put_entry (set_ind_count (set_ind_start (memset0 fs.btable (4096 * b) 256)
        ind e b) ind e 1) (4096 * b) k name) a name = true → a = 4096 * b := by
    intro a hmem hp
    by_contra hne
    have hal : a % 256 = 0 := slots_of_aligned _ _ a hmem
    have hblk := (hok.2 (by rw [hI]; exact hind)).2 a hmem
    rw [hI] at hblk
    have := name_at_congr fs.btable _ a name
      (fun x h1 h2 => heq x (by omega) (by omega))
    rw [this, hnone a hmem] at hp
    cases hp
  unfold slots_of
  rw [direct_slots_congr (fs.itable num) _ (attach_ind_extent_extent (taken fs b true) num ind e b),
    attach_ind_extent_indirect]
  have hti : ((taken fs b true).itable num).indirect = ind := hI
  rw [hti, if_pos hind]
  refine find?_append_first _ _ _ _ ?_ ?_
  · intro a ha hp
    exact hold a (mem_dir_slots_direct fs num a ha) hp
  · unfold indirect_slots
    refine find?_flatMap_range _ _ _ e ?_ ?_ 500 he
    · rw [ind_extent_congr
        (set_ind_count (set_ind_start (memset0 fs.btable (4096 * b) 256) ind e b) ind e 1) _ ind e
        (fun x h1 h2 => put_entry_frame _ _ _ _ _ hlen (by omega)),
        ind_extent_set _ _ _ _ _ (by omega) (by omega), extent_slots_one]
      exact block_slots_find b _ (name_at_put_entry _ _ _ _)
    · intro i hi a ha hp
      rw [ind_extent_congr fs.btable _ ind i
        (fun x h1 h2 => heq x (by omega) (by omega))] at ha
      refine hold a (mem_dir_slots_indirect fs num a (by rw [hI]; exact hind) ?_) hp
      rw [hI]
      exact (mem_indirect_slots _ _ a).2 ⟨i, by omega, ha⟩

theorem attach_new_indirect_extent (fs2 : fs_ctx) (num b c : Nat) (w : Bool) :
    ((attach_new_indirect fs2 num b c w).fs.itable num).extent = (fs2.itable num).extent := by
  unfold attach_new_indirect set_inode
  dsimp only
  rw [upd_same]

theorem attach_new_indirect_indirect (fs2 : fs_ctx) (num b c : Nat) (w : Bool) :
    ((attach_new_indirect fs2 num b c w).fs.itable num).indirect = b := by
  unfold attach_new_indirect set_inode
  dsimp only
  rw [upd_same]

/-- The first entry of the first block of a new indirect block becomes the
first entry with the new name when no entry had it. -/
theorem placed_new_indirect (fs : fs_ctx) (num k b c : Nat) (w : Bool) (name : List Nat)
    (hlen : name.length < 252)
    (hnone : ∀ a ∈ dir_slots fs num, name_at fs.btable a name = false) (hok : dir_ok fs num)
    (hb0 : b ≠ 0) (hc : c < 4096) (hcb : c ≠ b) (hfree : fs.bbitmap b = 0) :
    (slots_of
        ((attach_new_indirect (taken (taken fs b false) c false) num b c w).fs.itable num)
        (put_entry (attach_new_indirect (taken (taken fs b false) c false) num b c w).fs.btable
          (4096 * c) k name)).find?
        (fun a => name_at
          (put_entry (attach_new_indirect (taken (taken fs b false) c false) num b c w).fs.btable
            (4096 * c) k name) a name) =
      some (4096 * c) := by
  have hbt : (attach_new_indirect (taken (taken fs b false) c false) num b c w).fs.btable =
      memset0 (set_ind_count (set_ind_start
        (if w then memset0 fs.btable (4096 * b) 4096 else fs.btable) b 0 c) b 0 1)
        (4096 * c) 256 := rfl
  rw [hbt]
  have heq : ∀ x, x < 4096 * c ∨ 4096 * c + 256 ≤ x → x < 4096 * b ∨ 4096 * b + 4096 ≤ x →
      put_entry (memset0 (set_ind_count (set_ind_start
        (if w then memset0 fs.btable (4096 * b) 4096 else fs.btable) b 0 c) b 0 1)
        (4096 * c) 256) (4096 * c) k name x = fs.btable x := by
    intro x h1 h2
    rw [put_entry_frame _ _ _ _ _ hlen h1, memset0_outside _ _ _ _ h1,
      set_ind_outside _ _ _ _ _ _ (by omega)]
    cases w with
    | false => rfl
    | true => exact memset0_outside _ _ _ _ h2
  unfold slots_of
  rw [direct_slots_congr (fs.itable num) _
      (attach_new_indirect_extent (taken (taken fs b false) c false) num b c w),
    attach_new_indirect_indirect, if_pos hb0]
  refine find?_append_first _ _ _ _ ?_ ?_
  · intro a ha hp
    have hmem := mem_dir_slots_direct fs num a ha
    by_contra hne
    have hal : a % 256 = 0 := slots_of_aligned _ _ a hmem
    have hblk : a / 4096 ≠ b := by
      intro h
      have := hok.1 a hmem
      rw [h] at this
      exact this hfree
    have := name_at_congr fs.btable _ a name
      (fun x h1 h2 => heq x (by omega) (by omega))
    rw [this, hnone a hmem] at hp
    cases hp
  · unfold indirect_slots
    refine find?_flatMap_range _ _ _ 0 ?_ (fun i hi => absurd hi (Nat.not_lt_zero i)) 500
      (by omega)
    rw [ind_extent_congr
      (set_ind_count (set_ind_start
        (if w then memset0 fs.btable (4096 * b) 4096 else fs.btable) b 0 c) b 0 1) _ b 0
      (fun x h1 h2 => by
        rw [put_entry_frame _ _ _ _ _ hlen (by omega), memset0_outside _ _ _ _ (by omega)]),
      ind_extent_set _ _ _ _ _ (by omega) (by omega), extent_slots_one]
    exact block_slots_find c _ (name_at_put_entry _ _ _ _)

/-- The entry the search ends at: written with a name that no entry of the
directory had, it is the first entry of the directory with that name; the inode
bitmap is the one of the image the search started in. -/
theorem outcome_placed (fs : fs_ctx) (v : insert_flavour) (num k : Nat) (name : List Nat)
    (hlen : name.length < 252)
    (hnone : ∀ a ∈ dir_slots fs num, name_at fs.btable a name = false) (hok : dir_ok fs num)
    (s : insert_state) (h : direct_outcome fs v num s ∨ indirect_outcome fs v num s) :
    s.fs.ibitmap = fs.ibitmap ∧
    (slots_of (s.fs.itable num) (put_entry s.fs.btable s.entry k name)).find?
        (fun a => name_at (put_entry s.fs.btable s.entry k name) a name) = some s.entry := by
  cases h with
  | inl h =>
    obtain ⟨e, he, h1⟩ := h
    cases h1 with
    | inl h2 =>
      obtain ⟨hfs, _, hmem, _⟩ := h2
      rw [hfs]
      exact ⟨rfl, placed_found fs num k s.entry name hlen hnone hok
        (mem_dir_slots_direct fs num _ ((mem_direct_slots _ _).2 ⟨e, he, hmem⟩))⟩
    | inr h2 =>
      obtain ⟨_, b, _, _, hs⟩ := h2
      rw [hs]
      exact ⟨rfl, placed_direct fs num k e b v.wipe_direct v.twice name hlen hnone he⟩
  | inr h =>
    cases h with
    | inl h1 =>
      obtain ⟨_, b, c, hb0, _, hfree, hc, hcb, _, hs⟩ := h1
      rw [hs]
      exact ⟨rfl, placed_new_indirect fs num k b c v.wipe_indirect name hlen hnone hok hb0 hc hcb
        hfree⟩
    | inr h1 =>
      obtain ⟨hind, e, he, h2⟩ := h1
      cases h2 with
      | inl h3 =>
        obtain ⟨hfs, _, hmem, _⟩ := h3
        rw [hfs]
        exact ⟨rfl, placed_found fs num k s.entry name hlen hnone hok
          (mem_dir_slots_indirect fs num _ hind ((mem_indirect_slots _ _ _).2 ⟨e, he, hmem⟩))⟩
      | inr h3 =>
        obtain ⟨_, b, hb, hfree, hs⟩ := h3
        rw [hs]
        exact ⟨rfl, placed_ind_extent fs num k e b name hlen hnone hok hind he hb hfree⟩

/-! ### Creating a file in the root directory -/

theorem split_last_none (name : List Nat) (h : ∀ c ∈ name, c ≠ 47) : split_last name = none := by
  induction name with
  | nil => rfl
  | cons c cs ih =>
    unfold split_last
    rw [ih (fun d hd => h d (List.mem_cons_of_mem _ hd))]
    dsimp only
    rw [if_neg (h c (List.mem_cons_self _ _))]

/-- The split of `/name` is the empty parent path and `name`. -/
theorem split_last_component (name : List Nat) (hname : is_component name) :
    split_last (47 :: name) = some ([], name) := by
  unfold split_last
  rw [split_last_none name (fun c hc => (hname.2.2 c hc).2)]
  rfl

theorem parent_lookup_root (fs : fs_ctx) : parent_lookup fs [] = 0 := rfl

theorem S_ISREG_or (mode : Nat) (h : S_ISREG mode = true) : S_ISREG (S_IFREG ||| mode) = true := by
  unfold S_ISREG at *
  have h1 : mode &&& S_IFMT = S_IFREG := by simpa using h
  have h2 : (S_IFREG ||| mode) &&& S_IFMT = S_IFREG := by
    rw [Nat.and_comm, Nat.and_or_distrib_left, Nat.and_comm S_IFMT mode, h1]
    decide
  simp [h2]

/-- The image `create_finish` leaves when the entry it writes is the first one
of the root with the name: the path resolves to the new inode, and
`a1fs_getattr` reports the new record. -/
theorem created_visible (env : Env) (fs1 : fs_ctx) (name : List Nat) (mode : Nat)
    (s : insert_state) (hname : is_component name) (hreg : S_ISREG mode = true)
    (hpl : ∀ k, (slots_of (s.fs.itable 0) (put_entry s.fs.btable s.entry k name)).find?
      (fun a => name_at (put_entry s.fs.btable s.entry k name) a name) = some s.entry)
    (hfin : create_finish env 0 mode name s = Res.ok (0, fs1)) :
    ∃ k : Nat, first_inode s.fs.ibitmap = (k : Int) ∧ path_lookup fs1 (47 :: name) = (k : Int) ∧
      a1fs_getattr fs1 (47 :: name) =
        Res.ok (0, ⟨S_IFREG ||| mode, 1, 0, 4096, 0, env.now⟩) ∧
      1 ≤ k ∧
      fs1.itable k =
        { zero_inode with mode := mode, links := 1, size := 0, mtime := env.now,
                          block_count := 0, num := k, parent_num := 0 } := by
  unfold create_finish at hfin
  cases hms : map_set s.fs.ibitmap (first_inode s.fs.ibitmap) 1 with
  | fault => rw [hms] at hfin; cases hfin
  | nofuel => rw [hms] at hfin; cases hfin
  | ok im =>
    rw [hms] at hfin
    dsimp only at hfin
    obtain ⟨k, hk, hk1, hk2, _⟩ := first_inode_ok _ _ hms
    rw [hk, Int.toNat_ofNat] at hfin
    have hfs1 : fs1 = create_commit env 0 mode name s im k := by
      have := Res.ok.inj hfin
      exact (congrArg Prod.snd this).symm
    have hit0 : fs1.itable 0 =
        { s.fs.itable 0 with empty := u32 ((s.fs.itable 0).empty + 1), mtime := env.now } := by
      rw [hfs1]
      unfold create_commit
      dsimp only
      rw [upd_other _ _ _ _ (by omega), upd_same]
    have hitk : fs1.itable k =
        { zero_inode with mode := mode, links := 1, size := 0, mtime := env.now,
                          block_count := 0, num := k, parent_num := 0 } := by
      rw [hfs1]
      unfold create_commit
      dsimp only
      rw [upd_same]
    have hbt : fs1.btable = put_entry s.fs.btable s.entry k name := by
      rw [hfs1]
      rfl
    have hslot : first_slot fs1 0 name = some s.entry := by
      unfold first_slot dir_slots
      rw [hbt, slots_of_fields (s.fs.itable 0) (fs1.itable 0) _ (by rw [hit0]) (by rw [hit0])]
      exact hpl k
    have hino : dentry_ino fs1.btable s.entry = k := by
      rw [hbt]
      exact dentry_ino_put_entry _ _ _ _ (by omega)
    have hlook : path_lookup fs1 (47 :: name) = (k : Int) := by
      rw [path_lookup_single fs1 name hname, hslot]
      dsimp only [Option.map, Option.getD]
      rw [hino, hitk]
      exact i32_small k (by omega)
    refine ⟨k, hk, hlook, ?_, hk1, hitk⟩
    unfold a1fs_getattr
    have hlen : ¬ (47 :: name).length ≥ PATH_MAX := by
      have := hname.2.1
      unfold A1FS_NAME_MAX at this
      unfold PATH_MAX
      rw [List.length_cons]
      omega
    rw [if_neg hlen]
    dsimp only
    rw [hlook, if_neg (by omega), if_neg (by omega), if_neg (by omega)]
    unfold inode_at
    rw [if_pos (by omega), Int.toNat_ofNat, hitk]
    dsimp only
    rw [if_pos hreg]
    rfl

/-- A successful `a1fs_create("/name")` in a well-formed root directory without
an entry called `name`: the path resolves to the index `first_inode` gave, the
record of that inode is the new one, and `a1fs_getattr` reports it. -/
theorem create_in_root (env : Env) (fs fs1 : fs_ctx) (name : List Nat) (mode : Nat)
    (hname : is_component name)
    (herr : env.errno ≠ 0)
    (hnone : ∀ a ∈ dir_slots fs 0, name_at fs.btable a name = false)
    (hok : dir_ok fs 0)
    (hfirst : (fs.itable 0).empty = 0 → 0 < i32 ((fs.itable 0).extent 0).count)
    (hcr : a1fs_create env fs (47 :: name) mode = Res.ok (0, fs1)) :
    ∃ k : Nat, first_inode fs.ibitmap = (k : Int) ∧
      path_lookup fs1 (47 :: name) = (k : Int) ∧
      a1fs_getattr fs1 (47 :: name) =
        Res.ok (0, ⟨S_IFREG ||| mode, 1, 0, 4096, 0, env.now⟩) ∧
      S_ISREG (S_IFREG ||| mode) = true ∧
      1 ≤ k ∧
      fs1.itable k =
        { zero_inode with mode := mode, links := 1, size := 0, mtime := env.now,
                          block_count := 0, num := k, parent_num := 0 } := by
  have hlen : name.length < 252 := hname.2.1
  unfold a1fs_create at hcr
  by_cases hreg : S_ISREG mode = true
  swap
  · rw [if_pos (by simpa using hreg)] at hcr
    cases hcr
  rw [if_neg (by simp [hreg])] at hcr
  by_cases hfull : fs.sb.inode_count = fs.sb.used_inode_count
  · rw [if_pos hfull] at hcr
    have h1 : -ENOSPC = (0 : Int) := congrArg Prod.fst (Res.ok.inj hcr)
    exact absurd h1 (by decide)
  rw [if_neg hfull, split_last_component name hname] at hcr
  dsimp only at hcr
  rw [parent_lookup_root, if_neg (by decide)] at hcr
  have h0 : (0 : Int).toNat = 0 := rfl
  rw [h0] at hcr
  unfold create_at at hcr
  by_cases hec : (fs.itable 0).extent_count ≥ 512
  · rw [if_pos hec] at hcr
    have h1 : -ENOSPC = (0 : Int) := congrArg Prod.fst (Res.ok.inj hcr)
    exact absurd h1 (by decide)
  rw [if_neg hec] at hcr
  have hfinish : ∀ s : insert_state, s.fs.ibitmap = fs.ibitmap →
      (∀ k, (slots_of (s.fs.itable 0) (put_entry s.fs.btable s.entry k name)).find?
        (fun a => name_at (put_entry s.fs.btable s.entry k name) a name) = some s.entry) →
      create_finish env 0 mode name s = Res.ok (0, fs1) →
      ∃ k : Nat, first_inode fs.ibitmap = (k : Int) ∧
        path_lookup fs1 (47 :: name) = (k : Int) ∧
        a1fs_getattr fs1 (47 :: name) =
          Res.ok (0, ⟨S_IFREG ||| mode, 1, 0, 4096, 0, env.now⟩) ∧
        S_ISREG (S_IFREG ||| mode) = true ∧
        1 ≤ k ∧
        fs1.itable k =
          { zero_inode with mode := mode, links := 1, size := 0, mtime := env.now,
                            block_count := 0, num := k, parent_num := 0 } := by
    intro s hib hpl hfin
    obtain ⟨k, hk, h1, h2, h3, h4⟩ := created_visible env fs1 name mode s hname hreg hpl hfin
    rw [hib] at hk
    exact ⟨k, hk, h1, h2, S_ISREG_or mode hreg, h3, h4⟩
  by_cases hem : (fs.itable 0).empty = 0
  · rw [if_pos hem] at hcr
    refine hfinish (insert_start fs 0) rfl ?_ hcr
    intro k
    refine placed_found fs 0 k _ name hlen hnone hok ?_
    refine mem_dir_slots_direct fs 0 _ ((mem_direct_slots _ _).2 ⟨0, by omega, ?_⟩)
    exact (mem_extent_slots _ _).2 ⟨0, 0, hfirst hem, by omega, rfl⟩
  · rw [if_neg hem] at hcr
    have key := insert_search_spec env herr create_flavour fs 0 (insert_start fs 0) ⟨rfl, rfl⟩
    generalize hx : insert_search env create_flavour 0 (insert_start fs 0) = x at hcr key
    cases x with
    | ret r => exact absurd hcr (key.2.2 r rfl fs1)
    | brk s1 => exact absurd rfl (key.2.1 s1)
    | next s1 =>
      dsimp only at hcr
      refine hfinish s1 ?_ ?_ hcr
      · exact (outcome_placed fs create_flavour 0 0 name hlen hnone hok s1 (key.1 s1 rfl)).1
      · intro k
        exact (outcome_placed fs create_flavour 0 k name hlen hnone hok s1 (key.1 s1 rfl)).2

/-! ### Growing a file by less than a block -/

/-- A loop whose body breaks at the indices with `P` and else leaves the state
as it is stops at an index with `P` if there is one. -/
theorem forLoop_first_brk {σ ρ : Type} (body : Nat → σ → Step σ ρ) (s0 : σ) (F : Nat → σ)
    (P : Nat → Prop) [DecidablePred P]
    (hbody : ∀ i, body i s0 = if P i then Step.brk (F i) else Step.next s0) :
    ∀ n i, (∃ j, i ≤ j ∧ j < i + n ∧ P j) →
      ∃ j, i ≤ j ∧ j < i + n ∧ P j ∧ forLoop body n i s0 = Step.next (F j) := by
  intro n
  induction n with
  | zero =>
    intro i h
    obtain ⟨j, h1, h2, _⟩ := h
    omega
  | succ n ih =>
    intro i h
    rw [forLoop_succ, hbody i]
    by_cases hp : P i
    · rw [if_pos hp]
      exact ⟨i, Nat.le_refl i, by omega, hp, rfl⟩
    · rw [if_neg hp]
      obtain ⟨j, h1, h2, h3⟩ := h
      have hji : j ≠ i := fun h => hp (h ▸ h3)
      obtain ⟨j1, h4, h5, h6, h7⟩ := ih (i + 1) ⟨j, by omega, by omega, h3⟩
      exact ⟨j1, by omega, by omega, h6, h7⟩

/-- With at most one block to add the run stays one block long. -/
theorem grow_run_small (bytes_to_add : Int) (j : Nat) (bm : Nat → Nat)
    (h : bytes_to_add ≤ 4096) : grow_run bytes_to_add j bm = (bm, 1) := by
  unfold grow_run
  cases 4095 - j with
  | zero => rfl
  | succ m =>
    rw [forLoop_succ]
    dsimp only
    rw [if_neg (by omega)]
    rfl

theorem grow_fill_small (m : Nat → Nat) (j : Nat) (bytes_to_add : Int)
    (h : bytes_to_add < 4096) :
    grow_fill m j 1 bytes_to_add = (memset0 m (4096 * j) bytes_to_add.toNat, 0) := by
  unfold grow_fill
  rw [if_pos h]
  rfl

/-- The allocation of a run for less than a block takes a free block `j` of the
bitmap, clears the bytes to add at its start and records the run `(j, 1)`. -/
theorem grow_alloc_small (put : fs_ctx → Nat → Int → fs_ctx) (s : grow_state)
    (hn : s.bytes_to_add < 4096)
    (hfree : ∃ j, 1 ≤ j ∧ j < 4096 ∧ s.fs.bbitmap j = 0) :
    ∃ j, 1 ≤ j ∧ j < 4096 ∧ s.fs.bbitmap j = 0 ∧
      grow_alloc put s =
        { fs := put { s.fs with bbitmap := upd s.fs.bbitmap j 1,
                                btable := memset0 s.fs.btable (4096 * j) s.bytes_to_add.toNat }
                j 1,
          bytes_to_add := 0 } := by
  obtain ⟨j0, h1, h2, h3⟩ := hfree
  obtain ⟨j, h4, h5, h6, h7⟩ := forLoop_first_brk (grow_alloc_step put) s (grow_found put s)
    (fun j => s.fs.bbitmap j = 0) (fun j => rfl) 4095 1 ⟨j0, h1, by omega, h3⟩
  refine ⟨j, h4, by omega, h6, ?_⟩
  unfold grow_alloc
  rw [h7]
  unfold grow_found
  rw [grow_run_small _ _ _ (by omega)]
  dsimp only [Step.state]
  rw [grow_fill_small _ _ _ hn]

theorem whileLoop_done {σ ρ : Type} (tmo : ρ) (cond : σ → Bool) (body : σ → Step σ ρ)
    (fuel : Nat) (s : σ) (h : cond s = false) : whileLoop tmo cond body fuel s = Step.next s := by
  cases fuel with
  | zero => unfold whileLoop; rw [h]; rfl
  | succ n => unfold whileLoop; rw [h]; rfl

theorem whileLoop_step {σ ρ : Type} (tmo : ρ) (cond : σ → Bool) (body : σ → Step σ ρ)
    (fuel : Nat) (s s1 : σ) (h : cond s = true) (hb : body s = Step.next s1) :
    whileLoop tmo cond body (fuel + 1) s = whileLoop tmo cond body fuel s1 := by
  rw [whileLoop, if_pos h, hb]

theorem whileLoop_ret {σ ρ : Type} (tmo : ρ) (cond : σ → Bool) (body : σ → Step σ ρ)
    (fuel : Nat) (s : σ) (r : ρ) (h : cond s = true) (hb : body s = Step.ret r) :
    whileLoop tmo cond body (fuel + 1) s = Step.ret r := by
  rw [whileLoop, if_pos h, hb]

/-- The image after a file `k` without a first extent grew by `n` bytes, less
than a block, into the free block `j`. -/
theorem grow_direct_small (k : Nat) (s : grow_state) (hpos : 0 < s.bytes_to_add)
    (hn : s.bytes_to_add < 4096) (hext : ((s.fs.itable k).extent 0).start = 0)
    (hfree : ∃ j, 1 ≤ j ∧ j < 4096 ∧ s.fs.bbitmap j = 0) :
    ∃ j, 1 ≤ j ∧ j < 4096 ∧ s.fs.bbitmap j = 0 ∧
      grow_direct k s =
        { fs := put_direct k 0
            { s.fs with bbitmap := upd s.fs.bbitmap j 1,
                        btable := memset0 s.fs.btable (4096 * j) s.bytes_to_add.toNat } j 1,
          bytes_to_add := 0 } := by
  obtain ⟨j, h1, h2, h3, h4⟩ := grow_alloc_small (put_direct k 0) s hn hfree
  refine ⟨j, h1, h2, h3, ?_⟩
  unfold grow_direct
  rw [show (13 : Nat) = 11 + 1 + 1 from rfl, forLoop_succ]
  have hb0 : grow_direct_step k 0 s = Step.next (grow_alloc (put_direct k 0) s) := by
    unfold grow_direct_step
    rw [if_pos hpos]
    have : (extent_at (s.fs.itable k) 0).start = 0 := hext
    rw [if_pos this]
  rw [hb0]
  dsimp only
  rw [forLoop_succ, h4]
  have hb1 : ∀ t : fs_ctx, grow_direct_step k (0 + 1) ⟨t, 0⟩ = Step.brk ⟨t, 0⟩ := by
    intro t
    unfold grow_direct_step
    rw [if_neg (show ¬ ((0 : Int) > 0) by decide)]
  rw [hb1]
  rfl

theorem u32_small (x : Int) (h0 : 0 ≤ x) (h : x < 4294967296) : ((u32 x : Nat) : Int) = x := by
  unfold u32
  rw [Int.emod_eq_of_lt h0 h]
  exact Int.toNat_of_nonneg h0

theorem u64_small (x : Nat) (h : x < 18446744073709551616) : u64 (x : Int) = x := by
  unfold u64
  rw [Int.emod_eq_of_lt (by omega) (by omega)]
  rfl

/-- Growing an empty file without a first extent by less than a block: when
the counters of the superblock leave a block and the bitmap has a free one,
`a1fs_truncate` returns 0 and leaves `grown_into` for a free block `j`. -/
theorem truncate_grow_small (fuel : Nat) (env : Env) (fs : fs_ctx) (path : List Nat) (k n : Nat)
    (hlook : path_lookup fs path = (k : Int)) (hsize : (fs.itable k).size = 0)
    (hext : ((fs.itable k).extent 0).start = 0) (hn : 0 < n) (hn2 : n < 4096)
    (hsb : fs.sb.used_block_count < fs.sb.block_count) (hbc : fs.sb.block_count < 1048576)
    (hfree : ∃ j, 1 ≤ j ∧ j < 4096 ∧ fs.bbitmap j = 0) :
    ∃ j, 1 ≤ j ∧ j < 4096 ∧ fs.bbitmap j = 0 ∧
      a1fs_truncate (fuel + 1) env fs path n = Res.ok (0, grown_into env fs k j n) := by
  have hi : i32 ((n : Int) - ((0 : Nat) : Int)) = (n : Int) := by
    have : (n : Int) - ((0 : Nat) : Int) = (n : Int) := by simp
    rw [this]
    exact i32_small n (by omega)
  obtain ⟨j, h1, h2, h3, h4⟩ := grow_direct_small k ⟨fs, (n : Int)⟩ (by simpa using hn)
    (by show (n : Int) < 4096; omega) hext hfree
  refine ⟨j, h1, h2, h3, ?_⟩
  unfold a1fs_truncate
  dsimp only
  rw [hlook, if_neg (by omega), Int.toNat_ofNat, hsize, u64_small n (by omega),
    if_neg (by omega)]
  have hcap : ¬ ((n : Int) >
      ((u32 (((u32 ((fs.sb.block_count : Int) - (fs.sb.used_block_count : Int)) : Nat) : Int)
        * 4096) : Nat) : Int)) := by
    rw [u32_small _ (by rw [u32_small _ (by omega) (by omega)]; omega)
      (by rw [u32_small _ (by omega) (by omega)]; omega), u32_small _ (by omega) (by omega)]
    omega
  rw [if_neg hcap, if_pos (by omega), hi]
  have hbody : grow_indirect k (grow_direct k ⟨fs, (n : Int)⟩) =
      Step.next ⟨put_direct k 0
        { fs with bbitmap := upd fs.bbitmap j 1,
                  btable := memset0 fs.btable (4096 * j) n } j 1, 0⟩ := by
    rw [h4]
    unfold grow_indirect
    rw [if_neg (show ¬ ((0 : Int) > 0) by decide)]
    rfl
  have hw : whileLoop (Res.nofuel : Res (Int × fs_ctx))
      (fun (s : grow_state) => decide (s.bytes_to_add > 0))
      (fun s => grow_indirect k (grow_direct k s)) (fuel + 1) ⟨fs, (n : Int)⟩ =
      Step.next ⟨put_direct k 0
        { fs with bbitmap := upd fs.bbitmap j 1,
                  btable := memset0 fs.btable (4096 * j) n } j 1, 0⟩ := by
    rw [whileLoop_step Res.nofuel (fun (s : grow_state) => decide (s.bytes_to_add > 0))
      (fun s => grow_indirect k (grow_direct k s)) fuel ⟨fs, (n : Int)⟩ _ (by simpa using hn)
      hbody]
    exact whileLoop_done _ _ _ _ _ (by simp)
  rw [hw]
  unfold grown_into
  rw [u64_small n (by omega)]

/-! ### Reading and writing the first block of a file -/

theorem transfer_ok (wr : Bool) (s : rw_state) (addr : Nat) (bufoff len : Int)
    (h1 : 0 ≤ len) (h2 : 0 ≤ bufoff) :
    transfer wr s addr bufoff len =
      some (if wr then
              { s with mem := memcpy s.mem addr (fun x => s.buf (bufoff.toNat + x)) len.toNat }
            else
              { s with buf := memcpy s.buf bufoff.toNat (fun x => s.mem (addr + x)) len.toNat }) := by
  unfold transfer
  rw [if_neg (by omega)]
  cases wr <;> rfl

/-- A transfer of `n` bytes, less than a block, at offset 0 of a file whose
first extent starts at block `j`: the bytes move between the start of the block
and the start of the buffer, and `n` is returned. -/
theorem rw_walk_small (wr : Bool) (fuel : Nat) (file : a1fs_inode) (mem buf : Nat → Nat)
    (n j c : Nat) (hext : file.extent 0 = ⟨j, c⟩) (hj : j ≠ 0) (hc : 0 < i32 c) (hn : 0 < n)
    (hn2 : n < 4096) :
    ∃ s : rw_state, rw_walk wr (fuel + 1) file mem buf n 0 = Step.ret (Res.ok ((n : Int), s)) ∧
      (∀ x, s.mem x =
        if wr = true ∧ 4096 * j ≤ x ∧ x < 4096 * j + n then buf (x - 4096 * j) else mem x) ∧
      (∀ x, s.buf x = if wr = false ∧ x < n then mem (4096 * j + x) else buf x) := by
  have hleft : (rw_start mem buf n).bytes_left = (n : Int) := i32_small n (by omega)
  have hidx : copy_index (decide ((0 : Nat) = 0))
      ((0 : Int), rw_start mem buf n) = 0 := by
    unfold copy_index
    rw [if_neg (by simp [rw_start])]
  have haddr : copy_addr (decide ((0 : Nat) = 0))
      (fun _ => extent_at file 0) ((0 : Int), rw_start mem buf n) = 4096 * j := by
    unfold copy_addr
    rw [hidx]
    have : extent_at file 0 = ⟨j, c⟩ := hext
    rw [this]
    rfl
  obtain ⟨t, hblock, hmem, hbuf⟩ : ∃ t : rw_state,
      copy_block wr (decide ((0 : Nat) = 0))
        (fun _ => extent_at file 0) ((0 : Int), rw_start mem buf n) =
        Step.ret (Res.ok ((n : Int), t)) ∧
      (∀ x, t.mem x =
        if wr = true ∧ 4096 * j ≤ x ∧ x < 4096 * j + n then buf (x - 4096 * j) else mem x) ∧
      (∀ x, t.buf x = if wr = false ∧ x < n then mem (4096 * j + x) else buf x) := by
    unfold copy_block
    dsimp only
    rw [hleft, if_pos (by omega), haddr,
      transfer_ok wr _ _ _ _ (by omega) (by simp [rw_start])]
    have hi := i32_small n (by omega)
    refine ⟨{ rw_start mem buf n with
              mem := if wr then memcpy mem (4096 * j) (fun x => buf (0 + x)) n else mem,
              buf := if wr then buf else memcpy buf 0 (fun x => mem (4096 * j + x)) n,
              bytes_done := (n : Int) }, ?_, ?_, ?_⟩
    · cases wr
      · simp [rw_start, hi]
      · simp [rw_start, hi]
    · intro x
      cases wr
      · simp
      · simp [memcpy]
    · intro x
      cases wr
      · simp [memcpy]
      · simp
  refine ⟨t, ?_, hmem, hbuf⟩
  · unfold rw_walk
    rw [whileLoop_done _ _ _ _ _ (by simp [rw_start])]
    unfold after_locate
    dsimp only
    unfold copy_all
    rw [if_pos (by simp [rw_start])]
    have h13 : 13 - (rw_start mem buf n).offset_extent = 12 + 1 := rfl
    rw [h13, forLoop_succ]
    have hstep : copy_direct_step wr (fuel + 1) file (rw_start mem buf n).offset_extent
        (rw_start mem buf n) = Step.ret (Res.ok ((n : Int), t)) := by
      unfold copy_direct_step
      have h0 : (rw_start mem buf n).offset_extent = 0 := rfl
      rw [h0]
      have : (extent_at file 0).start ≠ 0 := by
        have : extent_at file 0 = ⟨j, c⟩ := hext
        rw [this]
        exact hj
      rw [if_pos this]
      unfold copy_extent
      rw [whileLoop_ret _ _ _ fuel _ _ ?_ hblock]
      · rfl
      · have : extent_at file 0 = ⟨j, c⟩ := hext
        simp [this, hc]
    rw [hstep]
    rfl

theorem find?_congr_mem {α : Type} (l : List α) (p q : α → Bool) (h : ∀ a ∈ l, p a = q a) :
    l.find? p = l.find? q := by
  induction l with
  | nil => rfl
  | cons x xs ih =>
    rw [List.find?_cons, List.find?_cons, h x (List.mem_cons_self _ _),
      ih (fun a ha => h a (List.mem_cons_of_mem _ ha))]

theorem map_getD_congr {α β : Type} (o : Option α) (f g : α → β) (d : β)
    (h : ∀ a, o = some a → f a = g a) : (o.map f).getD d = (o.map g).getD d := by
  cases o with
  | none => rfl
  | some a =>
    show f a = g a
    exact h a rfl

/-- The resolution of `/name` depends on the image through the extents of the
root, the bytes of its entries and of its indirect block, and the field `num`
of the inode records only. -/
theorem path_lookup_frame (fs fs1 : fs_ctx) (name : List Nat) (hname : is_component name)
    (hext : (fs1.itable 0).extent = (fs.itable 0).extent)
    (hindirect : (fs1.itable 0).indirect = (fs.itable 0).indirect)
    (hnum : ∀ i, (fs1.itable i).num = (fs.itable i).num)
    (hslots : ∀ a ∈ dir_slots fs 0, ∀ x, a ≤ x → x < a + 256 → fs1.btable x = fs.btable x)
    (hind : (fs.itable 0).indirect ≠ 0 → ∀ x, 4096 * (fs.itable 0).indirect ≤ x →
      x < 4096 * (fs.itable 0).indirect + 4096 → fs1.btable x = fs.btable x) :
    path_lookup fs1 (47 :: name) = path_lookup fs (47 :: name) := by
  have hlen : name.length < 252 := hname.2.1
  have hsl : dir_slots fs1 0 = dir_slots fs 0 := by
    unfold dir_slots
    rw [slots_of_fields (fs.itable 0) (fs1.itable 0) _ hext hindirect]
    exact slots_of_congr _ _ _ hind
  have hfs : first_slot fs1 0 name = first_slot fs 0 name := by
    unfold first_slot
    rw [hsl]
    refine find?_congr_mem _ _ _ ?_
    intro a ha
    exact name_at_congr _ _ a name (fun x h1 h2 => hslots a ha x (by omega) (by omega))
  rw [path_lookup_single fs1 name hname, path_lookup_single fs name hname, hfs]
  refine map_getD_congr _ _ _ _ ?_
  intro a hf
  have ha : a ∈ dir_slots fs 0 := by
    unfold first_slot at hf
    exact List.mem_of_find?_eq_some hf
  have hino : dentry_ino fs1.btable a = dentry_ino fs.btable a := by
    unfold dentry_ino
    exact rd32_congr _ _ a (fun x h1 h2 => hslots a ha x h1 (by omega))
  rw [hino, hnum]

theorem grown_into_extent (env : Env) (fs : fs_ctx) (k j n : Nat) :
    ((grown_into env fs k j n).itable k).extent 0 = ⟨j, 1⟩ := by
  unfold grown_into set_inode
  dsimp only
  rw [upd_same]
  unfold put_direct set_inode
  dsimp only
  rw [upd_same]
  rfl

theorem grown_into_size (env : Env) (fs : fs_ctx) (k j n : Nat) :
    ((grown_into env fs k j n).itable k).size = u64 n := by
  unfold grown_into set_inode
  dsimp only
  rw [upd_same]

theorem grown_into_other (env : Env) (fs : fs_ctx) (k j n i : Nat) (h : i ≠ k) :
    (grown_into env fs k j n).itable i = fs.itable i := by
  unfold grown_into set_inode
  dsimp only
  rw [upd_other _ _ _ _ h]
  unfold put_direct set_inode
  dsimp only
  rw [upd_other _ _ _ _ h]

theorem grown_into_num (env : Env) (fs : fs_ctx) (k j n i : Nat) :
    ((grown_into env fs k j n).itable i).num = (fs.itable i).num := by
  by_cases h : i = k
  · rw [h]
    unfold grown_into set_inode
    dsimp only
    rw [upd_same]
    unfold put_direct set_inode
    dsimp only
    rw [upd_same]
    rfl
  · rw [grown_into_other env fs k j n i h]

theorem grown_into_btable (env : Env) (fs : fs_ctx) (k j n : Nat) :
    (grown_into env fs k j n).btable = memset0 fs.btable (4096 * j) n := rfl

/-- Reading `n` bytes, less than a block, at offset 0 of a file of size `n`
whose first extent starts at block `j`: `a1fs_read` returns `n` and delivers the
first `n` bytes of the block. -/
theorem read_small (fuel : Nat) (env : Env) (fs : fs_ctx) (path : List Nat) (buf0 : Nat → Nat)
    (k n j c : Nat) (hlook : path_lookup fs path = (k : Int)) (hsize : (fs.itable k).size = n)
    (hext : (fs.itable k).extent 0 = ⟨j, c⟩) (hj : j ≠ 0) (hc : 0 < i32 c) (hn : 0 < n)
    (hn2 : n < 4096) :
    ∃ out : Nat → Nat, a1fs_read (fuel + 1) env fs path buf0 n 0 = Res.ok ((n : Int), out) ∧
      ∀ x, x < n → out x = fs.btable (4096 * j + x) := by
  obtain ⟨s, hw, _, hbuf⟩ := rw_walk_small false fuel (fs.itable k) fs.btable buf0 n j c hext hj hc
    hn hn2
  refine ⟨s.buf, ?_, ?_⟩
  · unfold a1fs_read
    dsimp only
    rw [hlook, if_neg (by omega), Int.toNat_ofNat, hsize]
    have h0 : ¬ (u32 ((n : Int) - ((0 : Nat) : Int)) = 0) := by
      have := u32_small ((n : Int) - ((0 : Nat) : Int)) (by omega) (by omega)
      omega
    rw [if_neg h0, hw]
  · intro x hx
    rw [hbuf x]
    simp [hx]

/-- Writing `n` bytes, less than a block, at offset 0 of an empty file without
a first extent, when the counters of the superblock leave a block and the
bitmap has a free one: `a1fs_write` returns `n`; the file has grown into a free
block `j`, which holds the bytes of the buffer. -/
theorem write_small (fuel : Nat) (env : Env) (fs : fs_ctx) (path : List Nat) (buf : Nat → Nat)
    (k n : Nat) (hlook : path_lookup fs path = (k : Int)) (hsize : (fs.itable k).size = 0)
    (hext : ((fs.itable k).extent 0).start = 0) (hn : 0 < n) (hn2 : n < 4096)
    (hsb : fs.sb.used_block_count < fs.sb.block_count) (hbc : fs.sb.block_count < 1048576)
    (hfree : ∃ j, 1 ≤ j ∧ j < 4096 ∧ fs.bbitmap j = 0) :
    ∃ (j : Nat) (m2 : Nat → Nat), 1 ≤ j ∧ j < 4096 ∧ fs.bbitmap j = 0 ∧
      a1fs_write (fuel + 1) env fs path buf n 0 =
        Res.ok ((n : Int),
          set_inode { grown_into env fs k j n with btable := m2 } k
            { (grown_into env fs k j n).itable k with mtime := env.now }) ∧
      ∀ x, m2 x = if 4096 * j ≤ x ∧ x < 4096 * j + n then buf (x - 4096 * j) else fs.btable x := by
  obtain ⟨j, h1, h2, h3, htr⟩ := truncate_grow_small fuel env fs path k n hlook hsize hext hn hn2
    hsb hbc hfree
  obtain ⟨s, hw, hmem, _⟩ := rw_walk_small true fuel ((grown_into env fs k j n).itable k)
    (grown_into env fs k j n).btable buf n j 1 (grown_into_extent env fs k j n) (by omega)
    (by decide) hn hn2
  refine ⟨j, s.mem, h1, h2, h3, ?_, ?_⟩
  · unfold a1fs_write
    dsimp only
    have h0 : (((0 : Nat) : Int) + (n : Int)) = (n : Int) := by simp
    rw [hlook, if_neg (by omega), if_neg (by omega), Int.toNat_ofNat, hsize, Nat.zero_add, h0,
      u64_small n (by omega), if_pos hn, htr]
    dsimp only
    rw [hw]
  · intro x
    rw [hmem x, grown_into_btable]
    by_cases hx : 4096 * j ≤ x ∧ x < 4096 * j + n
    · rw [if_pos ⟨rfl, hx⟩, if_pos hx]
    · rw [if_neg (fun h => hx h.2), if_neg hx]
      exact memset0_outside _ _ _ _ (by omega)

/-- Writing less than a block at offset 0 of an empty file in a well-formed
root directory and reading it back: `a1fs_write` returns `n`, and on the image
it leaves `a1fs_read` returns `n` and delivers the bytes written. -/
theorem write_then_read_small (fuel fuel1 : Nat) (env env1 : Env) (fs : fs_ctx)
    (name : List Nat) (buf buf0 : Nat → Nat) (k n : Nat) (hname : is_component name)
    (hlook : path_lookup fs (47 :: name) = (k : Int)) (hk : k ≠ 0)
    (hsize : (fs.itable k).size = 0) (hext : ((fs.itable k).extent 0).start = 0)
    (hn : 0 < n) (hn2 : n < 4096)
    (hsb : fs.sb.used_block_count < fs.sb.block_count) (hbc : fs.sb.block_count < 1048576)
    (hfree : ∃ j, 1 ≤ j ∧ j < 4096 ∧ fs.bbitmap j = 0) (hok : dir_ok fs 0) :
    ∃ fs2, a1fs_write (fuel + 1) env fs (47 :: name) buf n 0 = Res.ok ((n : Int), fs2) ∧
      ∃ out, a1fs_read (fuel1 + 1) env1 fs2 (47 :: name) buf0 n 0 = Res.ok ((n : Int), out) ∧
        ∀ x, x < n → out x = buf x := by
  obtain ⟨j, m2, h1, h2, h3, hwr, hm2⟩ := write_small fuel env fs (47 :: name) buf k n hlook hsize
    hext hn hn2 hsb hbc hfree
  refine ⟨_, hwr, ?_⟩
  have hit : ∀ i, i ≠ k →
      (set_inode { grown_into env fs k j n with btable := m2 } k
        { (grown_into env fs k j n).itable k with mtime := env.now }).itable i = fs.itable i := by
    intro i hi
    unfold set_inode
    dsimp only
    rw [upd_other _ _ _ _ hi, grown_into_other env fs k j n i hi]
  have hitk : (set_inode { grown_into env fs k j n with btable := m2 } k
        { (grown_into env fs k j n).itable k with mtime := env.now }).itable k =
      { (grown_into env fs k j n).itable k with mtime := env.now } := by
    unfold set_inode
    dsimp only
    rw [upd_same]
  have hlook2 : path_lookup
      (set_inode { grown_into env fs k j n with btable := m2 } k
        { (grown_into env fs k j n).itable k with mtime := env.now }) (47 :: name) = (k : Int) := by
    rw [← hlook]
    refine path_lookup_frame fs _ name hname ?_ ?_ ?_ ?_ ?_
    · rw [hit 0 (by omega)]
    · rw [hit 0 (by omega)]
    · intro i
      by_cases hi : i = k
      · rw [hi, hitk]
        exact grown_into_num env fs k j n k
      · rw [hit i hi]
    · intro a ha x hx1 hx2
      have hal : a % 256 = 0 := slots_of_aligned _ _ a ha
      have hblk : a / 4096 ≠ j := by
        intro h
        have := hok.1 a ha
        rw [h] at this
        exact this h3
      show m2 x = fs.btable x
      rw [hm2 x, if_neg (by omega)]
    · intro hind x hx1 hx2
      have hblk : (fs.itable 0).indirect ≠ j := by
        intro h
        have := (hok.2 hind).1
        rw [h] at this
        exact this h3
      show m2 x = fs.btable x
      rw [hm2 x, if_neg (by omega)]
  obtain ⟨out, hrd, hout⟩ := read_small fuel1 env1
    (set_inode { grown_into env fs k j n with btable := m2 } k
        { (grown_into env fs k j n).itable k with mtime := env.now }) (47 :: name) buf0 k n j 1
    hlook2
    (by rw [hitk]; show ((grown_into env fs k j n).itable k).size = n
        rw [grown_into_size]; exact u64_small n (by omega))
    (by rw [hitk]; exact grown_into_extent env fs k j n)
    (by omega) (by decide) hn hn2
  refine ⟨out, hrd, ?_⟩
  intro x hx
  rw [hout x hx]
  show m2 (4096 * j + x) = buf x
  rw [hm2, if_pos (by omega), Nat.add_sub_cancel_left]

/-! ### The freshly formatted image -/

theorem mkfs_main_zero (now : timespec) (image : fs_ctx) (size : Nat) (opts : mkfs_opts)
    (hzero : opts.zero = true) :
    mkfs_main now image size opts = mkfs now zero_image size opts := by
  unfold mkfs_main
  rw [hzero]
  rfl

/-- The entries of a root directory whose only extent is the block 0. -/
theorem dir_slots_first_block (fs : fs_ctx)
    (hext : (fs.itable 0).extent = upd zero_inode.extent 0 ⟨0, 1⟩)
    (hind : (fs.itable 0).indirect = 0) : dir_slots fs 0 = block_slots 0 := by
  unfold dir_slots slots_of direct_slots
  rw [hext, hind, if_neg (by decide), List.append_nil]
  decide

/-- A root directory whose only extent is the block 0 is well formed when the
block is marked in the bitmap. -/
theorem dir_ok_first_block (fs : fs_ctx)
    (hext : (fs.itable 0).extent = upd zero_inode.extent 0 ⟨0, 1⟩)
    (hind : (fs.itable 0).indirect = 0) (hb : fs.bbitmap 0 ≠ 0) : dir_ok fs 0 := by
  unfold dir_ok
  rw [dir_slots_first_block fs hext hind]
  refine ⟨?_, ?_⟩
  · intro a ha
    obtain ⟨i, hi, rfl⟩ := (mem_block_slots 0 a).1 ha
    have h0 : (4096 * 0 + 256 * i) / 4096 = 0 := by omega
    rw [h0]
    exact hb
  · intro h
    exact absurd hind h

theorem fresh_no_name (now : timespec) (size : Nat) (opts : mkfs_opts) (name : List Nat)
    (hname : is_component name) :
    ∀ a ∈ dir_slots (mkfs now zero_image size opts).2 0,
      name_at (mkfs now zero_image size opts).2.btable a name = false :=
  fun a _ => name_at_of_zero _ a name hname rfl

/-- On a freshly formatted image `create_finish` at the first entry of the root
takes the inode 1. -/
theorem fresh_create_finish (now : timespec) (size : Nat) (opts : mkfs_opts) (env : Env)
    (name : List Nat) (mode : Nat) :
    create_finish env 0 mode name (insert_start (mkfs now zero_image size opts).2 0) =
      Res.ok (0, create_commit env 0 mode name (insert_start (mkfs now zero_image size opts).2 0)
        (upd (upd (fun _ => 0) 0 1) 1 1) 1) := by
  unfold create_finish
  have h1 : first_inode (insert_start (mkfs now zero_image size opts).2 0).fs.ibitmap = 1 := by
    show first_inode (upd (fun _ => 0) 0 1) = 1
    decide
  rw [h1]
  rfl

/-- Creating `/name` on a freshly formatted image with a free inode returns 0. -/
theorem fresh_create (now : timespec) (size : Nat) (opts : mkfs_opts) (env : Env)
    (name : List Nat) (mode : Nat) (hname : is_component name) (hmode : S_ISREG mode = true)
    (hinode : (mkfs now zero_image size opts).2.sb.used_inode_count <
      (mkfs now zero_image size opts).2.sb.inode_count) :
    a1fs_create env (mkfs now zero_image size opts).2 (47 :: name) mode =
      Res.ok (0, create_commit env 0 mode name (insert_start (mkfs now zero_image size opts).2 0)
        (upd (upd (fun _ => 0) 0 1) 1 1) 1) := by
  unfold a1fs_create
  rw [if_neg (by simp [hmode]), if_neg (by omega), split_last_component name hname]
  dsimp only
  rw [parent_lookup_root, if_neg (by decide)]
  have h0 : (0 : Int).toNat = 0 := rfl
  rw [h0]
  unfold create_at
  have hec : ((mkfs now zero_image size opts).2.itable 0).extent_count = 1 := rfl
  have hem : ((mkfs now zero_image size opts).2.itable 0).empty = 0 := rfl
  rw [hec, if_neg (by decide), hem, if_pos rfl]
  exact fresh_create_finish now size opts env name mode

/-! ### An entry with the same name stays where it is -/

theorem name_is_empty_not_named (m : Nat → Nat) (a : Nat) (name : List Nat)
    (hname : is_component name) (h : name_is_empty m a = true) : name_at m a name = false := by
  refine name_at_of_zero m a name hname ?_
  unfold name_is_empty dentry_name str_eq at h
  simpa using h

/-- Writing the new entry at the entry `B` of the directory leaves another
entry `A` in the directory and leaves it its name. -/
theorem kept_found (fs : fs_ctx) (num k A B : Nat) (name : List Nat) (hlen : name.length < 252)
    (hok : dir_ok fs num) (hA : A ∈ dir_slots fs num) (hAname : name_at fs.btable A name = true)
    (hB : B ∈ dir_slots fs num) (hBA : B ≠ A) :
    B ∈ slots_of (fs.itable num) (put_entry fs.btable B k name) ∧
    A ∈ slots_of (fs.itable num) (put_entry fs.btable B k name) ∧
    name_at (put_entry fs.btable B k name) A name = true := by
  have hBal : B % 256 = 0 := slots_of_aligned _ _ B hB
  have hAal : A % 256 = 0 := slots_of_aligned _ _ A hA
  have hsl : slots_of (fs.itable num) (put_entry fs.btable B k name) = dir_slots fs num := by
    unfold dir_slots
    refine slots_of_congr _ _ _ ?_
    intro hind x h1 h2
    have := (hok.2 hind).2 B hB
    exact put_entry_frame _ _ _ _ _ hlen (by omega)
  rw [hsl]
  refine ⟨hB, hA, ?_⟩
  rw [name_at_frame fs.btable _ B A name hlen hBal hAal (fun h => hBA h.symm)
    (fun x hx => put_entry_frame _ _ _ _ _ hlen hx)]
  exact hAname

/-- An entry of one of the lists `g i` with `i ≠ e` is in the list built from a
function that agrees with `g` away from `e`. -/
theorem mem_flatMap_range_other {α : Type} (n e : Nat) (g g1 : Nat → List α) (a : α)
    (hg : ∀ i, i < n → i ≠ e → g1 i = g i) (he : g e = [])
    (h : a ∈ (List.range n).flatMap g) : a ∈ (List.range n).flatMap g1 := by
  obtain ⟨i, hi, ha⟩ := List.mem_flatMap.1 h
  have hie : i ≠ e := by
    intro hie
    rw [hie, he] at ha
    cases ha
  exact List.mem_flatMap.2 ⟨i, hi, by rw [hg i (List.mem_range.1 hi) hie]; exact ha⟩

/-- A new block for a direct extent: the new entry and the old entry `A` are
both in the directory, and `A` keeps its name. -/
theorem kept_direct (fs : fs_ctx) (num k e b A : Nat) (w tw : Bool) (name : List Nat)
    (hlen : name.length < 252) (hok : dir_ok fs num) (hA : A ∈ dir_slots fs num)
    (hAname : name_at fs.btable A name = true) (he : e < 12)
    (hcount : i32 ((fs.itable num).extent e).count = 0) (hfree : fs.bbitmap b = 0) :
    4096 * b ≠ A ∧
    4096 * b ∈ slots_of ((attach_direct (taken fs b w) num e b tw).fs.itable num)
        (put_entry (taken fs b w).btable (4096 * b) k name) ∧
    A ∈ slots_of ((attach_direct (taken fs b w) num e b tw).fs.itable num)
        (put_entry (taken fs b w).btable (4096 * b) k name) ∧
    name_at (put_entry (taken fs b w).btable (4096 * b) k name) A name = true := by
  have hAal : A % 256 = 0 := slots_of_aligned _ _ A hA
  have hAb : A / 4096 ≠ b := by
    intro h
    have := hok.1 A hA
    rw [h] at this
    exact this hfree
  have hne : 4096 * b ≠ A := by
    intro h
    rw [← h] at hAb
    omega
  have hframe : ∀ x, x < 4096 * b ∨ 4096 * b + 256 ≤ x →
      put_entry (taken fs b w).btable (4096 * b) k name x = fs.btable x := by
    intro x hx
    rw [put_entry_frame _ _ _ _ _ hlen hx]
    cases w with
    | false => rfl
    | true => exact memset0_outside _ _ _ _ hx
  refine ⟨hne, ?_, ?_, ?_⟩
  · unfold slots_of
    refine List.mem_append_left _ ((mem_direct_slots _ _).2 ⟨e, he, ?_⟩)
    rw [attach_direct_extent, upd_same, extent_slots_one]
    exact (mem_block_slots b _).2 ⟨0, by omega, rfl⟩
  · unfold dir_slots slots_of at hA
    unfold slots_of
    rw [attach_direct_indirect]
    rcases List.mem_append.1 hA with h | h
    · refine List.mem_append_left _ ?_
      unfold direct_slots at h ⊢
      rw [attach_direct_extent]
      exact mem_flatMap_range_other 12 e _ _ A
        (fun i _ hi => by rw [upd_other _ _ _ _ hi]; rfl)
        (extent_slots_empty _ hcount) h
    · refine List.mem_append_right _ ?_
      have hti : ((taken fs b w).itable num).indirect = (fs.itable num).indirect := rfl
      rw [hti]
      by_cases hind : (fs.itable num).indirect ≠ 0
      · rw [if_pos hind] at h ⊢
        have hbi : b ≠ (fs.itable num).indirect := by
          intro hb
          rw [hb] at hfree
          exact (hok.2 hind).1 hfree
        rw [indirect_slots_congr fs.btable _ _ (fun x h1 h2 => hframe x (by omega))]
        exact h
      · rw [if_neg hind] at h
        cases h
  · rw [name_at_frame fs.btable _ (4096 * b) A name hlen (by omega) hAal (fun h => hne h.symm)
      hframe]
    exact hAname

/-- A new block for an extent of the indirect block: the new entry and the old
entry `A` are both in the directory, and `A` keeps its name. -/
theorem kept_ind_extent (fs : fs_ctx) (num k e b A : Nat) (name : List Nat)
    (hlen : name.length < 252) (hok : dir_ok fs num) (hA : A ∈ dir_slots fs num)
    (hAname : name_at fs.btable A name = true)
    (hind : (fs.itable num).indirect ≠ 0) (he : e < 500) (hb : b < 4096)
    (hcount : i32 (ind_extent fs.btable (fs.itable num).indirect e).count = 0)
    (hfree : fs.bbitmap b = 0) :
    4096 * b ≠ A ∧
    4096 * b ∈ slots_of
      ((attach_ind_extent (taken fs b true) num (fs.itable num).indirect e b).fs.itable num)
      (put_entry (attach_ind_extent (taken fs b true) num (fs.itable num).indirect e b).fs.btable
        (4096 * b) k name) ∧
    A ∈ slots_of
      ((attach_ind_extent (taken fs b true) num (fs.itable num).indirect e b).fs.itable num)
      (put_entry (attach_ind_extent (taken fs b true) num (fs.itable num).indirect e b).fs.btable
        (4096 * b) k name) ∧
    name_at
      (put_entry (attach_ind_extent (taken fs b true) num (fs.itable num).indirect e b).fs.btable
        (4096 * b) k name) A name = true := by
  have hAal : A % 256 = 0 := slots_of_aligned _ _ A hA
  have hAb : A / 4096 ≠ b := by
    intro h
    have := hok.1 A hA
    rw [h] at this
    exact this hfree
  have hAi : A / 4096 ≠ (fs.itable num).indirect := (hok.2 hind).2 A hA
  have hne : 4096 * b ≠ A := by
    intro h
    rw [← h] at hAb
    omega
  have hbi : b ≠ (fs.itable num).indirect := by
    intro h
    rw [h] at hfree
    exact (hok.2 hind).1 hfree
  have hbt : (attach_ind_extent (taken fs b true) num (fs.itable num).indirect e b).fs.btable =
      set_ind_count (set_ind_start (memset0 fs.btable (4096 * b) 256)
        (fs.itable num).indirect e b) (fs.itable num).indirect e 1 := rfl
  rw [hbt]
  unfold dir_slots slots_of at hA
  rw [if_pos hind] at hA
  unfold slots_of
  rw [direct_slots_congr (fs.itable num) _
      (attach_ind_extent_extent (taken fs b true) num (fs.itable num).indirect e b),
    attach_ind_extent_indirect]
  have hti : ((taken fs b true).itable num).indirect = (fs.itable num).indirect := rfl
  rw [hti, if_pos hind]
  generalize (fs.itable num).indirect = ind at *
  have heq : ∀ x, x < 4096 * b ∨ 4096 * b + 256 ≤ x →
      x < 4096 * ind + 8 * e ∨ 4096 * ind + 8 * e + 8 ≤ x →
      put_entry (set_ind_count (set_ind_start (memset0 fs.btable (4096 * b) 256) ind e b) ind e 1)
        (4096 * b) k name x = fs.btable x := by
    intro x h1 h2
    rw [put_entry_frame _ _ _ _ _ hlen h1, set_ind_outside _ _ _ _ _ _ h2,
      memset0_outside _ _ _ _ h1]
  refine ⟨hne, ?_, ?_, ?_⟩
  · refine List.mem_append_right _ ((mem_indirect_slots _ _ _).2 ⟨e, he, ?_⟩)
    rw [ind_extent_congr
        (set_ind_count (set_ind_start (memset0 fs.btable (4096 * b) 256) ind e b) ind e 1) _ ind e
        (fun x h1 h2 => put_entry_frame _ _ _ _ _ hlen (by omega)),
      ind_extent_set _ _ _ _ _ (by omega) (by omega), extent_slots_one]
    exact (mem_block_slots b _).2 ⟨0, by omega, rfl⟩
  · rcases List.mem_append.1 hA with h | h
    · exact List.mem_append_left _ h
    · refine List.mem_append_right _ ?_
      unfold indirect_slots at h ⊢
      exact mem_flatMap_range_other 500 e _ _ A
        (fun i hi500 hi => by
          rw [ind_extent_congr fs.btable _ ind i (fun x h1 h2 => heq x (by omega) (by omega))])
        (extent_slots_empty _ hcount) h
  · rw [name_at_congr fs.btable _ A name (fun x h1 h2 => heq x (by omega) (by omega))]
    exact hAname

/-- A new indirect block: the new entry and the old entry `A` are both in the
directory, and `A` keeps its name. -/
theorem kept_new_indirect (fs : fs_ctx) (num k b c A : Nat) (w : Bool) (name : List Nat)
    (hlen : name.length < 252) (hok : dir_ok fs num) (hA : A ∈ dir_slots fs num)
    (hAname : name_at fs.btable A name = true)
    (hind : (fs.itable num).indirect = 0) (hb0 : b ≠ 0) (hc : c < 4096) (hcb : c ≠ b)
    (hfree : fs.bbitmap b = 0) (hcfree : fs.bbitmap c = 0) :
    4096 * c ≠ A ∧
    4096 * c ∈ slots_of
      ((attach_new_indirect (taken (taken fs b false) c false) num b c w).fs.itable num)
      (put_entry (attach_new_indirect (taken (taken fs b false) c false) num b c w).fs.btable
        (4096 * c) k name) ∧
    A ∈ slots_of
      ((attach_new_indirect (taken (taken fs b false) c false) num b c w).fs.itable num)
      (put_entry (attach_new_indirect (taken (taken fs b false) c false) num b c w).fs.btable
        (4096 * c) k name) ∧
    name_at
      (put_entry (attach_new_indirect (taken (taken fs b false) c false) num b c w).fs.btable
        (4096 * c) k name) A name = true := by
  have hAal : A % 256 = 0 := slots_of_aligned _ _ A hA
  have hAb : A / 4096 ≠ b := by
    intro h
    have := hok.1 A hA
    rw [h] at this
    exact this hfree
  have hAc : A / 4096 ≠ c := by
    intro h
    have := hok.1 A hA
    rw [h] at this
    exact this hcfree
  have hne : 4096 * c ≠ A := by
    intro h
    rw [← h] at hAc
    omega
  have hbt : (attach_new_indirect (taken (taken fs b false) c false) num b c w).fs.btable =
      memset0 (set_ind_count (set_ind_start
        (if w then memset0 fs.btable (4096 * b) 4096 else fs.btable) b 0 c) b 0 1)
        (4096 * c) 256 := rfl
  rw [hbt]
  have heq : ∀ x, x < 4096 * c ∨ 4096 * c + 256 ≤ x → x < 4096 * b ∨ 4096 * b + 4096 ≤ x →
      put_entry (memset0 (set_ind_count (set_ind_start
        (if w then memset0 fs.btable (4096 * b) 4096 else fs.btable) b 0 c) b 0 1)
        (4096 * c) 256) (4096 * c) k name x = fs.btable x := by
    intro x h1 h2
    rw [put_entry_frame _ _ _ _ _ hlen h1, memset0_outside _ _ _ _ h1,
      set_ind_outside _ _ _ _ _ _ (by omega)]
    cases w with
    | false => rfl
    | true => exact memset0_outside _ _ _ _ h2
  unfold dir_slots slots_of at hA
  rw [hind, if_neg (by decide), List.append_nil] at hA
  unfold slots_of
  rw [direct_slots_congr (fs.itable num) _
      (attach_new_indirect_extent (taken (taken fs b false) c false) num b c w),
    attach_new_indirect_indirect, if_pos hb0]
  refine ⟨hne, ?_, List.mem_append_left _ hA, ?_⟩
  · refine List.mem_append_right _ ((mem_indirect_slots _ _ _).2 ⟨0, by omega, ?_⟩)
    rw [ind_extent_congr
      (set_ind_count (set_ind_start
        (if w then memset0 fs.btable (4096 * b) 4096 else fs.btable) b 0 c) b 0 1) _ b 0
      (fun x h1 h2 => by
        rw [put_entry_frame _ _ _ _ _ hlen (by omega), memset0_outside _ _ _ _ (by omega)]),
      ind_extent_set _ _ _ _ _ (by omega) (by omega), extent_slots_one]
    exact (mem_block_slots c _).2 ⟨0, by omega, rfl⟩
  · rw [name_at_congr fs.btable _ A name (fun x h1 h2 => heq x (by omega) (by omega))]
    exact hAname

/-- The entry the search ends at is not the live entry `A` that carries the
name already; written with the same name it is in the directory next to `A`,
which keeps its name. -/
theorem outcome_kept (fs : fs_ctx) (v : insert_flavour) (num k A : Nat) (name : List Nat)
    (hname : is_component name) (hok : dir_ok fs num) (hA : A ∈ dir_slots fs num)
    (hAname : name_at fs.btable A name = true) (hlive : dentry_ino fs.btable A ≠ 0)
    (s : insert_state) (h : direct_outcome fs v num s ∨ indirect_outcome fs v num s) :
    s.entry ≠ A ∧
    s.entry ∈ slots_of (s.fs.itable num) (put_entry s.fs.btable s.entry k name) ∧
    A ∈ slots_of (s.fs.itable num) (put_entry s.fs.btable s.entry k name) ∧
    name_at (put_entry s.fs.btable s.entry k name) A name = true := by
  have hlen : name.length < 252 := hname.2.1
  cases h with
  | inl h =>
    obtain ⟨e, he, h1⟩ := h
    cases h1 with
    | inl h2 =>
      obtain ⟨hfs, _, hmem, hfree⟩ := h2
      have hBA : s.entry ≠ A := by
        intro hBA
        rw [hBA] at hfree
        rw [name_is_empty_not_named _ _ name hname hfree] at hAname
        cases hAname
      rw [hfs]
      exact ⟨hBA, kept_found fs num k A s.entry name hlen hok hA hAname
        (mem_dir_slots_direct fs num _ ((mem_direct_slots _ _).2 ⟨e, he, hmem⟩)) hBA⟩
    | inr h2 =>
      obtain ⟨hcount, b, _, hfree, hs⟩ := h2
      rw [hs]
      exact kept_direct fs num k e b A v.wipe_direct v.twice name hlen hok hA hAname he hcount
        hfree
  | inr h =>
    cases h with
    | inl h1 =>
      obtain ⟨hind, b, c, hb0, _, hfree, hc, hcb, hcfree, hs⟩ := h1
      rw [hs]
      exact kept_new_indirect fs num k b c A v.wipe_indirect name hlen hok hA hAname hind hb0 hc
        hcb hfree hcfree
    | inr h1 =>
      obtain ⟨hind, e, he, h2⟩ := h1
      cases h2 with
      | inl h3 =>
        obtain ⟨hfs, _, hmem, hfree⟩ := h3
        have hBA : s.entry ≠ A := by
          intro hBA
          rw [hBA] at hfree
          unfold ino_is_zero at hfree
          exact hlive (by simpa using hfree)
        rw [hfs]
        exact ⟨hBA, kept_found fs num k A s.entry name hlen hok hA hAname
          (mem_dir_slots_indirect fs num _ hind ((mem_indirect_slots _ _ _).2 ⟨e, he, hmem⟩))
          hBA⟩
      | inr h3 =>
        obtain ⟨hcount, b, hb, hfree, hs⟩ := h3
        rw [hs]
        exact kept_ind_extent fs num k e b A name hlen hok hA hAname hind he hb hcount hfree

/-! ### `a1fs_mkdir` and names -/

/-- The return value of `mkdir_finish` is 0 whatever the name is. -/
theorem mkdir_finish_ret (env : Env) (num mode : Nat) (name name1 : List Nat)
    (s : insert_state) :
    ret_of (mkdir_finish env num mode name1 s) = ret_of (mkdir_finish env num mode name s) := by
  unfold mkdir_finish
  cases map_set s.fs.ibitmap (first_inode s.fs.ibitmap) 1 with
  | fault => rfl
  | nofuel => rfl
  | ok im =>
    dsimp only
    cases take_block { s.fs with ibitmap := im } (num : Int) false with
    | fault => rfl
    | nofuel => rfl
    | ok bf => rfl

/-- The name plays no part in the return value of `a1fs_mkdir` in the root
directory. -/
theorem mkdir_ret_name (env : Env) (fs : fs_ctx) (name name1 : List Nat) (mode : Nat)
    (hname : is_component name) (hname1 : is_component name1) :
    ret_of (a1fs_mkdir env fs (47 :: name1) mode) =
      ret_of (a1fs_mkdir env fs (47 :: name) mode) := by
  unfold a1fs_mkdir
  by_cases hfull : fs.sb.inode_count = fs.sb.used_inode_count ∨
      fs.sb.block_count = fs.sb.used_block_count
  · rw [if_pos hfull, if_pos hfull]
  · rw [if_neg hfull, if_neg hfull, split_last_component name hname,
      split_last_component name1 hname1]
    dsimp only
    rw [parent_lookup_root, if_neg (by decide), if_neg (by decide)]
    have h0 : (0 : Int).toNat = 0 := rfl
    rw [h0]
    unfold mkdir_at
    by_cases hec : (fs.itable 0).extent_count ≥ 512
    · rw [if_pos hec, if_pos hec]
    · rw [if_neg hec, if_neg hec]
      by_cases hem : (fs.itable 0).empty ≠ 0
      · rw [if_pos hem, if_pos hem]
        cases insert_search env mkdir_flavour 0 (insert_start fs 0) with
        | ret r => rfl
        | brk s1 => exact mkdir_finish_ret env 0 _ name name1 s1
        | next s1 => exact mkdir_finish_ret env 0 _ name name1 s1
      · rw [if_neg hem, if_neg hem]
        exact mkdir_finish_ret env 0 _ name name1 _

/-- The entries of the root and the data region that `mkdir_finish` leaves. -/
theorem mkdir_finish_slots (env : Env) (mode : Nat) (name : List Nat) (s : insert_state)
    (fs1 : fs_ctx) (hfin : mkdir_finish env 0 mode name s = Res.ok (0, fs1)) :
    ∃ k, dir_slots fs1 0 = slots_of (s.fs.itable 0) (put_entry s.fs.btable s.entry k name) ∧
      fs1.btable = put_entry s.fs.btable s.entry k name := by
  unfold mkdir_finish at hfin
  cases hms : map_set s.fs.ibitmap (first_inode s.fs.ibitmap) 1 with
  | fault => rw [hms] at hfin; cases hfin
  | nofuel => rw [hms] at hfin; cases hfin
  | ok im =>
    rw [hms] at hfin
    dsimp only at hfin
    obtain ⟨k, hk, hk1, _, _⟩ := first_inode_ok _ _ hms
    rw [hk, Int.toNat_ofNat] at hfin
    cases htb : take_block { s.fs with ibitmap := im } ((0 : Nat) : Int) false with
    | fault => rw [htb] at hfin; cases hfin
    | nofuel => rw [htb] at hfin; cases hfin
    | ok bf =>
      rw [htb] at hfin
      dsimp only at hfin
      obtain ⟨b, fs2⟩ := bf
      obtain ⟨_, _, hfs2, _⟩ := take_block_ok _ _ _ _ _ htb
      have hfs1 : fs1 = mkdir_commit env 0 mode name s.entry fs2 k b :=
        (congrArg Prod.snd (Res.ok.inj hfin)).symm
      have hit : fs2.itable = s.fs.itable := by rw [hfs2]; rfl
      have hbt : fs2.btable = s.fs.btable := by rw [hfs2]; rfl
      have hit0 : fs1.itable 0 =
          { fs2.itable 0 with links := u32 ((fs2.itable 0).links + 1),
                              empty := u32 ((fs2.itable 0).empty + 1), mtime := env.now } := by
        rw [hfs1]
        unfold mkdir_commit
        dsimp only
        rw [upd_other _ _ _ _ (by omega), upd_same]
      have hb1 : fs1.btable = put_entry s.fs.btable s.entry k name := by
        rw [hfs1, ← hbt]
        rfl
      refine ⟨k, ?_, hb1⟩
      unfold dir_slots
      rw [hb1, slots_of_fields (s.fs.itable 0) (fs1.itable 0) _ (by rw [hit0, hit])
        (by rw [hit0, hit])]

/-- After `a1fs_mkdir("/name")` returned 0 on a well-formed, non-empty root
directory that had a live entry `A` called `name`, the root has `A` and another
entry, both called `name`. -/
theorem mkdir_second_slot (env : Env) (fs fs1 : fs_ctx) (name : List Nat) (mode A : Nat)
    (hname : is_component name) (herr : env.errno ≠ 0) (hok : dir_ok fs 0)
    (hempty : (fs.itable 0).empty ≠ 0) (hA : A ∈ dir_slots fs 0)
    (hAname : name_at fs.btable A name = true) (hlive : dentry_ino fs.btable A ≠ 0)
    (hmk : a1fs_mkdir env fs (47 :: name) mode = Res.ok (0, fs1)) :
    A ∈ dir_slots fs1 0 ∧ name_at fs1.btable A name = true ∧
    ∃ B, B ≠ A ∧ B ∈ dir_slots fs1 0 ∧ name_at fs1.btable B name = true := by
  unfold a1fs_mkdir at hmk
  by_cases hfull : fs.sb.inode_count = fs.sb.used_inode_count ∨
      fs.sb.block_count = fs.sb.used_block_count
  · rw [if_pos hfull] at hmk
    have h1 : -ENOSPC = (0 : Int) := congrArg Prod.fst (Res.ok.inj hmk)
    exact absurd h1 (by decide)
  rw [if_neg hfull, split_last_component name hname] at hmk
  dsimp only at hmk
  rw [parent_lookup_root, if_neg (by decide)] at hmk
  have h0 : (0 : Int).toNat = 0 := rfl
  rw [h0] at hmk
  unfold mkdir_at at hmk
  by_cases hec : (fs.itable 0).extent_count ≥ 512
  · rw [if_pos hec] at hmk
    have h1 : -ENOSPC = (0 : Int) := congrArg Prod.fst (Res.ok.inj hmk)
    exact absurd h1 (by decide)
  rw [if_neg hec, if_pos hempty] at hmk
  have key := insert_search_spec env herr mkdir_flavour fs 0 (insert_start fs 0) ⟨rfl, rfl⟩
  generalize hx : insert_search env mkdir_flavour 0 (insert_start fs 0) = x at hmk key
  cases x with
  | ret r => exact absurd hmk (key.2.2 r rfl fs1)
  | brk s1 => exact absurd rfl (key.2.1 s1)
  | next s1 =>
    dsimp only at hmk
    obtain ⟨k, hsl, hbt⟩ := mkdir_finish_slots env _ name s1 fs1 hmk
    obtain ⟨h1, h2, h3, h4⟩ := outcome_kept fs mkdir_flavour 0 k A name hname hok hA hAname hlive
      s1 (key.1 s1 rfl)
    rw [hsl, hbt]
    exact ⟨h3, h4, s1.entry, h1, h2, name_at_put_entry _ _ _ _⟩

/-! ### A search that returns leaves the image as it was -/

theorem direct_step_ret (env : Env) (v : insert_flavour) (fs : fs_ctx) (num e : Nat)
    (s : insert_state) (hs : searching fs s) (r : Res (Int × fs_ctx))
    (h : direct_step v num e s = Step.ret r) : search_failed env fs r := by
  have key := find_free_entry_spec (ρ := Res (Int × fs_ctx)) name_is_empty fs
    ((fs.itable num).extent e) s hs
  unfold direct_step at h
  rw [hs.1] at h
  by_cases hc : i32 ((fs.itable num).extent e).count = 0
  · rw [if_pos hc] at h
    by_cases hfull : v.full_direct fs.sb = true
    · rw [if_pos hfull] at h
      cases h
      exact Or.inl rfl
    · rw [if_neg hfull] at h
      cases htb : take_block fs (i32 ((fs.itable num).extent e).start) v.wipe_direct with
      | ok bf => rw [htb] at h; cases h
      | fault => rw [htb] at h; cases h; exact Or.inr (Or.inr (Or.inl rfl))
      | nofuel => rw [htb] at h; cases h; exact Or.inr (Or.inr (Or.inr rfl))
  · rw [if_neg hc] at h
    exact absurd (break_if_found_ret _ _ h) (key.2 r)

theorem old_indirect_step_ret (env : Env) (v : insert_flavour) (fs : fs_ctx) (num ind e : Nat)
    (s : insert_state) (hs : searching fs s) (r : Res (Int × fs_ctx))
    (h : old_indirect_step v num ind e s = Step.ret r) : search_failed env fs r := by
  have key := find_free_entry_spec (ρ := Res (Int × fs_ctx)) ino_is_zero fs
    (ind_extent fs.btable ind e) s hs
  unfold old_indirect_step at h
  rw [hs.1] at h
  by_cases hc : i32 (ind_extent fs.btable ind e).count = 0
  · rw [if_pos hc] at h
    by_cases hfull : v.full_indirect fs.sb = true
    · rw [if_pos hfull] at h
      cases h
      exact Or.inl rfl
    · rw [if_neg hfull] at h
      cases htb : take_block fs (i32 (ind_extent fs.btable ind e).start) true with
      | ok bf => rw [htb] at h; cases h
      | fault => rw [htb] at h; cases h; exact Or.inr (Or.inr (Or.inl rfl))
      | nofuel => rw [htb] at h; cases h; exact Or.inr (Or.inr (Or.inr rfl))
  · rw [if_neg hc] at h
    exact absurd (break_if_found_ret _ _ h) (key.2 r)

theorem new_indirect_ret (env : Env) (v : insert_flavour) (fs : fs_ctx) (num : Nat)
    (s : insert_state) (hs : searching fs s) (r : Res (Int × fs_ctx))
    (h : new_indirect v num s = Step.ret r) : search_failed env fs r := by
  unfold new_indirect at h
  rw [hs.1] at h
  by_cases hfull : fs.sb.block_count ≤ u32 (fs.sb.used_block_count + v.need)
  · rw [if_pos hfull] at h
    cases h
    exact Or.inl rfl
  · rw [if_neg hfull] at h
    cases htb : take_block fs 0 false with
    | ok bf =>
      rw [htb] at h
      dsimp only at h
      cases htc : take_block bf.2 bf.1 false with
      | ok cf => rw [htc] at h; cases h
      | fault => rw [htc] at h; cases h; exact Or.inr (Or.inr (Or.inl rfl))
      | nofuel => rw [htc] at h; cases h; exact Or.inr (Or.inr (Or.inr rfl))
    | fault => rw [htb] at h; cases h; exact Or.inr (Or.inr (Or.inl rfl))
    | nofuel => rw [htb] at h; cases h; exact Or.inr (Or.inr (Or.inr rfl))

/-- Every `return` from inside the search for a free entry hands back the image
the search started in. -/
theorem insert_search_ret (env : Env) (v : insert_flavour) (fs : fs_ctx) (num : Nat)
    (s : insert_state) (hs : searching fs s) (r : Res (Int × fs_ctx))
    (h : insert_search env v num s = Step.ret r) : search_failed env fs r := by
  have key := forLoop_inv_bd (direct_step v num) 12 (searching fs) (direct_outcome fs v num)
    (search_failed env fs)
    (fun e t t1 he ht h => (direct_step_spec v fs num e he t ht).1 t1 h)
    (fun e t t1 he ht h => (direct_step_spec v fs num e he t ht).2.1 t1 h)
    (fun e t r _ ht h => direct_step_ret env v fs num e t ht r h)
    12 0 s (by omega) hs
  unfold insert_search at h
  generalize hx : forLoop (direct_step v num) 12 0 s = x at h key
  cases x with
  | ret r1 =>
    cases h
    exact key.2 r rfl
  | brk s2 => cases h
  | next s2 =>
    unfold after_direct at h
    dsimp only at h
    by_cases hm : s2.mtch = true
    · rw [if_pos hm] at h
      cases h
    · rw [if_neg hm] at h
      have hs2 : searching fs s2 := by
        cases key.1 s2 rfl with
        | inl h1 => exact h1
        | inr h1 => exact absurd (direct_outcome_mtch fs v num s2 h1) hm
      unfold insert_indirect at h
      rw [hs2.1] at h
      by_cases hind : (fs.itable num).indirect = 0
      · rw [if_pos hind] at h
        have k1 := new_indirect_spec v fs num hind s2 hs2
        generalize hy : new_indirect v num s2 = y at h k1
        cases y with
        | ret r1 =>
          cases h
          exact new_indirect_ret env v fs num s2 hs2 r hy
        | brk s3 => cases h
        | next s3 =>
          unfold need_match at h
          dsimp only at h
          rw [if_pos (indirect_outcome_mtch fs v num s3 (k1.1 s3 rfl))] at h
          cases h
      · rw [if_neg hind] at h
        have k1 := forLoop_inv_bd (old_indirect_step v num (fs.itable num).indirect) 500
          (searching fs) (indirect_outcome fs v num) (search_failed env fs)
          (fun e t t1 he ht h => (old_indirect_step_spec v fs num e he hind t ht).1 t1 h)
          (fun e t t1 he ht h => (old_indirect_step_spec v fs num e he hind t ht).2.1 t1 h)
          (fun e t r _ ht h => old_indirect_step_ret env v fs num _ e t ht r h)
          500 0 s2 (by omega) hs2
        generalize hy : forLoop (old_indirect_step v num (fs.itable num).indirect) 500 0 s2 = y
          at h k1
        cases y with
        | ret r1 =>
          cases h
          exact k1.2 r rfl
        | brk s3 => cases h
        | next s3 =>
          unfold need_match at h
          dsimp only at h
          by_cases hm3 : s3.mtch = true
          · rw [if_pos hm3] at h
            cases h
          · rw [if_neg hm3] at h
            cases h
            cases k1.1 s3 rfl with
            | inl h1 => rw [h1.1]; exact Or.inr (Or.inl rfl)
            | inr h1 => exact absurd (indirect_outcome_mtch fs v num s3 h1) hm3

theorem create_finish_zero (env : Env) (num mode : Nat) (name : List Nat) (s : insert_state)
    (v : Int) (x : fs_ctx) (h : create_finish env num mode name s = Res.ok (v, x)) : v = 0 := by
  unfold create_finish at h
  cases hms : map_set s.fs.ibitmap (first_inode s.fs.ibitmap) 1 with
  | fault => rw [hms] at h; cases h
  | nofuel => rw [hms] at h; cases h
  | ok im =>
    rw [hms] at h
    exact (congrArg Prod.fst (Res.ok.inj h)).symm

theorem mkdir_finish_zero (env : Env) (num mode : Nat) (name : List Nat) (s : insert_state)
    (v : Int) (x : fs_ctx) (h : mkdir_finish env num mode name s = Res.ok (v, x)) : v = 0 := by
  unfold mkdir_finish at h
  cases hms : map_set s.fs.ibitmap (first_inode s.fs.ibitmap) 1 with
  | fault => rw [hms] at h; cases h
  | nofuel => rw [hms] at h; cases h
  | ok im =>
    rw [hms] at h
    dsimp only at h
    cases htb : take_block { s.fs with ibitmap := im } (num : Int) false with
    | fault => rw [htb] at h; cases h
    | nofuel => rw [htb] at h; cases h
    | ok bf =>
      rw [htb] at h
      exact (congrArg Prod.fst (Res.ok.inj h)).symm

theorem search_failed_same (env : Env) (fs x : fs_ctx) (v : Int)
    (h : search_failed env fs (Res.ok (v, x))) : x = fs := by
  rcases h with h | h | h | h
  · exact congrArg Prod.snd (Res.ok.inj h)
  · exact congrArg Prod.snd (Res.ok.inj h)
  · cases h
  · cases h

/-- A value other than 0 that `create_at` returns comes with the image as it
was. -/
theorem create_at_failure (env : Env) (fs fs1 : fs_ctx) (num : Nat) (name : List Nat)
    (mode : Nat) (v : Int) (hv : v ≠ 0)
    (h : create_at env fs num name mode = Res.ok (v, fs1)) : fs1 = fs := by
  unfold create_at at h
  by_cases hec : (fs.itable num).extent_count ≥ 512
  · rw [if_pos hec] at h
    exact (congrArg Prod.snd (Res.ok.inj h)).symm
  rw [if_neg hec] at h
  by_cases hem : (fs.itable num).empty = 0
  · rw [if_pos hem] at h
    exact absurd (create_finish_zero _ _ _ _ _ _ _ h) hv
  rw [if_neg hem] at h
  generalize hx : insert_search env create_flavour num (insert_start fs num) = x at h
  cases x with
  | ret r =>
    dsimp only at h
    rw [h] at hx
    exact search_failed_same env fs fs1 v
      (insert_search_ret env create_flavour fs num _ ⟨rfl, rfl⟩ _ hx)
  | brk s1 => exact absurd (create_finish_zero _ _ _ _ _ _ _ h) hv
  | next s1 => exact absurd (create_finish_zero _ _ _ _ _ _ _ h) hv

theorem mkdir_at_failure (env : Env) (fs fs1 : fs_ctx) (num : Nat) (name : List Nat)
    (mode : Nat) (v : Int) (hv : v ≠ 0)
    (h : mkdir_at env fs num name mode = Res.ok (v, fs1)) : fs1 = fs := by
  unfold mkdir_at at h
  by_cases hec : (fs.itable num).extent_count ≥ 512
  · rw [if_pos hec] at h
    exact (congrArg Prod.snd (Res.ok.inj h)).symm
  rw [if_neg hec] at h
  by_cases hem : (fs.itable num).empty ≠ 0
  · rw [if_pos hem] at h
    generalize hx : insert_search env mkdir_flavour num (insert_start fs num) = x at h
    cases x with
    | ret r =>
      dsimp only at h
      rw [h] at hx
      exact search_failed_same env fs fs1 v
        (insert_search_ret env mkdir_flavour fs num _ ⟨rfl, rfl⟩ _ hx)
    | brk s1 => exact absurd (mkdir_finish_zero _ _ _ _ _ _ _ h) hv
    | next s1 => exact absurd (mkdir_finish_zero _ _ _ _ _ _ _ h) hv
  · rw [if_neg hem] at h
    exact absurd (mkdir_finish_zero _ _ _ _ _ _ _ h) hv

/-- A value other than 0 that `a1fs_create` returns comes with the image as it
was. -/
theorem create_failure (env : Env) (fs fs1 : fs_ctx) (path : List Nat) (mode : Nat) (v : Int)
    (hv : v ≠ 0) (h : a1fs_create env fs path mode = Res.ok (v, fs1)) : fs1 = fs := by
  unfold a1fs_create at h
  by_cases hreg : (!S_ISREG mode) = true
  · rw [if_pos hreg] at h
    cases h
  rw [if_neg hreg] at h
  by_cases hfull : fs.sb.inode_count = fs.sb.used_inode_count
  · rw [if_pos hfull] at h
    exact (congrArg Prod.snd (Res.ok.inj h)).symm
  rw [if_neg hfull] at h
  cases hsp : split_last path with
  | none => rw [hsp] at h; cases h
  | some pn =>
    rw [hsp] at h
    dsimp only at h
    by_cases hpl : parent_lookup fs pn.1 < 0
    · rw [if_pos hpl] at h
      exact (congrArg Prod.snd (Res.ok.inj h)).symm
    · rw [if_neg hpl] at h
      exact create_at_failure env fs fs1 _ _ mode v hv h

theorem mkdir_failure (env : Env) (fs fs1 : fs_ctx) (path : List Nat) (mode : Nat) (v : Int)
    (hv : v ≠ 0) (h : a1fs_mkdir env fs path mode = Res.ok (v, fs1)) : fs1 = fs := by
  unfold a1fs_mkdir at h
  by_cases hfull : fs.sb.inode_count = fs.sb.used_inode_count ∨
      fs.sb.block_count = fs.sb.used_block_count
  · rw [if_pos hfull] at h
    exact (congrArg Prod.snd (Res.ok.inj h)).symm
  rw [if_neg hfull] at h
  cases hsp : split_last path with
  | none => rw [hsp] at h; cases h
  | some pn =>
    rw [hsp] at h
    dsimp only at h
    by_cases hpl : parent_lookup fs pn.1 < 0
    · rw [if_pos hpl] at h
      exact (congrArg Prod.snd (Res.ok.inj h)).symm
    · rw [if_neg hpl] at h
      exact mkdir_at_failure env fs fs1 _ _ mode v hv h

/-! ### Counting the entries of a bitmap -/

theorem filter_upd_length (l : List Nat) (hnd : l.Nodup) (bm : Nat → Nat) (b v : Nat) :
    (l.filter (fun i => upd bm b v i != 0)).length + (if b ∈ l ∧ bm b ≠ 0 then 1 else 0) =
      (l.filter (fun i => bm i != 0)).length + (if b ∈ l ∧ v ≠ 0 then 1 else 0) := by
  induction l with
  | nil => simp
  | cons x xs ih =>
    have hx : x ∉ xs := (List.nodup_cons.1 hnd).1
    have ih1 := ih (List.nodup_cons.1 hnd).2
    by_cases hxb : x = b
    · subst hxb
      have hf : ∀ i ∈ xs, (upd bm x v i != 0) = (bm i != 0) := by
        intro i hi
        rw [upd_other _ _ _ _ (fun h => hx (by rw [← h]; exact hi))]
      rw [List.filter_cons, List.filter_cons, List.filter_congr hf, upd_same]
      by_cases hv : v = 0 <;> by_cases hb : bm x = 0 <;> simp [hv, hb]
    · rw [List.filter_cons, List.filter_cons, upd_other _ _ _ _ hxb]
      have hmem : (b ∈ x :: xs) = (b ∈ xs) := by
        simp [List.mem_cons, Ne.symm hxb]
      simp only [hmem]
      by_cases hb : bm x = 0
      · simp only [hb, bne_self_eq_false, Bool.false_eq_true, if_false]
        exact ih1
      · have : (bm x != 0) = true := by simpa using hb
        simp only [this, if_true, List.length_cons]
        omega

theorem count_set_le (bm : Nat → Nat) : count_set bm ≤ 4096 := by
  unfold count_set
  have := List.length_filter_le (fun i => bm i != 0) (List.range 4096)
  rw [List.length_range] at this
  exact this

theorem range_upd_take (n : Nat) (bm : Nat → Nat) (b : Nat) (hb : b < n) (hfree : bm b = 0) :
    ((List.range n).filter (fun i => upd bm b 1 i != 0)).length =
      ((List.range n).filter (fun i => bm i != 0)).length + 1 := by
  have := filter_upd_length (List.range n) (List.nodup_range n) bm b 1
  rw [if_neg (fun h => h.2 hfree), if_pos ⟨List.mem_range.2 hb, by decide⟩] at this
  exact this

theorem range_upd_free (n : Nat) (bm : Nat → Nat) (b : Nat) (hb : b < n) (hset : bm b ≠ 0) :
    ((List.range n).filter (fun i => upd bm b 0 i != 0)).length + 1 =
      ((List.range n).filter (fun i => bm i != 0)).length := by
  have := filter_upd_length (List.range n) (List.nodup_range n) bm b 0
  rw [if_pos ⟨List.mem_range.2 hb, hset⟩, if_neg (fun h => h.2 rfl)] at this
  exact this

/-- Setting a free entry of the bitmap adds one to the count. -/
theorem count_set_take (bm : Nat → Nat) (b : Nat) (hb : b < 4096) (hfree : bm b = 0) :
    count_set (upd bm b 1) = count_set bm + 1 :=
  range_upd_take 4096 bm b hb hfree

/-- Clearing a set entry of the bitmap takes one from the count. -/
theorem count_set_free (bm : Nat → Nat) (b : Nat) (hb : b < 4096) (hset : bm b ≠ 0) :
    count_set (upd bm b 0) + 1 = count_set bm :=
  range_upd_free 4096 bm b hb hset

theorem only_taken_refl (bm : Nat → Nat) : only_taken bm bm := fun _ => Or.inl rfl

theorem only_taken_upd (bm : Nat → Nat) (b : Nat) (hb : b < 4096) (hfree : bm b = 0) :
    only_taken bm (upd bm b 1) := by
  intro i
  by_cases h : i = b
  · rw [h, upd_same]
    exact Or.inr ⟨hfree, rfl, hb⟩
  · rw [upd_other _ _ _ _ h]
    exact Or.inl rfl

theorem only_taken_trans (a b c : Nat → Nat) (h1 : only_taken a b) (h2 : only_taken b c) :
    only_taken a c := by
  intro i
  rcases h2 i with h | ⟨h3, h4, h5⟩
  · rw [h]
    exact h1 i
  · rcases h1 i with h | ⟨h6, h7, _⟩
    · rw [h] at h3
      exact Or.inr ⟨h3, h4, h5⟩
    · rw [h7] at h3
      cases h3

theorem u32_count (n k : Nat) (h : n ≤ 4096) (hk : k ≤ 4096) :
    u32 ((n : Int) + (k : Int)) = n + k := by
  unfold u32
  rw [Int.emod_eq_of_lt (by omega) (by omega)]
  omega

/-! ### Space accounting of `a1fs_create` and `a1fs_mkdir` -/

theorem need_match_ne_brk (env : Env) (x : Step insert_state (Res (Int × fs_ctx)))
    (s1 : insert_state) : need_match env x ≠ Step.brk s1 := by
  intro h
  cases x with
  | ret r => cases h
  | brk s2 => cases h
  | next s2 =>
    unfold need_match at h
    dsimp only at h
    by_cases hm : s2.mtch = true
    · rw [if_pos hm] at h
      cases h
    · rw [if_neg hm] at h
      cases h

theorem need_match_env (env env1 : Env) (x : Step insert_state (Res (Int × fs_ctx)))
    (s1 : insert_state) (h : need_match env x = Step.next s1) :
    need_match env1 x = Step.next s1 := by
  cases x with
  | ret r => cases h
  | brk s2 => exact h
  | next s2 =>
    unfold need_match at h ⊢
    dsimp only at h ⊢
    by_cases hm : s2.mtch = true
    · rw [if_pos hm] at h ⊢
      exact h
    · rw [if_neg hm] at h
      cases h

theorem insert_search_ne_brk (env : Env) (v : insert_flavour) (num : Nat) (s s1 : insert_state) :
    insert_search env v num s ≠ Step.brk s1 := by
  intro h
  unfold insert_search at h
  generalize forLoop (direct_step v num) 12 0 s = x at h
  cases x with
  | ret r => cases h
  | brk s2 => cases h
  | next s2 =>
    unfold after_direct at h
    dsimp only at h
    by_cases hm : s2.mtch = true
    · rw [if_pos hm] at h
      cases h
    · rw [if_neg hm] at h
      unfold insert_indirect at h
      exact need_match_ne_brk _ _ _ h

/-- Whether the search ends with an entry does not depend on `errno`. -/
theorem insert_search_env (env env1 : Env) (v : insert_flavour) (num : Nat)
    (s s1 : insert_state) (h : insert_search env v num s = Step.next s1) :
    insert_search env1 v num s = Step.next s1 := by
  unfold insert_search at h ⊢
  generalize forLoop (direct_step v num) 12 0 s = x at h ⊢
  cases x with
  | ret r => cases h
  | brk s2 => exact h
  | next s2 =>
    unfold after_direct at h ⊢
    dsimp only at h ⊢
    by_cases hm : s2.mtch = true
    · rw [if_pos hm] at h ⊢
      exact h
    · rw [if_neg hm] at h ⊢
      unfold insert_indirect at h ⊢
      exact need_match_env _ _ _ _ h

/-- A search that ends with an entry ends in one of the outcomes, whatever
`errno` is. -/
theorem insert_search_outcome (env : Env) (v : insert_flavour) (fs : fs_ctx) (num : Nat)
    (s : insert_state) (hs : searching fs s) (s1 : insert_state)
    (h : insert_search env v num s = Step.next s1) :
    direct_outcome fs v num s1 ∨ indirect_outcome fs v num s1 :=
  (insert_search_spec ⟨env.now, 1⟩ (Nat.succ_ne_zero 0) v fs num s hs).1 s1
    (insert_search_env env ⟨env.now, 1⟩ v num s s1 h)

theorem u32_succ (n : Nat) (h : n ≤ 4096) : u32 ((n : Int) + 1) = n + 1 := by
  unfold u32
  omega

theorem u32_add_two (n : Nat) (h : n ≤ 4096) : u32 ((n : Int) + 2) = n + 2 := by
  unfold u32
  omega

/-- The outcomes of the search keep the accounting: every block the search
takes was free and is counted. -/
theorem outcome_accounted (fs : fs_ctx) (v : insert_flavour) (num : Nat) (s : insert_state)
    (hacc : accounted fs) (h : direct_outcome fs v num s ∨ indirect_outcome fs v num s) :
    accounted s.fs ∧ s.fs.ibitmap = fs.ibitmap ∧ only_taken fs.bbitmap s.fs.bbitmap := by
  have hle := count_set_le fs.bbitmap
  have same : s.fs = fs →
      accounted s.fs ∧ s.fs.ibitmap = fs.ibitmap ∧ only_taken fs.bbitmap s.fs.bbitmap := by
    intro h1
    rw [h1]
    exact ⟨hacc, rfl, only_taken_refl _⟩
  have one : ∀ b, b < 4096 → fs.bbitmap b = 0 →
      s.fs.sb.used_block_count = u32 ((fs.sb.used_block_count : Int) + 1) →
      s.fs.sb.used_inode_count = fs.sb.used_inode_count →
      s.fs.bbitmap = upd fs.bbitmap b 1 → s.fs.ibitmap = fs.ibitmap →
      accounted s.fs ∧ s.fs.ibitmap = fs.ibitmap ∧ only_taken fs.bbitmap s.fs.bbitmap := by
    intro b hb hfree h1 h2 h3 h4
    refine ⟨⟨?_, ?_⟩, h4, ?_⟩
    · rw [h1, h3, count_set_take _ _ hb hfree, hacc.1, u32_succ _ hle]
    · rw [h2, h4]
      exact hacc.2
    · rw [h3]
      exact only_taken_upd _ _ hb hfree
  rcases h with ⟨e, _, h1 | ⟨_, b, hb, hfree, h2⟩⟩ |
    ⟨_, b, c, _, hb, hfb, hc, hcb, hfc, h2⟩ | ⟨_, e, _, h1 | ⟨_, b, hb, hfree, h2⟩⟩
  · exact same h1.1
  · exact one b hb hfree (by rw [h2]; rfl) (by rw [h2]; rfl) (by rw [h2]; rfl) (by rw [h2]; rfl)
  · have hfc1 : upd fs.bbitmap b 1 c = 0 := by
      rw [upd_other _ _ _ _ hcb]
      exact hfc
    have hbm : s.fs.bbitmap = upd (upd fs.bbitmap b 1) c 1 := by rw [h2]; rfl
    have hsb : s.fs.sb.used_block_count = u32 ((fs.sb.used_block_count : Int) + 2) := by
      rw [h2]; rfl
    have hic : s.fs.sb.used_inode_count = fs.sb.used_inode_count := by rw [h2]; rfl
    have him : s.fs.ibitmap = fs.ibitmap := by rw [h2]; rfl
    refine ⟨⟨?_, ?_⟩, him, ?_⟩
    · rw [hsb, hbm, count_set_take _ _ hc hfc1, count_set_take _ _ hb hfb, hacc.1,
        u32_add_two _ hle]
    · rw [hic, him]
      exact hacc.2
    · rw [hbm]
      exact only_taken_trans _ _ _ (only_taken_upd _ _ hb hfb) (only_taken_upd _ _ hc hfc1)
  · exact same h1.1
  · exact one b hb hfree (by rw [h2]; rfl) (by rw [h2]; rfl) (by rw [h2]; rfl) (by rw [h2]; rfl)

/-- The end of `a1fs_create` keeps the accounting: the inode it marks was free
and is counted. -/
theorem create_finish_accounted (env : Env) (num mode : Nat) (name : List Nat)
    (s : insert_state) (v : Int) (fs1 : fs_ctx) (hacc : accounted s.fs)
    (h : create_finish env num mode name s = Res.ok (v, fs1)) :
    accounted fs1 ∧ fs1.bbitmap = s.fs.bbitmap ∧ only_taken s.fs.ibitmap fs1.ibitmap := by
  unfold create_finish at h
  cases hms : map_set s.fs.ibitmap (first_inode s.fs.ibitmap) 1 with
  | fault => rw [hms] at h; cases h
  | nofuel => rw [hms] at h; cases h
  | ok im =>
    rw [hms] at h
    dsimp only at h
    obtain ⟨k, hk, _, hk1, hfree⟩ := first_inode_ok _ _ hms
    obtain ⟨_, _, him⟩ := map_set_ok _ _ _ _ hms
    rw [hk, Int.toNat_ofNat] at him
    have hfs : fs1 = create_commit env num mode name s im (first_inode s.fs.ibitmap).toNat :=
      (congrArg Prod.snd (Res.ok.inj h)).symm
    have h1 : fs1.sb.used_block_count = s.fs.sb.used_block_count := by rw [hfs]; rfl
    have h2 : fs1.sb.used_inode_count = u32 ((s.fs.sb.used_inode_count : Int) + 1) := by
      rw [hfs]; rfl
    have h3 : fs1.bbitmap = s.fs.bbitmap := by rw [hfs]; rfl
    have h4 : fs1.ibitmap = upd s.fs.ibitmap k 1 := by rw [hfs, ← him]; rfl
    refine ⟨⟨?_, ?_⟩, h3, ?_⟩
    · rw [h1, h3]
      exact hacc.1
    · rw [h2, h4, count_set_take _ _ hk1 hfree, hacc.2, u32_succ _ (count_set_le _)]
    · rw [h4]
      exact only_taken_upd _ _ hk1 hfree

/-- The end of `a1fs_mkdir` keeps the accounting: the inode and the block it
marks were free and are counted. -/
theorem mkdir_finish_accounted (env : Env) (num mode : Nat) (name : List Nat)
    (s : insert_state) (v : Int) (fs1 : fs_ctx) (hacc : accounted s.fs)
    (h : mkdir_finish env num mode name s = Res.ok (v, fs1)) :
    accounted fs1 ∧ only_taken s.fs.bbitmap fs1.bbitmap ∧
      only_taken s.fs.ibitmap fs1.ibitmap := by
  unfold mkdir_finish at h
  cases hms : map_set s.fs.ibitmap (first_inode s.fs.ibitmap) 1 with
  | fault => rw [hms] at h; cases h
  | nofuel => rw [hms] at h; cases h
  | ok im =>
    rw [hms] at h
    dsimp only at h
    obtain ⟨k, hk, _, hk1, hfree⟩ := first_inode_ok _ _ hms
    obtain ⟨_, _, him⟩ := map_set_ok _ _ _ _ hms
    rw [hk, Int.toNat_ofNat] at him
    cases htb : take_block { s.fs with ibitmap := im } (num : Int) false with
    | fault => rw [htb] at h; cases h
    | nofuel => rw [htb] at h; cases h
    | ok bf =>
      rw [htb] at h
      dsimp only at h
      obtain ⟨hb, hbfree, hbf, _⟩ := take_block_ok _ bf.2 _ _ bf.1 htb
      have hbfree1 : s.fs.bbitmap bf.1 = 0 := hbfree
      have hfs : fs1 = mkdir_commit env num mode name s.entry bf.2
          (first_inode s.fs.ibitmap).toNat bf.1 := (congrArg Prod.snd (Res.ok.inj h)).symm
      have h1 : fs1.sb.used_block_count = u32 ((s.fs.sb.used_block_count : Int) + 1) := by
        rw [hfs, hbf]; rfl
      have h2 : fs1.sb.used_inode_count = u32 ((s.fs.sb.used_inode_count : Int) + 1) := by
        rw [hfs, hbf]; rfl
      have h3 : fs1.bbitmap = upd s.fs.bbitmap bf.1 1 := by rw [hfs, hbf]; rfl
      have h4 : fs1.ibitmap = upd s.fs.ibitmap k 1 := by rw [hfs, hbf, ← him]; rfl
      refine ⟨⟨?_, ?_⟩, ?_, ?_⟩
      · rw [h1, h3, count_set_take _ _ hb hbfree1, hacc.1, u32_succ _ (count_set_le _)]
      · rw [h2, h4, count_set_take _ _ hk1 hfree, hacc.2, u32_succ _ (count_set_le _)]
      · rw [h3]
        exact only_taken_upd _ _ hb hbfree1
      · rw [h4]
        exact only_taken_upd _ _ hk1 hfree

theorem create_at_accounted (env : Env) (fs fs1 : fs_ctx) (num : Nat) (name : List Nat)
    (mode : Nat) (v : Int) (hacc : accounted fs)
    (h : create_at env fs num name mode = Res.ok (v, fs1)) :
    accounted fs1 ∧ only_taken fs.bbitmap fs1.bbitmap ∧ only_taken fs.ibitmap fs1.ibitmap := by
  have same : fs1 = fs →
      accounted fs1 ∧ only_taken fs.bbitmap fs1.bbitmap ∧ only_taken fs.ibitmap fs1.ibitmap := by
    intro h1
    rw [h1]
    exact ⟨hacc, only_taken_refl _, only_taken_refl _⟩
  have fin : ∀ s1 : insert_state,
      accounted s1.fs ∧ s1.fs.ibitmap = fs.ibitmap ∧ only_taken fs.bbitmap s1.fs.bbitmap →
      create_finish env num mode name s1 = Res.ok (v, fs1) →
      accounted fs1 ∧ only_taken fs.bbitmap fs1.bbitmap ∧ only_taken fs.ibitmap fs1.ibitmap := by
    intro s1 hs1 h1
    obtain ⟨k1, k2, k3⟩ := create_finish_accounted env num mode name s1 v fs1 hs1.1 h1
    rw [hs1.2.1] at k3
    rw [k2]
    exact ⟨k1, hs1.2.2, k3⟩
  unfold create_at at h
  by_cases hec : (fs.itable num).extent_count ≥ 512
  · rw [if_pos hec] at h
    exact same (congrArg Prod.snd (Res.ok.inj h)).symm
  rw [if_neg hec] at h
  by_cases hem : (fs.itable num).empty = 0
  · rw [if_pos hem] at h
    exact fin _ ⟨hacc, rfl, only_taken_refl _⟩ h
  rw [if_neg hem] at h
  generalize hx : insert_search env create_flavour num (insert_start fs num) = x at h
  cases x with
  | ret r =>
    dsimp only at h
    rw [h] at hx
    exact same (search_failed_same env fs fs1 v
      (insert_search_ret env create_flavour fs num _ ⟨rfl, rfl⟩ _ hx))
  | brk s1 => exact absurd hx (insert_search_ne_brk _ _ _ _ _)
  | next s1 =>
    exact fin s1 (outcome_accounted fs create_flavour num s1 hacc
      (insert_search_outcome env create_flavour fs num _ ⟨rfl, rfl⟩ s1 hx)) h

theorem mkdir_at_accounted (env : Env) (fs fs1 : fs_ctx) (num : Nat) (name : List Nat)
    (mode : Nat) (v : Int) (hacc : accounted fs)
    (h : mkdir_at env fs num name mode = Res.ok (v, fs1)) :
    accounted fs1 ∧ only_taken fs.bbitmap fs1.bbitmap ∧ only_taken fs.ibitmap fs1.ibitmap := by
  have same : fs1 = fs →
      accounted fs1 ∧ only_taken fs.bbitmap fs1.bbitmap ∧ only_taken fs.ibitmap fs1.ibitmap := by
    intro h1
    rw [h1]
    exact ⟨hacc, only_taken_refl _, only_taken_refl _⟩
  have fin : ∀ s1 : insert_state,
      accounted s1.fs ∧ s1.fs.ibitmap = fs.ibitmap ∧ only_taken fs.bbitmap s1.fs.bbitmap →
      mkdir_finish env num (mode ||| S_IFDIR) name s1 = Res.ok (v, fs1) →
      accounted fs1 ∧ only_taken fs.bbitmap fs1.bbitmap ∧ only_taken fs.ibitmap fs1.ibitmap := by
    intro s1 hs1 h1
    obtain ⟨k1, k2, k3⟩ := mkdir_finish_accounted env num _ name s1 v fs1 hs1.1 h1
    rw [hs1.2.1] at k3
    exact ⟨k1, only_taken_trans _ _ _ hs1.2.2 k2, k3⟩
  unfold mkdir_at at h
  by_cases hec : (fs.itable num).extent_count ≥ 512
  · rw [if_pos hec] at h
    exact same (congrArg Prod.snd (Res.ok.inj h)).symm
  rw [if_neg hec] at h
  by_cases hem : (fs.itable num).empty ≠ 0
  · rw [if_pos hem] at h
    generalize hx : insert_search env mkdir_flavour num (insert_start fs num) = x at h
    cases x with
    | ret r =>
      dsimp only at h
      rw [h] at hx
      exact same (search_failed_same env fs fs1 v
        (insert_search_ret env mkdir_flavour fs num _ ⟨rfl, rfl⟩ _ hx))
    | brk s1 => exact absurd hx (insert_search_ne_brk _ _ _ _ _)
    | next s1 =>
      exact fin s1 (outcome_accounted fs mkdir_flavour num s1 hacc
        (insert_search_outcome env mkdir_flavour fs num _ ⟨rfl, rfl⟩ s1 hx)) h
  · rw [if_neg hem] at h
    exact fin _ ⟨hacc, rfl, only_taken_refl _⟩ h

/-- A call of `a1fs_create` that returns keeps the accounting. -/
theorem create_accounted (env : Env) (fs fs1 : fs_ctx) (path : List Nat) (mode : Nat) (v : Int)
    (hacc : accounted fs) (h : a1fs_create env fs path mode = Res.ok (v, fs1)) :
    accounted fs1 ∧ only_taken fs.bbitmap fs1.bbitmap ∧ only_taken fs.ibitmap fs1.ibitmap := by
  have same : fs1 = fs →
      accounted fs1 ∧ only_taken fs.bbitmap fs1.bbitmap ∧ only_taken fs.ibitmap fs1.ibitmap := by
    intro h1
    rw [h1]
    exact ⟨hacc, only_taken_refl _, only_taken_refl _⟩
  unfold a1fs_create at h
  by_cases hreg : (!S_ISREG mode) = true
  · rw [if_pos hreg] at h
    cases h
  rw [if_neg hreg] at h
  by_cases hfull : fs.sb.inode_count = fs.sb.used_inode_count
  · rw [if_pos hfull] at h
    exact same (congrArg Prod.snd (Res.ok.inj h)).symm
  rw [if_neg hfull] at h
  cases hsp : split_last path with
  | none => rw [hsp] at h; cases h
  | some pn =>
    rw [hsp] at h
    dsimp only at h
    by_cases hpl : parent_lookup fs pn.1 < 0
    · rw [if_pos hpl] at h
      exact same (congrArg Prod.snd (Res.ok.inj h)).symm
    · rw [if_neg hpl] at h
      exact create_at_accounted env fs fs1 _ _ mode v hacc h

/-- A call of `a1fs_mkdir` that returns keeps the accounting. -/
theorem mkdir_accounted (env : Env) (fs fs1 : fs_ctx) (path : List Nat) (mode : Nat) (v : Int)
    (hacc : accounted fs) (h : a1fs_mkdir env fs path mode = Res.ok (v, fs1)) :
    accounted fs1 ∧ only_taken fs.bbitmap fs1.bbitmap ∧ only_taken fs.ibitmap fs1.ibitmap := by
  have same : fs1 = fs →
      accounted fs1 ∧ only_taken fs.bbitmap fs1.bbitmap ∧ only_taken fs.ibitmap fs1.ibitmap := by
    intro h1
    rw [h1]
    exact ⟨hacc, only_taken_refl _, only_taken_refl _⟩
  unfold a1fs_mkdir at h
  by_cases hfull : fs.sb.inode_count = fs.sb.used_inode_count ∨
      fs.sb.block_count = fs.sb.used_block_count
  · rw [if_pos hfull] at h
    exact same (congrArg Prod.snd (Res.ok.inj h)).symm
  rw [if_neg hfull] at h
  cases hsp : split_last path with
  | none => rw [hsp] at h; cases h
  | some pn =>
    rw [hsp] at h
    dsimp only at h
    by_cases hpl : parent_lookup fs pn.1 < 0
    · rw [if_pos hpl] at h
      exact same (congrArg Prod.snd (Res.ok.inj h)).symm
    · rw [if_neg hpl] at h
      exact mkdir_at_accounted env fs fs1 _ _ mode v hacc h

/-! ### The first entry with the name decides -/

/-- The lookup of `/name` gives the inode of the first entry with the name, and
that entry is the first direct one whenever a direct extent holds the name. -/
theorem lookup_first_slot (fs : fs_ctx) (name : List Nat) (a : Nat) (hname : is_component name)
    (h : first_slot fs 0 name = some a) :
    path_lookup fs (47 :: name) = i32 (fs.itable (dentry_ino fs.btable a)).num ∧
    ∀ d, (direct_slots (fs.itable 0)).find? (fun x => name_at fs.btable x name) = some d →
      a = d := by
  refine ⟨?_, ?_⟩
  · rw [path_lookup_single fs name hname, h]
    rfl
  · intro d hd
    have h1 : first_slot fs 0 name = some d := find?_append_left _ d _ _ hd
    rw [h] at h1
    exact Option.some.inj h1

/-- A path of `PATH_MAX` or more bytes is refused by `a1fs_getattr`. -/
theorem getattr_path_too_long (fs : fs_ctx) (path : List Nat) (h : path.length ≥ PATH_MAX) :
    a1fs_getattr fs path = Res.ok (-ENAMETOOLONG, zero_stat) := by
  unfold a1fs_getattr
  rw [if_pos h]

/-! ### What clearing entries does to the extents of an indirect block -/

theorem cleared_refl (m : Nat → Nat) : cleared m m := fun _ => Or.inl (fun _ _ => rfl)

theorem cleared_trans (m m1 m2 : Nat → Nat) (h1 : cleared m m1) (h2 : cleared m1 m2) :
    cleared m m2 := by
  intro c
  rcases h2 c with h | h
  · rcases h1 c with k | k
    · exact Or.inl (fun i hi => (h i hi).trans (k i hi))
    · exact Or.inr (fun i hi => (h i hi).trans (k i hi))
  · exact Or.inr h

theorem cleared_memset0 (m : Nat → Nat) (a : Nat) (ha : a % 256 = 0) :
    cleared m (memset0 m a 256) := by
  intro c
  by_cases hc : 256 * c = a
  · right
    intro i hi
    unfold memset0
    rw [if_pos (by omega)]
  · left
    intro i hi
    exact memset0_outside m a 256 _ (by omega)

theorem wipe_block_cleared (ino blk : Nat) (m : Nat → Nat) :
    cleared m (wipe_block ino blk m) := by
  rw [wipe_block_find]
  cases hf : (block_slots blk).find? (fun a => decide (dentry_ino m a = ino)) with
  | none => exact cleared_refl m
  | some a =>
    exact cleared_memset0 m a (block_slots_aligned blk a (List.mem_of_find?_eq_some hf))

theorem foldl_cleared {β : Type} (w : (Nat → Nat) → β → Nat → Nat)
    (hw : ∀ x b, cleared x (w x b)) (l : List β) : ∀ m, cleared m (l.foldl w m) := by
  induction l with
  | nil => intro m; exact cleared_refl m
  | cons b bs ih =>
    intro m
    rw [List.foldl_cons]
    exact cleared_trans _ _ _ (hw m b) (ih (w m b))

theorem wipe_extent_cleared (ino : Nat) (ext : a1fs_extent) (m : Nat → Nat) :
    cleared m (wipe_extent ino ext m) := by
  rw [wipe_extent_eq]
  exact foldl_cleared _ (fun x f => wipe_block_cleared ino (ext.start + f) x) _ m

/-- The searches of `a1fs_unlink` and `a1fs_rmdir` through the entries of the
parent change the data region by clearing entries only. -/
theorem wipe_entries_cleared (d : a1fs_inode) (ino : Nat) (m : Nat → Nat) :
    cleared m (wipe_entries d ino m) := by
  unfold wipe_entries
  rw [forLoop_fold_zero _ (fun e1 mc => wipe_extent ino (d.extent e1) mc) (fun _ _ => rfl),
    state_next]
  have k1 : cleared m ((List.range 12).foldl (fun mc e1 => wipe_extent ino (d.extent e1) mc) m) :=
    foldl_cleared _ (fun x e1 => wipe_extent_cleared ino (d.extent e1) x) _ m
  by_cases hi : d.indirect ≠ 0
  · rw [if_pos hi, forLoop_fold_zero _
      (fun e1 mc => wipe_extent ino (ind_extent mc d.indirect e1) mc) (fun _ _ => rfl),
      state_next]
    exact cleared_trans _ _ _ k1
      (foldl_cleared _ (fun x e1 => wipe_extent_cleared ino (ind_extent x d.indirect e1) x) _ _)
  · rw [if_neg hi]
    exact k1

theorem rd32_zero (m : Nat → Nat) (a : Nat) (h : ∀ x, a ≤ x → x < a + 4 → m x = 0) :
    rd32 m a = 0 := by
  unfold rd32
  rw [h a (by omega) (by omega), h (a + 1) (by omega) (by omega),
    h (a + 2) (by omega) (by omega), h (a + 3) (by omega) (by omega)]

/-- An extent of an indirect block is kept or becomes the empty extent when
entries are cleared. -/
theorem ind_extent_cleared (m m1 : Nat → Nat) (blk e : Nat) (h : cleared m m1) :
    ind_extent m1 blk e = ind_extent m blk e ∨ ind_extent m1 blk e = ⟨0, 0⟩ := by
  have hx : ∀ x, 4096 * blk + 8 * e ≤ x → x < 4096 * blk + 8 * e + 8 →
      x = 256 * ((4096 * blk + 8 * e) / 256) + (x - 256 * ((4096 * blk + 8 * e) / 256)) ∧
        x - 256 * ((4096 * blk + 8 * e) / 256) < 256 := by
    intro x h1 h2
    omega
  rcases h ((4096 * blk + 8 * e) / 256) with k | k
  · left
    apply ind_extent_congr
    intro x h1 h2
    obtain ⟨h3, h4⟩ := hx x h1 h2
    rw [h3]
    exact k _ h4
  · right
    have hz : ∀ x, 4096 * blk + 8 * e ≤ x → x < 4096 * blk + 8 * e + 8 → m1 x = 0 := by
      intro x h1 h2
      obtain ⟨h3, h4⟩ := hx x h1 h2
      rw [h3]
      exact k _ h4
    unfold ind_extent A1FS_BLOCK_SIZE
    rw [rd32_zero m1 _ (fun x h1 h2 => hz x (by omega) (by omega)),
      rd32_zero m1 _ (fun x h1 h2 => hz x (by omega) (by omega))]

theorem flatMap_sublist {α β : Type} (l : List α) (f g : α → List β)
    (h : ∀ a, List.Sublist (f a) (g a)) : List.Sublist (l.flatMap f) (l.flatMap g) := by
  induction l with
  | nil => exact List.Sublist.refl _
  | cons x xs ih =>
    rw [List.flatMap_cons, List.flatMap_cons]
    exact List.Sublist.append (h x) ih

theorem run_blocks_empty : run_blocks ⟨0, 0⟩ = [] := rfl

/-- The blocks of an inode after entries were cleared are among its blocks
before, in the same order. -/
theorem inode_blocks_cleared (ino : a1fs_inode) (m m1 : Nat → Nat) (h : cleared m m1) :
    List.Sublist (inode_blocks ino m1) (inode_blocks ino m) := by
  unfold inode_blocks
  apply List.Sublist.append (List.Sublist.refl _)
  by_cases hi : ino.indirect ≠ 0
  · rw [if_pos hi, if_pos hi]
    apply List.Sublist.append _ (List.Sublist.refl _)
    apply flatMap_sublist
    intro e
    rcases ind_extent_cleared m m1 ino.indirect e h with k | k
    · rw [k]
    · rw [k, run_blocks_empty]
      exact List.nil_sublist _
  · rw [if_neg hi, if_neg hi]

/-! ### Space accounting of the release of blocks -/

theorem u32_pred (n : Nat) (h1 : 1 ≤ n) (h : n ≤ 4096) : u32 ((n : Int) - 1) = n - 1 := by
  unfold u32
  omega

theorem same_but_blocks_refl (fs : fs_ctx) : same_but_blocks fs fs := ⟨rfl, rfl, rfl, rfl⟩

theorem same_but_blocks_trans (fs fs1 fs2 : fs_ctx) (h1 : same_but_blocks fs fs1)
    (h2 : same_but_blocks fs1 fs2) : same_but_blocks fs fs2 :=
  ⟨h2.1.trans h1.1, h2.2.1.trans h1.2.1, h2.2.2.1.trans h1.2.2.1, h2.2.2.2.trans h1.2.2.2⟩

theorem blocks_counted_mono (fs : fs_ctx) (l l1 : List Nat) (h : blocks_counted fs l)
    (hsub : ∀ b ∈ l1, b ∈ l) : blocks_counted fs l1 :=
  ⟨h.1, fun b hb => h.2 b (hsub b hb)⟩

/-- The release of the block `b`, which is marked and is not in the list `l`:
the counter and the bitmap agree again, and the blocks of `l` stay marked. -/
theorem release_counted (fs : fs_ctx) (i : Int) (bm : Nat → Nat) (l : List Nat)
    (hI : blocks_counted fs (i.toNat :: l)) (hnd : (i.toNat :: l).Nodup)
    (hms : map_set fs.bbitmap i 0 = Res.ok bm) :
    blocks_counted
        { fs with bbitmap := bm,
                  sb := { fs.sb with used_block_count := u32 (fs.sb.used_block_count - 1) } } l ∧
      same_but_blocks fs
        { fs with bbitmap := bm,
                  sb := { fs.sb with used_block_count := u32 (fs.sb.used_block_count - 1) } } := by
  obtain ⟨_, hlt, hbm⟩ := map_set_ok _ _ _ _ hms
  have hset : fs.bbitmap i.toNat ≠ 0 := hI.2 _ (List.mem_cons_self _ _)
  have hc := count_set_free fs.bbitmap i.toNat hlt hset
  have hle := count_set_le fs.bbitmap
  refine ⟨⟨?_, ?_⟩, rfl, rfl, rfl, rfl⟩
  · show u32 ((fs.sb.used_block_count : Int) - 1) = count_set bm
    rw [hbm, hI.1, u32_pred _ (by omega) hle]
    omega
  · intro b hb
    show bm b ≠ 0
    have hne : b ≠ i.toNat := fun h => (List.nodup_cons.1 hnd).1 (h ▸ hb)
    rw [hbm, upd_other _ _ _ _ hne]
    exact hI.2 b (List.mem_cons_of_mem _ hb)

/-- The loop over the blocks of one extent of a removed inode, from block `i`
on. -/
theorem free_run_counted (ext : a1fs_extent) : ∀ (n i : Nat) (fs : fs_ctx) (l : List Nat),
    blocks_counted fs
      ((List.range' i n).map (fun f : Nat => (i32 ext.start + (f : Int)).toNat) ++ l) →
    ((List.range' i n).map (fun f : Nat => (i32 ext.start + (f : Int)).toNat) ++ l).Nodup →
    ∀ fs1, forLoop (free_one ext) n i fs = Step.next fs1 →
      blocks_counted fs1 l ∧ same_but_blocks fs fs1 := by
  intro n
  induction n with
  | zero =>
    intro i fs l hI _ fs1 h
    cases h
    exact ⟨hI, same_but_blocks_refl fs⟩
  | succ n ih =>
    intro i fs l hI hnd fs1 h
    rw [List.range'_succ, List.map_cons, List.cons_append] at hI hnd
    rw [forLoop_succ] at h
    unfold free_one at h
    cases hms : map_set fs.bbitmap (i32 ext.start + (i : Int)) 0 with
    | fault => rw [hms] at h; cases h
    | nofuel => rw [hms] at h; cases h
    | ok bm =>
      rw [hms] at h
      dsimp only at h
      obtain ⟨k1, k2⟩ := release_counted fs _ bm _ hI hnd hms
      obtain ⟨k3, k4⟩ := ih (i + 1) _ l k1 (List.nodup_cons.1 hnd).2 fs1 h
      exact ⟨k3, same_but_blocks_trans _ _ _ k2 k4⟩

/-- The release of the blocks of one extent. -/
theorem free_extent_counted (ext : a1fs_extent) (fs : fs_ctx) (l : List Nat)
    (hI : blocks_counted fs (run_blocks ext ++ l)) (hnd : (run_blocks ext ++ l).Nodup)
    (fs1 : fs_ctx) (h : free_extent ext fs = Step.next fs1) :
    blocks_counted fs1 l ∧ same_but_blocks fs fs1 := by
  unfold free_extent at h
  by_cases h0 : i32 ext.count = 0
  · rw [if_pos h0] at h
    cases h
    exact ⟨blocks_counted_mono fs _ l hI (fun b hb => List.mem_append_right _ hb),
      same_but_blocks_refl fs⟩
  · rw [if_neg h0] at h
    unfold run_blocks at hI hnd
    rw [List.range_eq_range'] at hI hnd
    exact free_run_counted ext _ 0 fs l hI hnd fs1 h

/-- A loop over extents that releases their blocks; the extent `e` is read from
the inode record or from the data region, which the loop does not change. -/
theorem free_extents_counted (G : Nat → (Nat → Nat) → a1fs_extent) :
    ∀ (n i : Nat) (fs : fs_ctx) (l : List Nat),
    blocks_counted fs ((List.range' i n).flatMap (fun e => run_blocks (G e fs.btable)) ++ l) →
    ((List.range' i n).flatMap (fun e => run_blocks (G e fs.btable)) ++ l).Nodup →
    ∀ fs1, forLoop (fun e fs2 => free_extent (G e fs2.btable) fs2) n i fs = Step.next fs1 →
      blocks_counted fs1 l ∧ same_but_blocks fs fs1 := by
  intro n
  induction n with
  | zero =>
    intro i fs l hI _ fs1 h
    cases h
    exact ⟨hI, same_but_blocks_refl fs⟩
  | succ n ih =>
    intro i fs l hI hnd fs1 h
    rw [List.range'_succ, List.flatMap_cons, List.append_assoc] at hI hnd
    rw [forLoop_succ] at h
    cases hb : free_extent (G i fs.btable) fs with
    | ret r => rw [hb] at h; cases h
    | brk s =>
      unfold free_extent at hb
      by_cases h0 : i32 (G i fs.btable).count = 0
      · rw [if_pos h0] at hb
        cases hb
      · rw [if_neg h0] at hb
        exact absurd hb (forLoop_ne_brk _ _ _ _ _)
    | next s =>
      rw [hb] at h
      dsimp only at h
      obtain ⟨k1, k2⟩ := free_extent_counted _ fs _ hI hnd s hb
      rw [← k2.1] at k1 hnd
      obtain ⟨k3, k4⟩ := ih (i + 1) s l k1 (List.nodup_append.1 hnd).2.1 fs1 h
      exact ⟨k3, same_but_blocks_trans _ _ _ k2 k4⟩

/-- The release of all blocks of an inode whose blocks are pairwise different
and marked keeps the block accounting. -/
theorem free_blocks_counted (ino : a1fs_inode) (fs : fs_ctx)
    (hI : blocks_counted fs (inode_blocks ino fs.btable))
    (hnd : (inode_blocks ino fs.btable).Nodup)
    (fs1 : fs_ctx) (h : free_blocks ino fs = Step.next fs1) :
    blocks_counted fs1 [] ∧ same_but_blocks fs fs1 := by
  unfold inode_blocks at hI hnd
  rw [List.range_eq_range'] at hI hnd
  unfold free_blocks at h
  cases hd : forLoop (fun e fs1 => free_extent (ino.extent e) fs1) 12 0 fs with
  | ret r => rw [hd] at h; cases h
  | brk s => exact absurd hd (forLoop_ne_brk _ _ _ _ _)
  | next s =>
    rw [hd] at h
    dsimp only at h
    obtain ⟨k1, k2⟩ := free_extents_counted (fun e _ => ino.extent e) 12 0 fs _ hI hnd s hd
    by_cases hi : ino.indirect ≠ 0
    · rw [if_pos hi] at h k1
      have hnd1 := (List.nodup_append.1 hnd).2.1
      rw [if_pos hi, List.range_eq_range', ← k2.1] at hnd1
      rw [List.range_eq_range', ← k2.1] at k1
      cases hx : forLoop (fun e fs2 => free_extent (ind_extent fs2.btable ino.indirect e) fs2)
          500 0 s with
      | ret r => rw [hx] at h; cases h
      | brk t => exact absurd hx (forLoop_ne_brk _ _ _ _ _)
      | next t =>
        rw [hx] at h
        dsimp only at h
        obtain ⟨k3, k4⟩ := free_extents_counted (fun e m => ind_extent m ino.indirect e)
          500 0 s _ k1 hnd1 t hx
        unfold free_indirect_block at h
        cases hms : map_set t.bbitmap (ino.indirect : Int) 0 with
        | fault => rw [hms] at h; cases h
        | nofuel => rw [hms] at h; cases h
        | ok bm =>
          rw [hms] at h
          dsimp only at h
          have k5 : blocks_counted t [((ino.indirect : Nat) : Int).toNat] := by
            rw [Int.toNat_ofNat]
            exact k3
          obtain ⟨k6, k7⟩ := release_counted t _ bm [] k5 (List.nodup_singleton _) hms
          cases h
          exact ⟨k6, same_but_blocks_trans _ _ _ k2 (same_but_blocks_trans _ _ _ k4 k7)⟩
    · rw [if_neg hi] at h k1
      cases h
      exact ⟨k1, k2⟩

/-! ### Space accounting of `a1fs_unlink` and `a1fs_rmdir` -/

theorem inode_blocks_congr (ino ino1 : a1fs_inode) (m : Nat → Nat)
    (he : ino1.extent = ino.extent) (hi : ino1.indirect = ino.indirect) :
    inode_blocks ino1 m = inode_blocks ino m := by
  unfold inode_blocks
  rw [he, hi]

theorem upd_keeps (t : Nat → a1fs_inode) (p n : Nat) (r : a1fs_inode)
    (he : r.extent = (t p).extent) (hi : r.indirect = (t p).indirect)
    (hn : r.num = (t p).num) :
    (upd t p r n).extent = (t n).extent ∧ (upd t p r n).indirect = (t n).indirect ∧
      (upd t p r n).num = (t n).num := by
  by_cases hp : n = p
  · rw [hp, upd_same]
    exact ⟨he, hi, hn⟩
  · rw [upd_other _ _ _ _ hp]
    exact ⟨rfl, rfl, rfl⟩

theorem unlink_parent_done (env : Env) (fs : fs_ctx) (n : Nat) :
    parent_done fs (unlink_parent env fs n) n :=
  ⟨rfl, rfl, rfl, wipe_entries_cleared _ _ _, upd_keeps fs.itable _ n _ rfl rfl rfl⟩

theorem rmdir_parent_done (env : Env) (fs : fs_ctx) (n : Nat) :
    parent_done fs (rmdir_parent env fs n) n :=
  ⟨rfl, rfl, rfl, wipe_entries_cleared _ _ _, upd_keeps fs.itable _ n _ rfl rfl rfl⟩

/-- The lines that release the inode keep the accounting of inodes when the
inode was marked, and leave the blocks of the inode pairwise different and
marked. -/
theorem unlink_inode_counted (fs fsp fs3 : fs_ctx) (n : Nat) (hacc : accounted fs)
    (hlive : inode_live fs n) (hp : parent_done fs fsp n)
    (h : unlink_inode fsp n = Res.ok fs3) :
    fs3.sb.used_inode_count = count_set fs3.ibitmap ∧
    blocks_counted fs3 (inode_blocks (fs3.itable n) fs3.btable) ∧
    (inode_blocks (fs3.itable n) fs3.btable).Nodup := by
  obtain ⟨hsb, hbb, hib, hcl, hext, hind, hnum⟩ := hp
  obtain ⟨hnd, hall, hino⟩ := hlive
  unfold unlink_inode at h
  cases hms : map_set fsp.ibitmap ((fsp.itable n).num : Int) 0 with
  | fault => rw [hms] at h; cases h
  | nofuel => rw [hms] at h; cases h
  | ok im =>
    rw [hms] at h
    dsimp only at h
    obtain ⟨_, hlt, him⟩ := map_set_ok _ _ _ _ hms
    rw [Int.toNat_ofNat, hnum] at hlt him
    rw [hib] at him
    have e := Res.ok.inj h
    have h1 : fs3.sb.used_inode_count = u32 ((fs.sb.used_inode_count : Int) - 1) := by
      rw [← e, ← hsb]
    have h2 : fs3.ibitmap = im := by rw [← e]
    have h3 : fs3.sb.used_block_count = fs.sb.used_block_count := by rw [← e, ← hsb]
    have h4 : fs3.bbitmap = fs.bbitmap := by rw [← e, ← hbb]
    have h5 : fs3.itable = fsp.itable := by rw [← e]
    have h6 : fs3.btable = fsp.btable := by rw [← e]
    have hc := count_set_free fs.ibitmap _ hlt hino
    have hle := count_set_le fs.ibitmap
    have hsub : List.Sublist (inode_blocks (fs3.itable n) fs3.btable)
        (inode_blocks (fs.itable n) fs.btable) := by
      rw [h5, h6, inode_blocks_congr (fs.itable n) (fsp.itable n) _ hext hind]
      exact inode_blocks_cleared _ _ _ hcl
    refine ⟨?_, ⟨?_, ?_⟩, hsub.nodup hnd⟩
    · rw [h1, h2, him, hacc.2, u32_pred _ (by omega) hle]
      omega
    · rw [h3, h4]
      exact hacc.1
    · intro b hb
      rw [h4]
      exact hall b (hsub.subset hb)

/-- The end of both calls: with the blocks released and the record cleared the
accounting holds. -/
theorem removal_finish_counted (fs3 fs1 : fs_ctx) (n : Nat) (v : Int)
    (x : Step fs_ctx (Res (Int × fs_ctx)))
    (hi : fs3.sb.used_inode_count = count_set fs3.ibitmap)
    (hx : ∀ fs4, x = Step.next fs4 →
      fs4.sb.used_block_count = count_set fs4.bbitmap ∧ same_but_blocks fs3 fs4)
    (hbrk : ∀ fs4, x ≠ Step.brk fs4) (hret : ∀ r, x = Step.ret r → ∀ y, r ≠ Res.ok y)
    (h : unlink_finish n x = Res.ok (v, fs1)) : accounted fs1 := by
  cases x with
  | ret r => exact absurd h (hret r rfl _)
  | brk fs4 => exact absurd rfl (hbrk fs4)
  | next fs4 =>
    obtain ⟨k1, k2⟩ := hx fs4 rfl
    have hfs1 : fs1 = set_inode fs4 n zero_inode := (congrArg Prod.snd (Res.ok.inj h)).symm
    rw [hfs1]
    refine ⟨k1, ?_⟩
    show fs4.sb.used_inode_count = count_set fs4.ibitmap
    rw [k2.2.2.2, k2.2.2.1]
    exact hi

/-- A call of `a1fs_unlink` that returns keeps the accounting when the blocks of
the removed inode are pairwise different and marked and the inode is marked. -/
theorem unlink_accounted (env : Env) (fs fs1 : fs_ctx) (path : List Nat) (v : Int)
    (hacc : accounted fs) (hlive : inode_live fs (path_lookup fs path).toNat)
    (h : a1fs_unlink env fs path = Res.ok (v, fs1)) : accounted fs1 := by
  unfold a1fs_unlink at h
  by_cases hpl : path_lookup fs path < 0
  · rw [if_pos hpl] at h
    have e : fs = fs1 := congrArg Prod.snd (Res.ok.inj h)
    rw [← e]
    exact hacc
  rw [if_neg hpl] at h
  generalize (path_lookup fs path).toNat = n at h hlive
  cases hu : unlink_inode (unlink_parent env fs n) n with
  | fault => rw [hu] at h; cases h
  | nofuel => rw [hu] at h; cases h
  | ok fs3 =>
    rw [hu] at h
    dsimp only at h
    obtain ⟨k1, k2, k3⟩ := unlink_inode_counted fs _ fs3 n hacc hlive
      (unlink_parent_done env fs n) hu
    refine removal_finish_counted fs3 fs1 n v _ k1 ?_ ?_ ?_ h
    · intro fs4 h4
      unfold unlink_blocks at h4
      by_cases hsz : (fs3.itable n).size > 0 ∨ (fs3.itable n).block_count > 0
      · rw [if_pos hsz] at h4
        obtain ⟨k4, k5⟩ := free_blocks_counted _ fs3 k2 k3 fs4 h4
        exact ⟨k4.1, k5⟩
      · rw [if_neg hsz] at h4
        cases h4
        exact ⟨k2.1, same_but_blocks_refl fs3⟩
    · intro fs4 h4
      unfold unlink_blocks at h4
      by_cases hsz : (fs3.itable n).size > 0 ∨ (fs3.itable n).block_count > 0
      · rw [if_pos hsz] at h4
        exact free_blocks_ne_brk _ _ _ h4
      · rw [if_neg hsz] at h4
        cases h4
    · intro r h4
      unfold unlink_blocks at h4
      by_cases hsz : (fs3.itable n).size > 0 ∨ (fs3.itable n).block_count > 0
      · rw [if_pos hsz] at h4
        exact free_blocks_ret _ _ r h4
      · rw [if_neg hsz] at h4
        cases h4

/-- A call of `a1fs_rmdir` that returns keeps the accounting when the blocks of
the removed inode are pairwise different and marked and the inode is marked. -/
theorem rmdir_accounted (env : Env) (fs fs1 : fs_ctx) (path : List Nat) (v : Int)
    (hacc : accounted fs) (hlive : inode_live fs (path_lookup fs path).toNat)
    (h : a1fs_rmdir env fs path = Res.ok (v, fs1)) : accounted fs1 := by
  unfold a1fs_rmdir at h
  by_cases hpl : path_lookup fs path < 0
  · rw [if_pos hpl] at h
    have e : fs = fs1 := congrArg Prod.snd (Res.ok.inj h)
    rw [← e]
    exact hacc
  rw [if_neg hpl] at h
  generalize (path_lookup fs path).toNat = n at h hlive
  by_cases hem : (fs.itable n).empty > 0
  · rw [if_pos hem] at h
    have e : fs = fs1 := congrArg Prod.snd (Res.ok.inj h)
    rw [← e]
    exact hacc
  rw [if_neg hem] at h
  cases hu : unlink_inode (rmdir_parent env fs n) n with
  | fault => rw [hu] at h; cases h
  | nofuel => rw [hu] at h; cases h
  | ok fs3 =>
    rw [hu] at h
    dsimp only at h
    obtain ⟨k1, k2, k3⟩ := unlink_inode_counted fs _ fs3 n hacc hlive
      (rmdir_parent_done env fs n) hu
    refine removal_finish_counted fs3 fs1 n v _ k1 ?_ (free_blocks_ne_brk _ _)
      (free_blocks_ret _ _) h
    intro fs4 h4
    obtain ⟨k4, k5⟩ := free_blocks_counted _ fs3 k2 k3 fs4 h4
    exact ⟨k4.1, k5⟩

/-! ### A missing component in a directory with an indirect block -/

theorem strtok_aux_two (name : List Nat) : ∀ (miss cur : List Nat),
    (∀ c ∈ miss, c ≠ 47) → cur.reverse ++ miss ≠ [] →
    strtok_aux (miss ++ 47 :: name) cur = (cur.reverse ++ miss) :: strtok_aux name [] := by
  intro miss
  induction miss with
  | nil =>
    intro cur _ hne
    have hcur : cur ≠ [] := by
      intro h
      rw [h] at hne
      exact hne rfl
    rw [List.nil_append, List.append_nil]
    simp only [strtok_aux, if_true, if_neg hcur]
  | cons c cs ih =>
    intro cur h hne
    have hc : c ≠ 47 := h c (List.mem_cons_self _ _)
    rw [List.cons_append]
    simp only [strtok_aux, if_neg hc]
    rw [ih (c :: cur) (fun d hd => h d (List.mem_cons_of_mem _ hd)) (by simp)]
    simp

theorem strtok_two (miss name : List Nat) (hm : miss ≠ []) (h : ∀ c ∈ miss, c ≠ 47)
    (hne : name ≠ []) (hn : ∀ c ∈ name, c ≠ 47) :
    strtok (47 :: (miss ++ 47 :: name)) = [miss, name] := by
  have h1 : strtok (47 :: (miss ++ 47 :: name)) = strtok_aux (miss ++ 47 :: name) [] := by
    unfold strtok
    simp only [strtok_aux, if_true]
  have h2 : strtok_aux name [] = [name] := by
    rw [strtok_aux_component name hn]
    simp [hne]
  rw [h1, strtok_aux_two name miss [] h (by simpa using hm), h2]
  rfl

/-- The lookup of `/name` is the walk over the one piece `name`. -/
theorem path_lookup_walk_single (fs : fs_ctx) (name : List Nat) (hname : is_component name) :
    path_lookup fs (47 :: name) = lookup_walk fs [name] ⟨0, false⟩ := by
  obtain ⟨hne, _, hc⟩ := hname
  unfold path_lookup
  rw [if_neg (by simp), if_neg (by simpa using hne),
    strtok_single name hne (fun c h => (hc c h).2)]

/-- When the root directory has an indirect block and no entry `miss`, the
lookup of `/miss/name` does not fail: it gives what the lookup of `/name`
gives. -/
theorem lookup_skips_missing (fs : fs_ctx) (miss name : List Nat) (hm : is_component miss)
    (hname : is_component name) (hnone : first_slot fs 0 miss = none)
    (hind : (fs.itable 0).indirect ≠ 0) :
    path_lookup fs (47 :: (miss ++ 47 :: name)) = path_lookup fs (47 :: name) := by
  rw [path_lookup_walk_single fs name hname]
  unfold first_slot dir_slots slots_of at hnone
  rw [if_pos hind, List.find?_append] at hnone
  have hd : (direct_slots (fs.itable 0)).find? (fun a => name_at fs.btable a miss) = none := by
    cases h1 : (direct_slots (fs.itable 0)).find? (fun a => name_at fs.btable a miss) with
    | none => rfl
    | some a => rw [h1] at hnone; cases hnone
  rw [hd, Option.none_or] at hnone
  unfold path_lookup
  rw [if_neg (by simp), if_neg (by simp),
    strtok_two miss name hm.1 (fun c h => (hm.2.2 c h).2) hname.1
      (fun c h => (hname.2.2 c h).2),
    lookup_walk_cons, lookup_direct_eq, slot_hit_find, state_next, hd, Option.map_none',
    Option.getD_none, if_neg (by simp), if_pos hind, lookup_indirect_eq, slot_hit_find,
    state_next, hnone, Option.map_none', Option.getD_none]

/-! ### The scans for a free bitmap entry -/

/-- The scan gives the smallest free index of its range, or -1 when the range
has none. -/
theorem first_free_min (map : Nat → Nat) :
    ∀ n i, (first_free map n i = -1 ∧ ∀ j, i ≤ j → j < i + n → map j ≠ 0) ∨
      ∃ j : Nat, first_free map n i = (j : Int) ∧ i ≤ j ∧ j < i + n ∧ map j = 0 ∧
        ∀ k, i ≤ k → k < j → map k ≠ 0 := by
  intro n
  induction n with
  | zero =>
    intro i
    exact Or.inl ⟨rfl, fun j h1 h2 => absurd h2 (by omega)⟩
  | succ n ih =>
    intro i
    unfold first_free
    by_cases h : map i = 0
    · rw [if_pos h]
      exact Or.inr ⟨i, rfl, Nat.le_refl i, by omega, h, fun k h1 h2 => absurd h2 (by omega)⟩
    · rw [if_neg h]
      rcases ih (i + 1) with ⟨h1, h2⟩ | ⟨j, hj, h2, h3, h4, h5⟩
      · refine Or.inl ⟨h1, ?_⟩
        intro j hj1 hj2
        by_cases hji : j = i
        · rw [hji]
          exact h
        · exact h2 j (by omega) (by omega)
      · refine Or.inr ⟨j, hj, by omega, by omega, h4, ?_⟩
        intro k hk1 hk2
        by_cases hki : k = i
        · rw [hki]
          exact h
        · exact h5 k (by omega) hk2

/-- The scan of both allocators over the entries 1 to 4095. -/
theorem scan_from_one (bm : Nat → Nat) :
    (first_free bm 4095 1 = -1 ∧ ∀ j, 1 ≤ j → j < 4096 → bm j ≠ 0) ∨
      ∃ i : Nat, first_free bm 4095 1 = (i : Int) ∧ 1 ≤ i ∧ i < 4096 ∧ bm i = 0 ∧
        ∀ j, 1 ≤ j → j < i → bm j ≠ 0 := by
  rcases first_free_min bm 4095 1 with ⟨h1, h2⟩ | ⟨j, hj, h2, h3, h4, h5⟩
  · exact Or.inl ⟨h1, fun j hj1 hj2 => h2 j hj1 (by omega)⟩
  · exact Or.inr ⟨j, hj, h2, by omega, h4, h5⟩

theorem scan_none_iff (bm : Nat → Nat) :
    first_free bm 4095 1 = -1 ↔ ∀ j, 1 ≤ j → j < 4096 → bm j ≠ 0 := by
  rcases scan_from_one bm with ⟨h1, h2⟩ | ⟨i, hi, h2, h3, h4, _⟩
  · exact ⟨fun _ => h2, fun _ => h1⟩
  · constructor
    · intro h
      rw [hi] at h
      omega
    · intro h
      exact absurd h4 (h i h2 h3)

/-- The value `first_block` returns for a hint `block_num` with `block_num + 1`
inside the bitmap. -/
theorem first_block_eq (bm : Nat → Nat) (hint : Int) (h0 : 0 ≤ hint + 1)
    (h1 : hint + 1 < 4096) :
    first_block bm hint =
      if bm (hint + 1).toNat = 0 then Res.ok (hint + 1) else Res.ok (first_free bm 4095 1) := by
  unfold first_block map_get
  rw [if_pos ⟨h0, by omega⟩]

/-- The function `mkfs` has no failing path: it returns `true` for every image,
size and option record. -/
theorem mkfs_returns_true (now : timespec) (image : fs_ctx) (size : Nat) (opts : mkfs_opts) :
    (mkfs now image size opts).1 = true := rfl

/-! ### What `a1fs_rmdir` leaves of the removed directory -/

/-- After an `a1fs_rmdir` that went past its two checks and returned, the
record of the directory is zero and its entry of the inode bitmap is 0. -/
theorem rmdir_result (env : Env) (fs fs1 : fs_ctx) (path : List Nat) (v : Int)
    (hp : 0 ≤ path_lookup fs path)
    (he : (fs.itable (path_lookup fs path).toNat).empty = 0)
    (h : a1fs_rmdir env fs path = Res.ok (v, fs1)) :
    v = 0 ∧ fs1.itable (path_lookup fs path).toNat = zero_inode ∧
      fs1.ibitmap (fs.itable (path_lookup fs path).toNat).num = 0 := by
  unfold a1fs_rmdir at h
  rw [if_neg (by omega), if_neg (by omega)] at h
  generalize (path_lookup fs path).toNat = n at h he ⊢
  obtain ⟨_, _, hib, _, _, _, hnum⟩ := rmdir_parent_done env fs n
  cases hu : unlink_inode (rmdir_parent env fs n) n with
  | fault => rw [hu] at h; cases h
  | nofuel => rw [hu] at h; cases h
  | ok fs3 =>
    rw [hu] at h
    dsimp only at h
    have h3 : fs3.ibitmap (fs.itable n).num = 0 := by
      unfold unlink_inode at hu
      cases hms : map_set (rmdir_parent env fs n).ibitmap
          (((rmdir_parent env fs n).itable n).num : Int) 0 with
      | fault => rw [hms] at hu; cases hu
      | nofuel => rw [hms] at hu; cases hu
      | ok im =>
        rw [hms] at hu
        dsimp only at hu
        obtain ⟨_, _, him⟩ := map_set_ok _ _ _ _ hms
        rw [Int.toNat_ofNat, hnum] at him
        have e := Res.ok.inj hu
        have h2 : fs3.ibitmap = im := by rw [← e]
        rw [h2, him, upd_same]
    cases hx : free_blocks (fs3.itable n) fs3 with
    | ret r =>
      rw [hx] at h
      exact absurd h (free_blocks_ret _ _ r hx _)
    | brk fs4 => exact absurd hx (free_blocks_ne_brk _ _ _)
    | next fs4 =>
      rw [hx] at h
      have hfr := free_blocks_frame _ _ _ hx
      have e1 : (0 : Int) = v := congrArg Prod.fst (Res.ok.inj h)
      have e2 : set_inode fs4 n zero_inode = fs1 := congrArg Prod.snd (Res.ok.inj h)
      refine ⟨e1.symm, ?_, ?_⟩
      · rw [← e2]
        exact upd_same _ _ _
      · rw [← e2]
        show fs4.ibitmap (fs.itable n).num = 0
        rw [hfr.2.2]
        exact h3

theorem path_lookup_root (fs : fs_ctx) : path_lookup fs path_root = 0 := rfl

/-- The check `if (in->empty > 0) return -ENOTEMPTY;` of `a1fs_rmdir`. -/
theorem rmdir_enotempty (env : Env) (fs : fs_ctx) (path : List Nat)
    (hp : 0 ≤ path_lookup fs path)
    (he : (fs.itable (path_lookup fs path).toNat).empty > 0) :
    a1fs_rmdir env fs path = Res.ok (-ENOTEMPTY, fs) := by
  unfold a1fs_rmdir
  rw [if_neg (by omega), if_pos he]

/-! ### The records `a1fs_create` and `a1fs_mkdir` write -/

theorem attach_direct_counters (fs1 : fs_ctx) (num e b : Nat) (tw : Bool) :
    ((attach_direct fs1 num e b tw).fs.itable num).empty = (fs1.itable num).empty ∧
    ((attach_direct fs1 num e b tw).fs.itable num).links = (fs1.itable num).links := by
  unfold attach_direct set_inode
  dsimp only
  rw [upd_same]
  exact ⟨rfl, rfl⟩

theorem attach_ind_extent_counters (fs1 : fs_ctx) (num ind e b : Nat) :
    ((attach_ind_extent fs1 num ind e b).fs.itable num).empty = (fs1.itable num).empty ∧
    ((attach_ind_extent fs1 num ind e b).fs.itable num).links = (fs1.itable num).links := by
  unfold attach_ind_extent set_inode
  dsimp only
  rw [upd_same]
  exact ⟨rfl, rfl⟩

theorem attach_new_indirect_counters (fs2 : fs_ctx) (num b c : Nat) (w : Bool) :
    ((attach_new_indirect fs2 num b c w).fs.itable num).empty = (fs2.itable num).empty ∧
    ((attach_new_indirect fs2 num b c w).fs.itable num).links = (fs2.itable num).links := by
  unfold attach_new_indirect set_inode
  dsimp only
  rw [upd_same]
  exact ⟨rfl, rfl⟩

/-- The search for a free entry leaves the inode bitmap and the counters
`empty` and `links` of the parent as they are, and sets only free entries of the
block bitmap. -/
theorem outcome_tables (fs : fs_ctx) (v : insert_flavour) (num : Nat) (s : insert_state)
    (h : s.fs = fs ∨ direct_outcome fs v num s ∨ indirect_outcome fs v num s) :
    s.fs.ibitmap = fs.ibitmap ∧ only_taken fs.bbitmap s.fs.bbitmap ∧
    (s.fs.itable num).empty = (fs.itable num).empty ∧
    (s.fs.itable num).links = (fs.itable num).links := by
  have same : s.fs = fs →
      s.fs.ibitmap = fs.ibitmap ∧ only_taken fs.bbitmap s.fs.bbitmap ∧
      (s.fs.itable num).empty = (fs.itable num).empty ∧
      (s.fs.itable num).links = (fs.itable num).links := by
    intro h1
    rw [h1]
    exact ⟨rfl, only_taken_refl _, rfl, rfl⟩
  rcases h with h0 | ⟨e, _, h1 | ⟨_, b, hb, hfree, h2⟩⟩ |
    ⟨_, b, c, _, hb, hfb, hc, hcb, hfc, h2⟩ | ⟨_, e, _, h1 | ⟨_, b, hb, hfree, h2⟩⟩
  · exact same h0
  · exact same h1.1
  · rw [h2]
    exact ⟨rfl, only_taken_upd _ _ hb hfree, attach_direct_counters _ _ _ _ _⟩
  · rw [h2]
    have hfc1 : upd fs.bbitmap b 1 c = 0 := by
      rw [upd_other _ _ _ _ hcb]
      exact hfc
    exact ⟨rfl, only_taken_trans _ _ _ (only_taken_upd _ _ hb hfb) (only_taken_upd _ _ hc hfc1),
      attach_new_indirect_counters _ _ _ _ _⟩
  · exact same h1.1
  · rw [h2]
    exact ⟨rfl, only_taken_upd _ _ hb hfree, attach_ind_extent_counters _ _ _ _ _⟩

/-- The image at the end of `a1fs_mkdir`: the new inode `k` and the new block
`b` were free and are marked, the record `k` is the one of an empty directory,
and the parent `num`, if it is another record, has `links` and `empty`
incremented. -/
theorem mkdir_finish_record (env : Env) (num mode : Nat) (name : List Nat) (s : insert_state)
    (v : Int) (fs1 : fs_ctx) (h : mkdir_finish env num mode name s = Res.ok (v, fs1)) :
    ∃ k b : Nat, first_inode s.fs.ibitmap = (k : Int) ∧ 1 ≤ k ∧ k < 4096 ∧
      s.fs.ibitmap k = 0 ∧ fs1.ibitmap k = 1 ∧ b < 4096 ∧ s.fs.bbitmap b = 0 ∧
      fs1.bbitmap b = 1 ∧
      fs1.itable k =
        { zero_inode with mode := mode, links := 2, size := 0, mtime := env.now,
                          block_count := 1, num := k, parent_num := num,
                          extent := upd zero_inode.extent 0 ⟨b, 1⟩, extent_count := 1 } ∧
      (k ≠ num →
        (fs1.itable num).links = u32 ((s.fs.itable num).links + 1) ∧
        (fs1.itable num).empty = u32 ((s.fs.itable num).empty + 1)) := by
  unfold mkdir_finish at h
  cases hms : map_set s.fs.ibitmap (first_inode s.fs.ibitmap) 1 with
  | fault => rw [hms] at h; cases h
  | nofuel => rw [hms] at h; cases h
  | ok im =>
    rw [hms] at h
    dsimp only at h
    obtain ⟨k, hk, hk0, hk1, hfree⟩ := first_inode_ok _ _ hms
    obtain ⟨_, _, him⟩ := map_set_ok _ _ _ _ hms
    rw [hk, Int.toNat_ofNat] at him
    rw [hk, Int.toNat_ofNat] at h
    cases htb : take_block { s.fs with ibitmap := im } (num : Int) false with
    | fault => rw [htb] at h; cases h
    | nofuel => rw [htb] at h; cases h
    | ok bf =>
      rw [htb] at h
      dsimp only at h
      obtain ⟨hb, hbfree, hbf, _⟩ := take_block_ok _ bf.2 _ _ bf.1 htb
      have hbfree1 : s.fs.bbitmap bf.1 = 0 := hbfree
      have hfs : fs1 = mkdir_commit env num mode name s.entry bf.2 k bf.1 :=
        (congrArg Prod.snd (Res.ok.inj h)).symm
      have hit : bf.2.itable = s.fs.itable := by rw [hbf]; rfl
      refine ⟨k, bf.1, hk, hk0, hk1, hfree, ?_, hb, hbfree1, ?_, ?_, ?_⟩
      · rw [hfs, hbf]
        show im k = 1
        rw [him, upd_same]
      · rw [hfs, hbf]
        exact upd_same _ _ _
      · rw [hfs]
        unfold mkdir_commit
        dsimp only
        rw [upd_same]
      · intro hne
        rw [hfs]
        unfold mkdir_commit
        dsimp only
        rw [upd_other _ _ _ _ (Ne.symm hne), upd_same, hit]
        exact ⟨rfl, rfl⟩

/-- The image at the end of `a1fs_create`: the new inode `k` was free and is
marked, the record `k` is the one of an empty file, and the parent `num`, if it
is another record, has `empty` incremented and `links` as before. -/
theorem create_finish_record (env : Env) (num mode : Nat) (name : List Nat) (s : insert_state)
    (v : Int) (fs1 : fs_ctx) (h : create_finish env num mode name s = Res.ok (v, fs1)) :
    ∃ k : Nat, first_inode s.fs.ibitmap = (k : Int) ∧ 1 ≤ k ∧ k < 4096 ∧
      s.fs.ibitmap k = 0 ∧ fs1.ibitmap k = 1 ∧
      fs1.itable k =
        { zero_inode with mode := mode, links := 1, size := 0, mtime := env.now,
                          block_count := 0, num := k, parent_num := num } ∧
      (k ≠ num →
        (fs1.itable num).links = (s.fs.itable num).links ∧
        (fs1.itable num).empty = u32 ((s.fs.itable num).empty + 1)) := by
  unfold create_finish at h
  cases hms : map_set s.fs.ibitmap (first_inode s.fs.ibitmap) 1 with
  | fault => rw [hms] at h; cases h
  | nofuel => rw [hms] at h; cases h
  | ok im =>
    rw [hms] at h
    dsimp only at h
    obtain ⟨k, hk, hk0, hk1, hfree⟩ := first_inode_ok _ _ hms
    obtain ⟨_, _, him⟩ := map_set_ok _ _ _ _ hms
    rw [hk, Int.toNat_ofNat] at him
    rw [hk, Int.toNat_ofNat] at h
    have hfs : fs1 = create_commit env num mode name s im k :=
      (congrArg Prod.snd (Res.ok.inj h)).symm
    refine ⟨k, hk, hk0, hk1, hfree, ?_, ?_, ?_⟩
    · rw [hfs]
      show im k = 1
      rw [him, upd_same]
    · rw [hfs]
      unfold create_commit
      dsimp only
      rw [upd_same]
    · intro hne
      rw [hfs]
      unfold create_commit
      dsimp only
      rw [upd_other _ _ _ _ (Ne.symm hne), upd_same]
      exact ⟨rfl, rfl⟩

/-- A call of `a1fs_mkdir` that returns 0, when `errno` is not 0, resolved the
parent, ended its search for an entry, and went through the end of the
function. -/
theorem mkdir_anatomy (env : Env) (fs fs1 : fs_ctx) (path : List Nat) (mode : Nat)
    (herr : env.errno ≠ 0) (h : a1fs_mkdir env fs path mode = Res.ok (0, fs1)) :
    ∃ (pn : List Nat × List Nat) (s : insert_state),
      split_last path = some pn ∧ 0 ≤ parent_lookup fs pn.1 ∧
      (s.fs = fs ∨ direct_outcome fs mkdir_flavour (parent_lookup fs pn.1).toNat s ∨
        indirect_outcome fs mkdir_flavour (parent_lookup fs pn.1).toNat s) ∧
      mkdir_finish env (parent_lookup fs pn.1).toNat (mode ||| S_IFDIR) pn.2 s
        = Res.ok (0, fs1) := by
  have hne : ∀ x : fs_ctx, Res.ok (-ENOSPC, x) ≠ Res.ok ((0 : Int), fs1) := by
    intro x hx
    have h1 : -ENOSPC = (0 : Int) := congrArg Prod.fst (Res.ok.inj hx)
    exact absurd h1 (by decide)
  unfold a1fs_mkdir at h
  by_cases hfull : fs.sb.inode_count = fs.sb.used_inode_count ∨
      fs.sb.block_count = fs.sb.used_block_count
  · rw [if_pos hfull] at h
    exact absurd h (hne fs)
  rw [if_neg hfull] at h
  cases hsp : split_last path with
  | none => rw [hsp] at h; cases h
  | some pn =>
    rw [hsp] at h
    dsimp only at h
    by_cases hpl : parent_lookup fs pn.1 < 0
    · rw [if_pos hpl] at h
      have h1 : -(env.errno : Int) = 0 := congrArg Prod.fst (Res.ok.inj h)
      omega
    rw [if_neg hpl] at h
    suffices hs : ∃ s : insert_state,
        (s.fs = fs ∨ direct_outcome fs mkdir_flavour (parent_lookup fs pn.1).toNat s ∨
          indirect_outcome fs mkdir_flavour (parent_lookup fs pn.1).toNat s) ∧
        mkdir_finish env (parent_lookup fs pn.1).toNat (mode ||| S_IFDIR) pn.2 s
          = Res.ok (0, fs1) by
      obtain ⟨s, h1, h2⟩ := hs
      exact ⟨pn, s, rfl, by omega, h1, h2⟩
    generalize (parent_lookup fs pn.1).toNat = num at h ⊢
    unfold mkdir_at at h
    by_cases hec : (fs.itable num).extent_count ≥ 512
    · rw [if_pos hec] at h
      exact absurd h (hne fs)
    rw [if_neg hec] at h
    by_cases hem : (fs.itable num).empty ≠ 0
    · rw [if_pos hem] at h
      have key := insert_search_spec env herr mkdir_flavour fs num (insert_start fs num)
        ⟨rfl, rfl⟩
      generalize hx : insert_search env mkdir_flavour num (insert_start fs num) = x at h key
      cases x with
      | ret r => exact absurd h (key.2.2 r rfl fs1)
      | brk s1 => exact absurd rfl (key.2.1 s1)
      | next s1 => exact ⟨s1, Or.inr (key.1 s1 rfl), h⟩
    · rw [if_neg hem] at h
      exact ⟨insert_start fs num, Or.inl rfl, h⟩

/-- A call of `a1fs_create` that returns 0, when `errno` is not 0, resolved the
parent, ended its search for an entry, and went through the end of the
function. -/
theorem create_anatomy (env : Env) (fs fs1 : fs_ctx) (path : List Nat) (mode : Nat)
    (herr : env.errno ≠ 0) (h : a1fs_create env fs path mode = Res.ok (0, fs1)) :
    ∃ (pn : List Nat × List Nat) (s : insert_state),
      split_last path = some pn ∧ 0 ≤ parent_lookup fs pn.1 ∧
      (s.fs = fs ∨ direct_outcome fs create_flavour (parent_lookup fs pn.1).toNat s ∨
        indirect_outcome fs create_flavour (parent_lookup fs pn.1).toNat s) ∧
      create_finish env (parent_lookup fs pn.1).toNat mode pn.2 s = Res.ok (0, fs1) := by
  have hne : ∀ x : fs_ctx, Res.ok (-ENOSPC, x) ≠ Res.ok ((0 : Int), fs1) := by
    intro x hx
    have h1 : -ENOSPC = (0 : Int) := congrArg Prod.fst (Res.ok.inj hx)
    exact absurd h1 (by decide)
  unfold a1fs_create at h
  by_cases hreg : (!S_ISREG mode) = true
  · rw [if_pos hreg] at h
    cases h
  rw [if_neg hreg] at h
  by_cases hfull : fs.sb.inode_count = fs.sb.used_inode_count
  · rw [if_pos hfull] at h
    exact absurd h (hne fs)
  rw [if_neg hfull] at h
  cases hsp : split_last path with
  | none => rw [hsp] at h; cases h
  | some pn =>
    rw [hsp] at h
    dsimp only at h
    by_cases hpl : parent_lookup fs pn.1 < 0
    · rw [if_pos hpl] at h
      have h1 : -(env.errno : Int) = 0 := congrArg Prod.fst (Res.ok.inj h)
      omega
    rw [if_neg hpl] at h
    suffices hs : ∃ s : insert_state,
        (s.fs = fs ∨ direct_outcome fs create_flavour (parent_lookup fs pn.1).toNat s ∨
          indirect_outcome fs create_flavour (parent_lookup fs pn.1).toNat s) ∧
        create_finish env (parent_lookup fs pn.1).toNat mode pn.2 s = Res.ok (0, fs1) by
      obtain ⟨s, h1, h2⟩ := hs
      exact ⟨pn, s, rfl, by omega, h1, h2⟩
    generalize (parent_lookup fs pn.1).toNat = num at h ⊢
    unfold create_at at h
    by_cases hec : (fs.itable num).extent_count ≥ 512
    · rw [if_pos hec] at h
      exact absurd h (hne fs)
    rw [if_neg hec] at h
    by_cases hem : (fs.itable num).empty = 0
    · rw [if_pos hem] at h
      exact ⟨insert_start fs num, Or.inl rfl, h⟩
    · rw [if_neg hem] at h
      have key := insert_search_spec env herr create_flavour fs num (insert_start fs num)
        ⟨rfl, rfl⟩
      generalize hx : insert_search env create_flavour num (insert_start fs num) = x at h key
      cases x with
      | ret r => exact absurd h (key.2.2 r rfl fs1)
      | brk s1 => exact absurd rfl (key.2.1 s1)
      | next s1 => exact ⟨s1, Or.inr (key.1 s1 rfl), h⟩

/-- The mode `mode | S_IFDIR` is not the mode of a regular file. -/
theorem S_ISREG_dir (mode : Nat) : S_ISREG (mode ||| S_IFDIR) = false := by
  unfold S_ISREG
  have h2 : ((mode ||| S_IFDIR) &&& S_IFMT).testBit 14 = true := by
    rw [Nat.testBit_and, Nat.testBit_or]
    have h3 : S_IFDIR.testBit 14 = true := by decide
    have h4 : S_IFMT.testBit 14 = true := by decide
    rw [h3, h4, Bool.or_true]
    rfl
  have h5 : S_IFREG.testBit 14 = false := by decide
  have h6 : (mode ||| S_IFDIR) &&& S_IFMT ≠ S_IFREG := by
    intro h
    rw [h, h5] at h2
    cases h2
  simpa using h6

/-- The record `mkdir_commit` writes for the new directory. -/
theorem new_directory_record (now : timespec) (k b pnum mode : Nat) :
    is_new_directory
      { zero_inode with mode := mode ||| S_IFDIR, links := 2, size := 0, mtime := now,
                        block_count := 1, num := k, parent_num := pnum,
                        extent := upd zero_inode.extent 0 ⟨b, 1⟩, extent_count := 1 }
      k b pnum mode := by
  refine ⟨rfl, S_ISREG_dir mode, rfl, rfl, rfl, rfl, rfl, rfl, ?_, ?_, rfl, rfl⟩
  · show upd zero_inode.extent 0 ⟨b, 1⟩ 0 = ⟨b, 1⟩
    exact upd_same _ _ _
  intro e h1 _
  show upd zero_inode.extent 0 ⟨b, 1⟩ e = ⟨0, 0⟩
  rw [upd_other _ _ _ _ (by omega)]
  rfl

/-- A bitmap entry that is 0 after free entries were taken was 0 before. -/
theorem only_taken_zero (bm bm1 : Nat → Nat) (h : only_taken bm bm1) (b : Nat)
    (hb : bm1 b = 0) : bm b = 0 := by
  rcases h b with h1 | ⟨h1, _, _⟩
  · rw [← h1]
    exact hb
  · exact h1

/-- The new directory of a call of `a1fs_mkdir` that returns 0. -/
theorem mkdir_new_record (env : Env) (fs fs1 : fs_ctx) (path : List Nat) (mode : Nat)
    (herr : env.errno ≠ 0) (h : a1fs_mkdir env fs path mode = Res.ok (0, fs1)) :
    ∃ (pn : List Nat × List Nat) (k b : Nat),
      split_last path = some pn ∧ 0 ≤ parent_lookup fs pn.1 ∧
      first_inode fs.ibitmap = (k : Int) ∧ fs.ibitmap k = 0 ∧ fs1.ibitmap k = 1 ∧
      fs.bbitmap b = 0 ∧ fs1.bbitmap b = 1 ∧
      is_new_directory (fs1.itable k) k b (parent_lookup fs pn.1).toNat mode := by
  obtain ⟨pn, s, hsp, hpl, hs, hfin⟩ := mkdir_anatomy env fs fs1 path mode herr h
  obtain ⟨hib, hbb, _, _⟩ := outcome_tables fs mkdir_flavour _ s hs
  obtain ⟨k, b, hk, _, _, hkf, hk1, _, hbf, hb1, hrec, _⟩ :=
    mkdir_finish_record env _ _ _ s 0 fs1 hfin
  rw [hib] at hk hkf
  refine ⟨pn, k, b, hsp, hpl, hk, hkf, hk1, only_taken_zero _ _ hbb b hbf, hb1, ?_⟩
  rw [hrec]
  exact new_directory_record env.now k b _ mode

/-- The counters of the parent after a call of `a1fs_create` or `a1fs_mkdir`
that returns 0, for a parent that is marked in the inode bitmap. -/
theorem parent_counters (env : Env) (fs fs1 : fs_ctx) (path : List Nat) (mode : Nat)
    (herr : env.errno ≠ 0) (pn : List Nat × List Nat) (hsp : split_last path = some pn)
    (hmark : fs.ibitmap (parent_lookup fs pn.1).toNat ≠ 0) :
    (a1fs_create env fs path mode = Res.ok (0, fs1) →
      (fs1.itable (parent_lookup fs pn.1).toNat).empty =
        u32 ((fs.itable (parent_lookup fs pn.1).toNat).empty + 1) ∧
      (fs1.itable (parent_lookup fs pn.1).toNat).links =
        (fs.itable (parent_lookup fs pn.1).toNat).links) ∧
    (a1fs_mkdir env fs path mode = Res.ok (0, fs1) →
      (fs1.itable (parent_lookup fs pn.1).toNat).empty =
        u32 ((fs.itable (parent_lookup fs pn.1).toNat).empty + 1) ∧
      (fs1.itable (parent_lookup fs pn.1).toNat).links =
        u32 ((fs.itable (parent_lookup fs pn.1).toNat).links + 1)) := by
  refine ⟨?_, ?_⟩
  · intro h
    obtain ⟨pn1, s, hsp1, _, hs, hfin⟩ := create_anatomy env fs fs1 path mode herr h
    rw [hsp] at hsp1
    cases hsp1
    obtain ⟨hib, _, hem, hli⟩ := outcome_tables fs create_flavour _ s hs
    obtain ⟨k, _, _, _, hkf, _, _, hpar⟩ := create_finish_record env _ _ _ s 0 fs1 hfin
    rw [hib] at hkf
    have hne : k ≠ (parent_lookup fs pn.1).toNat := by
      intro heq
      rw [heq] at hkf
      exact hmark hkf
    obtain ⟨h1, h2⟩ := hpar hne
    rw [h1, h2, hem, hli]
    exact ⟨rfl, rfl⟩
  · intro h
    obtain ⟨pn1, s, hsp1, _, hs, hfin⟩ := mkdir_anatomy env fs fs1 path mode herr h
    rw [hsp] at hsp1
    cases hsp1
    obtain ⟨hib, _, hem, hli⟩ := outcome_tables fs mkdir_flavour _ s hs
    obtain ⟨k, b, _, _, _, hkf, _, _, _, _, _, hpar⟩ :=
      mkdir_finish_record env _ _ _ s 0 fs1 hfin
    rw [hib] at hkf
    have hne : k ≠ (parent_lookup fs pn.1).toNat := by
      intro heq
      rw [heq] at hkf
      exact hmark hkf
    obtain ⟨h1, h2⟩ := hpar hne
    rw [h1, h2, hem, hli]
    exact ⟨rfl, rfl⟩

/-! ### The search for an offset inside the first block -/

/-- A `for` loop whose body keeps `P` and always goes on to the next pass ends
behind the loop in a state with `P`. -/
theorem forLoop_next_keeps {σ ρ : Type} (body : Nat → σ → Step σ ρ) (P : σ → Prop)
    (h : ∀ i s, P s → ∃ s1, body i s = Step.next s1 ∧ P s1) :
    ∀ n i s, P s → ∃ s1, forLoop body n i s = Step.next s1 ∧ P s1 := by
  intro n
  induction n with
  | zero => intro i s hs; exact ⟨s, rfl, hs⟩
  | succ n ih =>
    intro i s hs
    obtain ⟨s1, hb, h1⟩ := h i s hs
    obtain ⟨s2, hl, h2⟩ := ih (i + 1) s1 h1
    refine ⟨s2, ?_, h2⟩
    rw [forLoop, hb]
    exact hl

/-- A `while` loop whose condition holds with `P` and whose body keeps `P` and
always goes on to the next pass uses up every fuel. -/
theorem whileLoop_next_keeps {σ ρ : Type} (tmo : ρ) (cond : σ → Bool) (body : σ → Step σ ρ)
    (P : σ → Prop) (hc : ∀ s, P s → cond s = true)
    (h : ∀ s, P s → ∃ s1, body s = Step.next s1 ∧ P s1) :
    ∀ fuel s, P s → whileLoop tmo cond body fuel s = Step.ret tmo := by
  intro fuel
  induction fuel with
  | zero => intro s hs; rw [whileLoop, if_pos (hc s hs)]
  | succ n ih =>
    intro s hs
    obtain ⟨s1, hb, h1⟩ := h s hs
    rw [whileLoop_step tmo cond body n s s1 (hc s hs) hb]
    exact ih s1 h1

theorem break_if_offset_found_stuck {ρ : Type} (offset : Nat) (s : rw_state)
    (h : search_stuck offset s) :
    break_if_offset_found (Step.next s : Step rw_state ρ) = Step.next s := by
  unfold break_if_offset_found
  dsimp only
  rw [h.2.2]
  rfl

/-- In a stuck state the loop over the blocks of an extent changes nothing:
neither of the two tests on the block numbers holds. -/
theorem locate_extent_stuck (wr : Bool) (size offset i : Nat) (ext : a1fs_extent)
    (s : rw_state) (h : search_stuck offset s) :
    ∃ s1, locate_extent wr size offset i ext s = Step.next s1 ∧ search_stuck offset s1 := by
  unfold locate_extent
  apply forLoop_next_keeps _ (search_stuck offset) _ _ _ _ h
  intro j s1 h1
  refine ⟨s1, ?_, h1⟩
  dsimp only
  rw [if_neg (by rw [h1.1]; exact lt_irrefl _), if_neg (fun hne => hne h1.1)]
  exact break_if_offset_found_stuck offset s1 h1

/-- In a stuck state one pass of the loop `while (bytes_read < offset)` ends in
a stuck state. -/
theorem locate_pass_stuck (wr : Bool) (size offset : Nat) (file : a1fs_inode) (s : rw_state)
    (h : search_stuck offset s) :
    ∃ s1, locate_pass wr size offset file s = Step.next s1 ∧ search_stuck offset s1 := by
  unfold locate_pass
  obtain ⟨s1, hd, h1⟩ := forLoop_next_keeps
    (fun i (s1 : rw_state) =>
      if s1.bytes_read < (offset : Int) then
        if (extent_at file i).start ≠ 0 then
          break_if_offset_found (locate_extent wr size offset i (extent_at file i) s1)
        else break_if_offset_found (Step.next s1)
      else (Step.brk s1 : Step rw_state (Res (Int × rw_state))))
    (search_stuck offset)
    (by
      intro i s1 h1
      dsimp only
      rw [if_pos h1.2.1]
      by_cases he : (extent_at file i).start ≠ 0
      · rw [if_pos he]
        obtain ⟨s2, hl, h2⟩ := locate_extent_stuck wr size offset i (extent_at file i) s1 h1
        exact ⟨s2, by rw [hl]; exact break_if_offset_found_stuck offset s2 h2, h2⟩
      · rw [if_neg he]
        exact ⟨s1, break_if_offset_found_stuck offset s1 h1, h1⟩)
    13 0 s h
  rw [hd]
  apply forLoop_next_keeps _ (search_stuck offset) _ _ _ _ h1
  intro i s2 h2
  have h3 : search_stuck offset { s2 with in_indirect := true } := h2
  dsimp only
  rw [if_pos h2.2.1]
  by_cases he : (ind_extent s2.mem file.indirect i).start ≠ 0
  · rw [if_pos he]
    obtain ⟨s4, hl, h4⟩ := locate_extent_stuck wr size offset i
      (ind_extent s2.mem file.indirect i) { s2 with in_indirect := true } h3
    exact ⟨s4, by rw [hl]; exact break_if_offset_found_stuck offset s4 h4, h4⟩
  · rw [if_neg he]
    exact ⟨_, break_if_offset_found_stuck offset _ h3, h3⟩

/-- For an offset inside the first block and not 0 the search for the offset
never ends, whatever the file is: with every fuel the shared body of `a1fs_read`
and `a1fs_write` runs out of it. -/
theorem rw_walk_stuck (wr : Bool) (fuel : Nat) (file : a1fs_inode) (mem buf : Nat → Nat)
    (size offset : Nat) (h0 : 0 < offset) (h1 : offset < 4096) :
    rw_walk wr fuel file mem buf size offset = Step.ret Res.nofuel := by
  unfold rw_walk
  rw [whileLoop_next_keeps Res.nofuel _ _ (search_stuck offset)
    (fun s hs => decide_eq_true hs.2.1)
    (fun s hs => locate_pass_stuck wr size offset file s hs) fuel (rw_start mem buf size)
    ⟨by show (0 : Int) / 4096 = (offset : Int) / 4096; omega,
     by show (0 : Int) < (offset : Int); omega, rfl⟩]
  rfl

/-- `a1fs_read` at an offset inside the first block and not 0, where the file
size is not the offset, does not return: with every fuel it runs out of it. -/
theorem read_stuck (fuel : Nat) (env : Env) (fs : fs_ctx) (path : List Nat) (buf : Nat → Nat)
    (size offset k : Nat) (hlook : path_lookup fs path = (k : Int))
    (hsize : u32 (((fs.itable k).size : Int) - offset) ≠ 0) (h0 : 0 < offset)
    (h1 : offset < 4096) :
    a1fs_read fuel env fs path buf size offset = Res.nofuel := by
  unfold a1fs_read
  dsimp only
  rw [hlook, if_neg (by omega), Int.toNat_ofNat, if_neg hsize,
    rw_walk_stuck false fuel _ _ _ _ _ h0 h1]

/-- `a1fs_write` inside the file at an offset inside the first block and not 0
does not return: with every fuel it runs out of it. -/
theorem write_stuck (fuel : Nat) (env : Env) (fs : fs_ctx) (path : List Nat) (buf : Nat → Nat)
    (size offset k : Nat) (hlook : path_lookup fs path = (k : Int))
    (hsize : ¬ (fs.itable k).size < u64 (offset + size)) (h0 : 0 < offset)
    (h1 : offset < 4096) :
    a1fs_write fuel env fs path buf size offset = Res.nofuel := by
  unfold a1fs_write
  dsimp only
  rw [hlook, if_neg (by omega), if_neg (by omega), Int.toNat_ofNat, if_neg hsize]
  dsimp only
  rw [rw_walk_stuck true fuel _ _ _ _ _ h0 h1]

/-! ### Scenario helpers -/

/-- A call whose return value is known is the pair of that value and its image. -/
theorem res_of_ret (r : Res (Int × fs_ctx)) (v : Int) (h : ret_of r = some v) :
    r = Res.ok (v, state_of r) := by
  cases r with
  | ok p =>
    cases p with
    | mk a b =>
      simp only [ret_of, Option.some.injEq] at h
      rw [h]
      rfl
  | fault => cases h
  | nofuel => cases h

theorem is_component_a : is_component [97] := by
  refine ⟨by decide, by decide, ?_⟩
  intro c hc
  rw [List.mem_singleton] at hc
  subst hc
  decide

theorem is_component_d : is_component [100] := by
  refine ⟨by decide, by decide, ?_⟩
  intro c hc
  rw [List.mem_singleton] at hc
  subst hc
  decide

/-! ### The claims -/

/-- C1 (at the failing input): on the full image `img9_full`, where `/a` has one
block and size 4096, `write("/a", "hello", 5, 4096)` returns 5 although the file
could not grow, the size stays 4096, and the read of 5 bytes at offset 4096 that
follows returns 0 and delivers nothing. -/
theorem write_on_full_image_read_back :
    ret_of (a1fs_write 8 env0 img9_full path_a (buffer_of hello) 5 4096) = some 5 ∧
    (img9_after.itable 1).size = 4096 ∧
    delivered 5 (a1fs_read 8 env0 img9_after path_a blank_buffer 5 4096)
      = Res.ok (0, [255, 255, 255, 255, 255]) := by
  decide!

/-- C2: on a freshly formatted (zeroed) image whose superblock counts a free
inode and a free data block, `a1fs_create("/name")` with a regular-file mode
returns 0; then `a1fs_write("/name", buf, n, 0)` with `0 < n < 4096` returns `n`,
and a following `a1fs_read("/name", n, 0)` returns `n` and delivers the first
`n` bytes of `buf`.  The image has fewer than 2^20 blocks, and the loops of
both calls get fuel for one pass. -/
theorem create_write_read (now : timespec) (image : fs_ctx) (size : Nat) (opts : mkfs_opts)
    (env env1 env2 : Env) (name : List Nat) (mode : Nat) (buf buf0 : Nat → Nat)
    (n fuel fuel1 : Nat)
    (hzero : opts.zero = true)
    (hname : is_component name)
    (hmode : S_ISREG mode = true)
    (hinode : (mkfs_main now image size opts).2.sb.used_inode_count <
      (mkfs_main now image size opts).2.sb.inode_count)
    (hblock : (mkfs_main now image size opts).2.sb.used_block_count <
      (mkfs_main now image size opts).2.sb.block_count)
    (hbc : (mkfs_main now image size opts).2.sb.block_count < 1048576)
    (hn : 0 < n) (hn2 : n < 4096) (hfuel : 0 < fuel) (hfuel1 : 0 < fuel1) :
    ∃ fs1 fs2 out,
      a1fs_create env (mkfs_main now image size opts).2 (47 :: name) mode = Res.ok (0, fs1) ∧
      a1fs_write fuel env1 fs1 (47 :: name) buf n 0 = Res.ok ((n : Int), fs2) ∧
      a1fs_read fuel1 env2 fs2 (47 :: name) buf0 n 0 = Res.ok ((n : Int), out) ∧
      ∀ x, x < n → out x = buf x := by
  rw [mkfs_main_zero now image size opts hzero] at hinode hblock hbc ⊢
  obtain ⟨f, rfl⟩ : ∃ f, fuel = f + 1 := ⟨fuel - 1, by omega⟩
  obtain ⟨f1, rfl⟩ : ∃ f1, fuel1 = f1 + 1 := ⟨fuel1 - 1, by omega⟩
  have hlen : name.length < 252 := hname.2.1
  have hext0 : ((mkfs now zero_image size opts).2.itable 0).extent =
      upd zero_inode.extent 0 ⟨0, 1⟩ := rfl
  have hslots := dir_slots_first_block (mkfs now zero_image size opts).2 hext0 rfl
  have hok := dir_ok_first_block (mkfs now zero_image size opts).2 hext0 rfl
    (show upd (fun _ => 0) 0 1 0 ≠ 0 by decide)
  have hcr := fresh_create now size opts env name mode hname hmode hinode
  have hfin := fresh_create_finish now size opts env name mode
  generalize hfs1 : create_commit env 0 mode name (insert_start (mkfs now zero_image size opts).2 0)
      (upd (upd (fun _ => 0) 0 1) 1 1) 1 = fs1 at hcr hfin
  obtain ⟨k, hk, hlook, _, hk1, hrec⟩ := created_visible env fs1 name mode
    (insert_start (mkfs now zero_image size opts).2 0) hname hmode
    (fun k => placed_found (mkfs now zero_image size opts).2 0 k _ name hlen
      (fresh_no_name now size opts name hname) hok
      (by rw [hslots]; exact (mem_block_slots 0 _).2 ⟨0, by omega, rfl⟩)) hfin
  have hok1 : dir_ok fs1 0 := by
    rw [← hfs1]
    exact dir_ok_first_block _ rfl rfl (show upd (fun _ => 0) 0 1 0 ≠ 0 by decide)
  obtain ⟨fs2, hwr, out, hrd, hout⟩ := write_then_read_small f f1 env1 env2 fs1 name buf buf0 k n
    hname hlook (by omega) (by rw [hrec]) (by rw [hrec]; rfl) hn hn2
    (by rw [← hfs1]; exact hblock) (by rw [← hfs1]; exact hbc)
    ⟨1, by omega, by omega, by rw [← hfs1]; rfl⟩ hok1
  exact ⟨fs1, fs2, out, hcr, hwr, hrd, hout⟩

/-- C2, at the instance of the spec: a 64-block image with 4 inodes, `/a`, the
buffer `hello` and `n = 5`. -/
theorem create_write_read_witness :
    ∃ fs1 fs2 out,
      a1fs_create env0 img64 (47 :: [97]) mode_file = Res.ok (0, fs1) ∧
      a1fs_write 8 env0 fs1 (47 :: [97]) (buffer_of hello) 5 0 = Res.ok (((5 : Nat) : Int), fs2) ∧
      a1fs_read 8 env0 fs2 (47 :: [97]) blank_buffer 5 0 = Res.ok (((5 : Nat) : Int), out) ∧
      ∀ x, x < 5 → out x = buffer_of hello x :=
  create_write_read ⟨1, 0⟩ zero_image (64 * 4096) ⟨4, false, false, true⟩ env0 env0 env0 [97]
    mode_file (buffer_of hello) blank_buffer 5 8 8 rfl is_component_a (by decide) (by decide)
    (by decide) (by decide) (by decide) (by decide) (by decide) (by decide)

/-- C3 (at the failing input): after the 5-byte file `/a` is truncated to 2
bytes, `read("/a", 5, 0)` returns 5, not 2, and delivers the five old bytes. -/
theorem read_after_truncate_not_clamped :
    ret_of (a1fs_truncate 8 env0 img64_hello path_a 2) = some 0 ∧
    (img64_he.itable 1).size = 2 ∧
    delivered 5 (a1fs_read 8 env0 img64_he path_a blank_buffer 5 0) = Res.ok (5, hello) := by
  decide!

/-- C4 (at the failing input): on the 5-byte file `/a`, a read of 5 bytes at
offset 4096, which is past the end of the file, returns 5 and copies the first
five bytes of the file into the buffer. -/
theorem read_past_eof_returns_data :
    (img64_hello.itable 1).size = 5 ∧
    delivered 5 (a1fs_read 8 env0 img64_hello path_a blank_buffer 5 4096) = Res.ok (5, hello) := by
  decide!

/-- C5 (at the failing input): `/d/f` is a file of size 0 without extents,
`truncate("/d/f", 5000)` returns 0, and the read of 5000 bytes at offset 0 that
follows returns `-errno`: the path does not resolve any more. -/
theorem grow_then_read_fails :
    path_lookup img64_d path_d_f = 3 ∧
    (img64_d.itable 3).size = 0 ∧
    (∀ i < 13, extent_at (img64_d.itable 3) i = ⟨0, 0⟩) ∧
    ret_of (a1fs_truncate 8 env0 img64_d path_d_f 5000) = some 0 ∧
    path_lookup (state_of (a1fs_truncate 8 env0 img64_d path_d_f 5000)) path_d_f = -1 ∧
    ret_of (a1fs_read 8 env0 (state_of (a1fs_truncate 8 env0 img64_d path_d_f 5000)) path_d_f
      blank_buffer 5000 0) = some (-5) := by
  decide!

/-- C6 (at the failing input): the file `/a` holds `hello`; after
`truncate("/a", 2)` and `truncate("/a", 5)`, both returning 0, the bytes at the
offsets 2, 3 and 4 still read as `llo`. -/
theorem shrink_then_grow_keeps_old_bytes :
    ret_of (a1fs_truncate 8 env0 img64_hello path_a 2) = some 0 ∧
    ret_of (a1fs_truncate 8 env0 img64_he path_a 5) = some 0 ∧
    (img64_he5.itable 1).size = 5 ∧
    delivered 5 (a1fs_read 8 env0 img64_he5 path_a blank_buffer 5 0) = Res.ok (5, hello) := by
  decide!

/-- C7: a truncate to the size the inode already has returns 0 and leaves the
image as it is, for every path that resolves. -/
theorem truncate_same_size_is_noop (fuel : Nat) (env : Env) (fs : fs_ctx) (path : List Nat)
    (size : Nat) (hres : 0 ≤ path_lookup fs path) (hrange : size < 18446744073709551616)
    (hsize : (fs.itable (path_lookup fs path).toNat).size = size) :
    a1fs_truncate fuel env fs path size = Res.ok (0, fs) := by
  have h64 : u64 (size : Int) = size := by
    unfold u64
    rw [Int.emod_eq_of_lt (by omega) (by omega)]
    simp
  unfold a1fs_truncate
  simp only [h64, hsize, if_true]
  rw [if_neg (by omega)]

/-- C7, at an instance: `/a` holds 5 bytes and is truncated to 5. -/
theorem truncate_same_size_is_noop_witness :
    0 ≤ path_lookup img64_hello path_a ∧
    (img64_hello.itable (path_lookup img64_hello path_a).toNat).size = 5 ∧
    a1fs_truncate 8 env0 img64_hello path_a 5 = Res.ok (0, img64_hello) :=
  ⟨by decide!, by decide!,
   truncate_same_size_is_noop 8 env0 img64_hello path_a 5 (by decide!) (by decide) (by decide!)⟩

/-- C8: let the entry `A` of the root be the entry of a regular file, the only
entry of the root with its name and the only one with its inode number (the
driver removes entries by inode number); then `/name` resolves to the file,
and after an `a1fs_unlink("/name")` that returned 0 `path_lookup("/name")`
fails with -1.  The image is well formed in that the inode record of the file
carries its own index and the root as parent, and no entry of the root lies in
the root's indirect block. -/
theorem unlink_then_lookup_fails (env : Env) (fs fs1 : fs_ctx) (name : List Nat) (A : Nat)
    (hname : is_component name)
    (hA : A ∈ dir_slots fs 0)
    (hAname : name_at fs.btable A name = true)
    (hname1 : ∀ a ∈ dir_slots fs 0, name_at fs.btable a name = true → a = A)
    (hino1 : ∀ a ∈ dir_slots fs 0, dentry_ino fs.btable a = dentry_ino fs.btable A → a = A)
    (hself : (fs.itable (dentry_ino fs.btable A)).num = dentry_ino fs.btable A)
    (hsmall : dentry_ino fs.btable A < 4096)
    (hparent : (fs.itable (dentry_ino fs.btable A)).parent_num = 0)
    (hreg : S_ISREG (fs.itable (dentry_ino fs.btable A)).mode = true)
    (hroot : S_ISREG (fs.itable 0).mode = false)
    (hind : (fs.itable 0).indirect ≠ 0 →
      ∀ a ∈ dir_slots fs 0, a / 4096 ≠ (fs.itable 0).indirect)
    (hun : a1fs_unlink env fs (47 :: name) = Res.ok (0, fs1)) :
    path_lookup fs (47 :: name) = dentry_ino fs.btable A ∧
    path_lookup fs1 (47 :: name) = -1 := by
  have hAal : A % 256 = 0 := slots_of_aligned _ _ A hA
  have hfirst : first_slot fs 0 name = some A :=
    find?_unique _ A _ hA hAname hname1
  have hlook : path_lookup fs (47 :: name) = (dentry_ino fs.btable A : Int) := by
    rw [path_lookup_single fs name hname, hfirst, Option.map_some', Option.getD_some, hself,
      i32_small _ (by omega)]
  refine ⟨hlook, ?_⟩
  have hne : dentry_ino fs.btable A ≠ 0 := by
    intro h0
    rw [h0, hroot] at hreg
    cases hreg
  obtain ⟨_, hb, hi⟩ := unlink_result env fs fs1 _ 0 (by rw [hlook]; omega) hun
  rw [hlook, Int.toNat_ofNat] at hb hi
  have hbt : fs1.btable = memset0 fs.btable A 256 := by
    rw [hb]
    unfold unlink_parent set_inode
    simp only [hparent, hself]
    exact wipe_entries_unique (fs.itable 0) fs.btable A _ hA rfl hino1 hind
  have hroot1 : (fs1.itable 0).extent = (fs.itable 0).extent ∧
      (fs1.itable 0).indirect = (fs.itable 0).indirect := by
    rw [hi, upd_other _ _ _ _ (Ne.symm hne)]
    unfold unlink_parent set_inode
    simp only [hparent, upd_same]
    exact ⟨trivial, trivial⟩
  have hslots : dir_slots fs1 0 = dir_slots fs 0 := by
    unfold dir_slots
    rw [slots_of_fields (fs.itable 0) (fs1.itable 0) fs1.btable hroot1.1 hroot1.2, hbt]
    apply slots_of_congr
    intro hind0 x h1 h2
    have := hind hind0 A hA
    exact memset0_outside _ A 256 x (by omega)
  have hnone : first_slot fs1 0 name = none := by
    unfold first_slot
    rw [hslots, hbt]
    apply find?_none_of_forall
    intro a ha
    by_cases haA : a = A
    · rw [haA]
      exact name_at_of_zero _ A name hname (memset0_inside _ A 256 _ (by omega) (by omega))
    · rw [name_at_memset0_other fs.btable A a name hname.2.1 hAal (slots_of_aligned _ _ a ha) haA]
      cases hn : name_at fs.btable a name with
      | false => rfl
      | true => exact absurd (hname1 a ha hn) haA
  rw [path_lookup_single fs1 name hname, hnone]
  rfl

theorem unlink_then_lookup_fails_witness :
    path_lookup img64_a [47, 97] = dentry_ino img64_a.btable 0 ∧
    path_lookup (state_of (a1fs_unlink env0 img64_a [47, 97])) [47, 97] = -1 :=
  unlink_then_lookup_fails env0 img64_a (state_of (a1fs_unlink env0 img64_a [47, 97])) [97] 0
    is_component_a (by decide!) (by decide!) (by decide!) (by decide!) (by decide!) (by decide!)
    (by decide!) (by decide!) (by decide!) (by decide!)
    (res_of_ret _ 0 (by decide!))

/-- C9: let the root directory be well formed (`dir_ok`, and its first extent
has a block while it is marked empty) and have no entry called `name`, and let
`errno` be non-zero at the call; after an `a1fs_create("/name", mode)` that
returned 0 the path resolves to the index `first_inode` gave on the inode bitmap
from before the call, and `a1fs_getattr("/name")` returns 0 and reports a
regular file (mode `S_IFREG | mode`) with `st_nlink` 1, `st_size` 0 and
`st_blocks` 0. -/
theorem create_then_getattr (env : Env) (fs fs1 : fs_ctx) (name : List Nat) (mode : Nat)
    (hname : is_component name)
    (herr : env.errno ≠ 0)
    (hnone : ∀ a ∈ dir_slots fs 0, name_at fs.btable a name = false)
    (hok : dir_ok fs 0)
    (hfirst : (fs.itable 0).empty = 0 → 0 < i32 ((fs.itable 0).extent 0).count)
    (hcr : a1fs_create env fs (47 :: name) mode = Res.ok (0, fs1)) :
    ∃ k : Nat, first_inode fs.ibitmap = (k : Int) ∧
      path_lookup fs1 (47 :: name) = (k : Int) ∧
      a1fs_getattr fs1 (47 :: name) =
        Res.ok (0, ⟨S_IFREG ||| mode, 1, 0, 4096, 0, env.now⟩) ∧
      S_ISREG (S_IFREG ||| mode) = true := by
  obtain ⟨k, h1, h2, h3, h4, _, _⟩ :=
    create_in_root env fs fs1 name mode hname herr hnone hok hfirst hcr
  exact ⟨k, h1, h2, h3, h4⟩

theorem create_then_getattr_witness :
    ∃ k : Nat, first_inode img64.ibitmap = (k : Int) ∧
      path_lookup img64_a (47 :: [97]) = (k : Int) ∧
      a1fs_getattr img64_a (47 :: [97]) =
        Res.ok (0, ⟨S_IFREG ||| mode_file, 1, 0, 4096, 0, env0.now⟩) ∧
      S_ISREG (S_IFREG ||| mode_file) = true :=
  create_then_getattr env0 img64 img64_a [97] mode_file is_component_a (by decide)
    (by decide!) (by unfold dir_ok; decide!) (by decide!) (res_of_ret _ 0 (by decide!))

/-- C10 (counterexample): on the formatted image after `mkdir("/d")` the root
has one entry called `d`, the live entry at address 0 with inode 1; a second
`a1fs_mkdir("/d")` returns 0, and the root then has two entries called `d`. -/
theorem mkdir_duplicate_accepted :
    slots_named img64_dir 0 [100] = [0] ∧
    dentry_ino img64_dir.btable 0 = 1 ∧
    ret_of (a1fs_mkdir env0 img64_dir path_d 0o755) = some 0 ∧
    slots_named img64_dir2 0 [100] = [0, 256] := by
  decide!

/-- C10 (amended): `a1fs_mkdir` makes no check of the name against the entries
of the parent.  On a well-formed, non-empty root directory that has a live
entry `A` called `name` (with `errno` non-zero at the call), the return value of
`a1fs_mkdir("/name")` is the one it has for every other component `name1`, and
when it returns 0 the root has the entry `A` and another entry `B`, both called
`name`. -/
theorem mkdir_duplicate_not_refused (env : Env) (fs : fs_ctx) (name : List Nat) (mode A : Nat)
    (hname : is_component name) (herr : env.errno ≠ 0) (hok : dir_ok fs 0)
    (hempty : (fs.itable 0).empty ≠ 0) (hA : A ∈ dir_slots fs 0)
    (hAname : name_at fs.btable A name = true) (hlive : dentry_ino fs.btable A ≠ 0) :
    (∀ name1, is_component name1 →
      ret_of (a1fs_mkdir env fs (47 :: name1) mode) =
        ret_of (a1fs_mkdir env fs (47 :: name) mode)) ∧
    (∀ fs1, a1fs_mkdir env fs (47 :: name) mode = Res.ok (0, fs1) →
      A ∈ dir_slots fs1 0 ∧ name_at fs1.btable A name = true ∧
      ∃ B, B ≠ A ∧ B ∈ dir_slots fs1 0 ∧ name_at fs1.btable B name = true) :=
  ⟨fun name1 h1 => mkdir_ret_name env fs name name1 mode hname h1,
   fun fs1 h => mkdir_second_slot env fs fs1 name mode A hname herr hok hempty hA hAname hlive h⟩

/-- C10 (amended), at an instance: the second `mkdir("/d")` on `img64_dir`. -/
theorem mkdir_duplicate_not_refused_witness :
    0 ∈ dir_slots img64_dir2 0 ∧ name_at img64_dir2.btable 0 [100] = true ∧
    ∃ B, B ≠ 0 ∧ B ∈ dir_slots img64_dir2 0 ∧ name_at img64_dir2.btable B [100] = true :=
  (mkdir_duplicate_not_refused env0 img64_dir [100] 0o755 0 is_component_d (by decide)
    (by unfold dir_ok; decide!) (by decide!) (by decide!) (by decide!) (by decide!)).2
    img64_dir2 (res_of_ret _ 0 (by decide!))

/-- C11: on the image without a free block (`used_block_count = block_count`),
where `/a` holds one block of the byte 120, `a1fs_write` of five bytes at offset
4096 needs a new block; it does not return `-ENOSPC` but 5, and the first five
bytes of the file are overwritten. -/
theorem write_without_block_overwrites_prefix :
    img9_full.sb.used_block_count = img9_full.sb.block_count ∧
    (img9_full.itable 1).size = 4096 ∧
    (img9_full.itable 1).block_count = 1 ∧
    delivered 5 (a1fs_read 8 env0 img9_full path_a blank_buffer 5 0)
      = Res.ok (5, [120, 120, 120, 120, 120]) ∧
    ret_of (a1fs_write 8 env0 img9_full path_a (buffer_of hello) 5 4096) = some 5 ∧
    delivered 5 (a1fs_read 8 env0 img9_after path_a blank_buffer 5 0) = Res.ok (5, hello) := by
  decide!

/-- C12: in an image whose counters `used_block_count` and `used_inode_count`
are the numbers of set entries of the two bitmaps, after a call of `a1fs_create`
or `a1fs_mkdir` that returns 0 the counters are these numbers again, and every
bitmap entry the call has set was 0 before the call. -/
theorem create_mkdir_keep_accounting (env : Env) (fs fs1 : fs_ctx) (path : List Nat)
    (mode : Nat) (hacc : accounted fs)
    (h : a1fs_create env fs path mode = Res.ok (0, fs1) ∨
      a1fs_mkdir env fs path mode = Res.ok (0, fs1)) :
    accounted fs1 ∧ only_taken fs.bbitmap fs1.bbitmap ∧ only_taken fs.ibitmap fs1.ibitmap := by
  cases h with
  | inl h => exact create_accounted env fs fs1 path mode 0 hacc h
  | inr h => exact mkdir_accounted env fs fs1 path mode 0 hacc h

/-- C12, at an instance: `mkdir("/d")` on the freshly formatted image. -/
theorem create_mkdir_keep_accounting_witness :
    accounted img64 ∧ accounted img64_dir ∧ only_taken img64.bbitmap img64_dir.bbitmap ∧
      only_taken img64.ibitmap img64_dir.ibitmap :=
  ⟨⟨by decide!, by decide!⟩,
    create_mkdir_keep_accounting env0 img64 img64_dir path_d 0o755 ⟨by decide!, by decide!⟩
      (Or.inr (res_of_ret _ 0 (by decide!)))⟩

/-- C13, as stated, fails: in the image left by `rmdir("/")` on the freshly
formatted image both counters are the numbers of set bitmap entries (0 and 0)
and the root inode has no blocks, so the premises about its extents hold; but
its entry of the inode bitmap is 0.  A second `rmdir("/")` returns 0 and leaves
`used_inode_count = 4294967295` with no entry of the inode bitmap set. -/
theorem rmdir_unmarked_inode_miscounts :
    img64_gone.sb.used_block_count = count_set img64_gone.bbitmap ∧
    img64_gone.sb.used_inode_count = count_set img64_gone.ibitmap ∧
    path_lookup img64_gone path_root = 0 ∧
    inode_blocks (img64_gone.itable 0) img64_gone.btable = [] ∧
    img64_gone.ibitmap (img64_gone.itable 0).num = 0 ∧
    ret_of (a1fs_rmdir env0 img64_gone path_root) = some 0 ∧
    (state_of (a1fs_rmdir env0 img64_gone path_root)).sb.used_inode_count = 4294967295 ∧
    count_set (state_of (a1fs_rmdir env0 img64_gone path_root)).ibitmap = 0 := by
  decide!

/-- C13, amended: in an image whose counters `used_block_count` and
`used_inode_count` are the numbers of set entries of the two bitmaps, where the
blocks of the removed inode (those of its direct extents, of the extents of its
indirect block, and the indirect block itself) are pairwise different and marked
in the block bitmap and the entry `num` of the removed inode is set in the inode
bitmap, after a call of `a1fs_unlink` or `a1fs_rmdir` that returns 0 the
counters are these numbers again. -/
theorem unlink_rmdir_keep_accounting (env : Env) (fs fs1 : fs_ctx) (path : List Nat)
    (hacc : accounted fs) (hlive : inode_live fs (path_lookup fs path).toNat)
    (h : a1fs_unlink env fs path = Res.ok (0, fs1) ∨
      a1fs_rmdir env fs path = Res.ok (0, fs1)) : accounted fs1 := by
  cases h with
  | inl h => exact unlink_accounted env fs fs1 path 0 hacc hlive h
  | inr h => exact rmdir_accounted env fs fs1 path 0 hacc hlive h

/-- C13, at an instance: `unlink("/a")` where `/a` holds one block. -/
theorem unlink_rmdir_keep_accounting_witness :
    inode_blocks (img64_hello.itable 1) img64_hello.btable = [1] ∧
    accounted (state_of (a1fs_unlink env0 img64_hello path_a)) ∧
    count_set (state_of (a1fs_unlink env0 img64_hello path_a)).bbitmap = 1 :=
  ⟨by decide!,
    unlink_rmdir_keep_accounting env0 img64_hello _ path_a ⟨by decide!, by decide!⟩
      ⟨by decide!, by decide!, by decide!⟩ (Or.inl (res_of_ret _ 0 (by decide!))),
    by decide!⟩

/-- C14: `/a` holds twelve direct extents of one block, and the counter
`used_block_count` is the number of set entries of the block bitmap (13).
`a1fs_truncate` to 13 bytes returns 0 and takes the indirect block and a data
block: the bitmap then has 15 set entries, the counter is 14. -/
theorem grow_into_indirect_miscounts :
    img64_a12.sb.used_block_count = 13 ∧ count_set img64_a12.bbitmap = 13 ∧
    (∀ i < 12, ((img64_a12.itable 1).extent i).start ≠ 0) ∧
    (img64_a12.itable 1).indirect = 0 ∧
    ret_of (a1fs_truncate 8 env0 img64_a12 path_a 13) = some 0 ∧
    (state_of (a1fs_truncate 8 env0 img64_a12 path_a 13)).sb.used_block_count = 14 ∧
    count_set (state_of (a1fs_truncate 8 env0 img64_a12 path_a 13)).bbitmap = 15 := by
  decide!

/-- C15: the root directory holds 16 entries with a name and `empty` is 16; the
free block 1 still holds the bytes of a file that was removed.  `a1fs_create`
of `/q` returns 0 and attaches block 1: `empty` is 17, but 32 entries of the
directory now have a name that is not empty. -/
theorem create_with_new_block_breaks_occupancy :
    occupied img64_full_dir 0 = 16 ∧ (img64_full_dir.itable 0).empty = 16 ∧
    ret_of (a1fs_create env0 img64_full_dir path_q mode_file) = some 0 ∧
    ((state_of (a1fs_create env0 img64_full_dir path_q mode_file)).itable 0).empty = 17 ∧
    occupied (state_of (a1fs_create env0 img64_full_dir path_q mode_file)) 0 = 32 := by
  decide!

/-- C16: `/a` is a regular file without blocks; the `path_lookup` of `a1fs.c`
resolves `/a/x` to the inode of `/a` and `a1fs_getattr` returns 0, where the
`path_lookup` of `helper.c` returns -2. -/
theorem lookup_through_regular_file :
    path_lookup img64_a path_a = 1 ∧ S_ISREG (img64_a.itable 1).mode = true ∧
    (img64_a.itable 1).block_count = 0 ∧
    path_lookup img64_a path_a_x = 1 ∧
    ret_of (a1fs_getattr img64_a path_a_x) = some 0 ∧
    helper_path_lookup img64_a path_a_x = -2 := by
  decide!

/-- C17: the root directory has an indirect block and no entry `zz`; the lookup
of `/zz` gives -1, but the lookup of `/zz/a` gives the inode of `/a`.  Without
the indirect block the lookup of `/zz/a` gives -1. -/
theorem lookup_missing_component_resolves :
    img64_ind.sb.used_block_count = count_set img64_ind.bbitmap ∧
    first_slot img64_ind 0 [122, 122] = none ∧
    (img64_ind.itable 0).indirect = 2 ∧
    path_lookup img64_ind path_a = 1 ∧
    path_lookup img64_ind [47, 122, 122] = -1 ∧
    path_lookup img64_ind path_zz_a = 1 ∧
    path_lookup img64_a path_zz_a = -1 := by
  decide!

/-- C18: when the root directory has an entry with the name `name`, the lookup
of `/name` returns the field `num` of the inode of the first such entry in the
order of the scan (direct extents, then the extents of the indirect block), and
this entry is the first one of the direct extents whenever they hold the
name. -/
theorem first_match_wins (fs : fs_ctx) (name : List Nat) (a : Nat) (hname : is_component name)
    (h : first_slot fs 0 name = some a) :
    path_lookup fs (47 :: name) = i32 (fs.itable (dentry_ino fs.btable a)).num ∧
    ∀ d, (direct_slots (fs.itable 0)).find? (fun x => name_at fs.btable x name) = some d →
      a = d :=
  lookup_first_slot fs name a hname h

/-- C18, at an instance: the name `a` is held by the first direct entry (inode
1) and by an entry of the indirect block (inode 2); the lookup gives inode 1. -/
theorem first_match_wins_witness :
    name_at img64_both.btable (dentry_addr 3 0) [97] = true ∧
    dentry_addr 3 0 ∈ indirect_slots img64_both.btable (img64_both.itable 0).indirect ∧
    dentry_ino img64_both.btable (dentry_addr 3 0) = 2 ∧
    path_lookup img64_both path_a = 1 :=
  ⟨by decide!, by decide!, by decide!,
    (first_match_wins img64_both [97] 0 is_component_a (by decide!)).1.trans (by decide!)⟩

/-- C19: for the path `/` followed by a component of 252 bytes `a1fs_getattr`
returns `-ENOENT`, not `-ENAMETOOLONG`; the `path_lookup` of `helper.c` returns
-3 for it. -/
theorem getattr_long_component :
    path_long.length = 253 ∧
    a1fs_getattr img64 path_long = Res.ok (-ENOENT, zero_stat) ∧
    helper_path_lookup img64 path_long = -3 := by
  decide!

/-- C20: when `a1fs_create` or `a1fs_mkdir` returns `-ENOSPC`, the image it
leaves is the image from before the call: superblock, both bitmaps, inode table
and data region. -/
theorem nospace_leaves_image (env : Env) (fs fs1 : fs_ctx) (path : List Nat) (mode : Nat)
    (h : a1fs_create env fs path mode = Res.ok (-ENOSPC, fs1) ∨
      a1fs_mkdir env fs path mode = Res.ok (-ENOSPC, fs1)) : fs1 = fs := by
  cases h with
  | inl h => exact create_failure env fs fs1 path mode (-ENOSPC) (by decide) h
  | inr h => exact mkdir_failure env fs fs1 path mode (-ENOSPC) (by decide) h

/-- C20, at an instance: `mkdir("/d")` on the image without a free block. -/
theorem nospace_leaves_image_witness :
    state_of (a1fs_mkdir env0 img9_full path_d 0o755) = img9_full :=
  nospace_leaves_image env0 img9_full (state_of (a1fs_mkdir env0 img9_full path_d 0o755)) path_d
    0o755 (Or.inr (res_of_ret _ (-ENOSPC) (by decide!)))

/-- C21: `a1fs_rmdir` on a path that resolves to a directory whose counter
`empty` is greater than 0 returns `-ENOTEMPTY`, and the image it leaves is the
image from before the call. -/
theorem rmdir_not_empty (env : Env) (fs : fs_ctx) (path : List Nat)
    (hp : 0 ≤ path_lookup fs path)
    (he : (fs.itable (path_lookup fs path).toNat).empty > 0) :
    a1fs_rmdir env fs path = Res.ok (-ENOTEMPTY, fs) := by
  unfold a1fs_rmdir
  rw [if_neg (by omega), if_pos he]

/-- C21, at an instance: `rmdir("/d")` while `/d/f` exists. -/
theorem rmdir_not_empty_witness :
    a1fs_rmdir env0 img64_d path_d = Res.ok (-ENOTEMPTY, img64_d) :=
  rmdir_not_empty env0 img64_d path_d (by decide!) (by decide!)

/-- C22: `/a` (inode 2) holds the block 2 in its first extent, which is marked
in the block bitmap, with `size` and `block_count` 0 as `truncate("/a", 0)`
leaves them.  `a1fs_unlink` returns 0 and clears the entry of the inode, but
the entry of block 2 in the block bitmap stays 1. -/
theorem unlink_keeps_block_marked :
    ret_of (a1fs_truncate 8 env0 img64_a_block2 path_a 0) = some 0 ∧
    path_lookup img64_a_cut path_a = 2 ∧
    ((img64_a_cut.itable 2).extent 0).start = 2 ∧
    ((img64_a_cut.itable 2).extent 0).count = 1 ∧
    (img64_a_cut.itable 2).size = 0 ∧ (img64_a_cut.itable 2).block_count = 0 ∧
    img64_a_cut.bbitmap 2 = 1 ∧
    ret_of (a1fs_unlink env0 img64_a_cut path_a) = some 0 ∧
    (state_of (a1fs_unlink env0 img64_a_cut path_a)).ibitmap 2 = 0 ∧
    (state_of (a1fs_unlink env0 img64_a_cut path_a)).bbitmap 2 = 1 := by
  decide!

/-- C23, as stated, fails: on the freshly formatted image, whose root directory
has the counter `empty` 0, `a1fs_rmdir("/")` returns 0, clears entry 0 of both
bitmaps and zeroes inode record 0; `a1fs_unlink("/")` does the same, also on an
image whose root directory holds a file. -/
theorem rmdir_destroys_root :
    (img64.itable 0).empty = 0 ∧ img64.ibitmap 0 = 1 ∧ img64.bbitmap 0 = 1 ∧
    ret_of (a1fs_rmdir env0 img64 path_root) = some 0 ∧
    img64_gone.ibitmap 0 = 0 ∧ img64_gone.bbitmap 0 = 0 ∧ img64_gone.itable 0 = zero_inode ∧
    (img64_a.itable 0).empty = 1 ∧
    ret_of (a1fs_unlink env0 img64_a path_root) = some 0 ∧
    (state_of (a1fs_unlink env0 img64_a path_root)).ibitmap 0 = 0 ∧
    (state_of (a1fs_unlink env0 img64_a path_root)).bbitmap 0 = 0 :=
  ⟨by decide!, by decide!, by decide!, by decide!, by decide!, by decide!,
    (rmdir_result env0 img64 img64_gone path_root 0 (by decide!) (by decide!)
      (res_of_ret _ 0 (by decide!))).2.1,
    by decide!, by decide!, by decide!, by decide!⟩

/-- C23, amended: `a1fs_rmdir("/")` leaves the root directory alone exactly
when its counter `empty` is greater than 0: then the call returns `-ENOTEMPTY`
and the image is the one from before.  When the counter is 0, a call that
returns a value returns 0, and it leaves inode record 0 zero and the entry of
the root (`num` of record 0) in the inode bitmap 0. -/
theorem rmdir_root_by_occupancy (env : Env) (fs : fs_ctx) :
    ((fs.itable 0).empty > 0 → a1fs_rmdir env fs path_root = Res.ok (-ENOTEMPTY, fs)) ∧
    ((fs.itable 0).empty = 0 → ∀ v fs1, a1fs_rmdir env fs path_root = Res.ok (v, fs1) →
      v = 0 ∧ fs1.itable 0 = zero_inode ∧ fs1.ibitmap (fs.itable 0).num = 0) := by
  refine ⟨?_, ?_⟩
  · intro he
    exact rmdir_enotempty env fs path_root (by rw [path_lookup_root]) he
  · intro he v fs1 h
    exact rmdir_result env fs fs1 path_root v (by rw [path_lookup_root]) he h

/-- C23, at two instances: the root directory with one file, and the root
directory of the freshly formatted image. -/
theorem rmdir_root_by_occupancy_witness :
    a1fs_rmdir env0 img64_a path_root = Res.ok (-ENOTEMPTY, img64_a) ∧
    img64_gone.itable 0 = zero_inode ∧ img64_gone.ibitmap 0 = 0 :=
  ⟨(rmdir_root_by_occupancy env0 img64_a).1 (by decide!),
    ((rmdir_root_by_occupancy env0 img64).2 (by decide!) 0 img64_gone
      (res_of_ret _ 0 (by decide!))).2.1,
    by decide!⟩

/-- C24: after a call of `a1fs_mkdir` that returns 0 (with `errno` not 0, so
that 0 is not the value of a `return -errno`), the inode `k` that was the first
free one and a block `b` that was free are marked, and the record `k` has a
directory mode that is not the mode of a regular file, `links` 2, `size` 0,
`empty` 0, `block_count` 1, `extent_count` 1, `indirect` 0, the first extent
`(b, 1)`, the extents 1 to 11 zero, `num` `k` and `parent_num` the inode of the
parent. -/
theorem mkdir_new_inode (env : Env) (fs fs1 : fs_ctx) (path : List Nat) (mode : Nat)
    (herr : env.errno ≠ 0) (h : a1fs_mkdir env fs path mode = Res.ok (0, fs1)) :
    ∃ (pn : List Nat × List Nat) (k b : Nat),
      split_last path = some pn ∧ 0 ≤ parent_lookup fs pn.1 ∧
      first_inode fs.ibitmap = (k : Int) ∧ fs.ibitmap k = 0 ∧ fs1.ibitmap k = 1 ∧
      fs.bbitmap b = 0 ∧ fs1.bbitmap b = 1 ∧
      is_new_directory (fs1.itable k) k b (parent_lookup fs pn.1).toNat mode :=
  mkdir_new_record env fs fs1 path mode herr h

/-- C24, at an instance: `mkdir("/d")` on the freshly formatted image. -/
theorem mkdir_new_inode_witness :
    ∃ (pn : List Nat × List Nat) (k b : Nat),
      split_last path_d = some pn ∧ 0 ≤ parent_lookup img64 pn.1 ∧
      first_inode img64.ibitmap = (k : Int) ∧ img64.ibitmap k = 0 ∧ img64_dir.ibitmap k = 1 ∧
      img64.bbitmap b = 0 ∧ img64_dir.bbitmap b = 1 ∧
      is_new_directory (img64_dir.itable k) k b (parent_lookup img64 pn.1).toNat 0o755 :=
  mkdir_new_inode env0 img64 img64_dir path_d 0o755 (by decide) (res_of_ret _ 0 (by decide!))

/-- C25, as stated, fails.  `a1fs_create("/a")` on the freshly formatted image
returns 0 and leaves the link count of the root directory at 2.  With the
counter `empty` of the root at its largest value, `a1fs_mkdir` returns 0 and
leaves the counter at 0.  With the parent `/d` (inode 1) not marked in the
inode bitmap, `a1fs_mkdir("/d/x")` returns 0 and gives the new directory the
inode 1: the record of the parent is replaced, its counters are 0 and 2 as
before. -/
theorem create_keeps_parent_links :
    ret_of (a1fs_create env0 img64 path_a mode_file) = some 0 ∧
    (img64.itable 0).empty = 0 ∧ (img64_a.itable 0).empty = 1 ∧
    (img64.itable 0).links = 2 ∧ (img64_a.itable 0).links = 2 ∧
    ret_of (a1fs_mkdir env0 img64_max path_d 0o755) = some 0 ∧
    (img64_max.itable 0).empty = 4294967295 ∧
    ((state_of (a1fs_mkdir env0 img64_max path_d 0o755)).itable 0).empty = 0 ∧
    path_lookup img64_unmarked path_d = 1 ∧ img64_unmarked.ibitmap 1 = 0 ∧
    (img64_unmarked.itable 1).empty = 0 ∧ (img64_unmarked.itable 1).links = 2 ∧
    ret_of (a1fs_mkdir env0 img64_unmarked path_d_x 0o755) = some 0 ∧
    ((state_of (a1fs_mkdir env0 img64_unmarked path_d_x 0o755)).itable 1).empty = 0 ∧
    ((state_of (a1fs_mkdir env0 img64_unmarked path_d_x 0o755)).itable 1).links = 2 := by
  decide!

/-- C25, amended: let the parent directory of `path` be marked in the inode
bitmap, with its counters `empty` and `links` below the largest 32-bit value,
and let `errno` not be 0.  A call of `a1fs_mkdir` that returns 0 increases
`empty` and `links` of the parent by exactly 1; a call of `a1fs_create` that
returns 0 increases `empty` by exactly 1 and leaves `links` as it is. -/
theorem insertion_counts (env : Env) (fs fs1 : fs_ctx) (path : List Nat) (mode : Nat)
    (herr : env.errno ≠ 0) (pn : List Nat × List Nat) (hsp : split_last path = some pn)
    (hmark : fs.ibitmap (parent_lookup fs pn.1).toNat ≠ 0)
    (hE : (fs.itable (parent_lookup fs pn.1).toNat).empty < 4294967295)
    (hL : (fs.itable (parent_lookup fs pn.1).toNat).links < 4294967295) :
    (a1fs_mkdir env fs path mode = Res.ok (0, fs1) →
      (fs1.itable (parent_lookup fs pn.1).toNat).empty =
        (fs.itable (parent_lookup fs pn.1).toNat).empty + 1 ∧
      (fs1.itable (parent_lookup fs pn.1).toNat).links =
        (fs.itable (parent_lookup fs pn.1).toNat).links + 1) ∧
    (a1fs_create env fs path mode = Res.ok (0, fs1) →
      (fs1.itable (parent_lookup fs pn.1).toNat).empty =
        (fs.itable (parent_lookup fs pn.1).toNat).empty + 1 ∧
      (fs1.itable (parent_lookup fs pn.1).toNat).links =
        (fs.itable (parent_lookup fs pn.1).toNat).links) := by
  have key := parent_counters env fs fs1 path mode herr pn hsp hmark
  have hu : ∀ n : Nat, n < 4294967295 → u32 ((n : Int) + 1) = n + 1 := by
    intro n hn
    unfold u32
    omega
  refine ⟨?_, ?_⟩
  · intro h
    obtain ⟨h1, h2⟩ := key.2 h
    rw [h1, h2, hu _ hE, hu _ hL]
    exact ⟨rfl, rfl⟩
  · intro h
    obtain ⟨h1, h2⟩ := key.1 h
    rw [h1, h2, hu _ hE]
    exact ⟨rfl, rfl⟩

/-- C25, at two instances: `mkdir("/d")` and `create("/a")` on the freshly
formatted image. -/
theorem insertion_counts_witness :
    ((img64_dir.itable 0).empty = (img64.itable 0).empty + 1 ∧
      (img64_dir.itable 0).links = (img64.itable 0).links + 1) ∧
    ((img64_a.itable 0).empty = (img64.itable 0).empty + 1 ∧
      (img64_a.itable 0).links = (img64.itable 0).links) :=
  ⟨(insertion_counts env0 img64 img64_dir path_d 0o755 (by decide) ([], [100]) (by decide!)
      (by decide!) (by decide!) (by decide!)).1 (res_of_ret _ 0 (by decide!)),
    (insertion_counts env0 img64 img64_a path_a mode_file (by decide) ([], [97]) (by decide!)
      (by decide!) (by decide!) (by decide!)).2 (res_of_ret _ 0 (by decide!))⟩

/-- C26: `/a` (inode 2) holds twelve direct extents of one block and
`block_count` 12, so its extents account for its `block_count`; block 13 is
free and starts with eight bytes 120.  `a1fs_truncate` to 13 bytes returns 0
and takes block 13 as the indirect block without clearing it: `block_count` is
14, but the extents of the file with the indirect block account for
2021161094 blocks. -/
theorem grow_into_stale_indirect_block :
    blocks_owned (img64_stale13.itable 2) img64_stale13.btable = 12 ∧
    (img64_stale13.itable 2).block_count = 12 ∧
    img64_stale13.bbitmap 13 = 0 ∧
    ret_of (a1fs_truncate 8 env0 img64_stale13 path_a 13) = some 0 ∧
    ((state_of (a1fs_truncate 8 env0 img64_stale13 path_a 13)).itable 2).indirect = 13 ∧
    ((state_of (a1fs_truncate 8 env0 img64_stale13 path_a 13)).itable 2).block_count = 14 ∧
    blocks_owned ((state_of (a1fs_truncate 8 env0 img64_stale13 path_a 13)).itable 2)
      (state_of (a1fs_truncate 8 env0 img64_stale13 path_a 13)).btable = 2021161094 := by
  decide!

/-- C27, as stated, fails for the hint -1: `hint + 1 < 4096` holds, and
`first_block` returns the reserved index 0 when entry 0 of the bitmap is 0, also
when no entry from 1 to 4095 is free. -/
theorem first_block_gives_reserved_index :
    ((-1 : Int) + 1 < 4096) ∧
    first_block (fun _ => 0) (-1) = Res.ok 0 ∧
    (∀ j, 1 ≤ j → j < 4096 → (fun i : Nat => if i = 0 then 0 else 1) j ≠ 0) ∧
    first_block (fun i => if i = 0 then 0 else 1) (-1) = Res.ok 0 := by
  refine ⟨by decide, by decide!, ?_, by decide!⟩
  intro j h1 _
  show (if j = 0 then 0 else 1) ≠ 0
  rw [if_neg (by omega)]
  decide

/-- C27, amended: for a hint with `0 <= hint` and `hint + 1 < 4096`,
`first_block` returns `hint + 1` when that entry of the bitmap is 0; otherwise
it returns the smallest index from 1 to 4095 whose entry is 0, and -1 when there
is none.  It returns -1 exactly when no entry from 1 to 4095 is 0, and a result
other than -1 is an index from 1 to 4095 whose entry is 0. -/
theorem first_block_policy (bm : Nat → Nat) (hint : Int) (h0 : 0 ≤ hint)
    (h1 : hint + 1 < 4096) :
    (bm (hint + 1).toNat = 0 → first_block bm hint = Res.ok (hint + 1)) ∧
    (bm (hint + 1).toNat ≠ 0 →
      (first_block bm hint = Res.ok (-1) ∧ ∀ j, 1 ≤ j → j < 4096 → bm j ≠ 0) ∨
      ∃ i : Nat, first_block bm hint = Res.ok (i : Int) ∧ 1 ≤ i ∧ i < 4096 ∧ bm i = 0 ∧
        ∀ j, 1 ≤ j → j < i → bm j ≠ 0) ∧
    (first_block bm hint = Res.ok (-1) ↔ ∀ j, 1 ≤ j → j < 4096 → bm j ≠ 0) ∧
    (∀ r, first_block bm hint = Res.ok r → r ≠ -1 →
      1 ≤ r ∧ r < 4096 ∧ bm r.toNat = 0) := by
  have heq := first_block_eq bm hint (by omega) h1
  by_cases hfree : bm (hint + 1).toNat = 0
  · rw [if_pos hfree] at heq
    refine ⟨fun _ => heq, fun h => absurd hfree h, ?_, ?_⟩
    · rw [heq]
      constructor
      · intro h
        have h2 : hint + 1 = -1 := Res.ok.inj h
        omega
      · intro h
        exact absurd hfree (h (hint + 1).toNat (by omega) (by omega))
    · intro r hr _
      rw [heq] at hr
      have h2 : hint + 1 = r := Res.ok.inj hr
      rw [← h2]
      exact ⟨by omega, h1, hfree⟩
  · rw [if_neg hfree] at heq
    refine ⟨fun h => absurd h hfree, fun _ => ?_, ?_, ?_⟩
    · rcases scan_from_one bm with ⟨k1, k2⟩ | ⟨i, hi, k2, k3, k4, k5⟩
      · left
        rw [heq, k1]
        exact ⟨rfl, k2⟩
      · right
        rw [heq, hi]
        exact ⟨i, rfl, k2, k3, k4, k5⟩
    · rw [heq, ← scan_none_iff bm]
      constructor
      · intro h
        exact Res.ok.inj h
      · intro h
        rw [h]
    · intro r hr hne
      rw [heq] at hr
      have h2 : first_free bm 4095 1 = r := Res.ok.inj hr
      rcases scan_from_one bm with ⟨k1, _⟩ | ⟨i, hi, k2, k3, k4, _⟩
      · rw [k1] at h2
        exact absurd h2.symm hne
      · rw [hi] at h2
        rw [← h2, Int.toNat_ofNat]
        exact ⟨by omega, by omega, k4⟩

/-- C27, at an instance: on the freshly formatted image, with the hint 0, the
block 1 behind the hint is free and is returned. -/
theorem first_block_policy_witness : first_block img64.bbitmap 0 = Res.ok 1 :=
  (first_block_policy img64.bbitmap 0 (by decide) (by decide)).1 (by decide!)

/-- C28: `first_inode` returns the smallest index from 1 to 4095 whose entry of
the bitmap is 0; it returns -1 exactly when every entry from 1 to 4095 is not 0;
it never returns 0, whatever entry 0 is. -/
theorem first_inode_smallest_free (bm : Nat → Nat) :
    ((first_inode bm = -1 ∧ ∀ j, 1 ≤ j → j < 4096 → bm j ≠ 0) ∨
      ∃ i : Nat, first_inode bm = (i : Int) ∧ 1 ≤ i ∧ i < 4096 ∧ bm i = 0 ∧
        ∀ j, 1 ≤ j → j < i → bm j ≠ 0) ∧
    (first_inode bm = -1 ↔ ∀ j, 1 ≤ j → j < 4096 → bm j ≠ 0) ∧
    first_inode bm ≠ 0 := by
  unfold first_inode
  refine ⟨scan_from_one bm, scan_none_iff bm, ?_⟩
  rcases scan_from_one bm with ⟨k1, _⟩ | ⟨i, hi, k2, _, _, _⟩
  · rw [k1]
    decide
  · rw [hi]
    omega

/-- C29: for a superblock whose counters of used blocks and inodes do not
exceed the totals (all of them 32-bit values), `a1fs_statfs` returns 0, leaves
the image as it is, and reports the block size 4096 twice, the longest name
252, the number of blocks, the number of free blocks twice, the number of
inodes, and the number of free inodes twice. -/
theorem statfs_reports (fs : fs_ctx) (hb : fs.sb.used_block_count ≤ fs.sb.block_count)
    (hi : fs.sb.used_inode_count ≤ fs.sb.inode_count)
    (hbt : fs.sb.block_count < 4294967296) (hit : fs.sb.inode_count < 4294967296) :
    (a1fs_statfs fs).1 = 0 ∧ (a1fs_statfs fs).2.2 = fs ∧
    (a1fs_statfs fs).2.1.f_bsize = 4096 ∧ (a1fs_statfs fs).2.1.f_frsize = 4096 ∧
    (a1fs_statfs fs).2.1.f_namemax = 252 ∧
    (a1fs_statfs fs).2.1.f_blocks = fs.sb.block_count ∧
    (a1fs_statfs fs).2.1.f_bfree = fs.sb.block_count - fs.sb.used_block_count ∧
    (a1fs_statfs fs).2.1.f_bavail = fs.sb.block_count - fs.sb.used_block_count ∧
    (a1fs_statfs fs).2.1.f_files = fs.sb.inode_count ∧
    (a1fs_statfs fs).2.1.f_ffree = fs.sb.inode_count - fs.sb.used_inode_count ∧
    (a1fs_statfs fs).2.1.f_favail = fs.sb.inode_count - fs.sb.used_inode_count := by
  have k1 : u32 ((fs.sb.block_count : Int) - (fs.sb.used_block_count : Int)) =
      fs.sb.block_count - fs.sb.used_block_count := by
    unfold u32
    omega
  have k2 : u32 ((fs.sb.inode_count : Int) - (fs.sb.used_inode_count : Int)) =
      fs.sb.inode_count - fs.sb.used_inode_count := by
    unfold u32
    omega
  exact ⟨rfl, rfl, rfl, rfl, rfl, rfl, k1, k1, rfl, k2, k2⟩

/-- C29, at an instance: the image with one file. -/
theorem statfs_reports_witness :
    (a1fs_statfs img64_a).2.1.f_bfree = 56 ∧ (a1fs_statfs img64_a).2.1.f_ffree = 2 :=
  have h := statfs_reports img64_a (by decide!) (by decide!) (by decide!) (by decide!)
  ⟨h.2.2.2.2.2.2.1.trans (by decide!), h.2.2.2.2.2.2.2.2.2.1.trans (by decide!)⟩

/-- C30: the image of 4 blocks is too small for 4 inodes (`size/4096 <= 4 +
inode_count`), but `mkfs` returns `true` and leaves a superblock whose
`block_count` is `4 - 7` taken in 32 bits. -/
theorem mkfs_accepts_small_image :
    (4 * 4096) / 4096 ≤ 4 + 4 ∧
    (mkfs ⟨1, 0⟩ zero_image (4 * 4096) ⟨4, false, false, true⟩).1 = true ∧
    (mkfs ⟨1, 0⟩ zero_image (4 * 4096) ⟨4, false, false, true⟩).2.sb.block_count
      = 4294967293 := by
  decide!

/-- C31: the image holds a file system whose root directory has the entry `a`.
Formatted again without the zero option, `mkfs` returns `true`, but the counter
`empty` of the root is still 1, the first entry of its block still has the name
`a`, and the lookup of `/a` gives inode 1, whose entry in the new inode bitmap
is 0. -/
theorem mkfs_keeps_old_entries :
    (mkfs_main ⟨2, 0⟩ img64_a (64 * 4096) ⟨4, false, true, false⟩).1 = true ∧
    (img64_a_again.itable 0).empty = 1 ∧
    name_is_empty img64_a_again.btable (dentry_addr 0 0) = false ∧
    path_lookup img64_a_again path_a = 1 ∧
    img64_a_again.ibitmap 1 = 0 := by
  decide!

/-- C32: block 1 and block 3 are free, block 2 is the block of `/y`.
`a1fs_truncate("/a", 8192)` returns 0 and records the one extent `(1, 2)` for
`/a`: its block 2 was marked before the call and still belongs to `/y`, and the
block 3, which the call has marked, is in no extent of `/a`. -/
theorem grow_takes_block_in_use :
    img64_gap.bbitmap 1 = 0 ∧ img64_gap.bbitmap 2 = 1 ∧ img64_gap.bbitmap 3 = 0 ∧
    path_lookup img64_gap path_y = 2 ∧ (img64_gap.itable 2).extent 0 = ⟨2, 1⟩ ∧
    path_lookup img64_gap path_a = 1 ∧
    ret_of (a1fs_truncate 8 env0 img64_gap path_a 8192) = some 0 ∧
    ((state_of (a1fs_truncate 8 env0 img64_gap path_a 8192)).itable 1).extent 0 = ⟨1, 2⟩ ∧
    (∀ e < 12, e ≠ 0 →
      ((state_of (a1fs_truncate 8 env0 img64_gap path_a 8192)).itable 1).extent e = ⟨0, 0⟩) ∧
    ((state_of (a1fs_truncate 8 env0 img64_gap path_a 8192)).itable 1).indirect = 0 ∧
    ((state_of (a1fs_truncate 8 env0 img64_gap path_a 8192)).itable 2).extent 0 = ⟨2, 1⟩ ∧
    (state_of (a1fs_truncate 8 env0 img64_gap path_a 8192)).bbitmap 3 = 1 := by
  decide!

/-- C33: the blocks 1 and 2 are free, block 3 is the block of the directory
`/d` and holds the entry of `/d/f`.  `a1fs_truncate("/d/f", 5000)` returns 0 and
records the run `(1, 2)`; the byte 4 of block 3, the first letter of the name
`f`, is 0 afterwards. -/
theorem grow_clears_beyond_run :
    path_lookup img64_d path_d = 2 ∧ (img64_d.itable 2).extent 0 = ⟨3, 1⟩ ∧
    path_lookup img64_d path_d_f = 3 ∧ (img64_d.itable 3).size = 0 ∧
    img64_d.btable (4096 * 3 + 4) = 102 ∧
    ret_of (a1fs_truncate 8 env0 img64_d path_d_f 5000) = some 0 ∧
    ((state_of (a1fs_truncate 8 env0 img64_d path_d_f 5000)).itable 3).extent 0 = ⟨1, 2⟩ ∧
    ((state_of (a1fs_truncate 8 env0 img64_d path_d_f 5000)).itable 3).size = 5000 ∧
    (state_of (a1fs_truncate 8 env0 img64_d path_d_f 5000)).btable (4096 * 3 + 4) = 0 := by
  decide!

/-- C34: `/a` (inode 2) has no indirect block, the one populated extent `(2, 1)`
and the size 4096.  `a1fs_truncate("/a", 0)` returns 0 and decreases
`block_count` and `used_block_count` by 1, but the extent is still `(2, 1)`, the
entry of block 2 in the block bitmap is still 1, the entry of block 1 (the block
of `/x`) is cleared, and `indirect` is 4294967295. -/
theorem shrink_frees_wrong_block :
    path_lookup img64_a_block2 path_a = 2 ∧
    (img64_a_block2.itable 2).extent 0 = ⟨2, 1⟩ ∧
    (∀ e < 12, e ≠ 0 → (img64_a_block2.itable 2).extent e = ⟨0, 0⟩) ∧
    (img64_a_block2.itable 2).indirect = 0 ∧ (img64_a_block2.itable 2).size = 4096 ∧
    (img64_a_block2.itable 2).block_count = 1 ∧ img64_a_block2.sb.used_block_count = 3 ∧
    img64_a_block2.bbitmap 1 = 1 ∧ img64_a_block2.bbitmap 2 = 1 ∧
    ret_of (a1fs_truncate 8 env0 img64_a_block2 path_a 0) = some 0 ∧
    (img64_a_cut.itable 2).extent 0 = ⟨2, 1⟩ ∧ img64_a_cut.bbitmap 2 = 1 ∧
    img64_a_cut.bbitmap 1 = 0 ∧ (img64_a_cut.itable 2).indirect = 4294967295 ∧
    (img64_a_cut.itable 2).block_count = 0 ∧ img64_a_cut.sb.used_block_count = 2 := by
  decide!

/-- C35: `extent_count` of the new file `/a` is 0, the number of its extents.
`a1fs_truncate("/a", 8192)` returns 0 and records one extent of two blocks:
`extent_count` is 2.  The root directory with a full block has `extent_count`
1 and one extent; `a1fs_mkdir("/q")` returns 0 and attaches a second extent:
`extent_count` is 3, where `a1fs_create("/q")` on the same image leaves 2. -/
theorem extent_count_not_a_count :
    (img64_a.itable 1).extent_count = 0 ∧
    extents_used (img64_a.itable 1) img64_a.btable = 0 ∧
    ret_of (a1fs_truncate 8 env0 img64_a path_a 8192) = some 0 ∧
    ((state_of (a1fs_truncate 8 env0 img64_a path_a 8192)).itable 1).extent_count = 2 ∧
    extents_used ((state_of (a1fs_truncate 8 env0 img64_a path_a 8192)).itable 1)
      (state_of (a1fs_truncate 8 env0 img64_a path_a 8192)).btable = 1 ∧
    (img64_16.itable 0).extent_count = 1 ∧
    extents_used (img64_16.itable 0) img64_16.btable = 1 ∧
    ret_of (a1fs_mkdir env0 img64_16 path_q 0o755) = some 0 ∧
    ((state_of (a1fs_mkdir env0 img64_16 path_q 0o755)).itable 0).extent_count = 3 ∧
    extents_used ((state_of (a1fs_mkdir env0 img64_16 path_q 0o755)).itable 0)
      (state_of (a1fs_mkdir env0 img64_16 path_q 0o755)).btable = 2 ∧
    ret_of (a1fs_create env0 img64_16 path_q mode_file) = some 0 ∧
    ((state_of (a1fs_create env0 img64_16 path_q mode_file)).itable 0).extent_count = 2 := by
  decide!

/-- C36: `/a` holds one block of the byte 120.  The write of one block of the
byte 121 at offset 4096 returns 4096 and gives the file a second block, but the
bytes go to the first block: the read of five bytes at offset 0 delivers the
byte 120 before the write and the byte 121 after it. -/
theorem write_second_block_hits_first :
    (img64_block_x.itable 1).size = 4096 ∧ (img64_block_x.itable 1).extent 0 = ⟨1, 1⟩ ∧
    delivered 5 (a1fs_read 8 env0 img64_block_x path_a blank_buffer 5 0)
      = Res.ok (5, [120, 120, 120, 120, 120]) ∧
    ret_of (a1fs_write 8 env0 img64_block_x path_a (fun _ => 121) 4096 4096) = some 4096 ∧
    (img64_block_xy.itable 1).size = 8192 ∧
    (img64_block_xy.itable 1).extent 0 = ⟨1, 1⟩ ∧
    (img64_block_xy.itable 1).extent 1 = ⟨2, 1⟩ ∧
    img64_block_x.btable (4096 * 1) = 120 ∧ img64_block_xy.btable (4096 * 1) = 121 ∧
    img64_block_xy.btable (4096 * 2) = 0 ∧
    delivered 5 (a1fs_read 8 env0 img64_block_xy path_a blank_buffer 5 0)
      = Res.ok (5, [121, 121, 121, 121, 121]) := by
  decide!

/-- C37: block 1 is free and holds the bytes of a removed file, which read as
an entry with the name `n`.  `a1fs_mkdir("/d")` returns 0 and gives block 1 to
the new directory, whose counter `empty` is 0; the lookup of `/d/n` does not
fail, it gives inode 1, and `a1fs_getattr("/d/n")` returns 0. -/
theorem new_directory_shows_old_bytes :
    img64_fake.bbitmap 1 = 0 ∧
    ret_of (a1fs_mkdir env0 img64_fake path_d 0o755) = some 0 ∧
    path_lookup img64_fake_d path_d = 1 ∧ (img64_fake_d.itable 1).extent 0 = ⟨1, 1⟩ ∧
    (img64_fake_d.itable 1).empty = 0 ∧
    path_lookup img64_fake_d path_d_n = 1 ∧
    ret_of (a1fs_getattr img64_fake_d path_d_n) = some 0 ∧
    path_lookup img64_dir path_d_n = -1 := by
  decide!

/-- C38: `/a` has the size 5 and the one extent `(1, 1)`.  `a1fs_read` and
`a1fs_write` of one byte at offset 1, inside the file, do not return: the loop
that locates the offset never changes `bytes_read`, so with every amount of
fuel the call runs out of it. -/
theorem read_write_at_offset_one_hang :
    path_lookup img64_hello path_a = 1 ∧ (img64_hello.itable 1).size = 5 ∧
    (img64_hello.itable 1).extent 0 = ⟨1, 1⟩ ∧
    (∀ fuel, a1fs_read fuel env0 img64_hello path_a blank_buffer 1 1 = Res.nofuel) ∧
    (∀ fuel, a1fs_write fuel env0 img64_hello path_a (buffer_of hello) 1 1 = Res.nofuel) :=
  ⟨by decide!, by decide!, by decide!,
   fun fuel => read_stuck fuel env0 img64_hello path_a blank_buffer 1 1 1 (by decide!)
     (by decide!) (by decide) (by decide),
   fun fuel => write_stuck fuel env0 img64_hello path_a (buffer_of hello) 1 1 1 (by decide!)
     (by decide!) (by decide) (by decide)⟩

/-- C39: the size of the root directory is 0 before `create("/a")`, which
returns 0, after it, and after the write of five bytes to `/a`, which returns 5;
`a1fs_unlink("/a")` returns 0 and leaves the size of the root at `0 - 5` taken
in 64 bits. -/
theorem unlink_shrinks_parent_size :
    (img64.itable 0).size = 0 ∧
    ret_of (a1fs_create env0 img64 path_a mode_file) = some 0 ∧
    (img64_a.itable 0).size = 0 ∧
    ret_of (a1fs_write 8 env0 img64_a path_a (buffer_of hello) 5 0) = some 5 ∧
    (img64_hello.itable 0).size = 0 ∧ (img64_hello.itable 1).size = 5 ∧
    ret_of (a1fs_unlink env0 img64_hello path_a) = some 0 ∧
    ((state_of (a1fs_unlink env0 img64_hello path_a)).itable 0).size
      = 18446744073709551611 := by
  decide!

/-- C40: `/a` has the size 4096 and no block of the image is free.
`a1fs_truncate("/a", 1)`, to a smaller size, returns `-ENOSPC`. -/
theorem shrink_refused_on_full_image :
    (img9_full.itable 1).size = 4096 ∧
    img9_full.sb.used_block_count = img9_full.sb.block_count ∧
    ret_of (a1fs_truncate 8 env0 img9_full path_a 1) = some (-ENOSPC) := by
  decide!

end A1fs
